import Mathlib

/-!
# Noggit3 terrain editing core: a shallow embedding of `World.cpp`

The definitions below follow `src/noggit/World.cpp`.  Pointers are modelled by
the identity of what they point to: a `MapTile*` is the tile's index in the
spatial index, a `MapChunk*` is the owning tile plus the chunk's grid
coordinates, and a `math::vector_3d*` into a chunk's vertex array is the chunk
plus the vertex number.  A null pointer is `none`; dereferencing it is a fault,
and a function that can fault returns an `Option`.

C++ `float` quantities are carried as rationals.  No theorem below depends on
rounding: wherever a concrete value is computed, every operation involved is
exact in binary floating point as well.
-/

namespace Noggit

/-! ## Basic data -/

/-- The `math::vector_3d` of the source. -/
structure vector_3d where
  x : ℚ
  y : ℚ
  z : ℚ
deriving DecidableEq, Repr

/-- The `tile_index` of the source: the coordinates of a tile in the 64×64 grid. -/
structure tile_index where
  x : Int
  z : Int
deriving DecidableEq, Repr

/-- A `MapTile*` that is not null.  The spatial index owns at most one tile per
coordinate, so the pointer is identified with the tile's `index` member. -/
structure MapTile where
  index : tile_index
deriving DecidableEq, Repr

/-- A `MapChunk*` that is not null: the owning tile (`chunk->mt`) and the
coordinates that `MapTile::getChunk` takes. -/
structure MapChunk where
  mt : MapTile
  px : Nat
  py : Nat
deriving DecidableEq, Repr

/-- The call `tile->getChunk (x, z)`. -/
def MapTile.getChunk (tile : MapTile) (x z : Nat) : MapChunk := ⟨tile, x, z⟩

/-! ## The spatial index -/

/-- The part of `MapIndex` that `World.cpp` relies on: which tiles are loaded,
which are flagged as changed, which are flagged as present on disc, and the
global big-alpha flag. -/
structure MapIndex where
  loaded : tile_index → Bool
  changed : tile_index → Bool
  onDisc : tile_index → Bool := fun _ => false
  mBigAlpha : Bool := false

namespace MapIndex

/-- Modelled from the spec: `MapIndex::tileLoaded`, the loaded flag of a tile
coordinate. -/
def tileLoaded (m : MapIndex) (t : tile_index) : Bool := m.loaded t

/-- Modelled from the spec: `MapIndex::getTile`, the tile stored at a coordinate
or null.  `World::GetVertex` is `const` and calls it, so it is a lookup that
never loads. -/
def getTile (m : MapIndex) (t : tile_index) : Option MapTile :=
  if m.loaded t then some ⟨t⟩ else none

/-- Modelled from the spec: `MapIndex::setChanged (tile_index)`, which sets the
dirty flag of that coordinate and is idempotent. -/
def setChangedAt (m : MapIndex) (t : tile_index) : MapIndex :=
  { m with changed := fun i => if i = t then true else m.changed i }

/-- Modelled from the spec: `MapIndex::setChanged (MapTile*)` on a tile that is
not null. -/
def setChanged (m : MapIndex) (tile : MapTile) : MapIndex := m.setChangedAt tile.index

/-- Modelled from the spec: `MapIndex::unsetChanged`, clearing the dirty flag
after the tile has been saved. -/
def unsetChanged (m : MapIndex) (t : tile_index) : MapIndex :=
  { m with changed := fun i => if i = t then false else m.changed i }

end MapIndex

/-- The world as the functors of `World.cpp` see it.  `mapIndex` is the member
of that name; `st` is everything else a functor can reach through its captures:
the data owned by the chunks and the remaining members of `World`.  The functors
of `World.cpp` are calls of `MapChunk` members and updates of the selection
sets; none of them touches the flags of the index. -/
structure World (σ : Type) where
  mapIndex : MapIndex
  st : σ

/-- The range queries that `for_all_chunks_in_range` iterates over and that are
implemented outside `World.cpp`: `MapIndex::tiles_in_range` and
`MapTile::chunks_in_range` (the latter gives the coordinates of the chunks of
the tile it is called on). -/
structure RangeQuery where
  tiles_in_range : MapIndex → vector_3d → ℚ → List MapTile
  chunks_in_range : MapTile → vector_3d → ℚ → List (Nat × Nat)

/-- The chunk pointers produced by `tile->chunks_in_range (pos, radius)`. -/
def RangeQuery.chunks (q : RangeQuery) (tile : MapTile) (pos : vector_3d) (radius : ℚ) :
    List MapChunk :=
  (q.chunks_in_range tile pos radius).map (fun p => tile.getChunk p.1 p.2)

/-! ## `for_all_chunks_in_range` -/

section Range
variable {σ : Type}

/-- The inner loop of `World::for_all_chunks_in_range (pos, radius, fun)`:
`for (MapChunk* chunk : tile->chunks_in_range (pos, radius))`. -/
def chunks_loop (f : MapChunk → σ → Bool × σ) (tile : MapTile) :
    List MapChunk → Bool × World σ → Bool × World σ
  | [], acc => acc
  | chunk :: rest, acc =>
      let r := f chunk acc.2.st
      if r.1 then
        chunks_loop f tile rest (true, ⟨acc.2.mapIndex.setChanged tile, r.2⟩)
      else
        chunks_loop f tile rest (acc.1, ⟨acc.2.mapIndex, r.2⟩)

/-- The outer loop of `World::for_all_chunks_in_range (pos, radius, fun)`:
`for (MapTile* tile : mapIndex.tiles_in_range (pos, radius))`. -/
def tiles_loop (q : RangeQuery) (pos : vector_3d) (radius : ℚ) (f : MapChunk → σ → Bool × σ) :
    List MapTile → Bool × World σ → Bool × World σ
  | [], acc => acc
  | tile :: rest, acc =>
      tiles_loop q pos radius f rest (chunks_loop f tile (q.chunks tile pos radius) acc)

/-- `World::for_all_chunks_in_range (pos, radius, fun)` (World.cpp 1662-1680):
`changed` starts as false; the returned pair is the value of `changed` and the
world after the loops. -/
def for_all_chunks_in_range (q : RangeQuery) (pos : vector_3d) (radius : ℚ)
    (f : MapChunk → σ → Bool × σ) (w : World σ) : Bool × World σ :=
  tiles_loop q pos radius f (q.tiles_in_range w.mapIndex pos radius) (false, w)

/-- The lambda that the two-functor overload passes to the one-functor one.  It
captures the local `modified_chunks` by reference, so the list travels with the
state; `emplace_front` puts the chunk at the head. -/
def collecting (f : MapChunk → σ → Bool × σ) (chunk : MapChunk) (s : σ × List MapChunk) :
    Bool × (σ × List MapChunk) :=
  let r := f chunk s.1
  if r.1 then (true, (r.2, chunk :: s.2)) else (false, (r.2, s.2))

/-- The loop `for (MapChunk* chunk : modified_chunks) post (chunk);`. -/
def post_loop (post : MapChunk → σ → σ) : List MapChunk → σ → σ
  | [], s => s
  | chunk :: rest, s => post_loop post rest (post chunk s)

/-- `World::for_all_chunks_in_range (pos, radius, fun, post)` (World.cpp
1681-1706). -/
def for_all_chunks_in_range_post (q : RangeQuery) (pos : vector_3d) (radius : ℚ)
    (f : MapChunk → σ → Bool × σ) (post : MapChunk → σ → σ) (w : World σ) : Bool × World σ :=
  let r := for_all_chunks_in_range q pos radius (collecting f) ⟨w.mapIndex, (w.st, [])⟩
  (r.1, ⟨r.2.mapIndex, post_loop post r.2.st.2 r.2.st.1⟩)

end Range

/-! ## Observing the calls

To speak about which calls a loop makes and in which order, the functors are
wrapped so that each call appends a record to a log carried next to the state.
The wrapper changes nothing else. -/

/-- One observed call: the mutation functor on a chunk with its return value, or
the post-pass functor on a chunk. -/
inductive Call where
  | mutate (chunk : MapChunk) (ret : Bool)
  | post (chunk : MapChunk)
deriving DecidableEq, Repr

/-- Whether a record is a call of the mutation functor. -/
def Call.isMutate : Call → Bool
  | .mutate _ _ => true
  | .post _ => false

section Traced
variable {σ : Type}

/-- The mutation functor `f`, recording each call. -/
def traced (f : MapChunk → σ → Bool × σ) (chunk : MapChunk) (s : σ × List Call) :
    Bool × (σ × List Call) :=
  ((f chunk s.1).1, ((f chunk s.1).2, s.2 ++ [Call.mutate chunk (f chunk s.1).1]))

/-- The post-pass functor `post`, recording each call. -/
def traced_post (post : MapChunk → σ → σ) (chunk : MapChunk) (s : σ × List Call) :
    σ × List Call :=
  (post chunk s.1, s.2 ++ [Call.post chunk])

end Traced

/-- The chunk a recorded call was made on. -/
def Call.chunk : Call → MapChunk
  | .mutate c _ => c
  | .post c => c

/-- Whether a record is a call of the mutation functor that returned true. -/
def Call.reportsChange : Call → Bool
  | .mutate _ true => true
  | _ => false

/-- The chunks on which the mutation functor returned true, in call order. -/
def changedChunks : List Call → List MapChunk
  | [] => []
  | .mutate c true :: rest => c :: changedChunks rest
  | _ :: rest => changedChunks rest

/-- The chunks that `for_all_chunks_in_range` visits, in visiting order. -/
def RangeQuery.visits (q : RangeQuery) (pos : vector_3d) (radius : ℚ) : List MapTile → List MapChunk
  | [] => []
  | tile :: rest => q.chunks tile pos radius ++ q.visits pos radius rest

/-- The functor `g` appends one record per call to the log that `log` reads off
its state. -/
def Records {τ : Type} (g : MapChunk → τ → Bool × τ) (log : τ → List Call) : Prop :=
  ∀ c s, log (g c s).2 = log s ++ [Call.mutate c (g c s).1]

/-! ## Positions, tiles and the members of `MapChunk` -/

/-- The constant `TILESIZE` (World.cpp 646): the `float` nearest to the literal
`533.33333`, which is 8738133 / 2^14. -/
def TILESIZE : ℚ := 8738133 / 16384

/-- The constant `CHUNKSIZE` (World.cpp 647). -/
def CHUNKSIZE : ℚ := TILESIZE / 16

/-- Modelled from the spec: the constructor `tile_index (math::vector_3d const&)`,
which resolves a world position to the coordinates of the tile containing it. -/
def tile_index.ofPos (pos : vector_3d) : tile_index :=
  ⟨Rat.floor (pos.x / TILESIZE), Rat.floor (pos.z / TILESIZE)⟩

/-- Modelled from the spec: the world-space base offset `xbase` of a tile. -/
def MapTile.xbase (tile : MapTile) : ℚ := tile.index.x * TILESIZE

/-- Modelled from the spec: the world-space base offset `zbase` of a tile. -/
def MapTile.zbase (tile : MapTile) : ℚ := tile.index.z * TILESIZE

/-- The conversion of a non-negative `float` to `size_t` in an argument of
`getChunk`. -/
def to_size_t (v : ℚ) : Nat := (Rat.floor v).toNat

/-- A `math::vector_3d*` into `MapChunk::mVertices`: the chunk and the vertex
number. -/
structure VertexPtr where
  chunk : MapChunk
  idx : Nat
deriving DecidableEq, Repr

/-- A `scoped_blp_texture_reference`, identified by the file name of the texture. -/
abbrev scoped_blp_texture_reference := String

/-- A `Brush*`; `radius` is what `getRadius ()` returns. -/
structure Brush where
  radius : ℚ
deriving DecidableEq, Repr

/-- The height sampler handed to `blurTerrain` and `recalcNorms`: a function of
`(x, z)` that reads the state it is evaluated in. -/
abbrev Sampler (σ : Type) := σ → ℚ → ℚ → Option ℚ

/-- The members of `MapChunk` and `MapTile` that `World.cpp` calls and that are
implemented in other files.  They are parameters of the embedding; each takes
the chunk it is called on first and acts on the state `σ`. -/
structure MapChunkOps (σ : Type) where
  changeTerrain : MapChunk → vector_3d → ℚ → ℚ → Int → ℚ → σ → Bool × σ
  flattenTerrain : MapChunk → vector_3d → ℚ → ℚ → Int → Int → vector_3d → ℚ → ℚ → σ → Bool × σ
  blurTerrain : MapChunk → vector_3d → ℚ → ℚ → Int → Sampler σ → σ → Bool × σ
  recalcNorms : MapChunk → Sampler σ → σ → σ
  clearHeight : MapChunk → σ → σ
  paintTexture : MapChunk → vector_3d → Brush → ℚ → ℚ → scoped_blp_texture_reference → σ → Bool × σ
  replaceTexture : MapChunk → vector_3d → ℚ → scoped_blp_texture_reference →
    scoped_blp_texture_reference → σ → Bool × σ
  eraseTextures : MapChunk → σ → σ
  switchTexture : MapChunk → scoped_blp_texture_reference → scoped_blp_texture_reference → σ → σ
  setHole : MapChunk → vector_3d → Bool → Bool → σ → σ
  setAreaID : MapChunk → Int → σ → σ
  change_texture_flag : MapChunk → scoped_blp_texture_reference → Nat → Bool → σ → σ
  selectVertex : MapChunk → vector_3d → ℚ → σ → List VertexPtr → List VertexPtr
  isBorderChunk : MapChunk → List VertexPtr → σ → Bool
  fixVertices : MapChunk → List VertexPtr → σ → σ
  updateVerticesData : MapChunk → σ → σ
  fixGapLeft : MapChunk → MapChunk → σ → Bool × σ
  fixGapAbove : MapChunk → MapChunk → σ → Bool × σ
  /-- The member `MapTile::GetVertex`. -/
  GetVertex : MapTile → ℚ → ℚ → σ → Option vector_3d

/-- Members that do nothing and report no change; concrete instances override
the fields they need. -/
def MapChunkOps.idle (σ : Type) : MapChunkOps σ where
  changeTerrain := fun _ _ _ _ _ _ s => (false, s)
  flattenTerrain := fun _ _ _ _ _ _ _ _ _ s => (false, s)
  blurTerrain := fun _ _ _ _ _ _ s => (false, s)
  recalcNorms := fun _ _ s => s
  clearHeight := fun _ s => s
  paintTexture := fun _ _ _ _ _ _ s => (false, s)
  replaceTexture := fun _ _ _ _ _ s => (false, s)
  eraseTextures := fun _ s => s
  switchTexture := fun _ _ _ s => s
  setHole := fun _ _ _ _ s => s
  setAreaID := fun _ _ s => s
  change_texture_flag := fun _ _ _ _ s => s
  selectVertex := fun _ _ _ _ sel => sel
  isBorderChunk := fun _ _ _ => false
  fixVertices := fun _ _ s => s
  updateVerticesData := fun _ s => s
  fixGapLeft := fun _ _ s => (false, s)
  fixGapAbove := fun _ _ s => (false, s)
  GetVertex := fun _ _ _ _ => none

/-! ## Terrain brushes -/

section Brushes
variable {σ : Type}

/-- `World::GetVertex` (World.cpp 1650-1660); `none` stands for the return value
false, in which case `*V` is not written. -/
def GetVertex (ops : MapChunkOps σ) (m : MapIndex) (x z : ℚ) (s : σ) : Option vector_3d :=
  let tile := tile_index.ofPos ⟨x, 0, z⟩
  if !m.tileLoaded tile then none
  else
    match m.getTile tile with
    | none => none
    | some t => ops.GetVertex t x z s

/-- The lambda `[this] (float x, float z) -> boost::optional<float>` of
`blurTerrain` and `recalc_norms`.  It reads only the loaded flags of the index,
which no functor changes, so the index is the one at the start of the call. -/
def height_sampler (ops : MapChunkOps σ) (m : MapIndex) : Sampler σ :=
  fun s x z => (GetVertex ops m x z s).map (fun v => v.y)

/-- `World::recalc_norms` (World.cpp 1775-1784). -/
def recalc_norms (ops : MapChunkOps σ) (m : MapIndex) (chunk : MapChunk) (s : σ) : σ :=
  ops.recalcNorms chunk (height_sampler ops m) s

/-- `World::changeTerrain` (World.cpp 1720-1733). -/
def changeTerrain (q : RangeQuery) (ops : MapChunkOps σ) (pos : vector_3d) (change radius : ℚ)
    (BrushType : Int) (inner_radius : ℚ) (w : World σ) : World σ :=
  (for_all_chunks_in_range_post q pos radius
    (fun chunk => ops.changeTerrain chunk pos change radius BrushType inner_radius)
    (fun chunk => recalc_norms ops w.mapIndex chunk) w).2

/-- `World::flattenTerrain` (World.cpp 1735-1748). -/
def flattenTerrain (q : RangeQuery) (ops : MapChunkOps σ) (pos : vector_3d) (remain radius : ℚ)
    (BrushType flattenType : Int) (origin : vector_3d) (angle orientation : ℚ) (w : World σ) :
    World σ :=
  (for_all_chunks_in_range_post q pos radius
    (fun chunk =>
      ops.flattenTerrain chunk pos remain radius BrushType flattenType origin angle orientation)
    (fun chunk => recalc_norms ops w.mapIndex chunk) w).2

/-- `World::blurTerrain` (World.cpp 1750-1773). -/
def blurTerrain (q : RangeQuery) (ops : MapChunkOps σ) (pos : vector_3d) (remain radius : ℚ)
    (BrushType : Int) (w : World σ) : World σ :=
  (for_all_chunks_in_range_post q pos radius
    (fun chunk =>
      ops.blurTerrain chunk pos remain radius BrushType (height_sampler ops w.mapIndex))
    (fun chunk => recalc_norms ops w.mapIndex chunk) w).2

/-- `World::paintTexture` (World.cpp 1786-1795). -/
def paintTexture (q : RangeQuery) (ops : MapChunkOps σ) (pos : vector_3d) (brush : Brush)
    (strength pressure : ℚ) (texture : scoped_blp_texture_reference) (w : World σ) :
    Bool × World σ :=
  for_all_chunks_in_range q pos brush.radius
    (fun chunk => ops.paintTexture chunk pos brush strength pressure texture) w

/-- `World::replaceTexture` (World.cpp 1816-1825). -/
def replaceTexture (q : RangeQuery) (ops : MapChunkOps σ) (pos : vector_3d) (radius : ℚ)
    (old_texture new_texture : scoped_blp_texture_reference) (w : World σ) : Bool × World σ :=
  for_all_chunks_in_range q pos radius
    (fun chunk => ops.replaceTexture chunk pos radius old_texture new_texture) w

/-- The test `sqrt (pow (px - pos.x, 2) + pow (pz - pos.z, 2)) <= spraySize` of
`sprayTexture`, written without the square root. -/
def in_spray (pos : vector_3d) (spraySize px pz : ℚ) : Bool :=
  decide (0 ≤ spraySize) &&
    decide ((px - pos.x) ^ 2 + (pz - pos.z) ^ 2 ≤ spraySize ^ 2)

/-- The inner loop of `World::sprayTexture`,
`for (float px = pos.x - spraySize; px < pos.x + spraySize; px += inc)`, with
the number of iterations it may still take.  The accumulator is `succ`, the
number of calls of `rand ()` made so far and the world; `rand k` is what the
`k`-th call of `rand ()` returns.  Running out of iterations is `none`. -/
def spray_row (q : RangeQuery) (ops : MapChunkOps σ) (rand : Nat → Nat) (pos : vector_3d)
    (brush : Brush) (strength pressure spraySize sprayPressure : ℚ)
    (texture : scoped_blp_texture_reference) (inc pz : ℚ) :
    Nat → ℚ → Bool × Nat × World σ → Option (Bool × Nat × World σ)
  | 0, _, _ => none
  | fuel + 1, px, acc =>
      if px < pos.x + spraySize then
        if in_spray pos spraySize px pz then
          if ((rand acc.2.1 % 1000 : Nat) : ℚ) < sprayPressure then
            let r := paintTexture q ops ⟨px, pos.y, pz⟩ brush strength pressure texture acc.2.2
            spray_row q ops rand pos brush strength pressure spraySize sprayPressure texture inc pz
              fuel (px + inc) (acc.1 || r.1, acc.2.1 + 1, r.2)
          else
            spray_row q ops rand pos brush strength pressure spraySize sprayPressure texture inc pz
              fuel (px + inc) (acc.1, acc.2.1 + 1, acc.2.2)
        else
          spray_row q ops rand pos brush strength pressure spraySize sprayPressure texture inc pz
            fuel (px + inc) acc
      else some acc

/-- The outer loop of `World::sprayTexture`,
`for (float pz = pos.z - spraySize; pz < pos.z + spraySize; pz += inc)`; every
row may take `fuel` iterations and there may be `fuel` rows. -/
def spray_rows (q : RangeQuery) (ops : MapChunkOps σ) (rand : Nat → Nat) (pos : vector_3d)
    (brush : Brush) (strength pressure spraySize sprayPressure : ℚ)
    (texture : scoped_blp_texture_reference) (inc : ℚ) (fuel : Nat) :
    Nat → ℚ → Bool × Nat × World σ → Option (Bool × Nat × World σ)
  | 0, _, _ => none
  | rows + 1, pz, acc =>
      if pz < pos.z + spraySize then
        match spray_row q ops rand pos brush strength pressure spraySize sprayPressure texture
            inc pz fuel (pos.x - spraySize) acc with
        | none => none
        | some acc' =>
            spray_rows q ops rand pos brush strength pressure spraySize sprayPressure texture
              inc fuel rows (pz + inc) acc'
      else some acc

/-- `World::sprayTexture` (World.cpp 1797-1814) run for at most `fuel` iterations
of each loop: `some` of the returned `succ` and the world when the loops end in
that time, `none` when they do not. -/
def sprayTexture (q : RangeQuery) (ops : MapChunkOps σ) (rand : Nat → Nat) (fuel : Nat)
    (pos : vector_3d) (brush : Brush) (strength pressure spraySize sprayPressure : ℚ)
    (texture : scoped_blp_texture_reference) (w : World σ) : Option (Bool × World σ) :=
  (spray_rows q ops rand pos brush strength pressure spraySize sprayPressure texture
      (brush.radius / 4) fuel fuel (pos.z - spraySize) (false, 0, w)).map
    (fun acc => (acc.1, acc.2.2))

end Brushes

/-! ## Operations addressed by position -/

section ByPosition
variable {σ : Type}

/-- What stops a run that does not return. -/
inductive Fault where
  /-- A member is called through a null pointer. -/
  | null_dereference
  /-- A write past the end of an array allocated with `new []`. -/
  | heap_overflow
  /-- An `int` operation whose result does not fit into an `int`. -/
  | signed_overflow
  /-- An array `new T[n]` with a negative `n`. -/
  | bad_array_length
deriving DecidableEq, Repr

/-- The loop `for (size_t i = 0; i < n; ++i) body (i);` acting on a state. -/
def for_upto (n : Nat) (body : Nat → σ → σ) (s : σ) : σ :=
  (List.range n).foldl (fun s i => body i s) s

/-- `World::for_all_chunks_on_tile` (World.cpp 1848-1861).  The tile pointer is
used without a test: on a null pointer `mapIndex.setChanged (tile)` and
`tile->getChunk` dereference it. -/
def for_all_chunks_on_tile (pos : vector_3d) (f : MapChunk → σ → σ) (w : World σ) :
    Except Fault (World σ) :=
  match w.mapIndex.getTile (tile_index.ofPos pos) with
  | none => .error .null_dereference
  | some tile =>
      .ok ⟨w.mapIndex.setChanged tile,
        for_upto 16 (fun ty => for_upto 16 (fun tx => f (tile.getChunk ty tx))) w.st⟩

/-- `World::for_chunk_at` (World.cpp 1863-1870), for a functor returning `void`.
As in `for_all_chunks_on_tile` the tile pointer is used without a test. -/
def for_chunk_at (pos : vector_3d) (f : MapChunk → σ → σ) (w : World σ) :
    Except Fault (World σ) :=
  match w.mapIndex.getTile (tile_index.ofPos pos) with
  | none => .error .null_dereference
  | some tile =>
      .ok ⟨w.mapIndex.setChanged tile,
        f (tile.getChunk (to_size_t ((pos.x - tile.xbase) / CHUNKSIZE))
            (to_size_t ((pos.z - tile.zbase) / CHUNKSIZE))) w.st⟩

/-- `World::for_maybe_chunk_at` (World.cpp 1872-1884): the sibling of
`for_chunk_at` that tests the tile pointer and answers `boost::none` on null. -/
def for_maybe_chunk_at {α : Type} (pos : vector_3d) (f : MapChunk → σ → α) (w : World σ) :
    Option α :=
  match w.mapIndex.getTile (tile_index.ofPos pos) with
  | some tile =>
      some (f (tile.getChunk (to_size_t ((pos.x - tile.xbase) / CHUNKSIZE))
            (to_size_t ((pos.z - tile.zbase) / CHUNKSIZE))) w.st)
  | none => none

/-- `World::for_tile_at` (World.cpp 1886-1895): the tile pointer is tested, and
on null nothing happens. -/
def for_tile_at (pos : tile_index) (f : MapTile → σ → σ) (w : World σ) : World σ :=
  match w.mapIndex.getTile pos with
  | some tile => ⟨w.mapIndex.setChanged tile, f tile w.st⟩
  | none => w

/-- `World::clearHeight` (World.cpp 1518-1526). -/
def clearHeight (ops : MapChunkOps σ) (pos : vector_3d) (w : World σ) : Except Fault (World σ) :=
  (for_all_chunks_on_tile pos ops.clearHeight w).bind
    (fun w₁ => for_all_chunks_on_tile pos (recalc_norms ops w₁.mapIndex) w₁)

/-- `World::setAreaID` (World.cpp 1565-1575). -/
def setAreaID (ops : MapChunkOps σ) (pos : vector_3d) (id : Int) (adt : Bool) (w : World σ) :
    Except Fault (World σ) :=
  if adt then for_all_chunks_on_tile pos (fun chunk => ops.setAreaID chunk id) w
  else for_chunk_at pos (fun chunk => ops.setAreaID chunk id) w

/-- `World::eraseTextures` (World.cpp 1827-1830). -/
def eraseTextures (ops : MapChunkOps σ) (pos : vector_3d) (w : World σ) : Except Fault (World σ) :=
  for_chunk_at pos ops.eraseTextures w

/-- `World::overwriteTextureAtCurrentChunk` (World.cpp 1832-1835). -/
def overwriteTextureAtCurrentChunk (ops : MapChunkOps σ) (pos : vector_3d)
    (oldTexture newTexture : scoped_blp_texture_reference) (w : World σ) : Except Fault (World σ) :=
  for_chunk_at pos (fun chunk => ops.switchTexture chunk oldTexture newTexture) w

/-- `World::setHole` (World.cpp 1837-1840). -/
def setHole (ops : MapChunkOps σ) (pos : vector_3d) (big hole : Bool) (w : World σ) :
    Except Fault (World σ) :=
  for_chunk_at pos (fun chunk => ops.setHole chunk pos big hole) w

/-- `World::setHoleADT` (World.cpp 1842-1845). -/
def setHoleADT (ops : MapChunkOps σ) (pos : vector_3d) (hole : Bool) (w : World σ) :
    Except Fault (World σ) :=
  for_all_chunks_on_tile pos (fun chunk => ops.setHole chunk pos true hole) w

/-- `World::clearTextures` (World.cpp 2172-2178). -/
def clearTextures (ops : MapChunkOps σ) (pos : vector_3d) (w : World σ) : Except Fault (World σ) :=
  for_all_chunks_on_tile pos ops.eraseTextures w

/-- `World::change_texture_flag` (World.cpp 2205-2208). -/
def change_texture_flag (ops : MapChunkOps σ) (pos : vector_3d)
    (tex : scoped_blp_texture_reference) (flag : Nat) (add : Bool) (w : World σ) :
    Except Fault (World σ) :=
  for_chunk_at pos (fun chunk => ops.change_texture_flag chunk tex flag add) w

end ByPosition

/-! ## Vertex selection -/

/-- The sum of two `math::vector_3d`. -/
def vector_3d.add (a b : vector_3d) : vector_3d := ⟨a.x + b.x, a.y + b.y, a.z + b.z⟩

/-- The product of a `math::vector_3d` and a `float`. -/
def vector_3d.scale (a : vector_3d) (f : ℚ) : vector_3d := ⟨a.x * f, a.y * f, a.z * f⟩

/-- The data owned by the chunks: the vertex arrays `mVertices` of all chunks and,
in `rest`, everything else (normals, textures, holes, ...). -/
structure Terrain (τ : Type) where
  mVertices : VertexPtr → vector_3d
  rest : τ

/-- The assignment `v->y = h` through a vertex pointer. -/
def Terrain.set_y {τ : Type} (t : Terrain τ) (v : VertexPtr) (h : ℚ) : Terrain τ :=
  { t with mVertices := fun p => if p = v then { t.mVertices v with y := h } else t.mVertices p }

/-- The functions of namespace `misc` that the vertex operations call. -/
structure Misc where
  dist : vector_3d → vector_3d → ℚ
  angledHeight : vector_3d → vector_3d → ℚ → ℚ → ℚ

/-- The chunk data together with the members of `World` that hold the vertex
selection.  The `std::set`s are lists without repetition; their iteration order
is the order of the list. -/
structure EditState (τ : Type) where
  terrain : Terrain τ
  _vertices_selected : List VertexPtr
  _vertex_chunks : List MapChunk
  _vertex_tiles : List MapTile
  _vertex_border_chunks : List MapChunk
  _vertex_center : vector_3d
  _vertex_center_updated : Bool
  _vertex_border_updated : Bool

section Selection
variable {τ : Type}

/-- The members of `MapChunk` acting on the chunk data inside an `EditState`. -/
def selection_functor (ops : MapChunkOps (Terrain τ)) (pos : vector_3d) (radius : ℚ)
    (chunk : MapChunk) (e : EditState τ) : Bool × EditState τ :=
  (true,
    { e with
      _vertex_chunks := e._vertex_chunks.insert chunk
      _vertex_tiles := e._vertex_tiles.insert chunk.mt
      _vertices_selected := ops.selectVertex chunk pos radius e.terrain e._vertices_selected })

/-- `World::selectVertices` (World.cpp 2357-2368); `selection_functor` is its
lambda. -/
def selectVertices (q : RangeQuery) (ops : MapChunkOps (Terrain τ)) (pos : vector_3d)
    (radius : ℚ) (w : World (EditState τ)) : World (EditState τ) :=
  (for_all_chunks_in_range q pos radius (selection_functor ops pos radius)
    ⟨w.mapIndex,
      { w.st with _vertex_center_updated := false, _vertex_border_updated := false }⟩).2

/-- `World::deselectVertices` (World.cpp 2370-2390): the returned flag and the
world afterwards. -/
def deselectVertices (misc : Misc) (pos : vector_3d) (radius : ℚ) (w : World (EditState τ)) :
    Bool × World (EditState τ) :=
  let inRange := w.st._vertices_selected.filter
    (fun v => decide (misc.dist (w.st.terrain.mVertices v) pos ≤ radius))
  let selected := inRange.foldl (fun sel v => sel.erase v) w.st._vertices_selected
  (selected.isEmpty,
    ⟨w.mapIndex,
      { w.st with
        _vertex_center_updated := false
        _vertex_border_updated := false
        _vertices_selected := selected }⟩)

/-- `World::updateVertexCenter` (World.cpp 2454-2463). -/
def updateVertexCenter (e : EditState τ) : EditState τ :=
  { e with
    _vertex_center_updated := true
    _vertex_center := e._vertices_selected.foldl
      (fun c v => c.add ((e.terrain.mVertices v).scale (1 / (e._vertices_selected.length : ℚ))))
      ⟨0, 0, 0⟩ }

/-- `World::vertexBorderChunks` (World.cpp 2475-2491): the state afterwards; the
set it returns a reference to is `_vertex_border_chunks` of that state. -/
def vertexBorderChunks (ops : MapChunkOps (Terrain τ)) (e : EditState τ) : EditState τ :=
  if !e._vertex_border_updated then
    { e with
      _vertex_border_updated := true
      _vertex_border_chunks := e._vertex_chunks.foldl
        (fun acc chunk =>
          if ops.isBorderChunk chunk e._vertices_selected e.terrain then acc.insert chunk else acc)
        [] }
  else e

/-- `World::updateSelectedVertices` (World.cpp 2404-2422). -/
def updateSelectedVertices (ops : MapChunkOps (Terrain τ)) (w : World (EditState τ)) :
    World (EditState τ) :=
  let m := w.st._vertex_tiles.foldl (fun m tile => m.setChanged tile) w.mapIndex
  let e := vertexBorderChunks ops w.st
  let fixed := e._vertex_border_chunks.foldl
    (fun t chunk => ops.fixVertices chunk e._vertices_selected t) e.terrain
  let updated := e._vertex_chunks.foldl
    (fun t chunk => recalc_norms ops m chunk (ops.updateVerticesData chunk t)) fixed
  ⟨m, { e with terrain := updated }⟩

/-- `World::moveVertices` (World.cpp 2392-2402). -/
def moveVertices (ops : MapChunkOps (Terrain τ)) (h : ℚ) (w : World (EditState τ)) :
    World (EditState τ) :=
  let moved := w.st._vertices_selected.foldl
    (fun t v => t.set_y v ((t.mVertices v).y + h)) w.st.terrain
  updateSelectedVertices ops
    ⟨w.mapIndex,
      updateVertexCenter { w.st with _vertex_center_updated := false, terrain := moved }⟩

/-- `World::orientVertices` (World.cpp 2424-2434). -/
def orientVertices (ops : MapChunkOps (Terrain τ)) (misc : Misc) (ref_pos : vector_3d)
    (vertex_angle vertex_orientation : ℚ) (w : World (EditState τ)) : World (EditState τ) :=
  let oriented := w.st._vertices_selected.foldl
    (fun t v =>
      t.set_y v (misc.angledHeight ref_pos (t.mVertices v) vertex_angle vertex_orientation))
    w.st.terrain
  updateSelectedVertices ops ⟨w.mapIndex, { w.st with terrain := oriented }⟩

/-- `World::flattenVertices` (World.cpp 2436-2443). -/
def flattenVertices (ops : MapChunkOps (Terrain τ)) (height : ℚ) (w : World (EditState τ)) :
    World (EditState τ) :=
  let flat := w.st._vertices_selected.foldl (fun t v => t.set_y v height) w.st.terrain
  updateSelectedVertices ops ⟨w.mapIndex, { w.st with terrain := flat }⟩

/-- `World::clearVertexSelection` (World.cpp 2445-2452). -/
def clearVertexSelection (w : World (EditState τ)) : World (EditState τ) :=
  ⟨w.mapIndex,
    { w.st with
      _vertex_border_updated := false
      _vertex_center_updated := false
      _vertices_selected := []
      _vertex_chunks := []
      _vertex_tiles := [] }⟩

end Selection

/-! ## Gap fixing -/

/-- Modelled from the spec: `MapIndex::getTileLeft`, the loaded tile one column to
the left of `tile`, or null. -/
def MapIndex.getTileLeft (m : MapIndex) (tile : MapTile) : Option MapTile :=
  m.getTile ⟨tile.index.x - 1, tile.index.z⟩

/-- Modelled from the spec: `MapIndex::getTileAbove`, the loaded tile one row above
`tile`, or null. -/
def MapIndex.getTileAbove (m : MapIndex) (tile : MapTile) : Option MapTile :=
  m.getTile ⟨tile.index.x, tile.index.z - 1⟩

section Gaps
variable {σ : Type}

/-- The body of the first loop of `World::fixAllGaps`, "fix the gaps with the adt
at the left of the current one", for the row `ty`.  The accumulator is the
state, the vector `chunks` and `tileChanged`; the call in the condition acts on
the state whatever it returns, and on true the chunk is appended to `chunks`
and `tileChanged` is set. -/
def fix_left_step (ops : MapChunkOps σ) (tile left : MapTile) (ty : Nat)
    (acc : σ × List MapChunk × Bool) : σ × List MapChunk × Bool :=
  ((ops.fixGapLeft (tile.getChunk 0 ty) (left.getChunk 15 ty) acc.1).2,
    if (ops.fixGapLeft (tile.getChunk 0 ty) (left.getChunk 15 ty) acc.1).1
      then acc.2.1 ++ [tile.getChunk 0 ty] else acc.2.1,
    if (ops.fixGapLeft (tile.getChunk 0 ty) (left.getChunk 15 ty) acc.1).1
      then true else acc.2.2)

/-- The first loop of the body of `World::fixAllGaps`. -/
def fix_left_edge (ops : MapChunkOps σ) (tile left : MapTile)
    (acc : σ × List MapChunk × Bool) : σ × List MapChunk × Bool :=
  for_upto 16 (fix_left_step ops tile left) acc

/-- The body of the second loop of `World::fixAllGaps`, "fix the gaps with the adt
above the current one", for the column `tx`. -/
def fix_top_step (ops : MapChunkOps σ) (tile above : MapTile) (tx : Nat)
    (acc : σ × List MapChunk × Bool) : σ × List MapChunk × Bool :=
  ((ops.fixGapAbove (tile.getChunk tx 0) (above.getChunk tx 15) acc.1).2,
    if (ops.fixGapAbove (tile.getChunk tx 0) (above.getChunk tx 15) acc.1).1
      then acc.2.1 ++ [tile.getChunk tx 0] else acc.2.1,
    if (ops.fixGapAbove (tile.getChunk tx 0) (above.getChunk tx 15) acc.1).1
      then true else acc.2.2)

/-- The second loop of the body of `World::fixAllGaps`. -/
def fix_top_edge (ops : MapChunkOps σ) (tile above : MapTile)
    (acc : σ × List MapChunk × Bool) : σ × List MapChunk × Bool :=
  for_upto 16 (fix_top_step ops tile above) acc

/-- The conjunction `n && fix (...)` of `World::fixAllGaps`: because `&&` cuts
short, the member is called only when `n` is not 0. -/
def guarded_fix (n : Nat) (fix : σ → Bool × σ) (s : σ) : Bool × σ :=
  if n ≠ 0 then fix s else (false, s)

/-- The state after the two guarded calls of the innermost loop of
`World::fixAllGaps` for the chunk `(tx, ty)`. -/
def fix_inner_state (ops : MapChunkOps σ) (tile : MapTile) (tx ty : Nat) (s : σ) : σ :=
  (guarded_fix ty (ops.fixGapAbove (tile.getChunk tx ty) (tile.getChunk tx (ty - 1)))
    (guarded_fix tx (ops.fixGapLeft (tile.getChunk tx ty) (tile.getChunk (tx - 1) ty)) s).2).2

/-- The value of `changed` after the two guarded calls of the innermost loop of
`World::fixAllGaps` for the chunk `(tx, ty)`. -/
def fix_inner_changed (ops : MapChunkOps σ) (tile : MapTile) (tx ty : Nat) (s : σ) : Bool :=
  (guarded_fix tx (ops.fixGapLeft (tile.getChunk tx ty) (tile.getChunk (tx - 1) ty)) s).1 ||
  (guarded_fix ty (ops.fixGapAbove (tile.getChunk tx ty) (tile.getChunk tx (ty - 1)))
    (guarded_fix tx (ops.fixGapLeft (tile.getChunk tx ty) (tile.getChunk (tx - 1) ty)) s).2).1

/-- The body of the innermost loop of `World::fixAllGaps` ("fix gaps within the
adt") for the chunk `(tx, ty)`. -/
def fix_inner_chunk (ops : MapChunkOps σ) (tile : MapTile) (tx ty : Nat)
    (acc : σ × List MapChunk × Bool) : σ × List MapChunk × Bool :=
  (fix_inner_state ops tile tx ty acc.1,
    if fix_inner_changed ops tile tx ty acc.1 then acc.2.1 ++ [tile.getChunk tx ty] else acc.2.1,
    if fix_inner_changed ops tile tx ty acc.1 then true else acc.2.2)

/-- The loop over `tx` inside the third loop of `World::fixAllGaps`. -/
def fix_inner_row (ops : MapChunkOps σ) (tile : MapTile) (ty : Nat)
    (acc : σ × List MapChunk × Bool) : σ × List MapChunk × Bool :=
  for_upto 16 (fun tx => fix_inner_chunk ops tile tx ty) acc

/-- The part of the body of `World::fixAllGaps` that deals with the tile to the
left, when there is one. -/
def fix_with_left (ops : MapChunkOps σ) (m : MapIndex) (tile : MapTile)
    (acc : σ × List MapChunk × Bool) : σ × List MapChunk × Bool :=
  match m.getTileLeft tile with
  | some left => fix_left_edge ops tile left acc
  | none => acc

/-- The part of the body of `World::fixAllGaps` that deals with the tile above,
when there is one. -/
def fix_with_above (ops : MapChunkOps σ) (m : MapIndex) (tile : MapTile)
    (acc : σ × List MapChunk × Bool) : σ × List MapChunk × Bool :=
  match m.getTileAbove tile with
  | some above => fix_top_edge ops tile above acc
  | none => acc

/-- One iteration of `for (MapTile* tile : mapIndex.loaded_tiles ())` in
`World::fixAllGaps`, up to the test of `tileChanged`. -/
def fix_tile (ops : MapChunkOps σ) (m : MapIndex) (tile : MapTile)
    (acc : σ × List MapChunk) : σ × List MapChunk × Bool :=
  for_upto 16 (fix_inner_row ops tile)
    (fix_with_above ops m tile (fix_with_left ops m tile (acc.1, acc.2, false)))

/-- The loop over the loaded tiles in `World::fixAllGaps`. -/
def fix_tiles (ops : MapChunkOps σ) :
    List MapTile → MapIndex × σ × List MapChunk → MapIndex × σ × List MapChunk
  | [], acc => acc
  | tile :: rest, acc =>
      let a := fix_tile ops acc.1 tile acc.2
      fix_tiles ops rest (if a.2.2 then acc.1.setChanged tile else acc.1, a.1, a.2.1)

/-- `World::fixAllGaps` (World.cpp 2264-2339).  `loaded_tiles` is what
`mapIndex.loaded_tiles ()` yields, in its iteration order. -/
def fixAllGaps (ops : MapChunkOps σ) (loaded_tiles : List MapTile) (w : World σ) : World σ :=
  let r := fix_tiles ops loaded_tiles (w.mapIndex, w.st, [])
  ⟨r.1, r.2.2.foldl (fun s chunk => recalc_norms ops r.1 chunk s) r.2.1⟩

end Gaps

section Snap
variable {τ : Type}

/-- One step of a gap fix: vertex `i` of this chunk takes the height of vertex `k`
of the neighbour, and the flag records whether that changed it. -/
def snap_step (chunk neighbour : MapChunk) (i k : Nat) (acc : Bool × Terrain τ) :
    Bool × Terrain τ :=
  if (acc.2.mVertices ⟨chunk, i⟩).y ≠ (acc.2.mVertices ⟨neighbour, k⟩).y then
    (true, acc.2.set_y ⟨chunk, i⟩ (acc.2.mVertices ⟨neighbour, k⟩).y)
  else acc

/-- Modelled from the spec: `MapChunk::fixGapLeft`, which snaps the nine vertices
of the left edge of this chunk (numbers 0, 17, ..., 136 in the 17-row layout of 9
and 8 vertices) to the height of the vertices of the right edge of the chunk to
the left (numbers 8, 25, ..., 144) and returns whether a height changed. -/
def snapLeft (chunk neighbour : MapChunk) (t : Terrain τ) : Bool × Terrain τ :=
  (List.range 9).foldl (fun acc j => snap_step chunk neighbour (17 * j) (17 * j + 8) acc)
    (false, t)

/-- Modelled from the spec: `MapChunk::fixGapAbove`, which snaps the nine vertices
of the top edge of this chunk (numbers 0, ..., 8) to the height of the vertices of
the bottom edge of the chunk above (numbers 136, ..., 144) and returns whether a
height changed. -/
def snapAbove (chunk neighbour : MapChunk) (t : Terrain τ) : Bool × Terrain τ :=
  (List.range 9).foldl (fun acc i => snap_step chunk neighbour i (i + 136) acc) (false, t)

/-- The members of `MapChunk` with the two gap fixes as the spec describes them;
the other members are idle, in particular `recalcNorms`, which writes normals
only. -/
def snapOps (τ : Type) : MapChunkOps (Terrain τ) :=
  { MapChunkOps.idle (Terrain τ) with fixGapLeft := snapLeft, fixGapAbove := snapAbove }

end Snap

/-- A vertex that no gap fix of `fixAllGaps` can write: it is not on the left edge
of its chunk unless the chunk is in column 0 of a tile without a loaded tile to
its left, and not on the top edge unless the chunk is in row 0 of a tile without
a loaded tile above. -/
def GapSafe (m : MapIndex) (p : VertexPtr) : Prop :=
  ((∀ j < 9, p.idx ≠ 17 * j) ∨ (p.chunk.px = 0 ∧ m.getTileLeft p.chunk.mt = none)) ∧
  (9 ≤ p.idx ∨ (p.chunk.py = 0 ∧ m.getTileAbove p.chunk.mt = none))

/-- In the accumulator `a` of a loop of `fixAllGaps` the vertex `p` has position
`v`. -/
def VertexAt {τ : Type} (p : VertexPtr) (v : vector_3d)
    (a : Terrain τ × List MapChunk × Bool) : Prop :=
  a.1.mVertices p = v

/-! ## Model and map-object instances -/

/-- A `ModelInstance`, with the members `World.cpp` reads; `filename` is
`model->_filename`, `extents` the pair `extents[0]`, `extents[1]`. -/
structure ModelInstance where
  uid : Int
  pos : vector_3d
  dir : vector_3d
  scale : ℚ
  filename : String
  extents : vector_3d × vector_3d
deriving DecidableEq, Repr

/-- A `WMOInstance`, with the members `World.cpp` reads; `filename` is
`wmo->_filename`. -/
structure WMOInstance where
  mUniqueID : Int
  pos : vector_3d
  dir : vector_3d
  filename : String
  extents : vector_3d × vector_3d
deriving DecidableEq, Repr

/-- A `selection_type`: the variant of a selected map object, model or chunk.  The
pointers to instances are modelled by the instance pointed to. -/
inductive selection_type where
  | wmo (instance_ : WMOInstance)
  | model (instance_ : ModelInstance)
  | chunk (chunk : MapChunk)
deriving DecidableEq, Repr

/-- The members of `World` that hold the placed objects: the two `std::map`s from
unique id to instance, as association lists in key order, and the current
selection. -/
structure ObjectState where
  mModelInstances : List (Int × ModelInstance)
  mWMOInstances : List (Int × WMOInstance)
  mCurrentSelection : Option selection_type

/-- The values of `for (int i = lo; i <= hi; ++i)`. -/
def int_range (lo hi : Int) : List Int :=
  (List.range (hi - lo + 1).toNat).map (fun (k : Nat) => lo + (k : Int))

/-- The two loops shared by `World::updateTilesWMO` and `World::updateTilesModel`
(World.cpp 2143-2165). -/
def update_tiles (start end_ : tile_index) (m : MapIndex) : MapIndex :=
  (int_range start.z end_.z).foldl
    (fun m z => (int_range start.x end_.x).foldl (fun m x => m.setChangedAt ⟨x, z⟩) m) m

/-- `World::updateTilesWMO` (World.cpp 2143-2153). -/
def updateTilesWMO (wmo : WMOInstance) (m : MapIndex) : MapIndex :=
  update_tiles (tile_index.ofPos wmo.extents.1) (tile_index.ofPos wmo.extents.2) m

/-- `World::updateTilesModel` (World.cpp 2155-2165). -/
def updateTilesModel (m2 : ModelInstance) (m : MapIndex) : MapIndex :=
  update_tiles (tile_index.ofPos m2.extents.1) (tile_index.ofPos m2.extents.2) m

/-- `World::updateTilesEntry` (World.cpp 2131-2141). -/
def updateTilesEntry (entry : selection_type) (m : MapIndex) : MapIndex :=
  match entry with
  | .wmo i => updateTilesWMO i m
  | .model i => updateTilesModel i m
  | .chunk _ => m

/-- `World::deleteModelInstance` (World.cpp 1990-1998); `ResetSelection` empties
`mCurrentSelection`. -/
def deleteModelInstance (pUniqueID : Int) (w : World ObjectState) : World ObjectState :=
  match w.st.mModelInstances.find? (fun p => p.1 == pUniqueID) with
  | none => w
  | some it =>
      ⟨updateTilesModel it.2 w.mapIndex,
        { w.st with
          mModelInstances := w.st.mModelInstances.eraseP (fun p => p.1 == pUniqueID)
          mCurrentSelection := none }⟩

/-- `World::deleteWMOInstance` (World.cpp 2000-2008). -/
def deleteWMOInstance (pUniqueID : Int) (w : World ObjectState) : World ObjectState :=
  match w.st.mWMOInstances.find? (fun p => p.1 == pUniqueID) with
  | none => w
  | some it =>
      ⟨updateTilesWMO it.2 w.mapIndex,
        { w.st with
          mWMOInstances := w.st.mWMOInstances.eraseP (fun p => p.1 == pUniqueID)
          mCurrentSelection := none }⟩

/-- The tile coordinate `t` lies in the rectangle spanned by the tile indices of
`extents[0]` and `extents[1]`. -/
def in_extents (extents : vector_3d × vector_3d) (t : tile_index) : Prop :=
  (tile_index.ofPos extents.1).x ≤ t.x ∧ t.x ≤ (tile_index.ofPos extents.2).x ∧
  (tile_index.ofPos extents.1).z ≤ t.z ∧ t.z ≤ (tile_index.ofPos extents.2).z

/-! ## Tiles: members, storage and tile-addressed operations -/

/-- The members of `MapTile` and of its member `Water` that `World.cpp` calls
through a tile pointer, as functions on the state; their bodies are not part of
`World.cpp`.  `setType` and `autoGen` are `tile->Water.setType` and
`tile->Water.autoGen`. -/
structure MapTileOps (σ : Type) where
  CropWater : MapTile → σ → σ
  setType : MapTile → Int → Int → σ → σ
  autoGen : MapTile → ℚ → σ → σ
  convert_alphamap : MapTile → Bool → σ → σ
  saveTile : MapTile → Bool → σ → σ

/-- What the members of `MapIndex` that `World::convert_alphamap` calls do to the
data outside the flags of the index: reading a tile from storage (inside
`loadTile`), destroying a tile (inside `unloadTile`), and `MapIndex::save`. -/
structure MapIndexOps (σ : Type) where
  read_tile : tile_index → σ → σ
  destroy_tile : tile_index → σ → σ
  save : MapIndex → σ → σ

/-- A call on a tile or on the index, as recorded by the recording members. -/
inductive TileCall where
  | functor (tile : MapTile)
  | read (t : tile_index)
  | destroy (t : tile_index)
  | convert (tile : MapTile) (to_big_alpha : Bool)
  | saved (tile : MapTile)
  | save_index
deriving DecidableEq, Repr

section Tiles
variable {σ : Type}

/-- The members `tops` with every call recorded; each acts on the state exactly
as in `tops`.  The water members are the functors of `for_tile_at`. -/
def MapTileOps.traced (tops : MapTileOps σ) : MapTileOps (σ × List TileCall) where
  CropWater := fun tile s => (tops.CropWater tile s.1, s.2 ++ [TileCall.functor tile])
  setType := fun tile type layer s =>
    (tops.setType tile type layer s.1, s.2 ++ [TileCall.functor tile])
  autoGen := fun tile factor s => (tops.autoGen tile factor s.1, s.2 ++ [TileCall.functor tile])
  convert_alphamap := fun tile to_big_alpha s =>
    (tops.convert_alphamap tile to_big_alpha s.1, s.2 ++ [TileCall.convert tile to_big_alpha])
  saveTile := fun tile b s => (tops.saveTile tile b s.1, s.2 ++ [TileCall.saved tile])

/-- The effects `iops` with every call recorded. -/
def MapIndexOps.traced (iops : MapIndexOps σ) : MapIndexOps (σ × List TileCall) where
  read_tile := fun t s => (iops.read_tile t s.1, s.2 ++ [TileCall.read t])
  destroy_tile := fun t s => (iops.destroy_tile t s.1, s.2 ++ [TileCall.destroy t])
  save := fun m s => (iops.save m s.1, s.2 ++ [TileCall.save_index])

/-- `World::CropWaterADT` (World.cpp 1560-1563). -/
def CropWaterADT (tops : MapTileOps σ) (pos : tile_index) (w : World σ) : World σ :=
  for_tile_at pos tops.CropWater w

/-- `World::setWaterType` (World.cpp 2236-2244). -/
def setWaterType (tops : MapTileOps σ) (pos : tile_index) (type layer : Int) (w : World σ) :
    World σ :=
  for_tile_at pos (fun tile => tops.setType tile type layer) w

/-- `World::autoGenWaterTrans` (World.cpp 2258-2261). -/
def autoGenWaterTrans (tops : MapTileOps σ) (pos : tile_index) (factor : ℚ) (w : World σ) :
    World σ :=
  for_tile_at pos (fun tile => tops.autoGen tile factor) w

end Tiles

/-! ## `World::convert_alphamap` -/

/-- Modelled from the spec: `MapIndex::hasBigAlpha`, the global big-alpha flag. -/
def MapIndex.hasBigAlpha (m : MapIndex) : Bool := m.mBigAlpha

/-- Modelled from the spec: `MapIndex::markOnDisc`, which sets the on-disc flag of
a coordinate. -/
def MapIndex.markOnDisc (m : MapIndex) (t : tile_index) (mto : Bool) : MapIndex :=
  { m with onDisc := fun i => if i = t then mto else m.onDisc i }

/-- Modelled from the spec: `MapIndex::convert_alphamap`, which sets the global
big-alpha flag. -/
def MapIndex.convert_alphamap (m : MapIndex) (to_big_alpha : Bool) : MapIndex :=
  { m with mBigAlpha := to_big_alpha }

section ConvertAlphamap
variable {σ : Type}

/-- Modelled from the spec: `MapIndex::loadTile`, explicit lifecycle control: the
tile at the coordinate if it is loaded; otherwise, if the tile is present on
persisted storage, the tile read from there, which is loaded from then on;
otherwise null.  The result is the pointer and the world afterwards. -/
def loadTile (iops : MapIndexOps σ) (t : tile_index) (w : World σ) : Option MapTile × World σ :=
  if w.mapIndex.loaded t then (some ⟨t⟩, w)
  else if w.mapIndex.onDisc t then
    (some ⟨t⟩,
      ⟨{ w.mapIndex with loaded := fun i => if i = t then true else w.mapIndex.loaded i },
        iops.read_tile t w.st⟩)
  else (none, w)

/-- Modelled from the spec: `MapIndex::unloadTile`, explicit lifecycle control:
"unload fails silently (no-op) rather than discarding unsaved changes".  A loaded
tile that is not flagged as changed is destroyed and is no longer loaded; on any
other tile nothing happens. -/
def unloadTile (iops : MapIndexOps σ) (t : tile_index) (w : World σ) : World σ :=
  if w.mapIndex.loaded t && !w.mapIndex.changed t then
    ⟨{ w.mapIndex with loaded := fun i => if i = t then false else w.mapIndex.loaded i },
      iops.destroy_tile t w.st⟩
  else w

/-- The world after the statements `mTile->convert_alphamap (to_big_alpha)`,
`mTile->saveTile (false, this)`, `mapIndex.markOnDisc (tile, true)` and
`mapIndex.unsetChanged (tile)` of `World::convert_alphamap`. -/
def convert_and_save (tops : MapTileOps σ) (to_big_alpha : Bool) (tile : tile_index)
    (mTile : MapTile) (w : World σ) : World σ :=
  ⟨(w.mapIndex.markOnDisc tile true).unsetChanged tile,
    tops.saveTile mTile false (tops.convert_alphamap mTile to_big_alpha w.st)⟩

/-- The body of the two loops of `World::convert_alphamap` for the coordinate
`tile` (World.cpp 1908-1925). -/
def convert_alphamap_tile (tops : MapTileOps σ) (iops : MapIndexOps σ) (to_big_alpha : Bool)
    (tile : tile_index) (w : World σ) : World σ :=
  match (loadTile iops tile w).1 with
  | some mTile =>
      if !w.mapIndex.tileLoaded tile then
        unloadTile iops tile
          (convert_and_save tops to_big_alpha tile mTile (loadTile iops tile w).2)
      else convert_and_save tops to_big_alpha tile mTile (loadTile iops tile w).2
  | none => (loadTile iops tile w).2

/-- The two loops of `World::convert_alphamap` (World.cpp 1904-1927). -/
def convert_alphamap_tiles (tops : MapTileOps σ) (iops : MapIndexOps σ) (to_big_alpha : Bool)
    (w : World σ) : World σ :=
  for_upto 64
    (fun z => for_upto 64 (fun x => convert_alphamap_tile tops iops to_big_alpha ⟨x, z⟩)) w

/-- `World::convert_alphamap` (World.cpp 1897-1931). -/
def convert_alphamap (tops : MapTileOps σ) (iops : MapIndexOps σ) (to_big_alpha : Bool)
    (w : World σ) : World σ :=
  if to_big_alpha = w.mapIndex.hasBigAlpha then w
  else
    ⟨(convert_alphamap_tiles tops iops to_big_alpha w).mapIndex.convert_alphamap to_big_alpha,
      iops.save ((convert_alphamap_tiles tops iops to_big_alpha w).mapIndex.convert_alphamap
        to_big_alpha) (convert_alphamap_tiles tops iops to_big_alpha w).st⟩

end ConvertAlphamap

/-- The loaded flags of the world are those of the index `m`. -/
def LoadedAs {σ : Type} (m : MapIndex) (w : World σ) : Prop :=
  ∀ t, w.mapIndex.loaded t = m.loaded t

/-- In the journal every destruction of a tile comes after a save of that tile. -/
def SavedBeforeUnload (journal : List TileCall) : Prop :=
  ∀ pre t suf, journal = pre ++ TileCall.destroy t :: suf → TileCall.saved ⟨t⟩ ∈ pre

/-- What the loops of `World::convert_alphamap`, run with recording members, keep
true of the world: the loaded flags are those of the index `m` the call started
with, every destruction of a tile comes after a save of that tile, every tile
that was read has been destroyed again, and a destroyed tile is not flagged as
changed. -/
def ConvertInvariant {σ : Type} (m : MapIndex) (w : World (σ × List TileCall)) : Prop :=
  (∀ t, w.mapIndex.loaded t = m.loaded t) ∧ SavedBeforeUnload w.st.2 ∧
  (∀ t, TileCall.read t ∈ w.st.2 → TileCall.destroy t ∈ w.st.2) ∧
  (∀ t, TileCall.destroy t ∈ w.st.2 → w.mapIndex.changed t = false)

/-! ## Queries at a position -/

/-- The `const` members of `MapChunk` that the queries of `World.cpp` read; their
bodies are not part of `World.cpp`. -/
structure MapChunkQueries (σ : Type) where
  getAreaID : MapChunk → σ → Int
  getMinHeight : MapChunk → σ → ℚ

/-- The conversion of an `int` to the 32-bit `unsigned int` that
`World::getAreaID` returns. -/
def to_unsigned (i : Int) : Nat := (i % 4294967296).toNat

section Queries
variable {σ : Type}

/-- `World::getAreaID` (World.cpp 1513-1516):
`for_maybe_chunk_at (...).get_value_or (-1)`, returned as `unsigned int`. -/
def getAreaID (qs : MapChunkQueries σ) (pos : vector_3d) (w : World σ) : Nat :=
  to_unsigned ((for_maybe_chunk_at pos qs.getAreaID w).getD (-1))

/-- `World::isUnderMap` (World.cpp 2341-2355).  The pointer `getTile (tile)` is
dereferenced without a test, inside the test of `tileLoaded`. -/
def isUnderMap (qs : MapChunkQueries σ) (pos : vector_3d) (w : World σ) : Except Fault Bool :=
  let tile := tile_index.ofPos pos
  if w.mapIndex.tileLoaded tile then
    match w.mapIndex.getTile tile with
    | some t =>
        .ok (decide (qs.getMinHeight
          (t.getChunk (to_size_t (pos.x / CHUNKSIZE - tile.x * 16))
            (to_size_t (pos.z / CHUNKSIZE - tile.z * 16))) w.st > pos.y + 2))
    | none => .error Fault.null_dereference
  else .ok true

end Queries

/-! ## Binary32 floating point -/

/-- The integer nearest to `t`, a tie going to the even neighbour. -/
def round_even (t : ℚ) : Int :=
  if t - ⌊t⌋ < 1 / 2 then ⌊t⌋
  else if 1 / 2 < t - ⌊t⌋ then ⌊t⌋ + 1
  else if ⌊t⌋ % 2 = 0 then ⌊t⌋ else ⌊t⌋ + 1

/-- The exponent of the binade of `x` in binary32: the integer part of the binary
logarithm of `|x|`, and -126 for the subnormal numbers. -/
def binade (x : ℚ) : Int := max (Int.log 2 |x|) (-126)

/-- The distance between neighbouring binary32 values in the binade of `x`: the
significand has 24 bits. -/
def ulp32 (x : ℚ) : ℚ := 2 ^ (binade x - 23)

/-- The binary32 value nearest to `x`, a tie going to the even significand, as
long as the exponent does not overflow. -/
def round32 (x : ℚ) : ℚ := round_even (x / ulp32 x) * ulp32 x

/-- A C++ `float` (IEEE binary32): not a number, an infinity, or a finite value.
The two zeros are not told apart; they compare equal. -/
inductive float32 where
  | nan
  | inf (negative : Bool)
  | fin (value : ℚ)
deriving DecidableEq

namespace float32

/-- The `float` that an operation with the exact result `x` delivers: the nearest
binary32 value, and an infinity when that is out of range. -/
def ofRat (x : ℚ) : float32 :=
  if 2 ^ 128 ≤ |round32 x| then inf (decide (x < 0)) else fin (round32 x)

/-- The operator `-a`. -/
def neg : float32 → float32
  | nan => nan
  | inf s => inf (!s)
  | fin a => fin (-a)

/-- The operator `a + b`. -/
def add : float32 → float32 → float32
  | nan, _ => nan
  | _, nan => nan
  | inf s, inf t => if s = t then inf s else nan
  | inf s, fin _ => inf s
  | fin _, inf t => inf t
  | fin a, fin b => ofRat (a + b)

/-- The operator `a - b`. -/
def sub (a b : float32) : float32 := a.add b.neg

/-- The operator `a / b`; a zero divisor counts as `+0`. -/
def div : float32 → float32 → float32
  | nan, _ => nan
  | _, nan => nan
  | inf _, inf _ => nan
  | inf s, fin b => inf (s != decide (b < 0))
  | fin _, inf _ => fin 0
  | fin a, fin b =>
      if b = 0 then (if a = 0 then nan else inf (decide (a < 0))) else ofRat (a / b)

/-- The operator `a < b`. -/
def lt : float32 → float32 → Bool
  | nan, _ => false
  | _, nan => false
  | inf s, inf t => s && !t
  | inf s, fin _ => s
  | fin _, inf t => !t
  | fin a, fin b => decide (a < b)

/-- The operator `a <= b`. -/
def le : float32 → float32 → Bool
  | nan, _ => false
  | _, nan => false
  | inf s, inf t => s || !t
  | inf s, fin _ => s
  | fin _, inf t => !t
  | fin a, fin b => decide (a ≤ b)

/-- The absolute value, `std::abs`. -/
def abs : float32 → float32
  | nan => nan
  | inf _ => inf false
  | fin a => fin |a|

end float32

/-- The function `std::min`: `(b < a) ? b : a`. -/
def std_min (a b : float32) : float32 := if b.lt a then b else a

/-- The function `std::max`: `(a < b) ? b : a`. -/
def std_max (a b : float32) : float32 := if a.lt b then b else a

/-- A `math::vector_3d` with its components as IEEE floats, for the code whose
behaviour under rounding, infinities and NaN is at issue. -/
structure ieee_vector_3d where
  x : float32
  y : float32
  z : float32
deriving DecidableEq

/-- The operator `a + b` of `math::vector_3d`. -/
def ieee_vector_3d.add (a b : ieee_vector_3d) : ieee_vector_3d :=
  ⟨a.x.add b.x, a.y.add b.y, a.z.add b.z⟩

/-- The operator `a - b` of `math::vector_3d`. -/
def ieee_vector_3d.sub (a b : ieee_vector_3d) : ieee_vector_3d :=
  ⟨a.x.sub b.x, a.y.sub b.y, a.z.sub b.z⟩

/-- The operator `a / f` of `math::vector_3d` for a `float`. -/
def ieee_vector_3d.div (a : ieee_vector_3d) (f : float32) : ieee_vector_3d :=
  ⟨a.x.div f, a.y.div f, a.z.div f⟩

/-! ## The terrain fragment shader: float arithmetic, colours and the texture blend

GLSL 1.10 leaves the precision of `float` to the implementation, so the shader is
embedded over a float unit: `round` gives the float that an operation delivers
whose exact result is its argument, and `sqrt` is the built-in of that name.  The
floats are rationals: infinities and NaN, which GLSL 1.10 does not require, have
no counterpart here, and a quotient by 0, undefined in GLSL, is `round 0`.  The
literals `0.0`, `1.0`, `2.0`, `3.0`, `4.0`, `16.0`, `0.5`, `0.25`, `0.75` and
`1.5` are floats of every binary format and stand for themselves; the other
literals are rounded. -/

/-- The float arithmetic of the implementation that runs the shader. -/
structure FloatUnit where
  round : ℚ → ℚ
  sqrt : ℚ → ℚ

namespace FloatUnit

/-- GLSL `a + b` on floats. -/
def add (g : FloatUnit) (a b : ℚ) : ℚ := g.round (a + b)

/-- GLSL `a - b` on floats. -/
def sub (g : FloatUnit) (a b : ℚ) : ℚ := g.round (a - b)

/-- GLSL `a * b` on floats. -/
def mul (g : FloatUnit) (a b : ℚ) : ℚ := g.round (a * b)

/-- GLSL `a / b` on floats. -/
def div (g : FloatUnit) (a b : ℚ) : ℚ := g.round (a / b)

/-- The constant `TILESIZE` of the shader (World.cpp 646). -/
def TILESIZE (g : FloatUnit) : ℚ := g.round (53333333 / 100000)

/-- The constant `CHUNKSIZE` of the shader (World.cpp 647). -/
def CHUNKSIZE (g : FloatUnit) : ℚ := g.div g.TILESIZE 16

end FloatUnit

/-- A GLSL `vec2`. -/
structure vec2 where
  x : ℚ
  y : ℚ
deriving DecidableEq, Repr

/-- A GLSL `vec3`; the components `x`, `y`, `z` are also `r`, `g`, `b`. -/
structure vec3 where
  x : ℚ
  y : ℚ
  z : ℚ
deriving DecidableEq, Repr

/-- A GLSL `vec4`; the components `x`, `y`, `z`, `w` are also `r`, `g`, `b`, `a`. -/
structure vec4 where
  x : ℚ
  y : ℚ
  z : ℚ
  w : ℚ
deriving DecidableEq, Repr

/-- GLSL `a - b` on `vec2`. -/
def vec2.sub (g : FloatUnit) (a b : vec2) : vec2 := ⟨g.sub a.x b.x, g.sub a.y b.y⟩

/-- GLSL `a * f` for a `vec2` and a `float`. -/
def vec2.scale (g : FloatUnit) (a : vec2) (f : ℚ) : vec2 := ⟨g.mul a.x f, g.mul a.y f⟩

/-- GLSL `a + b` on `vec3`. -/
def vec3.add (g : FloatUnit) (a b : vec3) : vec3 :=
  ⟨g.add a.x b.x, g.add a.y b.y, g.add a.z b.z⟩

/-- GLSL `a * b` on `vec3`, component by component. -/
def vec3.mul (g : FloatUnit) (a b : vec3) : vec3 :=
  ⟨g.mul a.x b.x, g.mul a.y b.y, g.mul a.z b.z⟩

/-- GLSL `a * f` for a `vec3` and a `float`. -/
def vec3.scale (g : FloatUnit) (a : vec3) (f : ℚ) : vec3 :=
  ⟨g.mul a.x f, g.mul a.y f, g.mul a.z f⟩

/-- The swizzle `.rgb`. -/
def vec4.rgb (v : vec4) : vec3 := ⟨v.x, v.y, v.z⟩

/-- The constructor `vec4 (vec3, float)`. -/
def vec4.ofRgb (c : vec3) (a : ℚ) : vec4 := ⟨c.x, c.y, c.z, a⟩

/-- GLSL `a + b` on `vec4`. -/
def vec4.add (g : FloatUnit) (a b : vec4) : vec4 :=
  ⟨g.add a.x b.x, g.add a.y b.y, g.add a.z b.z, g.add a.w b.w⟩

/-- GLSL `a * b` on `vec4`, component by component. -/
def vec4.mul (g : FloatUnit) (a b : vec4) : vec4 :=
  ⟨g.mul a.x b.x, g.mul a.y b.y, g.mul a.z b.z, g.mul a.w b.w⟩

/-- GLSL `a * f` for a `vec4` and a `float`. -/
def vec4.scale (g : FloatUnit) (a : vec4) (f : ℚ) : vec4 :=
  ⟨g.mul a.x f, g.mul a.y f, g.mul a.z f, g.mul a.w f⟩

/-- The function `blend_by_alpha` of the terrain fragment shader
(World.cpp 651-654). -/
def blend_by_alpha (g : FloatUnit) (source dest : vec4) : vec4 :=
  vec4.add g (vec4.scale g source source.w) (vec4.scale g dest (g.sub 1 source.w))

/-- The expression `1.0 - (a0 + a1 + a2)` of `texture_blend` (World.cpp 671), the
weight of the base layer, for the alpha-map sample `alpha`. -/
def base_weight (g : FloatUnit) (alpha : vec3) : ℚ :=
  g.sub 1 (g.add (g.add alpha.x alpha.y) alpha.z)

/-- The function `texture_blend` of the terrain fragment shader
(World.cpp 656-672).  `alpha` is the sample `texture2D (alphamap, ...).rgb` and
`t0`, ..., `t3` are the samples of the four layer textures. -/
def texture_blend (g : FloatUnit) (layer_count : Int) (alpha t0 t1 t2 t3 : vec3) : vec4 :=
  if layer_count = 0 then ⟨1, 1, 1, 1⟩
  else
    vec4.ofRgb
      (vec3.add g
        (vec3.add g
          (vec3.add g (vec3.scale g t0 (base_weight g alpha)) (vec3.scale g t1 alpha.x))
          (vec3.scale g t2 alpha.y))
        (vec3.scale g t3 alpha.z)) 1

/-! ## The terrain fragment shader: `main`

`fwidth` and the texture samples are inputs of the fragment. -/

/-- GLSL `length` of a `vec2`. -/
def vec2.length (g : FloatUnit) (v : vec2) : ℚ := g.sqrt (g.add (g.mul v.x v.x) (g.mul v.y v.y))

/-- The ways in which a stage changes the colour `c` that the stages before it
produced: `composite s` composites the colour `s` over `c` by straight alpha, that
is `blend_by_alpha (s, c)`; `composite_set_alpha s` does the same and sets alpha to
1; `multiply_rgb m` multiplies the colour channels by `m` and keeps alpha;
`multiply m` multiplies the four channels by `m`; `scale_add k t` is `c * k + t`
on the four channels; `darken k` multiplies the colour channels by `k` and sets
alpha to 1. -/
inductive StageKind where
  | composite (source : vec4)
  | composite_set_alpha (source : vec4)
  | multiply_rgb (factor : vec3)
  | multiply (factor : vec4)
  | scale_add (factor : ℚ) (term : vec4)
  | darken (factor : ℚ)

/-- The colour that a stage of the given kind makes of the colour `c`. -/
def StageKind.apply (g : FloatUnit) : StageKind → vec4 → vec4
  | .composite s, c => blend_by_alpha g s c
  | .composite_set_alpha s, c => { blend_by_alpha g s c with w := 1 }
  | .multiply_rgb m, c => vec4.ofRgb (vec3.mul g c.rgb m) c.w
  | .multiply m, c => vec4.mul g c m
  | .scale_add k t, c => vec4.add g (vec4.scale g c k) t
  | .darken k, c => vec4.ofRgb (vec3.scale g c.rgb k) 1

namespace Fragment

end Fragment

/-- A square root that is exact on the squares of rationals; it stands in for the
built-in `sqrt` where a concrete fragment is evaluated. -/
def exact_sqrt (q : ℚ) : ℚ := (Nat.sqrt q.num.toNat : ℚ) / (Nat.sqrt q.den : ℚ)

/-- A float unit without rounding.  Its `sqrt` is `exact_sqrt`, the root on the
squares of rationals. -/
def exactUnit : FloatUnit := ⟨id, exact_sqrt⟩

/-- A float unit with the binary32 arithmetic of IEEE 754, rounding to nearest with
ties to even.  Its `sqrt` is the rounded `exact_sqrt`, the correctly rounded root
on the squares of rationals, which are the only numbers that the fragments
evaluated below take the root of. -/
def binary32Unit : FloatUnit := ⟨round32, fun q => round32 (exact_sqrt q)⟩

/-! ## Alpha maps and their two encodings -/

/-- Modelled from the spec: an alpha map, the per-texel blend-weight grid of a
texture layer, as the list of the bytes of its record.  In the 4-bit encoding a
byte packs the weights of two texels, the low nibble first; in the 8-bit
(big-alpha) encoding there is one byte per texel. -/
abbrev Alphamap := List Nat

/-- Modelled from the spec: the texture layer set of a chunk, with the members
`nTextures` and `alphamaps` of `texture_set.hpp`: one alpha map per layer beyond
the base layer. -/
structure TextureSet where
  nTextures : Nat
  alphamaps : List Alphamap
deriving DecidableEq, Repr

/-- Modelled from the spec: the 8-bit encoding of a 4-bit weight `n`.  It is
17 `n`, the same share of the full weight: `n` of 15 is 17 `n` of 255. -/
def widen_weight (n : Nat) : Nat := 17 * n

/-- Modelled from the spec: the 4-bit encoding of an 8-bit weight. -/
def narrow_weight (v : Nat) : Nat := v / 17

/-- Modelled from the spec: the bytes of an alpha map re-packed from the 4-bit to
the 8-bit encoding. -/
def unpack_alpha (a : Alphamap) : Alphamap :=
  a.flatMap (fun b => [widen_weight (b % 16), widen_weight (b / 16)])

/-- Modelled from the spec: the bytes of an alpha map re-packed from the 8-bit to
the 4-bit encoding. -/
def pack_alpha : Alphamap → Alphamap
  | lo :: hi :: rest => (narrow_weight lo + 16 * narrow_weight hi) :: pack_alpha rest
  | _ => []

/-- Modelled from the spec: `TextureSet::convertToBigAlpha`, declared in
`texture_set.hpp` 56: "a lossless reversible re-packing between 4-bit and 8-bit
per-texel weight encodings", applied to every alpha map of the set. -/
def TextureSet.convertToBigAlpha (ts : TextureSet) : TextureSet :=
  { ts with alphamaps := ts.alphamaps.map unpack_alpha }

/-- Modelled from the spec: `TextureSet::convertToOldAlpha`, declared in
`texture_set.hpp` 57: the re-packing in the other direction. -/
def TextureSet.convertToOldAlpha (ts : TextureSet) : TextureSet :=
  { ts with alphamaps := ts.alphamaps.map pack_alpha }

/-- Modelled from the spec: `MapTile::convert_alphamap`, which converts the
texture layer set of each chunk of the tile to the requested encoding. -/
def tile_convert_alphamap (to_big_alpha : Bool) (chunks : List TextureSet) : List TextureSet :=
  chunks.map (fun ts => if to_big_alpha then ts.convertToBigAlpha else ts.convertToOldAlpha)

/-! ## The texture manager -/

/-- The struct `BLPHeader` (TextureManager.cpp 9-21); the pointer cast of
`LoadBLP` is carried out, so the fields hold the values read. -/
structure BLPHeader where
  magix : Int
  version : Int
  attr_0_compression : Int
  attr_1_alphadepth : Int
  attr_2_alphatype : Int
  attr_3_mipmaplevels : Int
  resx : Int
  resy : Int
  offsets : Nat → Int
  sizes : Nat → Int

/-- An `MPQFile` as `LoadBLP` uses it: `eof` and `isExternal` are what `isEof ()` and
`isExternal ()` return, `header` is the start of the buffer read as a
`BLPHeader`, `pal` the 256 `unsigned int` that follow it, and `bytes` the byte of
the file at an offset, which is what `seek` and `read` deliver. -/
structure MPQFile where
  eof : Bool
  isExternal : Bool
  header : BLPHeader
  pal : Nat → Nat
  bytes : Int → Nat

/-- The `f.seek (offset); f.read (buf, size)` of `LoadBLP`: the first `size` bytes
of the buffer are overwritten with the bytes of the file from `offset` on. -/
def MPQFile.read (f : MPQFile) (offset size : Int) (buf : Nat → Nat) : Nat → Nat :=
  fun j => if (j : Int) < size then f.bytes (offset + j) else buf j

/-- A `Texture`: a `ManagedItem` (`name`, `refcount`) with the members
`originalName`, `id`, `w` and `h`. -/
structure Texture where
  name : String
  originalName : String
  id : Nat
  w : Int
  h : Int
  refcount : Int

/-- The calls into OpenGL that `TextureManager` makes, with the arguments that
vary. -/
inductive GLCall where
  | genTextures (id : Nat)
  | bindTexture (id : Nat)
  | texImage2D (level : Nat) (w h : Int) (pixels : List Nat)
  | compressedTexImage2D (level : Nat) (format : Int) (w h : Int) (imageSize : Int)
      (offset : Int)
  | texParameteri (pname param : Nat)

/-- Whether a call uploads an image. -/
def GLCall.isUpload : GLCall → Bool
  | .texImage2D _ _ _ _ => true
  | .compressedTexImage2D _ _ _ _ _ _ => true
  | _ => false

/-- The values that the C++ code reads without having written them: `alpha` in
the palettised path when the alpha depth is neither 0, 1 nor 8 (per mip level and
pixel), and the fresh buffer `buf`. -/
structure Indeterminate where
  alpha : Nat → Nat → Int
  buf : Nat → Nat

/-- The constant `GL_COMPRESSED_RGB_S3TC_DXT1_EXT`. -/
def GL_COMPRESSED_RGB_S3TC_DXT1_EXT : Int := 0x83F0

/-- The constant `GL_COMPRESSED_RGBA_S3TC_DXT1_EXT`. -/
def GL_COMPRESSED_RGBA_S3TC_DXT1_EXT : Int := 0x83F1

/-- The constant `GL_COMPRESSED_RGBA_S3TC_DXT3_EXT`. -/
def GL_COMPRESSED_RGBA_S3TC_DXT3_EXT : Int := 0x83F2

/-- The constant `GL_COMPRESSED_RGBA_S3TC_DXT5_EXT`. -/
def GL_COMPRESSED_RGBA_S3TC_DXT5_EXT : Int := 0x83F3

/-- The array `alphatypes` of `LoadBLP` (TextureManager.cpp 151). -/
def alphatypes (i : Int) : Int :=
  if i = 0 then GL_COMPRESSED_RGB_S3TC_DXT1_EXT
  else if i = 1 then GL_COMPRESSED_RGBA_S3TC_DXT3_EXT
  else if i = 2 then 0
  else GL_COMPRESSED_RGBA_S3TC_DXT5_EXT

/-- The array `blocksizes` of `LoadBLP` (TextureManager.cpp 152). -/
def blocksizes (i : Int) : Int :=
  if i = 0 then 8 else if i = 1 then 16 else if i = 2 then 0 else 16

/-- The pixel that the two inner loops of the palettised path write as number `n`
of mip level `level` (TextureManager.cpp 114-130): `c` has advanced to `buf + n`;
`a` started at `buf + w * h` and has advanced by one per pixel when the alpha
depth is 8 and by one per eight pixels when it is 1, where `cnt` is `n % 8`. -/
def palettised_pixel (f : MPQFile) (ind : Indeterminate) (alphabits : Int) (level : Nat)
    (w h : Int) (buf : Nat → Nat) (n : Nat) : Nat :=
  let k := f.pal (buf n)
  let k := ((k &&& 0x00FF0000) >>> 16) ||| (k &&& 0x0000FF00) ||| ((k &&& 0x000000FF) <<< 16)
  let alpha : Int :=
    if alphabits ≠ 0 then
      if alphabits = 8 then (buf ((w * h).toNat + n) : Int)
      else if alphabits = 1 then
        (if buf ((w * h).toNat + n / 8) &&& (1 <<< (n % 8)) ≠ 0 then 0xff else 0)
      else ind.alpha level n
    else 0xff
  k ||| ((alpha * 16777216) % 4294967296).toNat

/-- The buffer `buf2` after the two inner loops of the palettised path for one mip
level: `h` rows of `w` pixels. -/
def palettised_image (f : MPQFile) (ind : Indeterminate) (alphabits : Int) (level : Nat)
    (w h : Int) (buf : Nat → Nat) : List Nat :=
  (List.range h.toNat).flatMap
    (fun y => (List.range w.toNat).map
      (fun x => palettised_pixel f ind alphabits level w h buf (y * w.toNat + x)))

/-- The loop `for (int i=0; i<16; i++)` of the palettised path
(TextureManager.cpp 101-139) from level `i` on, with `todo` levels to go; the
result is the list of GL calls made by a run in which no `int` overflows and no
write leaves `buf2`.  `palettised_levels_checked` has these conditions. -/
def palettised_levels (f : MPQFile) (ind : Indeterminate) (alphabits : Int) :
    Nat → Nat → Int → Int → (Nat → Nat) → List GLCall → List GLCall
  | 0, _, _, _, _, gl => gl
  | todo + 1, i, w, h, buf, gl =>
      if f.header.offsets i ≠ 0 ∧ f.header.sizes i ≠ 0 then
        palettised_levels f ind alphabits todo (i + 1)
          ((if w = 0 then 1 else w) >>> 1) ((if h = 0 then 1 else h) >>> 1)
          (f.read (f.header.offsets i) (f.header.sizes i) buf)
          (gl ++ [GLCall.texImage2D i (if w = 0 then 1 else w) (if h = 0 then 1 else h)
            (palettised_image f ind alphabits i (if w = 0 then 1 else w)
              (if h = 0 then 1 else h) (f.read (f.header.offsets i) (f.header.sizes i) buf))])
      else gl

/-- The loop `for( int i = 0; i < 16; i++ )` of the compressed path
(TextureManager.cpp 160-172) from level `i` on, with `todo` levels to go: the GL
calls made by a run in which no `int` overflows.  `compressed_levels_checked` has
this condition. -/
def compressed_levels (f : MPQFile) (format blocksize : Int) :
    Nat → Nat → Int → Int → List GLCall → List GLCall
  | 0, _, _, _, gl => gl
  | todo + 1, i, w, h, gl =>
      if f.header.offsets i ≠ 0 ∧ f.header.sizes i ≠ 0 then
        compressed_levels f format blocksize todo (i + 1)
          ((if w = 0 then 1 else w) >>> 1) ((if h = 0 then 1 else h) >>> 1)
          (gl ++ [GLCall.compressedTexImage2D i format (if w = 0 then 1 else w)
            (if h = 0 then 1 else h)
            (Int.tdiv ((if w = 0 then 1 else w) + 3) 4 * Int.tdiv ((if h = 0 then 1 else h) + 3) 4
              * blocksize)
            (f.header.offsets i)])
      else gl

/-- The `switch` of `LoadBLP` (TextureManager.cpp 86-176): the GL calls after it,
for a run that stays within defined behaviour (see `LoadBLP_switch_checked`). -/
def LoadBLP_switch (f : MPQFile) (ind : Indeterminate) (gl : List GLCall) : List GLCall :=
  if f.header.attr_0_compression = 1 then
    palettised_levels f ind f.header.attr_1_alphadepth 16 0 f.header.resx f.header.resy ind.buf gl
  else if f.header.attr_0_compression = 2 then
    compressed_levels f
      (if alphatypes (f.header.attr_2_alphatype % 4) = GL_COMPRESSED_RGB_S3TC_DXT1_EXT then
        (if f.header.attr_1_alphadepth = 1 then GL_COMPRESSED_RGBA_S3TC_DXT1_EXT
          else GL_COMPRESSED_RGB_S3TC_DXT1_EXT)
        else alphatypes (f.header.attr_2_alphatype % 4))
      (blocksizes (f.header.attr_2_alphatype % 4)) 16 0 f.header.resx f.header.resy gl
  else gl

/-- `TextureManager::LoadBLP` (TextureManager.cpp 65-184).  `files` opens the
`MPQFile` of a name; the result is the value returned, the texture `*tex`
afterwards and the GL calls made so far.  The two `glTexParameteri` calls carry
`GL_TEXTURE_MIN_FILTER`, `GL_LINEAR_MIPMAP_LINEAR` and `GL_TEXTURE_MAG_FILTER`,
`GL_LINEAR`. -/
def LoadBLP (files : String → MPQFile) (ind : Indeterminate) (id : Nat) (tex : Texture)
    (gl : List GLCall) : Bool × Texture × List GLCall :=
  if (files tex.originalName).eof then
    (false, { tex with id := 0 }, gl ++ [GLCall.bindTexture id])
  else
    ((files tex.originalName).isExternal,
      { tex with w := (files tex.originalName).header.resx,
                 h := (files tex.originalName).header.resy },
      LoadBLP_switch (files tex.originalName) ind (gl ++ [GLCall.bindTexture id])
        ++ [GLCall.texParameteri 0x2801 0x2703, GLCall.texParameteri 0x2800 0x2601])

/-- The `TextureManager` (a `Manager<GLuint>`): the maps `names` and `items`, and
next to them the GL calls made so far and the number of texture names that
`glGenTextures` has handed out. -/
structure TextureManager where
  names : String → Option Nat
  items : Nat → Option Texture
  gl : List GLCall
  generated : Nat

/-- `TextureManager::add` (TextureManager.cpp 30-53).  `do_add` is the member of
the base class `Manager` that registers the name, the id and the item; it is
implemented outside `TextureManager.cpp`.  `glGenTextures` hands out the next
unused name.  In the first branch `items[id]` is dereferenced without a test. -/
def TextureManager.add (files : String → MPQFile) (ind : Indeterminate)
    (do_add : String → Nat → Texture → TextureManager → TextureManager) (name : String)
    (tm : TextureManager) : Except Fault (Nat × TextureManager) :=
  match tm.names (name.map Char.toLower) with
  | some id =>
      match tm.items id with
      | some item =>
          .ok (id,
            { tm with items := fun i =>
                if i = id then some { item with refcount := item.refcount + 1 } else tm.items i })
      | none => .error Fault.null_dereference
  | none =>
      .ok (tm.generated + 1,
        do_add (name.map Char.toLower) (tm.generated + 1)
          (LoadBLP files ind (tm.generated + 1)
            ⟨name.map Char.toLower, name, tm.generated + 1, 0, 0, 0⟩
            (tm.gl ++ [GLCall.genTextures (tm.generated + 1)])).2.1
          { tm with
            gl := (LoadBLP files ind (tm.generated + 1)
              ⟨name.map Char.toLower, name, tm.generated + 1, 0, 0, 0⟩
              (tm.gl ++ [GLCall.genTextures (tm.generated + 1)])).2.2
            generated := tm.generated + 1 })

/-! ## The texture coordinates of `World::initGlobalVBOs` -/

/-- Modelled from the spec: the constant `mapbufsize`, the number of vertices of a
chunk: a grid of 9×9 outer and 8×8 inner vertices, 145 positions. -/
def mapbufsize : Nat := 9 * 9 + 8 * 8

/-- The `math::vector_2d` of the source. -/
structure vector_2d where
  x : ℚ
  y : ℚ
deriving DecidableEq, Repr

/-- The array `temp[mapbufsize]` of `initGlobalVBOs` and the pointer `vt` into it,
as the index it points at. -/
structure FillState where
  temp : Nat → vector_2d
  vt : Nat

/-- The statement `*vt++ = v`; `none` stands for a write outside the array. -/
def FillState.write (s : FillState) (v : vector_2d) : Option FillState :=
  if s.vt < mapbufsize then some ⟨fun k => if k = s.vt then v else s.temp k, s.vt + 1⟩
  else none

/-- The two nested loops that both fill loops of `initGlobalVBOs` share
(World.cpp 297-308 and 317-328); `coord j i` is the vector written for row `j`
and column `i`. -/
def fill_loop (coord : Nat → Nat → vector_2d) (s : FillState) : Option FillState :=
  (List.range 17).foldlM
    (fun s j =>
      (List.range (if j % 2 ≠ 0 then 8 else 9)).foldlM (fun s i => s.write (coord j i)) s)
    s

/-- The vector written by the body of the first fill loop (World.cpp 296-306), for
the detail map; `detail_size` is a constant defined outside `World.cpp`. -/
def detail_coord (detail_size : ℚ) (j i : Nat) : vector_2d :=
  ⟨if j % 2 ≠ 0 then detail_size / 8 * i + 1 / 2 * detail_size / 8 else detail_size / 8 * i,
    detail_size / 8 * j * (1 / 2)⟩

/-- The vector written by the body of the second fill loop (World.cpp 316-326), for
the alpha map; `TEXDETAILSIZE` and `MINICHUNKSIZE` are constants defined outside
`World.cpp`. -/
def alpha_coord (TEXDETAILSIZE MINICHUNKSIZE : ℚ) (j i : Nat) : vector_2d :=
  ⟨if j % 2 ≠ 0 then
      TEXDETAILSIZE / MINICHUNKSIZE * i * 2 + TEXDETAILSIZE / MINICHUNKSIZE
    else TEXDETAILSIZE / MINICHUNKSIZE * i * 2,
    TEXDETAILSIZE / MINICHUNKSIZE * j⟩

/-- `World::initGlobalVBOs` (World.cpp 287-331): the contents handed to the two
buffers, or nothing when one of the buffers exists already; the outer `none`
stands for a write outside `temp`.  `temp` is the array as it is found, `vt` is
set to its start before each loop. -/
def initGlobalVBOs (detail_size TEXDETAILSIZE MINICHUNKSIZE : ℚ)
    (pDetailTexCoords pAlphaTexCoords : Nat) (temp : Nat → vector_2d) :
    Option (Option ((Nat → vector_2d) × (Nat → vector_2d))) :=
  if pDetailTexCoords = 0 ∧ pAlphaTexCoords = 0 then
    (fill_loop (detail_coord detail_size) ⟨temp, 0⟩).bind
      (fun s₁ =>
        (fill_loop (alpha_coord TEXDETAILSIZE MINICHUNKSIZE) ⟨s₁.temp, 0⟩).bind
          (fun s₂ => some (some (s₁.temp, s₂.temp))))
  else some none

/-- The index of the first vertex of row `j` in the layout of 9 and 8 vertices per
row. -/
def row_start (j : Nat) : Nat := 9 * ((j + 1) / 2) + 8 * (j / 2)

/-- The state `s'` comes from `s` by `n` writes of the vectors `c 0`, ...,
`c (n - 1)`. -/
def Wrote (c : Nat → vector_2d) (n : Nat) (s s' : FillState) : Prop :=
  s'.vt = s.vt + n ∧
  ∀ k, s'.temp k = if s.vt ≤ k ∧ k < s.vt + n then c (k - s.vt) else s.temp k

/-- `TextureManager::get` (TextureManager.cpp 24-28): the value returned and the
manager afterwards.  `names` is a `std::map<std::string, GLuint>`
(TextureManager.cpp 58) and `names[name]` is its `operator[]`, which inserts the
key with the value 0 when the key is absent. -/
def TextureManager.get (name : String) (tm : TextureManager) : Nat × TextureManager :=
  match tm.names (name.map Char.toLower) with
  | some id => (id, tm)
  | none =>
      (0, { tm with names := fun n => if n = name.map Char.toLower then some 0 else tm.names n })

/-- The colour bytes of a decoded pixel: the palette entry `p` without its top
byte and with its red and blue bytes swapped. -/
def swizzle (p : Nat) : Nat :=
  ((p >>> 16) &&& 0xFF) ||| (p &&& 0xFF00) ||| ((p &&& 0xFF) <<< 16)

/-! ## Duplicate instances -/

/-- The test of the loop over `mWMOInstances` in
`World::delete_duplicate_model_and_wmo_instances` (World.cpp 2021-2024). -/
def wmo_duplicate (lhs rhs : WMOInstance) : Bool :=
  decide (lhs.pos = rhs.pos) && decide (lhs.dir = rhs.dir) && decide (lhs.filename = rhs.filename)

/-- The test of the loop over `mModelInstances` in
`World::delete_duplicate_model_and_wmo_instances` (World.cpp 2037-2041). -/
def model_duplicate (lhs rhs : ModelInstance) : Bool :=
  decide (lhs.pos = rhs.pos) && decide (lhs.dir = rhs.dir) && decide (lhs.scale = rhs.scale)
    && decide (lhs.filename = rhs.filename)

/-- The loop `for (auto rhs (std::next (lhs)); rhs != end; ++rhs)` for one
`lhs`: `rest` are the entries after `lhs`; the `std::unordered_set<int>` is a
list without repetition and `emplace` is `List.insert`. -/
def duplicates_of {α : Type} (dup : α → α → Bool) (uid : α → Int) (lhs : Int × α)
    (rest : List (Int × α)) (to_remove : List Int) : List Int :=
  rest.foldl (fun acc rhs => if dup lhs.2 rhs.2 then acc.insert (uid rhs.2) else acc) to_remove

/-- The loop `for (auto lhs (begin); lhs != end; ++lhs)` around it. -/
def duplicates_loop {α : Type} (dup : α → α → Bool) (uid : α → Int) :
    List (Int × α) → List Int → List Int
  | [], to_remove => to_remove
  | lhs :: rest, to_remove =>
      duplicates_loop dup uid rest (duplicates_of dup uid lhs rest to_remove)

/-- `World::delete_duplicate_model_and_wmo_instances` (World.cpp 2010-2061).
`order` is the order in which a `std::unordered_set<int>` is iterated, which the
language leaves to the implementation.  The closing call of
`update_models_by_filename` rebuilds an index of the models by filename and
leaves the two maps alone. -/
def delete_duplicate_model_and_wmo_instances (order : List Int → List Int)
    (w : World ObjectState) : World ObjectState :=
  let wmos_to_remove :=
    duplicates_loop wmo_duplicate (fun i => i.mUniqueID) w.st.mWMOInstances []
  let models_to_remove :=
    duplicates_loop model_duplicate (fun i => i.uid) w.st.mModelInstances []
  let w := (order wmos_to_remove).foldl (fun w uid => deleteWMOInstance uid w) w
  (order models_to_remove).foldl (fun w uid => deleteModelInstance uid w) w

section Center
variable {τ : Type}

/-- `World::vertexCenter` (World.cpp 2465-2473): the vector returned and the
members afterwards. -/
def vertexCenter (e : EditState τ) : vector_3d × EditState τ :=
  if !e._vertex_center_updated then
    ((updateVertexCenter e)._vertex_center, updateVertexCenter e)
  else (e._vertex_center, e)

/-- The arithmetic mean of the current positions of the selected vertices, in the
words of the specification: the sum of the positions divided by their number. -/
def selected_mean (e : EditState τ) : vector_3d :=
  ⟨(e._vertices_selected.map (fun v => (e.terrain.mVertices v).x)).sum
      / (e._vertices_selected.length : ℚ),
    (e._vertices_selected.map (fun v => (e.terrain.mVertices v).y)).sum
      / (e._vertices_selected.length : ℚ),
    (e._vertices_selected.map (fun v => (e.terrain.mVertices v).z)).sum
      / (e._vertices_selected.length : ℚ)⟩

end Center

/-! ## Script selections -/

/-- The members of `script_selection` that `script_selection.cpp` reads and
writes in the functions below: the box and the chunk iterator.  `_chunks` is the
array that `_chunks` points to, empty for the null pointer.  The members `_world`
and `_models` are left out; they do not take part in what follows. -/
structure script_selection where
  _center : ieee_vector_3d
  _min : ieee_vector_3d
  _max : ieee_vector_3d
  _size : ieee_vector_3d
  _cur_chunk : Int
  _chunks : List MapChunk
  _chunks_size : Nat
  _initialized_chunks : Bool

/-- `select_between` (script_selection.cpp 23-39). -/
def select_between (sel : script_selection) (point1 point2 : ieee_vector_3d) :
    script_selection :=
  let _min : ieee_vector_3d :=
    ⟨std_min point1.x point2.x, std_min point1.y point2.y, std_min point1.z point2.z⟩
  let _max : ieee_vector_3d :=
    ⟨std_max point1.x point2.x, std_max point1.y point2.y, std_max point1.z point2.z⟩
  let _size := _max.sub _min
  { sel with
    _min := _min
    _max := _max
    _size := _size
    _center := _min.add (_size.div (float32.fin 2)) }

/-- `select_origin` (script_selection.cpp 16-21). -/
def select_origin (sel : script_selection) (origin : ieee_vector_3d)
    (xRadius zRadius : float32) : script_selection :=
  select_between sel ⟨origin.x.sub xRadius, float32.fin 0, origin.z.sub zRadius⟩
    ⟨origin.x.add xRadius, float32.fin 0, origin.z.add zRadius⟩

/-- `is_on_chunk` (script_selection.cpp 46-49).  `_cur_chunk` and `_chunks_size`
are declared in `script_selection.hpp`; `_cur_chunk` is assigned `-1`, so it is
signed, and `_chunks_size` takes a `size ()`.  `conv` is the
conversion that the comparison applies to `_cur_chunk`: the identity when the
comparison is signed, the reduction modulo a power of two when `_chunks_size` is
unsigned. -/
def is_on_chunk (conv : Int → Int) (sel : script_selection) : Bool :=
  decide (conv sel._cur_chunk < (sel._chunks_size : Int))

/-- `sel_next_chunk` (script_selection.cpp 51-70).  `select_all_chunks_between` is
the member of `World` of that name, which fills the vector `chunks`; it is
implemented outside `script_selection.cpp`.  `queries` counts the calls of it; the
result is the value returned, the selection and the count afterwards. -/
def sel_next_chunk (select_all_chunks_between : ieee_vector_3d → ieee_vector_3d → List MapChunk)
    (conv : Int → Int) (sel : script_selection) (queries : Nat) :
    Bool × script_selection × Nat :=
  let r : script_selection × Nat :=
    if !sel._initialized_chunks then
      ({ sel with
          _chunks := select_all_chunks_between sel._min sel._max
          _chunks_size := (select_all_chunks_between sel._min sel._max).length
          _initialized_chunks := true },
        queries + 1)
    else (sel, queries)
  let sel := { r.1 with _cur_chunk := r.1._cur_chunk + 1 }
  (is_on_chunk conv sel, sel, r.2)

/-- `sel_reset_chunk_itr` (script_selection.cpp 72-75). -/
def sel_reset_chunk_itr (sel : script_selection) : script_selection :=
  { sel with _cur_chunk := -1 }

/-- `sel_get_chunk` (script_selection.cpp 77-80): the chunk that the
`script_chunk` returned refers to, `none` when the index lies outside the array. -/
def sel_get_chunk (sel : script_selection) : Option MapChunk :=
  if 0 ≤ sel._cur_chunk then sel._chunks.get? sel._cur_chunk.toNat else none

/-- The selection and the number of queries after `k` calls of `sel_next_chunk`. -/
def after_next_chunk (select_all_chunks_between : ieee_vector_3d → ieee_vector_3d → List MapChunk)
    (conv : Int → Int) : Nat → script_selection × Nat → script_selection × Nat
  | 0, s => s
  | k + 1, s =>
      (sel_next_chunk select_all_chunks_between conv
        (after_next_chunk select_all_chunks_between conv k s).1
        (after_next_chunk select_all_chunks_between conv k s).2).2

/-- The chunks that the selection iterates over: the array it already holds, or
what the query returns when it holds none yet. -/
def queried_chunks (select_all_chunks_between : ieee_vector_3d → ieee_vector_3d → List MapChunk)
    (sel : script_selection) : List MapChunk :=
  if sel._initialized_chunks then sel._chunks else select_all_chunks_between sel._min sel._max

/-- The call number `k + 1` of `sel_next_chunk` after `sel_reset_chunk_itr`: the
value returned, the selection and the number of queries afterwards. -/
def next_chunk_call (select_all_chunks_between : ieee_vector_3d → ieee_vector_3d → List MapChunk)
    (conv : Int → Int) (sel : script_selection) (queries k : Nat) :
    Bool × script_selection × Nat :=
  sel_next_chunk select_all_chunks_between conv
    (after_next_chunk select_all_chunks_between conv k (sel_reset_chunk_itr sel, queries)).1
    (after_next_chunk select_all_chunks_between conv k (sel_reset_chunk_itr sel, queries)).2

/-! ## The mip loops of `LoadBLP` with the conditions under which C++ defines them -/

/-- The largest `int`. -/
def INT_MAX : Int := 2147483647

/-- The smallest `int`. -/
def INT_MIN : Int := -2147483648

/-- The result of an operation on `int`s whose exact value is `x`: outside the range
of `int` the operation overflows, which C++ leaves undefined. -/
def int_value (x : Int) : Except Fault Int :=
  if INT_MIN ≤ x ∧ x ≤ INT_MAX then .ok x else .error Fault.signed_overflow

/-- The expression `((w + 3) / 4) * ((h + 3) / 4) * blocksize` of the compressed path
(TextureManager.cpp 166), evaluated in `int`. -/
def compressed_size (w h blocksize : Int) : Except Fault Int :=
  (int_value (w + 3)).bind fun a =>
    (int_value (h + 3)).bind fun b =>
      (int_value (Int.tdiv a 4 * Int.tdiv b 4)).bind fun p => int_value (p * blocksize)

/-- The loop of the compressed path (TextureManager.cpp 160-172) from level `i` on,
with `todo` levels to go, with the arithmetic in `int`: the GL calls made, or the
fault at which the run leaves defined behaviour. -/
def compressed_levels_checked (f : MPQFile) (format blocksize : Int) :
    Nat → Nat → Int → Int → List GLCall → Except Fault (List GLCall)
  | 0, _, _, _, gl => .ok gl
  | todo + 1, i, w, h, gl =>
      if f.header.offsets i ≠ 0 ∧ f.header.sizes i ≠ 0 then
        match compressed_size (if w = 0 then 1 else w) (if h = 0 then 1 else h) blocksize with
        | .error e => .error e
        | .ok size =>
            compressed_levels_checked f format blocksize todo (i + 1)
              ((if w = 0 then 1 else w) >>> 1) ((if h = 0 then 1 else h) >>> 1)
              (gl ++ [GLCall.compressedTexImage2D i format (if w = 0 then 1 else w)
                (if h = 0 then 1 else h) size (f.header.offsets i)])
      else .ok gl

/-- The loop of the palettised path (TextureManager.cpp 101-139) from level `i` on,
with `todo` levels to go.  `buf2_size` is the number of entries of `buf2`, which
was allocated before the loop (TextureManager.cpp 94).  The two inner loops write
`buf2[0]`, ..., `buf2[w * h - 1]` for the `w` and `h` of the level; `a = buf + w*h`
computes the product in `int`. -/
def palettised_levels_checked (f : MPQFile) (ind : Indeterminate) (alphabits buf2_size : Int) :
    Nat → Nat → Int → Int → (Nat → Nat) → List GLCall → Except Fault (List GLCall)
  | 0, _, _, _, _, gl => .ok gl
  | todo + 1, i, w, h, buf, gl =>
      if f.header.offsets i ≠ 0 ∧ f.header.sizes i ≠ 0 then
        match int_value ((if w = 0 then 1 else w) * (if h = 0 then 1 else h)) with
        | .error e => .error e
        | .ok _ =>
            if buf2_size <
                (((if w = 0 then (1 : Int) else w).toNat * (if h = 0 then (1 : Int) else h).toNat
                  : Nat) : Int) then
              .error Fault.heap_overflow
            else
              palettised_levels_checked f ind alphabits buf2_size todo (i + 1)
                ((if w = 0 then 1 else w) >>> 1) ((if h = 0 then 1 else h) >>> 1)
                (f.read (f.header.offsets i) (f.header.sizes i) buf)
                (gl ++ [GLCall.texImage2D i (if w = 0 then 1 else w) (if h = 0 then 1 else h)
                  (palettised_image f ind alphabits i (if w = 0 then 1 else w)
                    (if h = 0 then 1 else h)
                    (f.read (f.header.offsets i) (f.header.sizes i) buf))])
      else .ok gl

/-- The `switch` of `LoadBLP` (TextureManager.cpp 86-176) with the allocations
`new unsigned char[lHeader->sizes[0]]` and `new unsigned int[w*h]` of the
palettised path, which come before `w` and `h` are raised to 1, and with the
arithmetic in `int`: the GL calls after the switch, or the fault at which the run
leaves defined behaviour.  `LoadBLP_switch` gives the calls of a run that does not
fault. -/
def LoadBLP_switch_checked (f : MPQFile) (ind : Indeterminate) (gl : List GLCall) :
    Except Fault (List GLCall) :=
  if f.header.attr_0_compression = 1 then
    if f.header.sizes 0 < 0 then .error Fault.bad_array_length
    else
      match int_value (f.header.resx * f.header.resy) with
      | .error e => .error e
      | .ok n =>
          if n < 0 then .error Fault.bad_array_length
          else
            palettised_levels_checked f ind f.header.attr_1_alphadepth n 16 0 f.header.resx
              f.header.resy ind.buf gl
  else if f.header.attr_0_compression = 2 then
    compressed_levels_checked f
      (if alphatypes (f.header.attr_2_alphatype % 4) = GL_COMPRESSED_RGB_S3TC_DXT1_EXT then
        (if f.header.attr_1_alphadepth = 1 then GL_COMPRESSED_RGBA_S3TC_DXT1_EXT
          else GL_COMPRESSED_RGB_S3TC_DXT1_EXT)
        else alphatypes (f.header.attr_2_alphatype % 4))
      (blocksizes (f.header.attr_2_alphatype % 4)) 16 0 f.header.resx f.header.resy gl
  else .ok gl

/-- The point whose coordinates are the finite floats with the values of `v`. -/
def finite_point (v : vector_3d) : ieee_vector_3d :=
  ⟨float32.fin v.x, float32.fin v.y, float32.fin v.z⟩

/-! ## A small world used to instantiate the general statements -/

/-- An index holding the two tiles (0,0) and (1,0), none of them changed. -/
def sampleIndex : MapIndex where
  loaded := fun t => decide (t = ⟨0, 0⟩) || decide (t = ⟨1, 0⟩)
  changed := fun _ => false

/-- A brush stroke on the border of the two tiles: it reaches the chunks (15,0)
and (15,1) of tile (0,0) and the chunk (0,0) of tile (1,0). -/
def sampleQuery : RangeQuery where
  tiles_in_range := fun _ _ _ => [⟨⟨0, 0⟩⟩, ⟨⟨1, 0⟩⟩]
  chunks_in_range := fun tile _ _ => if tile.index.x = 0 then [(15, 0), (15, 1)] else [(0, 0)]

/-- An index that holds no tile. -/
def emptyIndex : MapIndex where
  loaded := fun _ => false
  changed := fun _ => false

/-- A query that finds nothing in range. -/
def emptyQuery : RangeQuery where
  tiles_in_range := fun _ _ _ => []
  chunks_in_range := fun _ _ _ => []

/-- A mutation functor on a counter: it reports a change on the chunks of row 0. -/
def sampleFun (chunk : MapChunk) (n : Nat) : Bool × Nat := (decide (chunk.py = 0), n + 1)

/-- A post-pass on the same counter. -/
def samplePost (_chunk : MapChunk) (n : Nat) : Nat := n + 100

/-- A stand-in for `misc::dist` on the sample terrain: the sum of the coordinate
differences, which is 0 exactly when the Euclidean distance is. -/
def sampleDist (a b : vector_3d) : ℚ := |a.x - b.x| + |a.y - b.y| + |a.z - b.z|

/-- The functions of `misc` used with the sample terrain. -/
def sampleMisc : Misc where
  dist := sampleDist
  angledHeight := fun _ v _ _ => v.y

/-- A terrain all of whose vertices sit at the origin. -/
def sampleTerrain : Terrain Unit where
  mVertices := fun _ => ⟨0, 0, 0⟩
  rest := ()

/-- Members whose `selectVertex` adds the vertices of the chunk that lie within
the radius, as the spec describes it; the others are idle. -/
def selectOps : MapChunkOps (Terrain Unit) :=
  { MapChunkOps.idle (Terrain Unit) with
    selectVertex := fun chunk pos radius t sel =>
      (List.range 145).foldl
        (fun sel i =>
          if sampleDist (t.mVertices ⟨chunk, i⟩) pos ≤ radius then sel.insert ⟨chunk, i⟩ else sel)
        sel }

/-- The sample terrain with nothing selected. -/
def sampleEdit : EditState Unit where
  terrain := sampleTerrain
  _vertices_selected := []
  _vertex_chunks := []
  _vertex_tiles := []
  _vertex_border_chunks := []
  _vertex_center := ⟨0, 0, 0⟩
  _vertex_center_updated := false
  _vertex_border_updated := false

/-- The world after this sequence of calls on the sample world: `selectVertices`
around the origin, `deselectVertices` with the same brush, and a save of the two
tiles, which clears their changed flags (`unsetChanged`, as in
`World::convert_alphamap`). -/
def deselectedWorld : World (EditState Unit) :=
  let w₁ := selectVertices sampleQuery selectOps ⟨0, 0, 0⟩ 5 ⟨sampleIndex, sampleEdit⟩
  let w₂ := (deselectVertices sampleMisc ⟨0, 0, 0⟩ 5 w₁).2
  ⟨(w₂.mapIndex.unsetChanged ⟨0, 0⟩).unsetChanged ⟨1, 0⟩, w₂.st⟩

/-- An index holding the tiles (1,0), (0,1) and (1,1) around a corner whose fourth
tile (0,0) is not loaded. -/
def cornerIndex : MapIndex where
  loaded := fun t => decide (t = ⟨1, 0⟩) || decide (t = ⟨0, 1⟩) || decide (t = ⟨1, 1⟩)
  changed := fun _ => false

/-- A flat terrain at height 0, but for the bottom-left corner vertex (number 136)
of chunk (0,15) of tile (1,0), which is at height 1. -/
def cornerTerrain : Terrain Unit where
  mVertices := fun p =>
    if p = ⟨⟨⟨⟨1, 0⟩⟩, 0, 15⟩, 136⟩ then ⟨0, 1, 0⟩ else ⟨0, 0, 0⟩
  rest := ()

/-- A model instance whose extents lie in tile (0,0). -/
def sampleModel : ModelInstance where
  uid := 7
  pos := ⟨0, 0, 0⟩
  dir := ⟨0, 0, 0⟩
  scale := 1
  filename := "tree.m2"
  extents := (⟨0, 0, 0⟩, ⟨0, 0, 0⟩)

/-- A map-object instance whose extents lie in tile (0,0). -/
def sampleWMO : WMOInstance where
  mUniqueID := 9
  pos := ⟨0, 0, 0⟩
  dir := ⟨0, 0, 0⟩
  filename := "inn.wmo"
  extents := (⟨0, 0, 0⟩, ⟨0, 0, 0⟩)

/-- A world holding the two sample instances. -/
def sampleObjects : World ObjectState where
  mapIndex := sampleIndex
  st := { mModelInstances := [(7, sampleModel)], mWMOInstances := [(9, sampleWMO)],
          mCurrentSelection := none }

/-- A world holding the sample model and no map object. -/
def modelOnlyObjects : World ObjectState where
  mapIndex := sampleIndex
  st := { mModelInstances := [(7, sampleModel)], mWMOInstances := [],
          mCurrentSelection := none }

/-- Members of `MapTile` that leave the state alone. -/
def MapTileOps.idle (σ : Type) : MapTileOps σ where
  CropWater := fun _ s => s
  setType := fun _ _ _ s => s
  autoGen := fun _ _ s => s
  convert_alphamap := fun _ _ s => s
  saveTile := fun _ _ s => s

/-- Chunk queries of a flat map in area 7 at height 0. -/
def sampleQueries : MapChunkQueries Unit where
  getAreaID := fun _ _ => 7
  getMinHeight := fun _ _ => 0

/-- A header of a file without content. -/
def emptyHeader : BLPHeader where
  magix := 0
  version := 0
  attr_0_compression := 0
  attr_1_alphadepth := 0
  attr_2_alphatype := 0
  attr_3_mipmaplevels := 0
  resx := 0
  resy := 0
  offsets := fun _ => 0
  sizes := fun _ => 0

/-- A file system in which no file can be opened: every `MPQFile` is at EOF at
once. -/
def noFiles : String → MPQFile :=
  fun _ => ⟨true, false, emptyHeader, fun _ => 0, fun _ => 0⟩

/-- Indeterminate values that happen to be 0. -/
def zeroIndeterminate : Indeterminate := ⟨fun _ _ => 0, fun _ => 0⟩

/-- A `do_add` that stores the id under the name and the item under the id. -/
def storing_do_add (name : String) (id : Nat) (item : Texture) (tm : TextureManager) :
    TextureManager :=
  { tm with
    names := fun n => if n = name then some id else tm.names n
    items := fun i => if i = id then some item else tm.items i }

/-- A texture manager that holds nothing. -/
def emptyManager : TextureManager := ⟨fun _ => none, fun _ => none, [], 0⟩

/-- The manager after `add ("Tileset/Grass.BLP")` on the empty manager, where the
file cannot be opened and `do_add` is `storing_do_add`. -/
def grassManager : TextureManager :=
  storing_do_add "tileset/grass.blp" 1 ⟨"tileset/grass.blp", "Tileset/Grass.BLP", 0, 0, 0, 0⟩
    { emptyManager with
      gl := [GLCall.genTextures 1, GLCall.bindTexture 1]
      generated := 1 }

/-- A palettised file of one pixel whose header gives the alpha depth 4: one mip
level, at offset 1172 behind the header and the palette; all bytes and palette
entries are 0. -/
def alpha4File : MPQFile where
  eof := false
  isExternal := false
  header :=
    { emptyHeader with
      attr_0_compression := 1
      attr_1_alphadepth := 4
      resx := 1
      resy := 1
      offsets := fun i => if i = 0 then 1172 else 0
      sizes := fun i => if i = 0 then 1 else 0 }
  pal := fun _ => 0
  bytes := fun _ => 0

/-- Indeterminate values that happen to be 0xFF where `alpha` is read. -/
def ffIndeterminate : Indeterminate := ⟨fun _ _ => 0xff, fun _ => 0⟩

/-- A compressed file of 4 by 2 pixels with three mip levels. -/
def dxt1File : MPQFile where
  eof := false
  isExternal := false
  header :=
    { emptyHeader with
      attr_0_compression := 2
      resx := 4
      resy := 2
      offsets := fun i => if i = 0 then 1172 else if i = 1 then 1180 else if i = 2 then 1188 else 0
      sizes := fun i => if i < 3 then 8 else 0 }
  pal := fun _ => 0
  bytes := fun _ => 0

/-- A second model instance at the place of `sampleModel`, with the id 8. -/
def sampleModelCopy : ModelInstance := { sampleModel with uid := 8 }

/-- A model instance elsewhere, with the id 11. -/
def otherModel : ModelInstance := { sampleModel with uid := 11, pos := ⟨1, 0, 0⟩ }

/-- A world with a model, its duplicate, a third model and one map object. -/
def duplicateObjects : World ObjectState where
  mapIndex := sampleIndex
  st := { mModelInstances := [(7, sampleModel), (8, sampleModelCopy), (11, otherModel)],
          mWMOInstances := [(9, sampleWMO)],
          mCurrentSelection := none }

/-- A brush stroke that reaches the chunk (0,0) of tile (0,0) only. -/
def oneChunkQuery : RangeQuery where
  tiles_in_range := fun _ _ _ => [⟨⟨0, 0⟩⟩]
  chunks_in_range := fun _ _ _ => [(0, 0)]

/-- A flat terrain at height 0 in which vertex number `i` of a chunk lies at
`x = i`. -/
def rampTerrain : Terrain Unit where
  mVertices := fun p => ⟨p.idx, 0, 0⟩
  rest := ()

/-- The ramp terrain with nothing selected. -/
def rampEdit : EditState Unit := { sampleEdit with terrain := rampTerrain }

/-- The world after `selectVertices` around the origin with radius 1, which selects
the vertices 0 and 1 of the chunk, `moveVertices (1)` and `flattenVertices (5)`. -/
def flattenedWorld : World (EditState Unit) :=
  flattenVertices selectOps 5
    (moveVertices selectOps 1
      (selectVertices oneChunkQuery selectOps ⟨0, 0, 0⟩ 1 ⟨sampleIndex, rampEdit⟩))

/-- A selection as `make_selector` returns it. -/
def freshSelection : script_selection where
  _center := ⟨.fin 0, .fin 0, .fin 0⟩
  _min := ⟨.fin 0, .fin 0, .fin 0⟩
  _max := ⟨.fin 0, .fin 0, .fin 0⟩
  _size := ⟨.fin 0, .fin 0, .fin 0⟩
  _cur_chunk := -1
  _chunks := []
  _chunks_size := 0
  _initialized_chunks := false

/-- A world whose chunk query returns the two chunks (0,0) and (1,0) of tile
(0,0). -/
def twoChunks (_ _ : ieee_vector_3d) : List MapChunk := [⟨⟨⟨0, 0⟩⟩, 0, 0⟩, ⟨⟨⟨0, 0⟩⟩, 1, 0⟩]

/-- A palettised file whose header gives the width 0 and the height 1, with one
mip level. -/
def zeroWidthFile : MPQFile where
  eof := false
  isExternal := false
  header :=
    { emptyHeader with
      attr_0_compression := 1
      resx := 0
      resy := 1
      offsets := fun i => if i = 0 then 1172 else 0
      sizes := fun i => if i = 0 then 1 else 0 }
  pal := fun _ => 0
  bytes := fun _ => 0

/-- A compressed file (DXT3) of 65536 by 65536 pixels, with one mip level. -/
def hugeFile : MPQFile where
  eof := false
  isExternal := false
  header :=
    { emptyHeader with
      attr_0_compression := 2
      attr_2_alphatype := 1
      resx := 65536
      resy := 65536
      offsets := fun i => if i = 0 then 1172 else 0
      sizes := fun i => if i = 0 then 16 else 0 }
  pal := fun _ => 0
  bytes := fun _ => 0

/-- The alpha-map sample of a texel whose three 8-bit weights are 0, 6 and 63: the
binary32 floats nearest to 0, 6/255 and 63/255. -/
def sampledAlpha : vec3 := ⟨0, 12632257 / 536870912, 16579837 / 67108864⟩

/-! ## Recording members -/

/-- The post-pass functor `p` appends one record per call to the log. -/
def PostRecords {τ : Type} (p : MapChunk → τ → τ) (log : τ → List Call) : Prop :=
  ∀ c s, log (p c s) = log s ++ [Call.post c]

/-- No call of the mutation functor follows a call of the post-pass. -/
def NoMutateAfterPost (log : List Call) : Prop :=
  ∀ pre c suf, log = pre ++ Call.post c :: suf → ∀ e ∈ suf, e.isMutate = false

/-- The members `ops` with the calls of the height mutations (`changeTerrain`,
`flattenTerrain`, `blurTerrain`, `clearHeight`) and of the texture brushes
recorded as mutation calls and the calls of `recalcNorms` recorded as post-pass
calls.  `clearHeight` returns `void`; its record carries `true`.  Every member
acts on the state exactly as in `ops`. -/
def MapChunkOps.traced {σ : Type} (ops : MapChunkOps σ) : MapChunkOps (σ × List Call) where
  changeTerrain := fun c pos change radius bt inner s =>
    ((ops.changeTerrain c pos change radius bt inner s.1).1,
      ((ops.changeTerrain c pos change radius bt inner s.1).2,
        s.2 ++ [Call.mutate c (ops.changeTerrain c pos change radius bt inner s.1).1]))
  flattenTerrain := fun c pos remain radius bt ft origin angle orientation s =>
    ((ops.flattenTerrain c pos remain radius bt ft origin angle orientation s.1).1,
      ((ops.flattenTerrain c pos remain radius bt ft origin angle orientation s.1).2,
        s.2 ++ [Call.mutate c
          (ops.flattenTerrain c pos remain radius bt ft origin angle orientation s.1).1]))
  blurTerrain := fun c pos remain radius bt sampler s =>
    ((ops.blurTerrain c pos remain radius bt (fun s' => sampler (s', s.2)) s.1).1,
      ((ops.blurTerrain c pos remain radius bt (fun s' => sampler (s', s.2)) s.1).2,
        s.2 ++ [Call.mutate c
          (ops.blurTerrain c pos remain radius bt (fun s' => sampler (s', s.2)) s.1).1]))
  recalcNorms := fun c sampler s =>
    (ops.recalcNorms c (fun s' => sampler (s', s.2)) s.1, s.2 ++ [Call.post c])
  clearHeight := fun c s => (ops.clearHeight c s.1, s.2 ++ [Call.mutate c true])
  paintTexture := fun c pos brush strength pressure texture s =>
    ((ops.paintTexture c pos brush strength pressure texture s.1).1,
      ((ops.paintTexture c pos brush strength pressure texture s.1).2,
        s.2 ++ [Call.mutate c (ops.paintTexture c pos brush strength pressure texture s.1).1]))
  replaceTexture := fun c pos radius old_texture new_texture s =>
    ((ops.replaceTexture c pos radius old_texture new_texture s.1).1,
      ((ops.replaceTexture c pos radius old_texture new_texture s.1).2,
        s.2 ++ [Call.mutate c (ops.replaceTexture c pos radius old_texture new_texture s.1).1]))
  eraseTextures := fun c s => (ops.eraseTextures c s.1, s.2)
  switchTexture := fun c o n s => (ops.switchTexture c o n s.1, s.2)
  setHole := fun c pos big hole s => (ops.setHole c pos big hole s.1, s.2)
  setAreaID := fun c id s => (ops.setAreaID c id s.1, s.2)
  change_texture_flag := fun c tex flag add s => (ops.change_texture_flag c tex flag add s.1, s.2)
  selectVertex := fun c pos radius s sel => ops.selectVertex c pos radius s.1 sel
  isBorderChunk := fun c sel s => ops.isBorderChunk c sel s.1
  fixVertices := fun c sel s => (ops.fixVertices c sel s.1, s.2)
  updateVerticesData := fun c s => (ops.updateVerticesData c s.1, s.2)
  fixGapLeft := fun c n s => ((ops.fixGapLeft c n s.1).1, ((ops.fixGapLeft c n s.1).2, s.2))
  fixGapAbove := fun c n s => ((ops.fixGapAbove c n s.1).1, ((ops.fixGapAbove c n s.1).2, s.2))
  GetVertex := fun t x z s => ops.GetVertex t x z s.1

/-! ## Height mutations and the recalculation of normals -/

/-- The members `ops` recorded as in `traced`, and in addition the calls of
`fixGapLeft` and `fixGapAbove` recorded as mutation calls on the chunk they are
called on, with the value they return, and the calls of `fixVertices` and
`updateVerticesData`, which return `void`, recorded as mutation calls that carry
`true`.  Every member acts on the state exactly as in `ops`. -/
def MapChunkOps.traced_heights {σ : Type} (ops : MapChunkOps σ) : MapChunkOps (σ × List Call) :=
  { ops.traced with
    fixVertices := fun c sel s => (ops.fixVertices c sel s.1, s.2 ++ [Call.mutate c true])
    updateVerticesData := fun c s => (ops.updateVerticesData c s.1, s.2 ++ [Call.mutate c true])
    fixGapLeft := fun c n s =>
      ((ops.fixGapLeft c n s.1).1,
        ((ops.fixGapLeft c n s.1).2, s.2 ++ [Call.mutate c (ops.fixGapLeft c n s.1).1]))
    fixGapAbove := fun c n s =>
      ((ops.fixGapAbove c n s.1).1,
        ((ops.fixGapAbove c n s.1).2, s.2 ++ [Call.mutate c (ops.fixGapAbove c n s.1).1])) }

/-- The selection sets cover the selection: the chunk of every selected vertex is
in `_vertex_chunks`, and while `_vertex_border_updated` is set the border chunks
are among `_vertex_chunks`.  `selectVertices` puts the chunk into `_vertex_chunks`
whenever it lets the chunk add vertices, and every change of the selection clears
`_vertex_border_updated`. -/
def SelectionClosed {τ : Type} (e : EditState τ) : Prop :=
  (∀ v ∈ e._vertices_selected, v.chunk ∈ e._vertex_chunks) ∧
  (e._vertex_border_updated = true → ∀ c ∈ e._vertex_border_chunks, c ∈ e._vertex_chunks)

/-- The accumulator `b` of a loop of `fixAllGaps` run with recording members
comes from the accumulator `a` by calls of gap fixes on chunks of `tile`: the log
grew by mutation calls on chunks of `tile`, the vector `chunks` grew by the chunks
whose call returned true, and `tileChanged` was set if a call returned true. -/
def GapLogged {σ : Type} (tile : MapTile) (a b : (σ × List Call) × List MapChunk × Bool) : Prop :=
  ∃ L, b.1.2 = a.1.2 ++ L ∧ (∀ e ∈ L, e.isMutate = true ∧ e.chunk.mt = tile) ∧
    (∀ c, c ∈ b.2.1 ↔ c ∈ a.2.1 ∨ Call.mutate c true ∈ L) ∧
    b.2.2 = (a.2.2 || L.any Call.reportsChange)

/-- The accumulator `b` of the loop over the tiles in `fixAllGaps` run with
recording members comes from the accumulator `a`: the log grew by mutation calls,
the vector `chunks` grew by the chunks whose call returned true, and a tile got
its changed flag set if a call on one of its chunks returned true. -/
def GapsLogged {σ : Type} (a b : MapIndex × (σ × List Call) × List MapChunk) : Prop :=
  ∃ L, b.2.1.2 = a.2.1.2 ++ L ∧ (∀ e ∈ L, e.isMutate = true) ∧
    (∀ c, c ∈ b.2.2 ↔ c ∈ a.2.2 ∨ Call.mutate c true ∈ L) ∧
    (∀ t, b.1.changed t =
      (a.1.changed t || L.any (fun e => e.reportsChange && decide (e.chunk.mt.index = t))))

/-- The accumulator `b` of a loop of `fixAllGaps` run with recording members is
the accumulator `a` of the same loop run with the members themselves, but for
the log. -/
def GapErased {σ : Type} (a : σ × List MapChunk × Bool)
    (b : (σ × List Call) × List MapChunk × Bool) : Prop :=
  b.1.1 = a.1 ∧ b.2 = a.2

end Noggit

namespace Noggit

/-! ## Facts about the loops of `for_all_chunks_in_range` -/

section LoopFacts
variable {σ τ : Type}

theorem records_traced (f : MapChunk → σ → Bool × σ) :
    Records (traced f) (fun s => s.2) := by
  intro c s
  rfl

theorem records_collecting (g : MapChunk → τ → Bool × τ) (log : τ → List Call)
    (hg : Records g log) : Records (collecting g) (fun s => log s.1) := by
  intro c s
  by_cases h : (g c s.1).1 = true
  · simp [collecting, h, hg c s.1]
  · simp [collecting, h, hg c s.1]

theorem postRecords_traced_post (post : MapChunk → σ → σ) :
    PostRecords (traced_post post) (fun s => s.2) := by
  intro c s
  rfl

theorem changedChunks_append (l₁ l₂ : List Call) :
    changedChunks (l₁ ++ l₂) = changedChunks l₁ ++ changedChunks l₂ := by
  induction l₁ with
  | nil => rfl
  | cons e l ih =>
    cases e with
    | mutate c b => cases b <;> simp [changedChunks, ih]
    | post c => simp [changedChunks, ih]

theorem mem_changedChunks {l : List Call} {c : MapChunk} :
    c ∈ changedChunks l ↔ Call.mutate c true ∈ l := by
  induction l with
  | nil => simp [changedChunks]
  | cons e l ih =>
    cases e with
    | mutate c' b => cases b <;> simp [changedChunks, ih]
    | post c' => simp [changedChunks, ih]

theorem changedChunks_sublist (l : List Call) :
    (changedChunks l).Sublist (l.map Call.chunk) := by
  induction l with
  | nil => simp [changedChunks]
  | cons e l ih =>
    cases e with
    | mutate c b =>
      cases b
      · simpa [changedChunks, Call.chunk] using ih.cons c
      · simpa [changedChunks, Call.chunk] using ih.cons₂ c
    | post c => simpa [changedChunks, Call.chunk] using ih.cons c

/-- What the inner loop does, read off the log of a recording functor. -/
theorem chunks_loop_log (g : MapChunk → τ → Bool × τ) (log : τ → List Call)
    (hg : Records g log) (tile : MapTile) :
    ∀ (cs : List MapChunk) (acc : Bool × World τ),
      ∃ L : List Call,
        log (chunks_loop g tile cs acc).2.st = log acc.2.st ++ L ∧
        L.map Call.chunk = cs ∧
        (∀ e ∈ L, e.isMutate = true) ∧
        (chunks_loop g tile cs acc).1 = (acc.1 || L.any Call.reportsChange) ∧
        (∀ t, (chunks_loop g tile cs acc).2.mapIndex.changed t
            = (acc.2.mapIndex.changed t || (decide (t = tile.index) && L.any Call.reportsChange))) ∧
        (chunks_loop g tile cs acc).2.mapIndex.loaded = acc.2.mapIndex.loaded := by
  intro cs
  induction cs with
  | nil =>
    intro acc
    exact ⟨[], by simp [chunks_loop]⟩
  | cons c cs ih =>
    intro acc
    by_cases hb : (g c acc.2.st).1 = true
    · obtain ⟨L, h1, h2, h3, h4, h5, h6⟩ :=
        ih (true, ⟨acc.2.mapIndex.setChanged tile, (g c acc.2.st).2⟩)
      refine ⟨Call.mutate c true :: L, ?_, ?_, ?_, ?_, ?_, ?_⟩
      · simp only [chunks_loop, hb, if_true]
        rw [h1, hg c acc.2.st, hb]
        simp
      · simp [Call.chunk, h2]
      · intro e he
        rcases List.mem_cons.1 he with rfl | he
        · rfl
        · exact h3 e he
      · simp only [chunks_loop, hb, if_true]
        rw [h4]
        simp [Call.reportsChange]
      · intro t
        simp only [chunks_loop, hb, if_true]
        rw [h5 t]
        by_cases ht : t = tile.index
        · simp [MapIndex.setChanged, MapIndex.setChangedAt, ht, Call.reportsChange]
        · simp [MapIndex.setChanged, MapIndex.setChangedAt, ht]
      · simp only [chunks_loop, hb, if_true]
        rw [h6]
        rfl
    · have hb' : (g c acc.2.st).1 = false := by simpa using hb
      obtain ⟨L, h1, h2, h3, h4, h5, h6⟩ :=
        ih (acc.1, ⟨acc.2.mapIndex, (g c acc.2.st).2⟩)
      refine ⟨Call.mutate c false :: L, ?_, ?_, ?_, ?_, ?_, ?_⟩
      · simp only [chunks_loop, hb', Bool.false_eq_true, if_false]
        rw [h1, hg c acc.2.st, hb']
        simp
      · simp [Call.chunk, h2]
      · intro e he
        rcases List.mem_cons.1 he with rfl | he
        · rfl
        · exact h3 e he
      · simp only [chunks_loop, hb', Bool.false_eq_true, if_false]
        rw [h4]
        simp [Call.reportsChange]
      · intro t
        simp only [chunks_loop, hb', Bool.false_eq_true, if_false]
        rw [h5 t]
        simp [Call.reportsChange]
      · simp only [chunks_loop, hb', Bool.false_eq_true, if_false]
        rw [h6]

theorem mt_of_mem_chunks (q : RangeQuery) (tile : MapTile) (pos : vector_3d) (radius : ℚ)
    {c : MapChunk} (hc : c ∈ q.chunks tile pos radius) : c.mt = tile := by
  unfold RangeQuery.chunks at hc
  obtain ⟨p, _, rfl⟩ := List.mem_map.1 hc
  rfl

theorem any_reportsChange_of_tile (tile : MapTile) (t : tile_index) :
    ∀ L : List Call, (∀ e ∈ L, e.chunk.mt = tile) →
      L.any (fun e => e.reportsChange && decide (e.chunk.mt.index = t))
        = (decide (t = tile.index) && L.any Call.reportsChange) := by
  intro L
  induction L with
  | nil => intro _; simp
  | cons e L ih =>
    intro h
    have he : e.chunk.mt = tile := h e (List.mem_cons_self _ _)
    have ih' := ih (fun e' he' => h e' (List.mem_cons_of_mem _ he'))
    rw [List.any_cons, ih', List.any_cons, he]
    by_cases ht : t = tile.index
    · subst ht; simp
    · have ht' : ¬ tile.index = t := fun h' => ht h'.symm
      simp [ht, ht']

/-- What the two nested loops do, read off the log of a recording functor. -/
theorem tiles_loop_log (q : RangeQuery) (pos : vector_3d) (radius : ℚ)
    (g : MapChunk → τ → Bool × τ) (log : τ → List Call) (hg : Records g log) :
    ∀ (tiles : List MapTile) (acc : Bool × World τ),
      ∃ L : List Call,
        log (tiles_loop q pos radius g tiles acc).2.st = log acc.2.st ++ L ∧
        L.map Call.chunk = q.visits pos radius tiles ∧
        (∀ e ∈ L, e.isMutate = true) ∧
        (tiles_loop q pos radius g tiles acc).1 = (acc.1 || L.any Call.reportsChange) ∧
        (∀ t, (tiles_loop q pos radius g tiles acc).2.mapIndex.changed t
            = (acc.2.mapIndex.changed t
                || L.any (fun e => e.reportsChange && decide (e.chunk.mt.index = t)))) ∧
        (tiles_loop q pos radius g tiles acc).2.mapIndex.loaded = acc.2.mapIndex.loaded := by
  intro tiles
  induction tiles with
  | nil =>
    intro acc
    exact ⟨[], by simp [tiles_loop, RangeQuery.visits]⟩
  | cons tile tiles ih =>
    intro acc
    obtain ⟨L₁, a1, a2, a3, a4, a5, a6⟩ :=
      chunks_loop_log g log hg tile (q.chunks tile pos radius) acc
    obtain ⟨L₂, b1, b2, b3, b4, b5, b6⟩ :=
      ih (chunks_loop g tile (q.chunks tile pos radius) acc)
    have hmt : ∀ e ∈ L₁, e.chunk.mt = tile := by
      intro e he
      apply mt_of_mem_chunks q tile pos radius
      rw [← a2]
      exact List.mem_map_of_mem _ he
    refine ⟨L₁ ++ L₂, ?_, ?_, ?_, ?_, ?_, ?_⟩
    · simp only [tiles_loop]
      rw [b1, a1, List.append_assoc]
    · simp [RangeQuery.visits, a2, b2]
    · intro e he
      rcases List.mem_append.1 he with he | he
      · exact a3 e he
      · exact b3 e he
    · simp only [tiles_loop]
      rw [b4, a4, List.any_append, Bool.or_assoc]
    · intro t
      simp only [tiles_loop]
      rw [b5 t, a5 t, List.any_append, any_reportsChange_of_tile tile t L₁ hmt, Bool.or_assoc]
    · simp only [tiles_loop]
      rw [b6, a6]

/-- A property of the state that every call of the functor keeps is kept by the
inner loop. -/
theorem chunks_loop_keeps (g : MapChunk → τ → Bool × τ) (P : τ → Prop)
    (hP : ∀ c s, P s → P (g c s).2) (tile : MapTile) :
    ∀ (cs : List MapChunk) (acc : Bool × World τ),
      P acc.2.st → P (chunks_loop g tile cs acc).2.st := by
  intro cs
  induction cs with
  | nil => intro acc h; exact h
  | cons c cs ih =>
    intro acc h
    by_cases hb : (g c acc.2.st).1 = true
    · simp only [chunks_loop, hb, if_true]
      exact ih _ (hP c _ h)
    · have hb' : (g c acc.2.st).1 = false := by simpa using hb
      simp only [chunks_loop, hb', Bool.false_eq_true, if_false]
      exact ih _ (hP c _ h)

/-- A property of the state that every call of the functor keeps is kept by the
two nested loops. -/
theorem tiles_loop_keeps (q : RangeQuery) (pos : vector_3d) (radius : ℚ)
    (g : MapChunk → τ → Bool × τ) (P : τ → Prop) (hP : ∀ c s, P s → P (g c s).2) :
    ∀ (tiles : List MapTile) (acc : Bool × World τ),
      P acc.2.st → P (tiles_loop q pos radius g tiles acc).2.st := by
  intro tiles
  induction tiles with
  | nil => intro acc h; exact h
  | cons tile tiles ih =>
    intro acc h
    simp only [tiles_loop]
    exact ih _ (chunks_loop_keeps g P hP tile _ acc h)

/-- The list `modified_chunks` holds the chunks that reported a change, the last
one first. -/
theorem collecting_keeps (g : MapChunk → τ → Bool × τ) (log : τ → List Call)
    (hg : Records g log) (c : MapChunk)
    (s : τ × List MapChunk) (h : s.2 = (changedChunks (log s.1)).reverse) :
    (collecting g c s).2.2 = (changedChunks (log (collecting g c s).2.1)).reverse := by
  by_cases hb : (g c s.1).1 = true
  · simp [collecting, hb, hg c s.1, changedChunks_append, changedChunks, h]
  · simp [collecting, hb, hg c s.1, changedChunks_append, changedChunks, h]

theorem post_loop_log (p : MapChunk → τ → τ) (log : τ → List Call) (hp : PostRecords p log) :
    ∀ (cs : List MapChunk) (s : τ),
      log (post_loop p cs s) = log s ++ cs.map Call.post := by
  intro cs
  induction cs with
  | nil => intro s; simp [post_loop]
  | cons c cs ih =>
    intro s
    simp [post_loop, ih, hp c s]

/-- The log of the two-functor overload run with recording functors: the calls
of the mutation functor on the visited chunks in visiting order, followed by the
calls of the post-pass on the chunks that reported a change, the last one
first. -/
theorem for_all_chunks_in_range_post_log (q : RangeQuery) (pos : vector_3d) (radius : ℚ)
    (g : MapChunk → τ → Bool × τ) (p : MapChunk → τ → τ) (log : τ → List Call)
    (hg : Records g log) (hp : PostRecords p log) (w : World τ) (h0 : log w.st = []) :
    ∃ L : List Call,
      log (for_all_chunks_in_range_post q pos radius g p w).2.st
        = L ++ (changedChunks L).reverse.map Call.post ∧
      L.map Call.chunk = q.visits pos radius (q.tiles_in_range w.mapIndex pos radius) ∧
      (∀ e ∈ L, e.isMutate = true) := by
  obtain ⟨L, h1, h2, h3, -, -, -⟩ :=
    tiles_loop_log q pos radius (collecting g) (fun s => log s.1)
      (records_collecting g log hg) (q.tiles_in_range w.mapIndex pos radius)
      (false, ⟨w.mapIndex, (w.st, [])⟩)
  have hinv := tiles_loop_keeps q pos radius (collecting g)
      (fun s => s.2 = (changedChunks (log s.1)).reverse)
      (fun c s h => collecting_keeps g log hg c s h)
      (q.tiles_in_range w.mapIndex pos radius) (false, ⟨w.mapIndex, (w.st, [])⟩)
      (by simp [h0, changedChunks])
  refine ⟨L, ?_, h2, h3⟩
  simp only [h0, List.nil_append] at h1
  simp only [for_all_chunks_in_range_post, for_all_chunks_in_range]
  rw [post_loop_log p log hp, hinv, h1]

theorem noMutateAfterPost_of_append (L P : List Call) (hL : ∀ e ∈ L, e.isMutate = true)
    (hP : ∀ e ∈ P, e.isMutate = false) : NoMutateAfterPost (L ++ P) := by
  intro pre c suf h e he
  rcases List.append_eq_append_iff.1 h with ⟨a, -, h2⟩ | ⟨a, h1, h2⟩
  · exact hP e (by rw [h2]; simp [he])
  · cases a with
    | nil =>
      simp only [List.nil_append] at h2
      exact hP e (by rw [← h2]; simp [he])
    | cons x a =>
      simp only [List.cons_append, List.cons.injEq] at h2
      have hx : x ∈ L := by rw [h1]; simp
      have := hL x hx
      rw [← h2.1] at this
      simp [Call.isMutate] at this

end LoopFacts

end Noggit

namespace Noggit

/-! ## The post-pass of `for_all_chunks_in_range` -/

section PostPass
variable {σ : Type}

theorem mem_log_mutate_iff {L : List Call} {cs : List MapChunk} {c : MapChunk} {b : Bool} :
    Call.mutate c b ∈ L ++ cs.map Call.post ↔ Call.mutate c b ∈ L := by
  simp

theorem count_post_of_mutates {L : List Call} (hL : ∀ e ∈ L, e.isMutate = true) (c : MapChunk) :
    L.count (Call.post c) = 0 := by
  rw [List.count_eq_zero]
  intro h
  have := hL _ h
  simp [Call.isMutate] at this

theorem count_post_map (cs : List MapChunk) (c : MapChunk) :
    (cs.map Call.post).count (Call.post c) = cs.count c := by
  induction cs with
  | nil => rfl
  | cons a cs ih =>
    by_cases h : a = c
    · subst h
      simp [ih]
    · have h' : ¬ Call.post c = Call.post a := by
        intro e
        exact h (Call.post.inj e).symm
      have h'' : ¬ c = a := fun e => h e.symm
      rw [List.map_cons, List.count_cons_of_ne h', List.count_cons_of_ne h'', ih]

/-- C1: when the chunks in range form a set (no chunk is met twice), the
two-functor `for_all_chunks_in_range` calls the mutation functor on exactly the
chunks in range, calls `post` exactly once on each chunk for which the mutation
functor returned true, and never on a chunk for which it returned false. -/
theorem post_pass_once_per_changed_chunk (q : RangeQuery) (pos : vector_3d) (radius : ℚ)
    (f : MapChunk → σ → Bool × σ) (post : MapChunk → σ → σ) (m : MapIndex) (s : σ)
    (hset : (q.visits pos radius (q.tiles_in_range m pos radius)).Nodup) (c : MapChunk) :
    (c ∈ q.visits pos radius (q.tiles_in_range m pos radius) ↔
      ∃ b, Call.mutate c b ∈
        (for_all_chunks_in_range_post q pos radius (traced f) (traced_post post)
          ⟨m, (s, [])⟩).2.st.2) ∧
    (Call.mutate c true ∈
        (for_all_chunks_in_range_post q pos radius (traced f) (traced_post post)
          ⟨m, (s, [])⟩).2.st.2 →
      List.count (Call.post c)
        (for_all_chunks_in_range_post q pos radius (traced f) (traced_post post)
          ⟨m, (s, [])⟩).2.st.2 = 1) ∧
    (Call.mutate c false ∈
        (for_all_chunks_in_range_post q pos radius (traced f) (traced_post post)
          ⟨m, (s, [])⟩).2.st.2 →
      Call.post c ∉
        (for_all_chunks_in_range_post q pos radius (traced f) (traced_post post)
          ⟨m, (s, [])⟩).2.st.2) := by
  obtain ⟨L, hlog, hvis, hmut⟩ :=
    for_all_chunks_in_range_post_log q pos radius (traced f) (traced_post post)
      (fun s => s.2) (records_traced f) (postRecords_traced_post post) ⟨m, (s, [])⟩ rfl
  simp only at hlog hvis
  rw [hlog, ← hvis]
  rw [← hvis] at hset
  have hnd : (changedChunks L).Nodup := (changedChunks_sublist L).nodup hset
  refine ⟨?_, ?_, ?_⟩
  · constructor
    · intro hc
      obtain ⟨e, he, rfl⟩ := List.mem_map.1 hc
      cases e with
      | mutate c' b => exact ⟨b, by simp [Call.chunk, he]⟩
      | post c' =>
        have := hmut _ he
        simp [Call.isMutate] at this
    · rintro ⟨b, hb⟩
      rw [mem_log_mutate_iff] at hb
      exact List.mem_map.2 ⟨_, hb, rfl⟩
  · intro hc
    rw [mem_log_mutate_iff] at hc
    have hmem : c ∈ changedChunks L := mem_changedChunks.2 hc
    rw [List.count_append, count_post_of_mutates hmut, count_post_map, List.count_reverse,
      zero_add]
    exact List.count_eq_one_of_mem hnd hmem
  · intro hc hpost
    rw [mem_log_mutate_iff] at hc
    rcases List.mem_append.1 hpost with h | h
    · have := hmut _ h
      simp [Call.isMutate] at this
    · obtain ⟨c', hc', hcc⟩ := List.mem_map.1 h
      have hcc' : c' = c := Call.post.inj hcc
      subst hcc'
      have htrue : Call.mutate c' true ∈ L := mem_changedChunks.1 (List.mem_reverse.1 hc')
      have := List.inj_on_of_nodup_map hset htrue hc rfl
      simp at this

end PostPass

end Noggit

namespace Noggit

/-! ## Mutations come before the post-pass -/

section Ordering
variable {σ τ : Type}

theorem ordered_of_records (q : RangeQuery) (pos : vector_3d) (radius : ℚ)
    (g : MapChunk → τ → Bool × τ) (p : MapChunk → τ → τ) (log : τ → List Call)
    (hg : Records g log) (hp : PostRecords p log) (w : World τ) (h0 : log w.st = []) :
    NoMutateAfterPost (log (for_all_chunks_in_range_post q pos radius g p w).2.st) := by
  obtain ⟨L, hlog, -, hmut⟩ := for_all_chunks_in_range_post_log q pos radius g p log hg hp w h0
  rw [hlog]
  apply noMutateAfterPost_of_append L _ hmut
  intro e he
  obtain ⟨c, -, rfl⟩ := List.mem_map.1 he
  rfl

/-- A counted loop whose body only appends records of one kind appends only
records of that kind. -/
theorem for_upto_appends (log : τ → List Call) (P : Call → Prop) (body : Nat → τ → τ)
    (hbody : ∀ i s, ∃ L, log (body i s) = log s ++ L ∧ ∀ e ∈ L, P e) (n : Nat) (s : τ) :
    ∃ L, log (for_upto n body s) = log s ++ L ∧ ∀ e ∈ L, P e := by
  unfold for_upto
  generalize List.range n = is
  induction is generalizing s with
  | nil => exact ⟨[], by simp⟩
  | cons i is ih =>
    obtain ⟨L₁, h1, h1'⟩ := hbody i s
    obtain ⟨L₂, h2, h2'⟩ := ih (body i s)
    refine ⟨L₁ ++ L₂, ?_, ?_⟩
    · rw [List.foldl_cons, h2, h1, List.append_assoc]
    · intro e he
      rcases List.mem_append.1 he with h | h
      · exact h1' e h
      · exact h2' e h

theorem postRecords_recalc_norms (ops : MapChunkOps σ) (m : MapIndex) :
    PostRecords (fun chunk => recalc_norms ops.traced m chunk) (fun s => s.2) :=
  fun _ _ => rfl

theorem getTile_setChanged (m : MapIndex) (tile : MapTile) (t : tile_index) :
    (m.setChanged tile).getTile t = m.getTile t := rfl

/-- C2: in the two-functor `for_all_chunks_in_range` and in `changeTerrain`,
`flattenTerrain` and `blurTerrain`, for every brush position, loaded or not, no
call of the mutation follows a call of the post-pass (the recalculation of
normals): all mutations of the batch come first.  The same holds of `clearHeight`
whenever the index holds the tile of the position, which is when it returns. -/
theorem no_mutation_after_post_pass (q : RangeQuery) (ops : MapChunkOps σ) (pos : vector_3d)
    (radius : ℚ) (f : MapChunk → σ → Bool × σ) (post : MapChunk → σ → σ)
    (change inner_radius remain : ℚ) (BrushType flattenType : Int) (origin : vector_3d)
    (angle orientation : ℚ) (m : MapIndex) (s : σ) :
    NoMutateAfterPost
      (for_all_chunks_in_range_post q pos radius (traced f) (traced_post post)
        ⟨m, (s, [])⟩).2.st.2 ∧
    NoMutateAfterPost
      (changeTerrain q ops.traced pos change radius BrushType inner_radius ⟨m, (s, [])⟩).st.2 ∧
    NoMutateAfterPost
      (flattenTerrain q ops.traced pos remain radius BrushType flattenType origin angle
        orientation ⟨m, (s, [])⟩).st.2 ∧
    NoMutateAfterPost
      (blurTerrain q ops.traced pos remain radius BrushType ⟨m, (s, [])⟩).st.2 ∧
    ∀ tile, m.getTile (tile_index.ofPos pos) = some tile →
      ∃ w, clearHeight ops.traced pos ⟨m, (s, [])⟩ = .ok w ∧ NoMutateAfterPost w.st.2 := by
  refine ⟨?_, ?_, ?_, ?_, fun tile htile => ?_⟩
  · exact ordered_of_records q pos radius (traced f) (traced_post post) (fun s => s.2)
      (records_traced f) (postRecords_traced_post post) ⟨m, (s, [])⟩ rfl
  · exact ordered_of_records q pos radius
      (fun chunk => ops.traced.changeTerrain chunk pos change radius BrushType inner_radius)
      (fun chunk => recalc_norms ops.traced m chunk) (fun s => s.2)
      (fun _ _ => rfl) (postRecords_recalc_norms ops m) ⟨m, (s, [])⟩ rfl
  · exact ordered_of_records q pos radius
      (fun chunk => ops.traced.flattenTerrain chunk pos remain radius BrushType flattenType
        origin angle orientation)
      (fun chunk => recalc_norms ops.traced m chunk) (fun s => s.2)
      (fun _ _ => rfl) (postRecords_recalc_norms ops m) ⟨m, (s, [])⟩ rfl
  · exact ordered_of_records q pos radius
      (fun chunk => ops.traced.blurTerrain chunk pos remain radius BrushType
        (height_sampler ops.traced m))
      (fun chunk => recalc_norms ops.traced m chunk) (fun s => s.2)
      (fun _ _ => rfl) (postRecords_recalc_norms ops m) ⟨m, (s, [])⟩ rfl
  · obtain ⟨L₁, h1, h1'⟩ := for_upto_appends (fun s : σ × List Call => s.2)
      (fun e => e.isMutate = true)
      (fun ty => for_upto 16 (fun tx => ops.traced.clearHeight (tile.getChunk ty tx)))
      (fun ty s => for_upto_appends (fun s : σ × List Call => s.2) (fun e => e.isMutate = true)
        (fun tx => ops.traced.clearHeight (tile.getChunk ty tx))
        (fun tx s => ⟨[Call.mutate (tile.getChunk ty tx) true], rfl, by simp [Call.isMutate]⟩)
        16 s)
      16 (s, [])
    obtain ⟨L₂, h2, h2'⟩ := for_upto_appends (fun s : σ × List Call => s.2)
      (fun e => e.isMutate = false)
      (fun ty => for_upto 16 (fun tx =>
        recalc_norms ops.traced (m.setChanged tile) (tile.getChunk ty tx)))
      (fun ty s => for_upto_appends (fun s : σ × List Call => s.2) (fun e => e.isMutate = false)
        (fun tx => recalc_norms ops.traced (m.setChanged tile) (tile.getChunk ty tx))
        (fun tx s => ⟨[Call.post (tile.getChunk ty tx)], rfl, by simp [Call.isMutate]⟩)
        16 s)
      16 (for_upto 16 (fun ty => for_upto 16 (fun tx =>
        ops.traced.clearHeight (tile.getChunk ty tx))) (s, []))
    refine ⟨⟨(m.setChanged tile).setChanged tile,
      for_upto 16 (fun ty => for_upto 16 (fun tx =>
        recalc_norms ops.traced (m.setChanged tile) (tile.getChunk ty tx)))
        (for_upto 16 (fun ty => for_upto 16 (fun tx =>
          ops.traced.clearHeight (tile.getChunk ty tx))) (s, []))⟩, ?_, ?_⟩
    · simp only [clearHeight, for_all_chunks_on_tile, htile, Except.bind, getTile_setChanged]
    · simp only at h1 h2 ⊢
      rw [h2, h1, List.nil_append]
      exact noMutateAfterPost_of_append L₁ L₂ h1' h2'

end Ordering

end Noggit

namespace Noggit

/-! ## What the one-functor overload marks and returns -/

section Marking
variable {σ τ : Type}

theorem reportsChange_iff (e : Call) : e.reportsChange = true ↔ ∃ c, e = Call.mutate c true := by
  cases e with
  | mutate c b => cases b <;> simp [Call.reportsChange]
  | post c => simp [Call.reportsChange]

theorem any_reportsChange_iff (L : List Call) :
    L.any Call.reportsChange = true ↔ ∃ c, Call.mutate c true ∈ L := by
  rw [List.any_eq_true]
  constructor
  · rintro ⟨e, he, hr⟩
    obtain ⟨c, rfl⟩ := (reportsChange_iff e).1 hr
    exact ⟨c, he⟩
  · rintro ⟨c, hc⟩
    exact ⟨_, hc, rfl⟩

theorem any_reportsChange_at_iff (L : List Call) (t : tile_index) :
    L.any (fun e => e.reportsChange && decide (e.chunk.mt.index = t)) = true ↔
      ∃ c, Call.mutate c true ∈ L ∧ c.mt.index = t := by
  rw [List.any_eq_true]
  constructor
  · rintro ⟨e, he, hr⟩
    rw [Bool.and_eq_true] at hr
    obtain ⟨c, rfl⟩ := (reportsChange_iff e).1 hr.1
    exact ⟨c, he, by simpa [Call.chunk] using hr.2⟩
  · rintro ⟨c, hc, ht⟩
    exact ⟨_, hc, by simp [Call.reportsChange, Call.chunk, ht]⟩

/-- The one-functor overload run with a recording functor from an empty log. -/
theorem for_all_chunks_in_range_log (q : RangeQuery) (pos : vector_3d) (radius : ℚ)
    (g : MapChunk → τ → Bool × τ) (log : τ → List Call) (hg : Records g log)
    (w : World τ) (h0 : log w.st = []) :
    (log (for_all_chunks_in_range q pos radius g w).2.st).map Call.chunk
        = q.visits pos radius (q.tiles_in_range w.mapIndex pos radius) ∧
    (∀ e ∈ log (for_all_chunks_in_range q pos radius g w).2.st, e.isMutate = true) ∧
    ((for_all_chunks_in_range q pos radius g w).1 = true ↔
      ∃ c, Call.mutate c true ∈ log (for_all_chunks_in_range q pos radius g w).2.st) ∧
    (∀ t, (for_all_chunks_in_range q pos radius g w).2.mapIndex.changed t = true ↔
      w.mapIndex.changed t = true ∨
        ∃ c, Call.mutate c true ∈ log (for_all_chunks_in_range q pos radius g w).2.st ∧
          c.mt.index = t) := by
  obtain ⟨L, h1, h2, h3, h4, h5, -⟩ :=
    tiles_loop_log q pos radius g log hg (q.tiles_in_range w.mapIndex pos radius) (false, w)
  simp only [h0, List.nil_append] at h1
  unfold for_all_chunks_in_range
  rw [h1]
  refine ⟨h2, h3, ?_, ?_⟩
  · rw [h4, Bool.false_or, any_reportsChange_iff]
  · intro t
    rw [h5 t, Bool.or_eq_true, any_reportsChange_at_iff]

/-- C3: the one-functor `for_all_chunks_in_range` flags a tile as changed exactly
when a chunk of that tile lying in range made the mutation functor return true;
the flag of every other tile is as before, so a tile whose chunks in range all
report no change is not marked. -/
theorem tile_marked_iff_chunk_changed (q : RangeQuery) (pos : vector_3d) (radius : ℚ)
    (f : MapChunk → σ → Bool × σ) (m : MapIndex) (s : σ) (t : tile_index) :
    (List.map Call.chunk
        (for_all_chunks_in_range q pos radius (traced f) ⟨m, (s, [])⟩).2.st.2
      = q.visits pos radius (q.tiles_in_range m pos radius)) ∧
    ((for_all_chunks_in_range q pos radius (traced f) ⟨m, (s, [])⟩).2.mapIndex.changed t = true ↔
      m.changed t = true ∨
        ∃ c, Call.mutate c true ∈
            (for_all_chunks_in_range q pos radius (traced f) ⟨m, (s, [])⟩).2.st.2 ∧
          c.mt.index = t) := by
  obtain ⟨h1, -, -, h4⟩ := for_all_chunks_in_range_log q pos radius (traced f) (fun s => s.2)
    (records_traced f) ⟨m, (s, [])⟩ rfl
  exact ⟨h1, h4 t⟩

/-- C4: `paintTexture` and `replaceTexture` return true exactly when the chunk
member returned true for some chunk in range (for `paintTexture`, in the range
of the brush radius); the chunks asked are those in range, so with no chunk in
range they return false. -/
theorem texture_brush_returns_any_change (q : RangeQuery) (ops : MapChunkOps σ)
    (pos : vector_3d) (brush : Brush) (strength pressure radius : ℚ)
    (texture old_texture new_texture : scoped_blp_texture_reference) (m : MapIndex) (s : σ) :
    (List.map Call.chunk
        (paintTexture q ops.traced pos brush strength pressure texture ⟨m, (s, [])⟩).2.st.2
      = q.visits pos brush.radius (q.tiles_in_range m pos brush.radius)) ∧
    ((paintTexture q ops.traced pos brush strength pressure texture ⟨m, (s, [])⟩).1 = true ↔
      ∃ c, Call.mutate c true ∈
        (paintTexture q ops.traced pos brush strength pressure texture ⟨m, (s, [])⟩).2.st.2) ∧
    (q.visits pos brush.radius (q.tiles_in_range m pos brush.radius) = [] →
      (paintTexture q ops.traced pos brush strength pressure texture ⟨m, (s, [])⟩).1 = false) ∧
    (List.map Call.chunk
        (replaceTexture q ops.traced pos radius old_texture new_texture ⟨m, (s, [])⟩).2.st.2
      = q.visits pos radius (q.tiles_in_range m pos radius)) ∧
    ((replaceTexture q ops.traced pos radius old_texture new_texture ⟨m, (s, [])⟩).1 = true ↔
      ∃ c, Call.mutate c true ∈
        (replaceTexture q ops.traced pos radius old_texture new_texture ⟨m, (s, [])⟩).2.st.2) ∧
    (q.visits pos radius (q.tiles_in_range m pos radius) = [] →
      (replaceTexture q ops.traced pos radius old_texture new_texture ⟨m, (s, [])⟩).1 = false) := by
  obtain ⟨a1, -, a3, -⟩ := for_all_chunks_in_range_log q pos brush.radius
    (fun chunk => ops.traced.paintTexture chunk pos brush strength pressure texture)
    (fun s => s.2) (fun _ _ => rfl) ⟨m, (s, [])⟩ rfl
  obtain ⟨b1, -, b3, -⟩ := for_all_chunks_in_range_log q pos radius
    (fun chunk => ops.traced.replaceTexture chunk pos radius old_texture new_texture)
    (fun s => s.2) (fun _ _ => rfl) ⟨m, (s, [])⟩ rfl
  refine ⟨a1, a3, ?_, b1, b3, ?_⟩
  · intro hv
    rw [hv, List.map_eq_nil_iff] at a1
    rw [← Bool.not_eq_true]
    intro h
    obtain ⟨c, hc⟩ := a3.1 h
    rw [a1] at hc
    exact List.not_mem_nil _ hc
  · intro hv
    rw [hv, List.map_eq_nil_iff] at b1
    rw [← Bool.not_eq_true]
    intro h
    obtain ⟨c, hc⟩ := b3.1 h
    rw [b1] at hc
    exact List.not_mem_nil _ hc

end Marking

end Noggit

namespace Noggit

/-! ## Recording changes nothing else -/

section Erasure
variable {σ τ₁ τ₂ : Type}

theorem chunks_loop_sim (R : τ₁ → τ₂ → Prop) (g₁ : MapChunk → τ₁ → Bool × τ₁)
    (g₂ : MapChunk → τ₂ → Bool × τ₂)
    (h : ∀ c s₁ s₂, R s₁ s₂ → (g₁ c s₁).1 = (g₂ c s₂).1 ∧ R (g₁ c s₁).2 (g₂ c s₂).2)
    (tile : MapTile) :
    ∀ (cs : List MapChunk) (a₁ : Bool × World τ₁) (a₂ : Bool × World τ₂),
      a₁.1 = a₂.1 → a₁.2.mapIndex = a₂.2.mapIndex → R a₁.2.st a₂.2.st →
      (chunks_loop g₁ tile cs a₁).1 = (chunks_loop g₂ tile cs a₂).1 ∧
      (chunks_loop g₁ tile cs a₁).2.mapIndex = (chunks_loop g₂ tile cs a₂).2.mapIndex ∧
      R (chunks_loop g₁ tile cs a₁).2.st (chunks_loop g₂ tile cs a₂).2.st := by
  intro cs
  induction cs with
  | nil => intro a₁ a₂ h1 h2 h3; exact ⟨h1, h2, h3⟩
  | cons c cs ih =>
    intro a₁ a₂ h1 h2 h3
    obtain ⟨hb, hR⟩ := h c a₁.2.st a₂.2.st h3
    by_cases hc : (g₂ c a₂.2.st).1 = true
    · have hc₁ : (g₁ c a₁.2.st).1 = true := hb.trans hc
      simp only [chunks_loop, hc, hc₁, if_true]
      exact ih _ _ rfl (by simp [h2]) hR
    · have hc' : (g₂ c a₂.2.st).1 = false := by simpa using hc
      have hc₁ : (g₁ c a₁.2.st).1 = false := hb.trans hc'
      simp only [chunks_loop, hc', hc₁, Bool.false_eq_true, if_false]
      exact ih _ _ h1 h2 hR

theorem tiles_loop_sim (q : RangeQuery) (pos : vector_3d) (radius : ℚ)
    (R : τ₁ → τ₂ → Prop) (g₁ : MapChunk → τ₁ → Bool × τ₁) (g₂ : MapChunk → τ₂ → Bool × τ₂)
    (h : ∀ c s₁ s₂, R s₁ s₂ → (g₁ c s₁).1 = (g₂ c s₂).1 ∧ R (g₁ c s₁).2 (g₂ c s₂).2) :
    ∀ (tiles : List MapTile) (a₁ : Bool × World τ₁) (a₂ : Bool × World τ₂),
      a₁.1 = a₂.1 → a₁.2.mapIndex = a₂.2.mapIndex → R a₁.2.st a₂.2.st →
      (tiles_loop q pos radius g₁ tiles a₁).1 = (tiles_loop q pos radius g₂ tiles a₂).1 ∧
      (tiles_loop q pos radius g₁ tiles a₁).2.mapIndex
        = (tiles_loop q pos radius g₂ tiles a₂).2.mapIndex ∧
      R (tiles_loop q pos radius g₁ tiles a₁).2.st (tiles_loop q pos radius g₂ tiles a₂).2.st := by
  intro tiles
  induction tiles with
  | nil => intro a₁ a₂ h1 h2 h3; exact ⟨h1, h2, h3⟩
  | cons tile tiles ih =>
    intro a₁ a₂ h1 h2 h3
    obtain ⟨k1, k2, k3⟩ :=
      chunks_loop_sim R g₁ g₂ h tile (q.chunks tile pos radius) a₁ a₂ h1 h2 h3
    simp only [tiles_loop]
    exact ih _ _ k1 k2 k3

theorem post_loop_traced (post : MapChunk → σ → σ) :
    ∀ (cs : List MapChunk) (s : σ × List Call),
      (post_loop (traced_post post) cs s).1 = post_loop post cs s.1 := by
  intro cs
  induction cs with
  | nil => intro s; rfl
  | cons c cs ih => intro s; simp [post_loop, ih, traced_post]

/-- Recording the calls does not change what the one-functor overload returns,
marks or does to the state. -/
theorem for_all_chunks_in_range_traced (q : RangeQuery) (pos : vector_3d) (radius : ℚ)
    (f : MapChunk → σ → Bool × σ) (m : MapIndex) (s : σ) (l : List Call) :
    (for_all_chunks_in_range q pos radius (traced f) ⟨m, (s, l)⟩).1
        = (for_all_chunks_in_range q pos radius f ⟨m, s⟩).1 ∧
    (for_all_chunks_in_range q pos radius (traced f) ⟨m, (s, l)⟩).2.mapIndex
        = (for_all_chunks_in_range q pos radius f ⟨m, s⟩).2.mapIndex ∧
    (for_all_chunks_in_range q pos radius (traced f) ⟨m, (s, l)⟩).2.st.1
        = (for_all_chunks_in_range q pos radius f ⟨m, s⟩).2.st := by
  unfold for_all_chunks_in_range
  exact tiles_loop_sim q pos radius (fun (s₁ : σ × List Call) (s₂ : σ) => s₁.1 = s₂)
    (traced f) f (fun c s₁ s₂ hs => by subst hs; exact ⟨rfl, rfl⟩)
    (q.tiles_in_range m pos radius) (false, ⟨m, (s, l)⟩) (false, ⟨m, s⟩) rfl rfl rfl

/-- Recording the calls does not change what the two-functor overload returns,
marks or does to the state. -/
theorem for_all_chunks_in_range_post_traced (q : RangeQuery) (pos : vector_3d) (radius : ℚ)
    (f : MapChunk → σ → Bool × σ) (post : MapChunk → σ → σ) (m : MapIndex) (s : σ)
    (l : List Call) :
    (for_all_chunks_in_range_post q pos radius (traced f) (traced_post post) ⟨m, (s, l)⟩).1
        = (for_all_chunks_in_range_post q pos radius f post ⟨m, s⟩).1 ∧
    (for_all_chunks_in_range_post q pos radius (traced f) (traced_post post)
        ⟨m, (s, l)⟩).2.mapIndex
        = (for_all_chunks_in_range_post q pos radius f post ⟨m, s⟩).2.mapIndex ∧
    (for_all_chunks_in_range_post q pos radius (traced f) (traced_post post) ⟨m, (s, l)⟩).2.st.1
        = (for_all_chunks_in_range_post q pos radius f post ⟨m, s⟩).2.st := by
  obtain ⟨h1, h2, h3, h4⟩ := tiles_loop_sim q pos radius
    (fun (s₁ : (σ × List Call) × List MapChunk) (s₂ : σ × List MapChunk) =>
      s₁.1.1 = s₂.1 ∧ s₁.2 = s₂.2)
    (collecting (traced f)) (collecting f)
    (fun c s₁ s₂ hs => by
      obtain ⟨hs1, hs2⟩ := hs
      by_cases hb : (f c s₂.1).1 = true
      · simp [collecting, traced, hs1, hs2, hb]
      · simp [collecting, traced, hs1, hs2, hb])
    (q.tiles_in_range m pos radius) (false, ⟨m, ((s, l), [])⟩) (false, ⟨m, (s, [])⟩)
    rfl rfl ⟨rfl, rfl⟩
  refine ⟨h1, h2, ?_⟩
  simp only [for_all_chunks_in_range_post, for_all_chunks_in_range]
  rw [post_loop_traced, h3, h4]

end Erasure

/-! ## Instances of the statements with a hypothesis -/

theorem tile_index_ofPos_origin : tile_index.ofPos ⟨0, 0, 0⟩ = ⟨0, 0⟩ := by
  simp [tile_index.ofPos, Rat.floor]

theorem getTile_sample_origin :
    sampleIndex.getTile (tile_index.ofPos ⟨0, 0, 0⟩) = some ⟨⟨0, 0⟩⟩ := by
  rw [tile_index_ofPos_origin]
  rfl

theorem post_pass_once_per_changed_chunk_witness :
    (sampleQuery.visits ⟨0, 0, 0⟩ 5 (sampleQuery.tiles_in_range sampleIndex ⟨0, 0, 0⟩ 5)).Nodup ∧
    List.count (Call.post ⟨⟨⟨1, 0⟩⟩, 0, 0⟩)
      (for_all_chunks_in_range_post sampleQuery ⟨0, 0, 0⟩ 5 (traced sampleFun)
        (traced_post samplePost) ⟨sampleIndex, (0, [])⟩).2.st.2 = 1 ∧
    Call.post ⟨⟨⟨0, 0⟩⟩, 15, 1⟩ ∉
      (for_all_chunks_in_range_post sampleQuery ⟨0, 0, 0⟩ 5 (traced sampleFun)
        (traced_post samplePost) ⟨sampleIndex, (0, [])⟩).2.st.2 :=
  ⟨by decide,
   (post_pass_once_per_changed_chunk sampleQuery ⟨0, 0, 0⟩ 5 sampleFun samplePost sampleIndex 0
      (by decide) ⟨⟨⟨1, 0⟩⟩, 0, 0⟩).2.1 (by decide),
   (post_pass_once_per_changed_chunk sampleQuery ⟨0, 0, 0⟩ 5 sampleFun samplePost sampleIndex 0
      (by decide) ⟨⟨⟨0, 0⟩⟩, 15, 1⟩).2.2 (by decide)⟩

theorem no_mutation_after_post_pass_witness :
    sampleIndex.getTile (tile_index.ofPos ⟨0, 0, 0⟩) = some ⟨⟨0, 0⟩⟩ ∧
    NoMutateAfterPost
      (changeTerrain sampleQuery (MapChunkOps.idle Nat).traced ⟨0, 0, 0⟩ 1 5 0 0
        ⟨sampleIndex, (0, [])⟩).st.2 ∧
    NoMutateAfterPost
      (changeTerrain sampleQuery (MapChunkOps.idle Nat).traced ⟨0, 0, 0⟩ 1 5 0 0
        ⟨emptyIndex, (0, [])⟩).st.2 ∧
    ∃ w, clearHeight (MapChunkOps.idle Nat).traced ⟨0, 0, 0⟩ ⟨sampleIndex, (0, [])⟩ = .ok w ∧
      NoMutateAfterPost w.st.2 :=
  ⟨getTile_sample_origin,
   (no_mutation_after_post_pass sampleQuery (MapChunkOps.idle Nat) ⟨0, 0, 0⟩ 5 sampleFun
      samplePost 1 0 0 0 0 ⟨0, 0, 0⟩ 0 0 sampleIndex 0).2.1,
   (no_mutation_after_post_pass sampleQuery (MapChunkOps.idle Nat) ⟨0, 0, 0⟩ 5 sampleFun
      samplePost 1 0 0 0 0 ⟨0, 0, 0⟩ 0 0 emptyIndex 0).2.1,
   (no_mutation_after_post_pass sampleQuery (MapChunkOps.idle Nat) ⟨0, 0, 0⟩ 5 sampleFun
      samplePost 1 0 0 0 0 ⟨0, 0, 0⟩ 0 0 sampleIndex 0).2.2.2.2 ⟨⟨0, 0⟩⟩
      getTile_sample_origin⟩

theorem texture_brush_returns_any_change_witness :
    emptyQuery.visits ⟨0, 0, 0⟩ 5 (emptyQuery.tiles_in_range sampleIndex ⟨0, 0, 0⟩ 5) = [] ∧
    (paintTexture emptyQuery (MapChunkOps.idle Nat).traced ⟨0, 0, 0⟩ ⟨5⟩ 1 1 "grass.blp"
      ⟨sampleIndex, (0, [])⟩).1 = false ∧
    (replaceTexture emptyQuery (MapChunkOps.idle Nat).traced ⟨0, 0, 0⟩ 5 "grass.blp" "rock.blp"
      ⟨sampleIndex, (0, [])⟩).1 = false :=
  ⟨rfl,
   (texture_brush_returns_any_change emptyQuery (MapChunkOps.idle Nat) ⟨0, 0, 0⟩ ⟨5⟩ 1 1 5
      "grass.blp" "grass.blp" "rock.blp" sampleIndex 0).2.2.1 rfl,
   (texture_brush_returns_any_change emptyQuery (MapChunkOps.idle Nat) ⟨0, 0, 0⟩ ⟨5⟩ 1 1 5
      "grass.blp" "grass.blp" "rock.blp" sampleIndex 0).2.2.2.2.2 rfl⟩

end Noggit

namespace Noggit

/-! ## Positions without a tile -/

section NoTile
variable {σ : Type}

/-- C5 (the code does otherwise): at a position for which `getTile` returns null,
`setHole`, `setHoleADT`, `setAreaID`, `eraseTextures`, `clearTextures`,
`clearHeight`, `overwriteTextureAtCurrentChunk` and `change_texture_flag` all
call members through the null tile pointer instead of doing nothing. -/
theorem position_ops_dereference_null (ops : MapChunkOps σ) (pos : vector_3d) (big hole adt add : Bool)
    (id : Int) (tex oldTexture newTexture : scoped_blp_texture_reference) (flag : Nat)
    (w : World σ) (h : w.mapIndex.getTile (tile_index.ofPos pos) = none) :
    setHole ops pos big hole w = .error .null_dereference ∧
    setHoleADT ops pos hole w = .error .null_dereference ∧
    setAreaID ops pos id adt w = .error .null_dereference ∧
    eraseTextures ops pos w = .error .null_dereference ∧
    clearTextures ops pos w = .error .null_dereference ∧
    clearHeight ops pos w = .error .null_dereference ∧
    overwriteTextureAtCurrentChunk ops pos oldTexture newTexture w = .error .null_dereference ∧
    change_texture_flag ops pos tex flag add w = .error .null_dereference := by
  refine ⟨?_, ?_, ?_, ?_, ?_, ?_, ?_, ?_⟩
  · simp [setHole, for_chunk_at, h]
  · simp [setHoleADT, for_all_chunks_on_tile, h]
  · cases adt <;> simp [setAreaID, for_chunk_at, for_all_chunks_on_tile, h]
  · simp [eraseTextures, for_chunk_at, h]
  · simp [clearTextures, for_all_chunks_on_tile, h]
  · simp [clearHeight, for_all_chunks_on_tile, h, Except.bind]
  · simp [overwriteTextureAtCurrentChunk, for_chunk_at, h]
  · simp [change_texture_flag, for_chunk_at, h]

/-- The siblings `for_maybe_chunk_at` and `for_tile_at` test the pointer: without
a tile the first answers `boost::none` and the second leaves the world as it
is. -/
theorem guarded_siblings_without_tile {α : Type} (pos : vector_3d) (f : MapChunk → σ → α)
    (g : MapTile → σ → σ) (w : World σ)
    (h : w.mapIndex.getTile (tile_index.ofPos pos) = none) :
    for_maybe_chunk_at pos f w = none ∧ for_tile_at (tile_index.ofPos pos) g w = w := by
  simp [for_maybe_chunk_at, for_tile_at, h]

theorem position_ops_dereference_null_witness :
    emptyIndex.getTile (tile_index.ofPos ⟨0, 0, 0⟩) = none ∧
    setHole (MapChunkOps.idle Nat) ⟨0, 0, 0⟩ false true ⟨emptyIndex, 0⟩
      = .error .null_dereference :=
  ⟨rfl,
   (position_ops_dereference_null (MapChunkOps.idle Nat) ⟨0, 0, 0⟩ false true false false 0
      "a.blp" "a.blp" "b.blp" 0 ⟨emptyIndex, 0⟩ rfl).1⟩

end NoTile

/-! ## `sprayTexture` with a brush of radius 0 -/

section Spray
variable {σ : Type}

theorem in_spray_corner (pos : vector_3d) (spraySize : ℚ) (hs : 0 < spraySize) :
    in_spray pos spraySize (pos.x - spraySize) (pos.z - spraySize) = false := by
  have h : ¬ ((pos.x - spraySize - pos.x) ^ 2 + (pos.z - spraySize - pos.z) ^ 2
      ≤ spraySize ^ 2) := by
    have : 0 < spraySize ^ 2 := by positivity
    intro hle
    have e : (pos.x - spraySize - pos.x) ^ 2 + (pos.z - spraySize - pos.z) ^ 2
        = spraySize ^ 2 + spraySize ^ 2 := by ring
    rw [e] at hle
    linarith
  unfold in_spray
  rw [decide_eq_false h, Bool.and_false]

/-- With an increment of 0 the first row of `sprayTexture` never ends. -/
theorem spray_row_stuck (q : RangeQuery) (ops : MapChunkOps σ) (rand : Nat → Nat)
    (pos : vector_3d) (brush : Brush) (strength pressure spraySize sprayPressure : ℚ)
    (texture : scoped_blp_texture_reference) (hs : 0 < spraySize) :
    ∀ (fuel : Nat) (acc : Bool × Nat × World σ),
      spray_row q ops rand pos brush strength pressure spraySize sprayPressure texture 0
        (pos.z - spraySize) fuel (pos.x - spraySize) acc = none := by
  intro fuel
  induction fuel with
  | zero => intro acc; rfl
  | succ n ih =>
    intro acc
    have hlt : pos.x - spraySize < pos.x + spraySize := by linarith
    simp only [spray_row, hlt, if_true, in_spray_corner pos spraySize hs, Bool.false_eq_true,
      if_false, add_zero]
    exact ih acc

/-- C6 (the code does otherwise): with a brush of radius 0 and a spray size
above 0, `sprayTexture` never returns, however many iterations it is given: the
loop increment `brush->getRadius () / 4` is 0, so the first row never ends. -/
theorem sprayTexture_zero_radius_never_returns (q : RangeQuery) (ops : MapChunkOps σ)
    (rand : Nat → Nat) (fuel : Nat) (pos : vector_3d) (brush : Brush)
    (strength pressure spraySize sprayPressure : ℚ) (texture : scoped_blp_texture_reference)
    (w : World σ) (hr : brush.radius = 0) (hs : 0 < spraySize) :
    sprayTexture q ops rand fuel pos brush strength pressure spraySize sprayPressure texture w
      = none := by
  unfold sprayTexture
  rw [hr, zero_div]
  cases fuel with
  | zero => rfl
  | succ n =>
    have hlt : pos.z - spraySize < pos.z + spraySize := by linarith
    simp [spray_rows, hlt,
      spray_row_stuck q ops rand pos brush strength pressure spraySize sprayPressure texture hs]

theorem sprayTexture_zero_radius_never_returns_witness :
    (⟨0⟩ : Brush).radius = 0 ∧ (0 : ℚ) < 1 ∧
    ∀ fuel : Nat,
      sprayTexture sampleQuery (MapChunkOps.idle Nat) (fun _ => 0) fuel ⟨0, 0, 0⟩ ⟨0⟩ 1 1 1 500
        "grass.blp" ⟨sampleIndex, 0⟩ = none :=
  ⟨rfl, by norm_num, fun fuel =>
    sprayTexture_zero_radius_never_returns sampleQuery (MapChunkOps.idle Nat) (fun _ => 0) fuel
      ⟨0, 0, 0⟩ ⟨0⟩ 1 1 1 500 "grass.blp" ⟨sampleIndex, 0⟩ rfl (by norm_num)⟩

/-- With a spray size of 0 both loops of `sprayTexture` end at once, whatever the
radius of the brush: nothing is painted and false is returned. -/
theorem sprayTexture_zero_size (q : RangeQuery) (ops : MapChunkOps σ) (rand : Nat → Nat)
    (fuel : Nat) (pos : vector_3d) (brush : Brush) (strength pressure sprayPressure : ℚ)
    (texture : scoped_blp_texture_reference) (w : World σ) :
    sprayTexture q ops rand (fuel + 1) pos brush strength pressure 0 sprayPressure texture w
      = some (false, w) := by
  simp [sprayTexture, spray_rows]

end Spray

end Noggit

namespace Noggit

/-! ## Vertex operations without selected vertices -/

section EmptySelection
variable {τ : Type}

theorem foldl_setChanged_changed (tiles : List MapTile) (m : MapIndex) (t : tile_index) :
    (tiles.foldl (fun m tile => m.setChanged tile) m).changed t = true ↔
      m.changed t = true ∨ ∃ tile ∈ tiles, tile.index = t := by
  induction tiles generalizing m with
  | nil => simp
  | cons a tiles ih =>
    rw [List.foldl_cons, ih]
    by_cases h : t = a.index
    · subst h
      simp [MapIndex.setChanged, MapIndex.setChangedAt]
    · have h' : ¬ a.index = t := fun e => h e.symm
      simp [MapIndex.setChanged, MapIndex.setChangedAt, h, h']

/-- C8, as the code has it: with no vertex selected, `moveVertices`,
`flattenVertices` and `orientVertices` flag as changed exactly the tiles still
held in `_vertex_tiles`; when `_vertex_chunks` and `_vertex_tiles` are empty too
(and the cached border chunks are empty or stale), they change neither the chunk
data nor any flag. -/
theorem vertex_ops_without_selected_vertices (ops : MapChunkOps (Terrain τ)) (misc : Misc)
    (h height : ℚ) (ref_pos : vector_3d) (vertex_angle vertex_orientation : ℚ)
    (w : World (EditState τ)) (hsel : w.st._vertices_selected = []) :
    (∀ t, (moveVertices ops h w).mapIndex.changed t = true ↔
      w.mapIndex.changed t = true ∨ ∃ tile ∈ w.st._vertex_tiles, tile.index = t) ∧
    (∀ t, (flattenVertices ops height w).mapIndex.changed t = true ↔
      w.mapIndex.changed t = true ∨ ∃ tile ∈ w.st._vertex_tiles, tile.index = t) ∧
    (∀ t, (orientVertices ops misc ref_pos vertex_angle vertex_orientation w).mapIndex.changed t
        = true ↔
      w.mapIndex.changed t = true ∨ ∃ tile ∈ w.st._vertex_tiles, tile.index = t) ∧
    (w.st._vertex_chunks = [] → w.st._vertex_tiles = [] →
      (w.st._vertex_border_updated = true → w.st._vertex_border_chunks = []) →
      ((moveVertices ops h w).mapIndex = w.mapIndex ∧
        (moveVertices ops h w).st.terrain = w.st.terrain) ∧
      ((flattenVertices ops height w).mapIndex = w.mapIndex ∧
        (flattenVertices ops height w).st.terrain = w.st.terrain) ∧
      ((orientVertices ops misc ref_pos vertex_angle vertex_orientation w).mapIndex = w.mapIndex ∧
        (orientVertices ops misc ref_pos vertex_angle vertex_orientation w).st.terrain
          = w.st.terrain)) := by
  refine ⟨fun t => ?_, fun t => ?_, fun t => ?_, fun hchunks htiles hborder => ⟨?_, ?_, ?_⟩⟩
  · exact foldl_setChanged_changed w.st._vertex_tiles w.mapIndex t
  · exact foldl_setChanged_changed w.st._vertex_tiles w.mapIndex t
  · exact foldl_setChanged_changed w.st._vertex_tiles w.mapIndex t
  · by_cases hb : w.st._vertex_border_updated = true
    · simp [moveVertices, updateSelectedVertices, vertexBorderChunks, updateVertexCenter, hsel,
        hchunks, htiles, hb, hborder hb]
    · simp [moveVertices, updateSelectedVertices, vertexBorderChunks, updateVertexCenter, hsel,
        hchunks, htiles, hb]
  · by_cases hb : w.st._vertex_border_updated = true
    · simp [flattenVertices, updateSelectedVertices, vertexBorderChunks, hsel,
        hchunks, htiles, hb, hborder hb]
    · simp [flattenVertices, updateSelectedVertices, vertexBorderChunks, hsel,
        hchunks, htiles, hb]
  · by_cases hb : w.st._vertex_border_updated = true
    · simp [orientVertices, updateSelectedVertices, vertexBorderChunks, hsel,
        hchunks, htiles, hb, hborder hb]
    · simp [orientVertices, updateSelectedVertices, vertexBorderChunks, hsel,
        hchunks, htiles, hb]

theorem foldl_erase_self {α : Type} [DecidableEq α] (l : List α) :
    l.foldl (fun sel v => sel.erase v) l = [] := by
  have h : l.diff l = [] := by
    induction l with
    | nil => rfl
    | cons a l ih => rw [List.diff_cons, List.erase_cons_head, ih]
  rw [List.diff_eq_foldl] at h
  exact h

/-- When every selected vertex lies within the radius, `deselectVertices` leaves
no vertex selected and returns true, and it keeps `_vertex_tiles` as it is. -/
theorem deselectVertices_all (misc : Misc) (pos : vector_3d) (radius : ℚ)
    (w : World (EditState τ))
    (hall : ∀ v, misc.dist (w.st.terrain.mVertices v) pos ≤ radius) :
    (deselectVertices misc pos radius w).1 = true ∧
    (deselectVertices misc pos radius w).2.st._vertices_selected = [] ∧
    (deselectVertices misc pos radius w).2.st._vertex_tiles = w.st._vertex_tiles ∧
    (deselectVertices misc pos radius w).2.mapIndex = w.mapIndex := by
  have hf : w.st._vertices_selected.filter
      (fun v => decide (misc.dist (w.st.terrain.mVertices v) pos ≤ radius))
      = w.st._vertices_selected := by
    rw [List.filter_eq_self]
    intro v _
    simp [hall v]
  refine ⟨?_, ?_, ?_, ?_⟩
  · simp [deselectVertices, hf, foldl_erase_self]
  · simp [deselectVertices, hf, foldl_erase_self]
  · simp [deselectVertices]
  · simp [deselectVertices]

end EmptySelection

theorem deselectedWorld_facts :
    deselectedWorld.st._vertices_selected = [] ∧
    deselectedWorld.st._vertex_tiles = [⟨⟨1, 0⟩⟩, ⟨⟨0, 0⟩⟩] := by
  have hall : ∀ v, sampleMisc.dist
      ((selectVertices sampleQuery selectOps ⟨0, 0, 0⟩ 5
        ⟨sampleIndex, sampleEdit⟩).st.terrain.mVertices v) ⟨0, 0, 0⟩ ≤ 5 := by
    intro v
    have : (selectVertices sampleQuery selectOps ⟨0, 0, 0⟩ 5
        ⟨sampleIndex, sampleEdit⟩).st.terrain = sampleTerrain := rfl
    rw [this]
    simp [sampleMisc, sampleDist, sampleTerrain]
  obtain ⟨-, h2, h3, -⟩ := deselectVertices_all sampleMisc ⟨0, 0, 0⟩ 5
    (selectVertices sampleQuery selectOps ⟨0, 0, 0⟩ 5 ⟨sampleIndex, sampleEdit⟩) hall
  refine ⟨h2, ?_⟩
  unfold deselectedWorld
  simp only [h3]
  decide

theorem deselectedWorld_holds_origin_tile :
    ∃ tile ∈ deselectedWorld.st._vertex_tiles, tile.index = (⟨0, 0⟩ : tile_index) := by
  rw [deselectedWorld_facts.2]
  exact ⟨⟨⟨0, 0⟩⟩, by simp, rfl⟩

/-- C8 (the claim fails): after `selectVertices`, a `deselectVertices` that removes
every selected vertex and a save of the tiles, no vertex is selected and tile
(0,0) is not flagged; `moveVertices`, `flattenVertices` and `orientVertices` each
flag it as changed all the same, because `deselectVertices` leaves
`_vertex_tiles` as it was. -/
theorem vertex_ops_mark_tiles_after_deselect :
    deselectedWorld.st._vertices_selected = [] ∧
    deselectedWorld.mapIndex.changed ⟨0, 0⟩ = false ∧
    (moveVertices selectOps 2 deselectedWorld).mapIndex.changed ⟨0, 0⟩ = true ∧
    (flattenVertices selectOps 2 deselectedWorld).mapIndex.changed ⟨0, 0⟩ = true ∧
    (orientVertices selectOps sampleMisc ⟨0, 0, 0⟩ 0 0 deselectedWorld).mapIndex.changed ⟨0, 0⟩
      = true := by
  refine ⟨deselectedWorld_facts.1, by decide, ?_, ?_, ?_⟩
  · exact (foldl_setChanged_changed _ _ _).2 (Or.inr deselectedWorld_holds_origin_tile)
  · exact (foldl_setChanged_changed _ _ _).2 (Or.inr deselectedWorld_holds_origin_tile)
  · exact (foldl_setChanged_changed _ _ _).2 (Or.inr deselectedWorld_holds_origin_tile)

theorem vertex_ops_without_selected_vertices_witness :
    sampleEdit._vertices_selected = [] ∧
    (moveVertices selectOps 2 ⟨sampleIndex, sampleEdit⟩).mapIndex = sampleIndex ∧
    (moveVertices selectOps 2 ⟨sampleIndex, sampleEdit⟩).st.terrain = sampleTerrain ∧
    ((moveVertices selectOps 2 deselectedWorld).mapIndex.changed ⟨0, 0⟩ = true ↔
      deselectedWorld.mapIndex.changed ⟨0, 0⟩ = true ∨
        ∃ tile ∈ deselectedWorld.st._vertex_tiles, tile.index = (⟨0, 0⟩ : tile_index)) :=
  ⟨rfl,
   ((vertex_ops_without_selected_vertices selectOps sampleMisc 2 2 ⟨0, 0, 0⟩ 0 0
      ⟨sampleIndex, sampleEdit⟩ rfl).2.2.2 rfl rfl (fun _ => rfl)).1.1,
   ((vertex_ops_without_selected_vertices selectOps sampleMisc 2 2 ⟨0, 0, 0⟩ 0 0
      ⟨sampleIndex, sampleEdit⟩ rfl).2.2.2 rfl rfl (fun _ => rfl)).1.2,
   (vertex_ops_without_selected_vertices selectOps sampleMisc 2 2 ⟨0, 0, 0⟩ 0 0
      deselectedWorld deselectedWorld_facts.1).1 ⟨0, 0⟩⟩

end Noggit

namespace Noggit

/-! ## Gaps that `fixAllGaps` leaves -/

section GapFacts
variable {τ : Type}

theorem set_y_other (t : Terrain τ) (v p : VertexPtr) (h : ℚ) (hp : p ≠ v) :
    (t.set_y v h).mVertices p = t.mVertices p := by
  simp [Terrain.set_y, hp]

theorem for_upto_keeps {α : Type} (P : α → Prop) (body : Nat → α → α)
    (hbody : ∀ i a, P a → P (body i a)) (n : Nat) (a : α) (ha : P a) :
    P (for_upto n body a) := by
  unfold for_upto
  generalize List.range n = is
  induction is generalizing a with
  | nil => exact ha
  | cons i is ih => exact ih _ (hbody i a ha)

theorem snapOps_fixGapLeft : (snapOps τ).fixGapLeft = snapLeft := by
  simp only [snapOps]

theorem snapOps_fixGapAbove : (snapOps τ).fixGapAbove = snapAbove := by
  simp only [snapOps]

theorem snap_step_other (chunk neighbour : MapChunk) (i k : Nat) (acc : Bool × Terrain τ)
    (p : VertexPtr) (hp : p ≠ ⟨chunk, i⟩) :
    (snap_step chunk neighbour i k acc).2.mVertices p = acc.2.mVertices p := by
  unfold snap_step
  split
  · exact set_y_other _ _ _ _ hp
  · rfl

theorem snapLeft_other (chunk neighbour : MapChunk) (t : Terrain τ) (p : VertexPtr)
    (hp : p.chunk ≠ chunk ∨ ∀ j < 9, p.idx ≠ 17 * j) :
    (snapLeft chunk neighbour t).2.mVertices p = t.mVertices p := by
  unfold snapLeft
  have key : ∀ (js : List Nat) (acc : Bool × Terrain τ), (∀ j ∈ js, j < 9) →
      (js.foldl (fun acc j => snap_step chunk neighbour (17 * j) (17 * j + 8) acc)
        acc).2.mVertices p = acc.2.mVertices p := by
    intro js
    induction js with
    | nil => intro acc _; rfl
    | cons j js ih =>
      intro acc hjs
      rw [List.foldl_cons, ih _ (fun j' hj' => hjs j' (List.mem_cons_of_mem _ hj'))]
      apply snap_step_other
      intro e
      rcases hp with h | h
      · exact h (by rw [e])
      · exact h j (hjs j (List.mem_cons_self _ _)) (by rw [e])
  exact key (List.range 9) (false, t) (fun j hj => List.mem_range.1 hj)

theorem snapAbove_other (chunk neighbour : MapChunk) (t : Terrain τ) (p : VertexPtr)
    (hp : p.chunk ≠ chunk ∨ 9 ≤ p.idx) :
    (snapAbove chunk neighbour t).2.mVertices p = t.mVertices p := by
  unfold snapAbove
  have key : ∀ (is : List Nat) (acc : Bool × Terrain τ), (∀ i ∈ is, i < 9) →
      (is.foldl (fun acc i => snap_step chunk neighbour i (i + 136) acc)
        acc).2.mVertices p = acc.2.mVertices p := by
    intro is
    induction is with
    | nil => intro acc _; rfl
    | cons i is ih =>
      intro acc his
      rw [List.foldl_cons, ih _ (fun i' hi' => his i' (List.mem_cons_of_mem _ hi'))]
      apply snap_step_other
      intro e
      rcases hp with h | h
      · exact h (by rw [e])
      · have hi := his i (List.mem_cons_self _ _)
        rw [e] at h
        simp at h
        omega
  exact key (List.range 9) (false, t) (fun i hi => List.mem_range.1 hi)

theorem fix_left_step_state (ops : MapChunkOps (Terrain τ)) (tile left : MapTile) (ty : Nat)
    (a : Terrain τ × List MapChunk × Bool) :
    (fix_left_step ops tile left ty a).1
      = (ops.fixGapLeft (tile.getChunk 0 ty) (left.getChunk 15 ty) a.1).2 := rfl

theorem fix_top_step_state (ops : MapChunkOps (Terrain τ)) (tile above : MapTile) (tx : Nat)
    (a : Terrain τ × List MapChunk × Bool) :
    (fix_top_step ops tile above tx a).1
      = (ops.fixGapAbove (tile.getChunk tx 0) (above.getChunk tx 15) a.1).2 := rfl

theorem fix_inner_chunk_state (ops : MapChunkOps (Terrain τ)) (tile : MapTile) (tx ty : Nat)
    (a : Terrain τ × List MapChunk × Bool) :
    (fix_inner_chunk ops tile tx ty a).1 = fix_inner_state ops tile tx ty a.1 := rfl

theorem fix_left_step_keeps (m : MapIndex) (p : VertexPtr) (hp : GapSafe m p) (v : vector_3d)
    (tile left : MapTile) (hleft : m.getTileLeft tile = some left) (ty : Nat)
    (a : Terrain τ × List MapChunk × Bool) (ha : VertexAt p v a) :
    VertexAt p v (fix_left_step (snapOps τ) tile left ty a) := by
  unfold VertexAt at ha ⊢
  rw [fix_left_step_state, snapOps_fixGapLeft, snapLeft_other, ha]
  rcases hp.1 with h | h
  · exact Or.inr h
  · left
    intro e
    rw [e] at h
    simp [MapTile.getChunk, hleft] at h

theorem fix_top_step_keeps (m : MapIndex) (p : VertexPtr) (hp : GapSafe m p) (v : vector_3d)
    (tile above : MapTile) (habove : m.getTileAbove tile = some above) (tx : Nat)
    (a : Terrain τ × List MapChunk × Bool) (ha : VertexAt p v a) :
    VertexAt p v (fix_top_step (snapOps τ) tile above tx a) := by
  unfold VertexAt at ha ⊢
  rw [fix_top_step_state, snapOps_fixGapAbove, snapAbove_other, ha]
  rcases hp.2 with h | h
  · exact Or.inr h
  · left
    intro e
    rw [e] at h
    simp [MapTile.getChunk, habove] at h

theorem guarded_fix_keeps (p : VertexPtr) (n : Nat) (fix : Terrain τ → Bool × Terrain τ)
    (s : Terrain τ) (hfix : n ≠ 0 → (fix s).2.mVertices p = s.mVertices p) :
    (guarded_fix n fix s).2.mVertices p = s.mVertices p := by
  unfold guarded_fix
  by_cases hn : n ≠ 0
  · rw [if_pos hn]
    exact hfix hn
  · rw [if_neg hn]

theorem fix_inner_chunk_keeps (m : MapIndex) (p : VertexPtr) (hp : GapSafe m p) (v : vector_3d)
    (tile : MapTile) (tx ty : Nat)
    (acc : Terrain τ × List MapChunk × Bool) (hacc : VertexAt p v acc) :
    VertexAt p v (fix_inner_chunk (snapOps τ) tile tx ty acc) := by
  unfold VertexAt at hacc ⊢
  rw [fix_inner_chunk_state]
  unfold fix_inner_state
  rw [snapOps_fixGapLeft, snapOps_fixGapAbove, guarded_fix_keeps, guarded_fix_keeps, hacc]
  · intro htx
    apply snapLeft_other
    rcases hp.1 with h | h
    · exact Or.inr h
    · left
      intro e
      rw [e] at h
      exact htx h.1
  · intro hty
    apply snapAbove_other
    rcases hp.2 with h | h
    · exact Or.inr h
    · left
      intro e
      rw [e] at h
      exact hty h.1

theorem fix_with_left_keeps (m : MapIndex) (p : VertexPtr) (hp : GapSafe m p) (v : vector_3d)
    (tile : MapTile) (a : Terrain τ × List MapChunk × Bool) (ha : VertexAt p v a) :
    VertexAt p v (fix_with_left (snapOps τ) m tile a) := by
  unfold fix_with_left
  cases hl : m.getTileLeft tile with
  | none => exact ha
  | some left =>
    exact for_upto_keeps (VertexAt p v) (fix_left_step (snapOps τ) tile left)
      (fun ty a ha => fix_left_step_keeps m p hp v tile left hl ty a ha) 16 a ha

theorem fix_with_above_keeps (m : MapIndex) (p : VertexPtr) (hp : GapSafe m p) (v : vector_3d)
    (tile : MapTile) (a : Terrain τ × List MapChunk × Bool) (ha : VertexAt p v a) :
    VertexAt p v (fix_with_above (snapOps τ) m tile a) := by
  unfold fix_with_above
  cases hl : m.getTileAbove tile with
  | none => exact ha
  | some above =>
    exact for_upto_keeps (VertexAt p v) (fix_top_step (snapOps τ) tile above)
      (fun tx a ha => fix_top_step_keeps m p hp v tile above hl tx a ha) 16 a ha

theorem fix_inner_row_keeps (m : MapIndex) (p : VertexPtr) (hp : GapSafe m p) (v : vector_3d)
    (tile : MapTile) (ty : Nat) (a : Terrain τ × List MapChunk × Bool)
    (ha : VertexAt p v a) :
    VertexAt p v (fix_inner_row (snapOps τ) tile ty a) :=
  for_upto_keeps (VertexAt p v) (fun tx => fix_inner_chunk (snapOps τ) tile tx ty)
    (fun tx a ha => fix_inner_chunk_keeps m p hp v tile tx ty a ha) 16 a ha

theorem fix_tile_keeps (m : MapIndex) (p : VertexPtr) (hp : GapSafe m p) (v : vector_3d)
    (tile : MapTile) (acc : Terrain τ × List MapChunk) (hacc : acc.1.mVertices p = v) :
    VertexAt p v (fix_tile (snapOps τ) m tile acc) :=
  for_upto_keeps (VertexAt p v) (fix_inner_row (snapOps τ) tile)
    (fun ty a ha => fix_inner_row_keeps m p hp v tile ty a ha) 16
    (fix_with_above (snapOps τ) m tile (fix_with_left (snapOps τ) m tile (acc.1, acc.2, false)))
    (fix_with_above_keeps m p hp v tile _
      (fix_with_left_keeps m p hp v tile (acc.1, acc.2, false) hacc))

theorem gapSafe_setChanged (m : MapIndex) (tile : MapTile) (p : VertexPtr) :
    GapSafe (m.setChanged tile) p ↔ GapSafe m p := Iff.rfl

theorem fix_tiles_step (p : VertexPtr) (v : vector_3d) (tile : MapTile) (tiles : List MapTile)
    (acc : MapIndex × Terrain τ × List MapChunk) (a : Terrain τ × List MapChunk × Bool)
    (hp : GapSafe acc.1 p) (hk : VertexAt p v a)
    (ih : ∀ (acc : MapIndex × Terrain τ × List MapChunk),
      GapSafe acc.1 p → acc.2.1.mVertices p = v →
      (fix_tiles (snapOps τ) tiles acc).2.1.mVertices p = v) :
    (fix_tiles (snapOps τ) tiles
      (if a.2.2 = true then acc.1.setChanged tile else acc.1, a.1, a.2.1)).2.1.mVertices p
      = v := by
  apply ih
  · by_cases hc : a.2.2 = true
    · rw [if_pos hc]
      exact hp
    · rw [if_neg hc]
      exact hp
  · exact hk

theorem fix_tiles_keeps (p : VertexPtr) (v : vector_3d) :
    ∀ (tiles : List MapTile) (acc : MapIndex × Terrain τ × List MapChunk),
      GapSafe acc.1 p → acc.2.1.mVertices p = v →
      (fix_tiles (snapOps τ) tiles acc).2.1.mVertices p = v := by
  intro tiles
  induction tiles with
  | nil => intro acc _ h; exact h
  | cons tile tiles ih =>
    intro acc hp h
    rw [fix_tiles]
    exact fix_tiles_step p v tile tiles acc (fix_tile (snapOps τ) acc.1 tile acc.2) hp
      (fix_tile_keeps acc.1 p hp v tile acc.2 h) ih

/-- A vertex that no gap fix can write keeps its position through `fixAllGaps`,
whatever the order of the loaded tiles. -/
theorem fixAllGaps_keeps (m : MapIndex) (loaded_tiles : List MapTile) (t : Terrain τ)
    (p : VertexPtr) (hp : GapSafe m p) :
    (fixAllGaps (snapOps τ) loaded_tiles ⟨m, t⟩).st.mVertices p = t.mVertices p := by
  have hid : ∀ (cs : List MapChunk) (m' : MapIndex) (s : Terrain τ),
      cs.foldl (fun s chunk => recalc_norms (snapOps τ) m' chunk s) s = s := by
    intro cs m'
    induction cs with
    | nil => intro s; rfl
    | cons c cs ih => intro s; exact ih s
  unfold fixAllGaps
  simp only [hid]
  exact fix_tiles_keeps p (t.mVertices p) loaded_tiles (m, t, []) hp rfl

/-- C9 (the code does otherwise): take a tile (x, z) with loaded or unloaded
neighbours, whose diagonal neighbour (x-1, z-1) is not loaded.  The corner vertex
136 of chunk (0,15) of the tile above and the corner vertex 8 of chunk (15,0) of
the tile to the left are the two vertices that vertex 0 of chunk (0,0) of tile
(x, z) shares with its neighbours.  `fixAllGaps` writes neither of them, in any
order of the tiles; so when they differ before, chunk (0,0) of tile (x, z) still
has a gap with one of its two neighbours afterwards. -/
theorem fixAllGaps_leaves_corner_gap (m : MapIndex) (loaded_tiles : List MapTile)
    (t : Terrain τ) (x z : Int) (hdiag : m.loaded ⟨x - 1, z - 1⟩ = false)
    (hgap : (t.mVertices ⟨⟨⟨⟨x, z - 1⟩⟩, 0, 15⟩, 136⟩).y
      ≠ (t.mVertices ⟨⟨⟨⟨x - 1, z⟩⟩, 15, 0⟩, 8⟩).y) :
    ((fixAllGaps (snapOps τ) loaded_tiles ⟨m, t⟩).st.mVertices ⟨⟨⟨⟨x, z⟩⟩, 0, 0⟩, 0⟩).y
      ≠ ((fixAllGaps (snapOps τ) loaded_tiles ⟨m, t⟩).st.mVertices
          ⟨⟨⟨⟨x - 1, z⟩⟩, 15, 0⟩, 8⟩).y ∨
    ((fixAllGaps (snapOps τ) loaded_tiles ⟨m, t⟩).st.mVertices ⟨⟨⟨⟨x, z⟩⟩, 0, 0⟩, 0⟩).y
      ≠ ((fixAllGaps (snapOps τ) loaded_tiles ⟨m, t⟩).st.mVertices
          ⟨⟨⟨⟨x, z - 1⟩⟩, 0, 15⟩, 136⟩).y := by
  have hA : GapSafe m ⟨⟨⟨⟨x, z - 1⟩⟩, 0, 15⟩, 136⟩ := by
    refine ⟨Or.inr ⟨rfl, ?_⟩, Or.inl (by simp)⟩
    simp [MapIndex.getTileLeft, MapIndex.getTile, hdiag]
  have hL : GapSafe m ⟨⟨⟨⟨x - 1, z⟩⟩, 15, 0⟩, 8⟩ := by
    refine ⟨Or.inl ?_, Or.inr ⟨rfl, ?_⟩⟩
    · intro j _
      simp only
      omega
    · simp [MapIndex.getTileAbove, MapIndex.getTile, hdiag]
  rw [fixAllGaps_keeps m loaded_tiles t _ hA, fixAllGaps_keeps m loaded_tiles t _ hL]
  by_contra hcon
  rw [not_or, not_not, not_not] at hcon
  exact hgap (hcon.2.symm.trans hcon.1)

end GapFacts

theorem fixAllGaps_leaves_corner_gap_witness :
    cornerIndex.loaded ⟨1 - 1, 1 - 1⟩ = false ∧
    (cornerTerrain.mVertices ⟨⟨⟨⟨1, 1 - 1⟩⟩, 0, 15⟩, 136⟩).y
      ≠ (cornerTerrain.mVertices ⟨⟨⟨⟨1 - 1, 1⟩⟩, 15, 0⟩, 8⟩).y ∧
    (((fixAllGaps (snapOps Unit) [⟨⟨1, 0⟩⟩, ⟨⟨0, 1⟩⟩, ⟨⟨1, 1⟩⟩] ⟨cornerIndex, cornerTerrain⟩).st.mVertices
        ⟨⟨⟨⟨1, 1⟩⟩, 0, 0⟩, 0⟩).y
      ≠ ((fixAllGaps (snapOps Unit) [⟨⟨1, 0⟩⟩, ⟨⟨0, 1⟩⟩, ⟨⟨1, 1⟩⟩]
          ⟨cornerIndex, cornerTerrain⟩).st.mVertices ⟨⟨⟨⟨1 - 1, 1⟩⟩, 15, 0⟩, 8⟩).y ∨
    ((fixAllGaps (snapOps Unit) [⟨⟨1, 0⟩⟩, ⟨⟨0, 1⟩⟩, ⟨⟨1, 1⟩⟩] ⟨cornerIndex, cornerTerrain⟩).st.mVertices
        ⟨⟨⟨⟨1, 1⟩⟩, 0, 0⟩, 0⟩).y
      ≠ ((fixAllGaps (snapOps Unit) [⟨⟨1, 0⟩⟩, ⟨⟨0, 1⟩⟩, ⟨⟨1, 1⟩⟩]
          ⟨cornerIndex, cornerTerrain⟩).st.mVertices ⟨⟨⟨⟨1, 1 - 1⟩⟩, 0, 15⟩, 136⟩).y) :=
  ⟨by decide, by simp [cornerTerrain],
   fixAllGaps_leaves_corner_gap cornerIndex [⟨⟨1, 0⟩⟩, ⟨⟨0, 1⟩⟩, ⟨⟨1, 1⟩⟩] cornerTerrain 1 1
     (by decide) (by simp [cornerTerrain])⟩

end Noggit

namespace Noggit

/-! ## Tiles marked for an instance -/

theorem mem_int_range (lo hi x : Int) : x ∈ int_range lo hi ↔ lo ≤ x ∧ x ≤ hi := by
  unfold int_range
  constructor
  · intro h
    obtain ⟨k, hk, rfl⟩ := List.mem_map.1 h
    have hk' := List.mem_range.1 hk
    omega
  · rintro ⟨h1, h2⟩
    refine List.mem_map.2 ⟨(x - lo).toNat, List.mem_range.2 ?_, ?_⟩
    · omega
    · show lo + ((x - lo).toNat : Int) = x
      omega

theorem setChangedAt_row (z : Int) (t : tile_index) :
    ∀ (xs : List Int) (m : MapIndex),
      (xs.foldl (fun m x => m.setChangedAt ⟨x, z⟩) m).changed t = true ↔
        m.changed t = true ∨ (t.z = z ∧ t.x ∈ xs) := by
  intro xs
  induction xs with
  | nil => intro m; simp
  | cons x xs ih =>
    intro m
    rw [List.foldl_cons, ih]
    by_cases h : t = ⟨x, z⟩
    · subst h
      simp [MapIndex.setChangedAt]
    · have h' : ¬ (t.z = z ∧ t.x = x) := by
        rintro ⟨hz, hx⟩
        apply h
        cases t
        simp_all
      simp only [MapIndex.setChangedAt, h, if_false, List.mem_cons]
      constructor
      · rintro (hm | ⟨hz, hx⟩)
        · exact Or.inl hm
        · exact Or.inr ⟨hz, Or.inr hx⟩
      · rintro (hm | ⟨hz, hx | hx⟩)
        · exact Or.inl hm
        · exact absurd ⟨hz, hx⟩ h'
        · exact Or.inr ⟨hz, hx⟩

theorem setChangedAt_rows (xs : List Int) (t : tile_index) :
    ∀ (zs : List Int) (m : MapIndex),
      (zs.foldl (fun m z => xs.foldl (fun m x => m.setChangedAt ⟨x, z⟩) m) m).changed t = true ↔
        m.changed t = true ∨ (t.z ∈ zs ∧ t.x ∈ xs) := by
  intro zs
  induction zs with
  | nil => intro m; simp
  | cons z zs ih =>
    intro m
    rw [List.foldl_cons, ih, setChangedAt_row]
    simp only [List.mem_cons]
    constructor
    · rintro ((hm | ⟨hz, hx⟩) | ⟨hz, hx⟩)
      · exact Or.inl hm
      · exact Or.inr ⟨Or.inl hz, hx⟩
      · exact Or.inr ⟨Or.inr hz, hx⟩
    · rintro (hm | ⟨hz | hz, hx⟩)
      · exact Or.inl (Or.inl hm)
      · exact Or.inl (Or.inr ⟨hz, hx⟩)
      · exact Or.inr ⟨hz, hx⟩

/-- The two loops of `updateTilesWMO` and `updateTilesModel` flag exactly the
coordinates of the rectangle from `start` to `end_`. -/
theorem update_tiles_changed (start end_ : tile_index) (m : MapIndex) (t : tile_index) :
    (update_tiles start end_ m).changed t = true ↔
      m.changed t = true ∨
        (start.x ≤ t.x ∧ t.x ≤ end_.x ∧ start.z ≤ t.z ∧ t.z ≤ end_.z) := by
  unfold update_tiles
  rw [setChangedAt_rows, mem_int_range, mem_int_range]
  constructor
  · rintro (h | ⟨⟨h1, h2⟩, h3, h4⟩)
    · exact Or.inl h
    · exact Or.inr ⟨h3, h4, h1, h2⟩
  · rintro (h | ⟨h1, h2, h3, h4⟩)
    · exact Or.inl h
    · exact Or.inr ⟨⟨h3, h4⟩, h1, h2⟩

/-- C10: deleting an existing model instance, deleting an existing map-object
instance (each whatever else the world holds), and `updateTilesEntry` on a
selected instance, flag as changed exactly the tile coordinates of the rectangle
between the tile indices of `extents[0]` and `extents[1]` of the instance; every
other flag is as before. -/
theorem instance_marks_tiles_of_extents (w : World ObjectState) (m : MapIndex) (t : tile_index)
    (model_id wmo_id : Int) (selected_model : ModelInstance) (selected_wmo : WMOInstance) :
    (∀ m2, w.st.mModelInstances.find? (fun p => p.1 == model_id) = some m2 →
      ((deleteModelInstance model_id w).mapIndex.changed t = true ↔
        w.mapIndex.changed t = true ∨ in_extents m2.2.extents t)) ∧
    (∀ wmo, w.st.mWMOInstances.find? (fun p => p.1 == wmo_id) = some wmo →
      ((deleteWMOInstance wmo_id w).mapIndex.changed t = true ↔
        w.mapIndex.changed t = true ∨ in_extents wmo.2.extents t)) ∧
    ((updateTilesEntry (.model selected_model) m).changed t = true ↔
      m.changed t = true ∨ in_extents selected_model.extents t) ∧
    ((updateTilesEntry (.wmo selected_wmo) m).changed t = true ↔
      m.changed t = true ∨ in_extents selected_wmo.extents t) := by
  refine ⟨fun m2 hm2 => ?_, fun wmo hwmo => ?_, ?_, ?_⟩
  · simp only [deleteModelInstance, hm2, updateTilesModel]
    exact update_tiles_changed _ _ _ _
  · simp only [deleteWMOInstance, hwmo, updateTilesWMO]
    exact update_tiles_changed _ _ _ _
  · exact update_tiles_changed _ _ _ _
  · exact update_tiles_changed _ _ _ _

theorem instance_marks_tiles_of_extents_witness :
    modelOnlyObjects.st.mModelInstances.find? (fun p => p.1 == 7) = some (7, sampleModel) ∧
    modelOnlyObjects.st.mWMOInstances = [] ∧
    sampleObjects.st.mWMOInstances.find? (fun p => p.1 == 9) = some (9, sampleWMO) ∧
    ((deleteModelInstance 7 modelOnlyObjects).mapIndex.changed ⟨0, 0⟩ = true ↔
      modelOnlyObjects.mapIndex.changed ⟨0, 0⟩ = true ∨
        in_extents sampleModel.extents ⟨0, 0⟩) ∧
    ((deleteWMOInstance 9 sampleObjects).mapIndex.changed ⟨1, 0⟩ = true ↔
      sampleObjects.mapIndex.changed ⟨1, 0⟩ = true ∨ in_extents sampleWMO.extents ⟨1, 0⟩) :=
  ⟨by decide, rfl, by decide,
   (instance_marks_tiles_of_extents modelOnlyObjects sampleIndex ⟨0, 0⟩ 7 9 sampleModel
      sampleWMO).1 (7, sampleModel) (by decide),
   (instance_marks_tiles_of_extents sampleObjects sampleIndex ⟨1, 0⟩ 7 9 sampleModel
      sampleWMO).2.1 (9, sampleWMO) (by decide)⟩

end Noggit

namespace Noggit

/-! ## The loop of `moveVertices` -/

section MoveLoop
variable {τ : Type}

theorem set_y_same (t : Terrain τ) (v : VertexPtr) (h : ℚ) :
    ((t.set_y v h).mVertices v).y = h := by
  simp [Terrain.set_y]

/-- The loop `for (math::vector_3d* v : _vertices_selected) v->y += h;` of
`moveVertices`, taken alone: a vertex outside the selection keeps its position,
and the height of a selected vertex grows by exactly `h`.  What the members
called afterwards by `updateSelectedVertices` do to the heights is not part of
this statement. -/
theorem moveVertices_loop (h : ℚ) :
    ∀ (selected : List VertexPtr) (t : Terrain τ), selected.Nodup →
      (∀ p, p ∉ selected →
        (selected.foldl (fun t v => t.set_y v ((t.mVertices v).y + h)) t).mVertices p
          = t.mVertices p) ∧
      (∀ p, p ∈ selected →
        ((selected.foldl (fun t v => t.set_y v ((t.mVertices v).y + h)) t).mVertices p).y
          = (t.mVertices p).y + h) := by
  intro selected
  induction selected with
  | nil =>
    intro t _
    exact ⟨fun p _ => rfl, fun p hp => absurd hp (List.not_mem_nil p)⟩
  | cons v vs ih =>
    intro t hnd
    obtain ⟨hv, hvs⟩ := List.nodup_cons.1 hnd
    obtain ⟨ih1, ih2⟩ := ih (t.set_y v ((t.mVertices v).y + h)) hvs
    constructor
    · intro p hp
      rw [List.foldl_cons, ih1 p (fun hmem => hp (List.mem_cons_of_mem _ hmem))]
      exact set_y_other _ _ _ _ (fun e => hp (by rw [e]; exact List.mem_cons_self _ _))
    · intro p hp
      rw [List.foldl_cons]
      rcases List.mem_cons.1 hp with rfl | hmem
      · rw [ih1 p hv, set_y_same]
      · rw [ih2 p hmem, set_y_other _ _ _ _ (fun e => hv (by rw [← e]; exact hmem))]

end MoveLoop
end Noggit

namespace Noggit

/-! ## The height sampler -/

section SamplerFacts
variable {σ : Type}

/-- C14: the height sampler that `World` hands to `blurTerrain` and to
`recalcNorms` is one function of `(x, z)` for all chunks; it resolves the tile
from `(x, z)` itself and gives the height reported by that tile when the tile is
loaded, and none exactly when the tile is not loaded or the tile reports no
vertex; it reads the index and the state and changes neither. -/
theorem height_sampler_resolves_tile_of_sample (ops : MapChunkOps σ) (m : MapIndex) (s : σ)
    (x z : ℚ) :
    (∀ (chunk : MapChunk) (s' : σ),
      recalc_norms ops m chunk s' = ops.recalcNorms chunk (height_sampler ops m) s') ∧
    (∀ (q : RangeQuery) (pos : vector_3d) (remain radius : ℚ) (BrushType : Int) (w : World σ),
      blurTerrain q ops pos remain radius BrushType w =
        (for_all_chunks_in_range_post q pos radius
          (fun chunk =>
            ops.blurTerrain chunk pos remain radius BrushType (height_sampler ops w.mapIndex))
          (fun chunk s' => ops.recalcNorms chunk (height_sampler ops w.mapIndex) s') w).2) ∧
    height_sampler ops m s x z =
      (if m.tileLoaded (tile_index.ofPos ⟨x, 0, z⟩) then
        (ops.GetVertex ⟨tile_index.ofPos ⟨x, 0, z⟩⟩ x z s).map (fun v => v.y)
      else none) ∧
    (height_sampler ops m s x z = none ↔
      (m.tileLoaded (tile_index.ofPos ⟨x, 0, z⟩) = false ∨
        ops.GetVertex ⟨tile_index.ofPos ⟨x, 0, z⟩⟩ x z s = none)) := by
  have key : height_sampler ops m s x z =
      (if m.tileLoaded (tile_index.ofPos ⟨x, 0, z⟩) then
        (ops.GetVertex ⟨tile_index.ofPos ⟨x, 0, z⟩⟩ x z s).map (fun v => v.y)
      else none) := by
    unfold height_sampler GetVertex
    by_cases h : m.tileLoaded (tile_index.ofPos ⟨x, 0, z⟩) = true
    · have h' : m.loaded (tile_index.ofPos ⟨x, 0, z⟩) = true := h
      simp [h, MapIndex.getTile, h']
    · simp [h]
  refine ⟨fun _ _ => rfl, fun _ _ _ _ _ _ => rfl, key, ?_⟩
  rw [key]
  by_cases h : m.tileLoaded (tile_index.ofPos ⟨x, 0, z⟩) = true
  · simp [h]
  · simp [h]

end SamplerFacts

/-! ## Tile-addressed operations and queries where there is no tile -/

section NoTileQueries
variable {σ : Type}

/-- C17: for a tile index at which the spatial index yields no tile,
`CropWaterADT`, `setWaterType` and `autoGenWaterTrans` return the world as it
was: no flag of the index is set and the state is the same; with recording
members the record stays empty, so the functor is not run. -/
theorem water_ops_without_tile_do_nothing (tops : MapTileOps σ) (pos : tile_index)
    (type layer : Int) (factor : ℚ) (w : World σ) (h : w.mapIndex.getTile pos = none) :
    CropWaterADT tops pos w = w ∧ setWaterType tops pos type layer w = w ∧
    autoGenWaterTrans tops pos factor w = w ∧
    (CropWaterADT tops.traced pos ⟨w.mapIndex, (w.st, [])⟩).st.2 = [] ∧
    (setWaterType tops.traced pos type layer ⟨w.mapIndex, (w.st, [])⟩).st.2 = [] ∧
    (autoGenWaterTrans tops.traced pos factor ⟨w.mapIndex, (w.st, [])⟩).st.2 = [] ∧
    (∀ t, (CropWaterADT tops pos w).mapIndex.changed t = w.mapIndex.changed t) ∧
    (∀ t, (setWaterType tops pos type layer w).mapIndex.changed t = w.mapIndex.changed t) ∧
    (∀ t, (autoGenWaterTrans tops pos factor w).mapIndex.changed t = w.mapIndex.changed t) := by
  simp [CropWaterADT, setWaterType, autoGenWaterTrans, for_tile_at, h]

/-- C18: at a position for which `getTile` returns null, `getAreaID` returns -1
converted to `unsigned int`, that is 4294967295; at a position whose tile is not
loaded, `GetVertex` returns false (no vertex is written) and `isUnderMap` returns
true; none of them fails. -/
theorem queries_without_tile (ops : MapChunkOps σ) (qs : MapChunkQueries σ) (x y z : ℚ)
    (w : World σ) :
    (w.mapIndex.getTile (tile_index.ofPos ⟨x, y, z⟩) = none →
      getAreaID qs ⟨x, y, z⟩ w = 4294967295) ∧
    (w.mapIndex.tileLoaded (tile_index.ofPos ⟨x, y, z⟩) = false →
      GetVertex ops w.mapIndex x z w.st = none ∧
      isUnderMap qs ⟨x, y, z⟩ w = .ok true) := by
  have h0 : tile_index.ofPos ⟨x, 0, z⟩ = tile_index.ofPos ⟨x, y, z⟩ := rfl
  refine ⟨fun h => ?_, fun h => ⟨?_, ?_⟩⟩
  · simp [getAreaID, for_maybe_chunk_at, h, to_unsigned]
  · simp [GetVertex, h0, h]
  · simp [isUnderMap, h]

end NoTileQueries

theorem tile_index_ofPos_west : tile_index.ofPos ⟨-1, 0, 0⟩ = ⟨-1, 0⟩ := by
  have h1 : Rat.floor ((-1 : ℚ) / (8738133 / 16384)) = -1 := by
    show ⌊(-1 : ℚ) / (8738133 / 16384)⌋ = -1
    norm_num
  have h2 : Rat.floor ((0 : ℚ) / (8738133 / 16384)) = 0 := by
    rw [zero_div]; rfl
  simp only [tile_index.ofPos, TILESIZE]
  rw [h1, h2]

theorem water_ops_without_tile_do_nothing_witness :
    sampleIndex.getTile ⟨5, 5⟩ = none ∧
    CropWaterADT (MapTileOps.idle Unit) ⟨5, 5⟩ ⟨sampleIndex, ()⟩ = ⟨sampleIndex, ()⟩ :=
  ⟨by decide,
    (water_ops_without_tile_do_nothing (MapTileOps.idle Unit) ⟨5, 5⟩ 0 0 0 ⟨sampleIndex, ()⟩
      (by decide)).1⟩

theorem queries_without_tile_witness :
    sampleIndex.getTile (tile_index.ofPos ⟨-1, 0, 0⟩) = none ∧
    sampleIndex.tileLoaded (tile_index.ofPos ⟨-1, 0, 0⟩) = false ∧
    getAreaID sampleQueries ⟨-1, 0, 0⟩ ⟨sampleIndex, ()⟩ = 4294967295 ∧
    GetVertex (MapChunkOps.idle Unit) sampleIndex (-1) 0 () = none ∧
    isUnderMap sampleQueries ⟨-1, 0, 0⟩ ⟨sampleIndex, ()⟩ = .ok true :=
  ⟨by rw [tile_index_ofPos_west]; decide, by rw [tile_index_ofPos_west]; decide,
    (queries_without_tile (MapChunkOps.idle Unit) sampleQueries (-1) 0 0 ⟨sampleIndex, ()⟩).1
      (by rw [tile_index_ofPos_west]; decide),
    (queries_without_tile (MapChunkOps.idle Unit) sampleQueries (-1) 0 0 ⟨sampleIndex, ()⟩).2
      (by rw [tile_index_ofPos_west]; decide)⟩

end Noggit

namespace Noggit

/-! ## Every changed chunk gets its normals recalculated -/

section Recalc
variable {σ τ : Type}

/-- A loop over a list whose body appends a fixed list of records per element. -/
theorem foldl_log {α : Type} (log : τ → List Call) (g : α → List Call) (body : τ → α → τ)
    (hbody : ∀ s a, log (body s a) = log s ++ g a) (l : List α) (s : τ) :
    log (l.foldl body s) = log s ++ l.flatMap g := by
  induction l generalizing s with
  | nil => simp
  | cons a l ih =>
    rw [List.foldl_cons, ih, hbody, List.flatMap_cons, List.append_assoc]

end Recalc

/-! ## The calls of the gap fixes in `fixAllGaps` -/

section GapLog
variable {σ : Type}

theorem traced_heights_fixGapLeft (ops : MapChunkOps σ) (c n : MapChunk) (s : σ × List Call) :
    ops.traced_heights.fixGapLeft c n s =
      ((ops.fixGapLeft c n s.1).1,
        ((ops.fixGapLeft c n s.1).2, s.2 ++ [Call.mutate c (ops.fixGapLeft c n s.1).1])) := rfl

theorem traced_heights_fixGapAbove (ops : MapChunkOps σ) (c n : MapChunk) (s : σ × List Call) :
    ops.traced_heights.fixGapAbove c n s =
      ((ops.fixGapAbove c n s.1).1,
        ((ops.fixGapAbove c n s.1).2, s.2 ++ [Call.mutate c (ops.fixGapAbove c n s.1).1])) := rfl

theorem gapLogged_refl (tile : MapTile) (a : (σ × List Call) × List MapChunk × Bool) :
    GapLogged tile a a :=
  ⟨[], by simp, by simp, by simp, by simp⟩

theorem gapLogged_trans (tile : MapTile) (a b c : (σ × List Call) × List MapChunk × Bool)
    (hab : GapLogged tile a b) (hbc : GapLogged tile b c) : GapLogged tile a c := by
  obtain ⟨L₁, h1, h2, h3, h4⟩ := hab
  obtain ⟨L₂, k1, k2, k3, k4⟩ := hbc
  refine ⟨L₁ ++ L₂, ?_, ?_, ?_, ?_⟩
  · rw [k1, h1, List.append_assoc]
  · intro e he
    rcases List.mem_append.1 he with h | h
    · exact h2 e h
    · exact k2 e h
  · intro ch
    rw [k3, h3, List.mem_append, or_assoc]
  · rw [k4, h4, List.any_append, Bool.or_assoc]

/-- One recorded call on a chunk of the tile, with the chunk appended and the
flag set when it returned true. -/
theorem gapLogged_call (tile : MapTile) (a b : (σ × List Call) × List MapChunk × Bool)
    (c : MapChunk) (r : Bool) (hc : c.mt = tile) (hlog : b.1.2 = a.1.2 ++ [Call.mutate c r])
    (hchunks : b.2.1 = if r then a.2.1 ++ [c] else a.2.1)
    (hflag : b.2.2 = if r then true else a.2.2) : GapLogged tile a b := by
  refine ⟨[Call.mutate c r], hlog, ?_, ?_, ?_⟩
  · intro e he
    rw [List.mem_singleton] at he
    subst he
    exact ⟨rfl, hc⟩
  · intro c'
    rw [hchunks]
    cases r
    · simp
    · simp only [if_true, List.mem_append, List.mem_singleton, Call.mutate.injEq, and_true]
  · rw [hflag]
    cases r <;> simp [Call.reportsChange]

theorem for_upto_rel {α : Type} (R : α → α → Prop) (hrefl : ∀ a, R a a)
    (htrans : ∀ a b c, R a b → R b c → R a c) (body : Nat → α → α)
    (hbody : ∀ i a, R a (body i a)) (n : Nat) (a : α) : R a (for_upto n body a) := by
  unfold for_upto
  generalize List.range n = is
  induction is generalizing a with
  | nil => exact hrefl a
  | cons i is ih =>
    rw [List.foldl_cons]
    exact htrans _ _ _ (hbody i a) (ih (body i a))

theorem fix_left_step_logged (ops : MapChunkOps σ) (tile left : MapTile) (ty : Nat)
    (acc : (σ × List Call) × List MapChunk × Bool) :
    GapLogged tile acc (fix_left_step ops.traced_heights tile left ty acc) :=
  gapLogged_call tile acc _ (tile.getChunk 0 ty)
    (ops.fixGapLeft (tile.getChunk 0 ty) (left.getChunk 15 ty) acc.1.1).1 rfl rfl rfl rfl

theorem fix_top_step_logged (ops : MapChunkOps σ) (tile above : MapTile) (tx : Nat)
    (acc : (σ × List Call) × List MapChunk × Bool) :
    GapLogged tile acc (fix_top_step ops.traced_heights tile above tx acc) :=
  gapLogged_call tile acc _ (tile.getChunk tx 0)
    (ops.fixGapAbove (tile.getChunk tx 0) (above.getChunk tx 15) acc.1.1).1 rfl rfl rfl rfl

/-- The two guarded calls of the innermost loop, as records. -/
theorem guarded_fix_logged (n : Nat) (c : MapChunk) (fix : σ → Bool × σ) (s : σ × List Call) :
    ∃ L, (guarded_fix n
        (fun s : σ × List Call => ((fix s.1).1, ((fix s.1).2, s.2 ++ [Call.mutate c (fix s.1).1])))
        s).2.2 = s.2 ++ L ∧
      (∀ e ∈ L, e.isMutate = true ∧ e.chunk = c) ∧
      ((guarded_fix n
        (fun s : σ × List Call => ((fix s.1).1, ((fix s.1).2, s.2 ++ [Call.mutate c (fix s.1).1])))
        s).1 = L.any Call.reportsChange) ∧
      (∀ c', Call.mutate c' true ∈ L → c' = c) := by
  by_cases hn : n = 0
  · refine ⟨[], ?_, ?_, ?_, ?_⟩ <;> simp [guarded_fix, hn]
  · refine ⟨[Call.mutate c (fix s.1).1], ?_, ?_, ?_, ?_⟩
    · simp [guarded_fix, hn]
    · simp [Call.isMutate, Call.chunk]
    · cases h : (fix s.1).1 <;> simp [guarded_fix, hn, h, Call.reportsChange]
    · intro c' hc'
      simp only [List.mem_singleton, Call.mutate.injEq] at hc'
      exact hc'.1
 
theorem fix_inner_chunk_logged (ops : MapChunkOps σ) (tile : MapTile) (tx ty : Nat)
    (acc : (σ × List Call) × List MapChunk × Bool) :
    GapLogged tile acc (fix_inner_chunk ops.traced_heights tile tx ty acc) := by
  obtain ⟨L₁, h1, h1m, h1r, h1c⟩ := guarded_fix_logged tx (tile.getChunk tx ty)
    (ops.fixGapLeft (tile.getChunk tx ty) (tile.getChunk (tx - 1) ty)) acc.1
  obtain ⟨L₂, h2, h2m, h2r, h2c⟩ := guarded_fix_logged ty (tile.getChunk tx ty)
    (ops.fixGapAbove (tile.getChunk tx ty) (tile.getChunk tx (ty - 1)))
    (guarded_fix tx (ops.traced_heights.fixGapLeft (tile.getChunk tx ty)
      (tile.getChunk (tx - 1) ty)) acc.1).2
  have hchanged : fix_inner_changed ops.traced_heights tile tx ty acc.1 =
      (L₁ ++ L₂).any Call.reportsChange := by
    rw [List.any_append, ← h1r, ← h2r]
    rfl
  refine ⟨L₁ ++ L₂, ?_, ?_, ?_, ?_⟩
  · rw [← List.append_assoc, ← h1]
    exact h2
  · intro e he
    rcases List.mem_append.1 he with h | h
    · exact ⟨(h1m e h).1, by rw [(h1m e h).2]; rfl⟩
    · exact ⟨(h2m e h).1, by rw [(h2m e h).2]; rfl⟩
  · intro c'
    have hc : ∀ c'', Call.mutate c'' true ∈ L₁ ++ L₂ → c'' = tile.getChunk tx ty := by
      intro c'' h
      rcases List.mem_append.1 h with h | h
      · exact h1c c'' h
      · exact h2c c'' h
    show c' ∈ (if fix_inner_changed ops.traced_heights tile tx ty acc.1
      then acc.2.1 ++ [tile.getChunk tx ty] else acc.2.1) ↔ _
    rw [hchanged]
    by_cases hany : (L₁ ++ L₂).any Call.reportsChange = true
    · obtain ⟨c'', hc''⟩ := (any_reportsChange_iff _).1 hany
      have := hc c'' hc''
      subst this
      rw [if_pos hany, List.mem_append, List.mem_singleton]
      constructor
      · rintro (h | h)
        · exact Or.inl h
        · exact Or.inr (h ▸ hc'')
      · rintro (h | h)
        · exact Or.inl h
        · exact Or.inr (hc c' h)
    · rw [if_neg hany]
      constructor
      · exact Or.inl
      · rintro (h | h)
        · exact h
        · exact absurd ((any_reportsChange_iff _).2 ⟨c', h⟩) hany
  · show (if fix_inner_changed ops.traced_heights tile tx ty acc.1 then true else acc.2.2) = _
    rw [hchanged]
    cases (L₁ ++ L₂).any Call.reportsChange <;> simp

theorem fix_tile_logged (ops : MapChunkOps σ) (m : MapIndex) (tile : MapTile)
    (acc : (σ × List Call) × List MapChunk) :
    GapLogged tile (acc.1, acc.2, false) (fix_tile ops.traced_heights m tile acc) := by
  have hleft : GapLogged tile (acc.1, acc.2, false)
      (fix_with_left ops.traced_heights m tile (acc.1, acc.2, false)) := by
    unfold fix_with_left
    cases m.getTileLeft tile with
    | none => exact gapLogged_refl tile _
    | some left =>
      exact for_upto_rel (GapLogged tile) (gapLogged_refl tile) (gapLogged_trans tile) _
        (fun ty a => fix_left_step_logged ops tile left ty a) 16 _
  have habove : ∀ a, GapLogged tile a (fix_with_above ops.traced_heights m tile a) := by
    intro a
    unfold fix_with_above
    cases m.getTileAbove tile with
    | none => exact gapLogged_refl tile _
    | some above =>
      exact for_upto_rel (GapLogged tile) (gapLogged_refl tile) (gapLogged_trans tile) _
        (fun tx a => fix_top_step_logged ops tile above tx a) 16 _
  have hinner : ∀ a, GapLogged tile a (for_upto 16 (fix_inner_row ops.traced_heights tile) a) := by
    intro a
    exact for_upto_rel (GapLogged tile) (gapLogged_refl tile) (gapLogged_trans tile) _
      (fun ty a => for_upto_rel (GapLogged tile) (gapLogged_refl tile) (gapLogged_trans tile) _
        (fun tx a => fix_inner_chunk_logged ops tile tx ty a) 16 a) 16 a
  exact gapLogged_trans tile _ _ _ hleft (gapLogged_trans tile _ _ _ (habove _) (hinner _))

theorem gapsLogged_refl (a : MapIndex × (σ × List Call) × List MapChunk) : GapsLogged a a :=
  ⟨[], by simp, by simp, by simp, by simp⟩

theorem gapsLogged_trans (a b c : MapIndex × (σ × List Call) × List MapChunk)
    (hab : GapsLogged a b) (hbc : GapsLogged b c) : GapsLogged a c := by
  obtain ⟨L₁, h1, h2, h3, h4⟩ := hab
  obtain ⟨L₂, k1, k2, k3, k4⟩ := hbc
  refine ⟨L₁ ++ L₂, ?_, ?_, ?_, ?_⟩
  · rw [k1, h1, List.append_assoc]
  · intro e he
    rcases List.mem_append.1 he with h | h
    · exact h2 e h
    · exact k2 e h
  · intro ch
    rw [k3, h3, List.mem_append, or_assoc]
  · intro t
    rw [k4, h4, List.any_append, Bool.or_assoc]

theorem fix_tiles_step_logged (m : MapIndex) (tile : MapTile)
    (acc : (σ × List Call) × List MapChunk) (a : (σ × List Call) × List MapChunk × Bool)
    (h : GapLogged tile (acc.1, acc.2, false) a) :
    GapsLogged (m, acc) (if a.2.2 then m.setChanged tile else m, a.1, a.2.1) := by
  obtain ⟨L, h1, h2, h3, h4⟩ := h
  refine ⟨L, h1, fun e he => (h2 e he).1, h3, ?_⟩
  intro t
  rw [any_reportsChange_of_tile tile t L (fun e he => (h2 e he).2), h4]
  simp only [Bool.false_or]
  cases L.any Call.reportsChange
  · simp
  · by_cases ht : t = tile.index
    · simp [MapIndex.setChanged, MapIndex.setChangedAt, ht]
    · simp [MapIndex.setChanged, MapIndex.setChangedAt, ht]

theorem fix_tiles_logged (ops : MapChunkOps σ) :
    ∀ (tiles : List MapTile) (acc : MapIndex × (σ × List Call) × List MapChunk),
      GapsLogged acc (fix_tiles ops.traced_heights tiles acc) := by
  intro tiles
  induction tiles with
  | nil => intro acc; exact gapsLogged_refl acc
  | cons tile tiles ih =>
    intro acc
    have hstep := fix_tiles_step_logged acc.1 tile acc.2
      (fix_tile ops.traced_heights acc.1 tile acc.2) (fix_tile_logged ops acc.1 tile acc.2)
    exact gapsLogged_trans _ _ _ hstep (ih _)

/-- The log of `fixAllGaps` run with recording members from an empty log: the
calls of the gap fixes, then one recalculation of normals per entry of the vector
`chunks`, which holds exactly the chunks whose gap fix returned true; and a tile
has its changed flag set afterwards exactly when it had it before or a gap fix on
one of its chunks returned true. -/
theorem fixAllGaps_log (ops : MapChunkOps σ) (loaded_tiles : List MapTile) (m : MapIndex)
    (s : σ) :
    ∃ (L : List Call) (cs : List MapChunk),
      (fixAllGaps ops.traced_heights loaded_tiles ⟨m, (s, [])⟩).st.2 = L ++ cs.map Call.post ∧
      (∀ e ∈ L, e.isMutate = true) ∧
      (∀ c, c ∈ cs ↔ Call.mutate c true ∈ L) ∧
      (∀ t, (fixAllGaps ops.traced_heights loaded_tiles ⟨m, (s, [])⟩).mapIndex.changed t =
        (m.changed t ||
          L.any (fun e => e.reportsChange && decide (e.chunk.mt.index = t)))) := by
  obtain ⟨L, h1, h2, h3, h4⟩ := fix_tiles_logged ops loaded_tiles (m, (s, []), [])
  simp only [fixAllGaps]
  generalize fix_tiles ops.traced_heights loaded_tiles (m, (s, []), []) = r at h1 h2 h3 h4 ⊢
  simp only [List.nil_append] at h1
  refine ⟨L, r.2.2, ?_, h2, ?_, h4⟩
  · have := foldl_log (fun s : σ × List Call => s.2) (fun c => [Call.post c])
      (fun s chunk => recalc_norms ops.traced_heights r.1 chunk s) (fun _ _ => rfl) r.2.2 r.2.1
    simp only at this
    rw [this, h1]
    congr 1
    generalize r.2.2 = cs
    induction cs with
    | nil => rfl
    | cons c cs ih => simp [List.flatMap_cons, ih]
  · intro c
    rw [h3]
    simp


end GapLog

/-! ## The vertex operations recalculate the normals -/

section VertexRecalc
variable {τ : Type}

theorem mem_foldl_insert_if {α : Type} [DecidableEq α] (p : α → Bool) (l : List α) :
    ∀ (acc : List α) (c : α),
      c ∈ l.foldl (fun acc x => if p x then acc.insert x else acc) acc → c ∈ acc ∨ c ∈ l := by
  induction l with
  | nil => intro acc c h; exact Or.inl h
  | cons x l ih =>
    intro acc c h
    rw [List.foldl_cons] at h
    rcases ih _ c h with h' | h'
    · by_cases hp : p x = true
      · rw [if_pos hp, List.mem_insert_iff] at h'
        rcases h' with h' | h'
        · exact Or.inr (h' ▸ List.mem_cons_self _ _)
        · exact Or.inl h'
      · rw [if_neg hp] at h'
        exact Or.inl h'
    · exact Or.inr (List.mem_cons_of_mem _ h')

/-- After `vertexBorderChunks` the border chunks are among `_vertex_chunks`, and
the terrain, the selection and `_vertex_chunks` are as before. -/
theorem vertexBorderChunks_facts (ops : MapChunkOps (Terrain τ)) (e : EditState τ)
    (h : SelectionClosed e) :
    (vertexBorderChunks ops e).terrain = e.terrain ∧
    (vertexBorderChunks ops e)._vertices_selected = e._vertices_selected ∧
    (vertexBorderChunks ops e)._vertex_chunks = e._vertex_chunks ∧
    ∀ c ∈ (vertexBorderChunks ops e)._vertex_border_chunks, c ∈ e._vertex_chunks := by
  unfold vertexBorderChunks
  by_cases hb : e._vertex_border_updated = true
  · simp only [hb, Bool.not_true, Bool.false_eq_true, if_false, true_and]
    exact h.2 hb
  · simp only [hb, Bool.not_false, if_true, true_and]
    intro c hc
    rcases mem_foldl_insert_if (fun chunk => ops.isBorderChunk chunk e._vertices_selected e.terrain)
      e._vertex_chunks [] c hc with h' | h'
    · simp at h'
    · exact h'

end VertexRecalc

/-! ## Recording the gap fixes changes nothing else -/

section GapErase
variable {σ : Type}

theorem for_upto_sim {α β : Type} (R : α → β → Prop) (body₁ : Nat → α → α)
    (body₂ : Nat → β → β) (h : ∀ i a b, R a b → R (body₁ i a) (body₂ i b)) (n : Nat)
    (a : α) (b : β) (h0 : R a b) : R (for_upto n body₁ a) (for_upto n body₂ b) := by
  unfold for_upto
  generalize List.range n = is
  induction is generalizing a b with
  | nil => exact h0
  | cons i is ih =>
    rw [List.foldl_cons, List.foldl_cons]
    exact ih _ _ (h i a b h0)

theorem fix_left_step_erased (ops : MapChunkOps σ) (tile left : MapTile) (ty : Nat)
    (a : σ × List MapChunk × Bool) (b : (σ × List Call) × List MapChunk × Bool)
    (h : GapErased a b) :
    GapErased (fix_left_step ops tile left ty a)
      (fix_left_step ops.traced_heights tile left ty b) := by
  obtain ⟨h1, h2⟩ := h
  constructor
  · show (ops.fixGapLeft (tile.getChunk 0 ty) (left.getChunk 15 ty) b.1.1).2 = _
    rw [h1]; rfl
  · show ((if (ops.fixGapLeft (tile.getChunk 0 ty) (left.getChunk 15 ty) b.1.1).1
        then b.2.1 ++ [tile.getChunk 0 ty] else b.2.1),
      (if (ops.fixGapLeft (tile.getChunk 0 ty) (left.getChunk 15 ty) b.1.1).1
        then true else b.2.2)) = _
    rw [h1, h2]; rfl

theorem fix_top_step_erased (ops : MapChunkOps σ) (tile above : MapTile) (tx : Nat)
    (a : σ × List MapChunk × Bool) (b : (σ × List Call) × List MapChunk × Bool)
    (h : GapErased a b) :
    GapErased (fix_top_step ops tile above tx a)
      (fix_top_step ops.traced_heights tile above tx b) := by
  obtain ⟨h1, h2⟩ := h
  constructor
  · show (ops.fixGapAbove (tile.getChunk tx 0) (above.getChunk tx 15) b.1.1).2 = _
    rw [h1]; rfl
  · show ((if (ops.fixGapAbove (tile.getChunk tx 0) (above.getChunk tx 15) b.1.1).1
        then b.2.1 ++ [tile.getChunk tx 0] else b.2.1),
      (if (ops.fixGapAbove (tile.getChunk tx 0) (above.getChunk tx 15) b.1.1).1
        then true else b.2.2)) = _
    rw [h1, h2]; rfl

theorem guarded_fix_erased (n : Nat) (fix : σ → Bool × σ) (c : MapChunk) (s : σ × List Call) :
    (guarded_fix n
      (fun s : σ × List Call => ((fix s.1).1, ((fix s.1).2, s.2 ++ [Call.mutate c (fix s.1).1])))
      s).1 = (guarded_fix n fix s.1).1 ∧
    (guarded_fix n
      (fun s : σ × List Call => ((fix s.1).1, ((fix s.1).2, s.2 ++ [Call.mutate c (fix s.1).1])))
      s).2.1 = (guarded_fix n fix s.1).2 := by
  by_cases hn : n = 0 <;> simp [guarded_fix, hn]

theorem fix_inner_chunk_erased (ops : MapChunkOps σ) (tile : MapTile) (tx ty : Nat)
    (a : σ × List MapChunk × Bool) (b : (σ × List Call) × List MapChunk × Bool)
    (h : GapErased a b) :
    GapErased (fix_inner_chunk ops tile tx ty a)
      (fix_inner_chunk ops.traced_heights tile tx ty b) := by
  obtain ⟨h1, h2⟩ := h
  have e1 := guarded_fix_erased tx
    (ops.fixGapLeft (tile.getChunk tx ty) (tile.getChunk (tx - 1) ty)) (tile.getChunk tx ty) b.1
  have e2 := guarded_fix_erased ty
    (ops.fixGapAbove (tile.getChunk tx ty) (tile.getChunk tx (ty - 1))) (tile.getChunk tx ty)
    (guarded_fix tx (ops.traced_heights.fixGapLeft (tile.getChunk tx ty)
      (tile.getChunk (tx - 1) ty)) b.1).2
  have hs : (fix_inner_state ops.traced_heights tile tx ty b.1).1 =
      fix_inner_state ops tile tx ty a.1 := by
    unfold fix_inner_state
    refine e2.2.trans ?_
    rw [← h1]
    exact congrArg (fun s => (guarded_fix ty
      (ops.fixGapAbove (tile.getChunk tx ty) (tile.getChunk tx (ty - 1))) s).2) e1.2
  have hc : fix_inner_changed ops.traced_heights tile tx ty b.1 =
      fix_inner_changed ops tile tx ty a.1 := by
    unfold fix_inner_changed
    rw [← h1]
    refine congrArg₂ (· || ·) e1.1 (e2.1.trans ?_)
    exact congrArg (fun s => (guarded_fix ty
      (ops.fixGapAbove (tile.getChunk tx ty) (tile.getChunk tx (ty - 1))) s).1) e1.2
  constructor
  · exact hs
  · show ((if fix_inner_changed ops.traced_heights tile tx ty b.1
        then b.2.1 ++ [tile.getChunk tx ty] else b.2.1),
      (if fix_inner_changed ops.traced_heights tile tx ty b.1 then true else b.2.2)) = _
    rw [hc, h2]; rfl

theorem fix_tile_erased (ops : MapChunkOps σ) (m : MapIndex) (tile : MapTile)
    (a : σ × List MapChunk) (b : (σ × List Call) × List MapChunk)
    (h1 : b.1.1 = a.1) (h2 : b.2 = a.2) :
    GapErased (fix_tile ops m tile a) (fix_tile ops.traced_heights m tile b) := by
  unfold fix_tile
  apply for_upto_sim GapErased _ _
    (fun ty a b h => for_upto_sim GapErased _ _
      (fun tx a b h => fix_inner_chunk_erased ops tile tx ty a b h) 16 a b h)
  have hleft : GapErased (fix_with_left ops m tile (a.1, a.2, false))
      (fix_with_left ops.traced_heights m tile (b.1, b.2, false)) := by
    unfold fix_with_left
    cases m.getTileLeft tile with
    | none => exact ⟨h1, by rw [h2]⟩
    | some left =>
      exact for_upto_sim GapErased _ _ (fun ty a b h => fix_left_step_erased ops tile left ty a b h)
        16 _ _ ⟨h1, by rw [h2]⟩
  unfold fix_with_above
  cases m.getTileAbove tile with
  | none => exact hleft
  | some above =>
    exact for_upto_sim GapErased _ _ (fun tx a b h => fix_top_step_erased ops tile above tx a b h)
      16 _ _ hleft

theorem fix_tiles_erased (ops : MapChunkOps σ) :
    ∀ (tiles : List MapTile) (a : MapIndex × σ × List MapChunk)
      (b : MapIndex × (σ × List Call) × List MapChunk),
      b.1 = a.1 → b.2.1.1 = a.2.1 → b.2.2 = a.2.2 →
      (fix_tiles ops.traced_heights tiles b).1 = (fix_tiles ops tiles a).1 ∧
      (fix_tiles ops.traced_heights tiles b).2.1.1 = (fix_tiles ops tiles a).2.1 ∧
      (fix_tiles ops.traced_heights tiles b).2.2 = (fix_tiles ops tiles a).2.2 := by
  intro tiles
  induction tiles with
  | nil => intro a b h1 h2 h3; exact ⟨h1, h2, h3⟩
  | cons tile tiles ih =>
    intro a b h1 h2 h3
    have hstep := fix_tile_erased ops a.1 tile a.2 b.2 h2 h3
    simp only [fix_tiles]
    rw [h1]
    exact ih _ _ (by rw [hstep.2]) hstep.1 (by rw [hstep.2])

/-- Recording changes nothing: `fixAllGaps` sets the same flags of the index
whether or not its members record their calls. -/
theorem fixAllGaps_traced_index (ops : MapChunkOps σ) (loaded_tiles : List MapTile)
    (m : MapIndex) (s : σ) :
    (fixAllGaps ops.traced_heights loaded_tiles ⟨m, (s, [])⟩).mapIndex =
      (fixAllGaps ops loaded_tiles ⟨m, s⟩).mapIndex :=
  (fix_tiles_erased ops loaded_tiles (m, s, []) (m, (s, []), []) rfl rfl rfl).1

end GapErase

end Noggit

namespace Noggit

/-! ## The selection sets cover the selection -/

section Closed
variable {τ : Type}

theorem mem_foldl_erase {α : Type} [DecidableEq α] (l : List α) :
    ∀ (acc : List α) (v : α), v ∈ l.foldl (fun sel x => sel.erase x) acc → v ∈ acc := by
  induction l with
  | nil => intro acc v h; exact h
  | cons x l ih =>
    intro acc v h
    rw [List.foldl_cons] at h
    exact List.mem_of_mem_erase (ih _ v h)

/-- The selection sets cover the selection in every state that the selection
operations reach: `selectVertices` keeps the cover when `selectVertex` adds only
vertices of the chunk it is called on, `deselectVertices` and
`clearVertexSelection` keep it, and the empty selection has it. -/
theorem selectionClosed_kept (q : RangeQuery) (ops : MapChunkOps (Terrain τ)) (misc : Misc)
    (pos : vector_3d) (radius : ℚ) (w : World (EditState τ))
    (hlocal : ∀ c pos radius t sel v, v ∈ ops.selectVertex c pos radius t sel →
      v ∈ sel ∨ v.chunk = c)
    (h : ∀ v ∈ w.st._vertices_selected, v.chunk ∈ w.st._vertex_chunks) :
    SelectionClosed (selectVertices q ops pos radius w).st ∧
    SelectionClosed (deselectVertices misc pos radius w).2.st ∧
    SelectionClosed (clearVertexSelection w).st := by
  refine ⟨?_, ?_, ?_⟩
  · have key := tiles_loop_keeps q pos radius (selection_functor ops pos radius)
      (fun e : EditState τ => (∀ v ∈ e._vertices_selected, v.chunk ∈ e._vertex_chunks) ∧
        e._vertex_border_updated = false)
      (fun c e he => by
        refine ⟨?_, he.2⟩
        intro v hv
        rcases hlocal c pos radius e.terrain e._vertices_selected v hv with h' | h'
        · exact List.mem_insert_iff.2 (Or.inr (he.1 v h'))
        · exact List.mem_insert_iff.2 (Or.inl h'))
      (q.tiles_in_range w.mapIndex pos radius)
      (false, ⟨w.mapIndex,
        { w.st with _vertex_center_updated := false, _vertex_border_updated := false }⟩)
      ⟨h, rfl⟩
    have k2 : (selectVertices q ops pos radius w).st._vertex_border_updated = false := key.2
    constructor
    · exact key.1
    · intro hb
      rw [k2] at hb
      cases hb
  · constructor
    · exact fun v hv => h v (mem_foldl_erase _ _ v hv)
    · intro hb
      cases hb
  · constructor
    · exact fun v hv => by cases hv
    · intro hb
      cases hb

end Closed

section RecalcClaims
variable {σ τ : Type}

/-- C19: `fixAllGaps` leaves a tile flagged as changed exactly when the tile was
flagged before or a call of `fixGapLeft` or `fixGapAbove` on one of the chunks of
that tile returned true; the calls are read off the log of the recording members,
which mark the same tiles as the members themselves. -/
theorem fixAllGaps_marks_tile_iff_gap_fixed (ops : MapChunkOps σ) (loaded_tiles : List MapTile)
    (m : MapIndex) (s : σ) (t : tile_index) :
    ((fixAllGaps ops loaded_tiles ⟨m, s⟩).mapIndex.changed t = true ↔
      m.changed t = true ∨
        ∃ c, Call.mutate c true ∈
          (fixAllGaps ops.traced_heights loaded_tiles ⟨m, (s, [])⟩).st.2 ∧ c.mt.index = t) ∧
    (fixAllGaps ops.traced_heights loaded_tiles ⟨m, (s, [])⟩).mapIndex =
      (fixAllGaps ops loaded_tiles ⟨m, s⟩).mapIndex := by
  refine ⟨?_, fixAllGaps_traced_index ops loaded_tiles m s⟩
  rw [← fixAllGaps_traced_index ops loaded_tiles m s]
  obtain ⟨L, cs, h1, -, -, h4⟩ := fixAllGaps_log ops loaded_tiles m s
  rw [h4 t, h1, Bool.or_eq_true, any_reportsChange_at_iff]
  constructor
  · rintro (h | ⟨c, hc, ht⟩)
    · exact Or.inl h
    · exact Or.inr ⟨c, List.mem_append_left _ hc, ht⟩
  · rintro (h | ⟨c, hc, ht⟩)
    · exact Or.inl h
    · exact Or.inr ⟨c, mem_log_mutate_iff.1 hc, ht⟩

end RecalcClaims

end Noggit

namespace Noggit

/-! ## `World::convert_alphamap` and the set of loaded tiles -/

section ConvertFacts
variable {σ : Type}

theorem convert_alphamap_tile_loaded (tops : MapTileOps σ) (iops : MapIndexOps σ)
    (to_big_alpha : Bool) (tile : tile_index) (w : World σ) (t : tile_index) :
    (convert_alphamap_tile tops iops to_big_alpha tile w).mapIndex.loaded t =
      w.mapIndex.loaded t := by
  by_cases hl : w.mapIndex.loaded tile = true
  · simp [convert_alphamap_tile, loadTile, hl, MapIndex.tileLoaded, convert_and_save,
      MapIndex.markOnDisc, MapIndex.unsetChanged]
  · by_cases hd : w.mapIndex.onDisc tile = true
    · by_cases ht : t = tile
      · subst ht
        simp [convert_alphamap_tile, loadTile, hl, hd, MapIndex.tileLoaded, convert_and_save,
          MapIndex.markOnDisc, MapIndex.unsetChanged, unloadTile]
      · simp [convert_alphamap_tile, loadTile, hl, hd, MapIndex.tileLoaded, convert_and_save,
          MapIndex.markOnDisc, MapIndex.unsetChanged, unloadTile, ht]
    · simp [convert_alphamap_tile, loadTile, hl, hd]

theorem savedBeforeUnload_snoc (J : List TileCall) (e : TileCall) (hJ : SavedBeforeUnload J)
    (he : ∀ t, e = TileCall.destroy t → TileCall.saved ⟨t⟩ ∈ J) :
    SavedBeforeUnload (J ++ [e]) := by
  intro pre t suf h
  rcases List.eq_nil_or_concat suf with rfl | ⟨suf', e', rfl⟩
  · have h' : J ++ [e] = pre ++ [TileCall.destroy t] := h
    obtain ⟨h1, h2⟩ := List.append_inj' h' rfl
    simp only [List.cons.injEq, and_true] at h2
    rw [← h1]
    exact he t h2
  · have h' : J ++ [e] = (pre ++ TileCall.destroy t :: suf') ++ [e'] := by
      rw [h]; simp
    obtain ⟨h1, -⟩ := List.append_inj' h' rfl
    exact hJ pre t suf' h1

/-- What one pass of the body of the loops does, with recording members: nothing,
or convert and save on a tile that was loaded, or read, convert, save and destroy
on a tile that was not; no changed flag is set and the flag of a tile that was
worked on is cleared. -/
theorem convert_alphamap_tile_journal (tops : MapTileOps σ) (iops : MapIndexOps σ)
    (to_big_alpha : Bool) (tile : tile_index) (w : World (σ × List TileCall)) :
    ∃ L, (convert_alphamap_tile tops.traced iops.traced to_big_alpha tile w).st.2 =
        w.st.2 ++ L ∧
      (L = [] ∨ L = [TileCall.convert ⟨tile⟩ to_big_alpha, TileCall.saved ⟨tile⟩] ∨
        L = [TileCall.read tile, TileCall.convert ⟨tile⟩ to_big_alpha, TileCall.saved ⟨tile⟩,
          TileCall.destroy tile]) ∧
      (∀ t, (convert_alphamap_tile tops.traced iops.traced to_big_alpha tile w).mapIndex.changed t
          = true → w.mapIndex.changed t = true) ∧
      (L ≠ [] →
        (convert_alphamap_tile tops.traced iops.traced to_big_alpha tile w).mapIndex.changed tile
          = false) := by
  by_cases hl : w.mapIndex.loaded tile = true
  · refine ⟨[TileCall.convert ⟨tile⟩ to_big_alpha, TileCall.saved ⟨tile⟩], ?_, Or.inr (Or.inl rfl),
      ?_, ?_⟩
    · simp [convert_alphamap_tile, loadTile, hl, MapIndex.tileLoaded, convert_and_save,
        MapTileOps.traced]
    · intro t
      by_cases ht : t = tile <;>
        simp [convert_alphamap_tile, loadTile, hl, MapIndex.tileLoaded, convert_and_save,
          MapIndex.markOnDisc, MapIndex.unsetChanged, ht]
    · intro _
      simp [convert_alphamap_tile, loadTile, hl, MapIndex.tileLoaded, convert_and_save,
        MapIndex.markOnDisc, MapIndex.unsetChanged]
  · by_cases hd : w.mapIndex.onDisc tile = true
    · refine ⟨[TileCall.read tile, TileCall.convert ⟨tile⟩ to_big_alpha, TileCall.saved ⟨tile⟩,
        TileCall.destroy tile], ?_, Or.inr (Or.inr rfl), ?_, ?_⟩
      · simp [convert_alphamap_tile, loadTile, hl, hd, MapIndex.tileLoaded, convert_and_save,
          MapIndex.markOnDisc, MapIndex.unsetChanged, unloadTile, MapTileOps.traced,
          MapIndexOps.traced]
      · intro t
        by_cases ht : t = tile <;>
          simp [convert_alphamap_tile, loadTile, hl, hd, MapIndex.tileLoaded, convert_and_save,
            MapIndex.markOnDisc, MapIndex.unsetChanged, unloadTile, ht]
      · intro _
        simp [convert_alphamap_tile, loadTile, hl, hd, MapIndex.tileLoaded, convert_and_save,
          MapIndex.markOnDisc, MapIndex.unsetChanged, unloadTile]
    · refine ⟨[], ?_, Or.inl rfl, ?_, ?_⟩
      · simp [convert_alphamap_tile, loadTile, hl, hd]
      · intro t
        simp [convert_alphamap_tile, loadTile, hl, hd]
      · intro h
        exact absurd rfl h

theorem convert_alphamap_tile_invariant (tops : MapTileOps σ) (iops : MapIndexOps σ)
    (to_big_alpha : Bool) (m : MapIndex) (tile : tile_index) (w : World (σ × List TileCall))
    (h : ConvertInvariant m w) :
    ConvertInvariant m (convert_alphamap_tile tops.traced iops.traced to_big_alpha tile w) := by
  obtain ⟨h1, h2, h3, h4⟩ := h
  obtain ⟨L, hJ, hL, hc, hc'⟩ := convert_alphamap_tile_journal tops iops to_big_alpha tile w
  refine ⟨fun t => ?_, ?_, ?_, ?_⟩
  · rw [convert_alphamap_tile_loaded, h1]
  · rw [hJ]
    rcases hL with rfl | rfl | rfl
    · simpa using h2
    · have := savedBeforeUnload_snoc _ (TileCall.saved ⟨tile⟩)
        (savedBeforeUnload_snoc _ (TileCall.convert ⟨tile⟩ to_big_alpha) h2
          (fun t ht => by cases ht))
        (fun t ht => by cases ht)
      simpa using this
    · have := savedBeforeUnload_snoc _ (TileCall.destroy tile)
        (savedBeforeUnload_snoc _ (TileCall.saved ⟨tile⟩)
          (savedBeforeUnload_snoc _ (TileCall.convert ⟨tile⟩ to_big_alpha)
            (savedBeforeUnload_snoc _ (TileCall.read tile) h2 (fun t ht => by cases ht))
            (fun t ht => by cases ht))
          (fun t ht => by cases ht))
        (fun t ht => by
          simp only [TileCall.destroy.injEq] at ht
          subst ht
          simp)
      simpa using this
  · intro t ht
    rw [hJ] at ht ⊢
    rcases hL with rfl | rfl | rfl
    · simpa using h3 t (by simpa using ht)
    · simp only [List.mem_append, List.mem_cons, List.mem_singleton, List.not_mem_nil,
        or_false] at ht
      rcases ht with ht | ht | ht
      · exact List.mem_append_left _ (h3 t ht)
      · cases ht
      · cases ht
    · simp only [List.mem_append, List.mem_cons, List.mem_singleton, List.not_mem_nil,
        or_false, TileCall.read.injEq] at ht
      rcases ht with ht | ht | ht | ht | ht
      · exact List.mem_append_left _ (h3 t ht)
      · subst ht
        simp
      · cases ht
      · cases ht
      · cases ht
  · intro t ht
    rw [hJ] at ht
    have hold : TileCall.destroy t ∈ w.st.2 → 
        (convert_alphamap_tile tops.traced iops.traced to_big_alpha tile w).mapIndex.changed t
          = false := by
      intro h'
      have := h4 t h'
      cases hx : (convert_alphamap_tile tops.traced iops.traced to_big_alpha tile
        w).mapIndex.changed t
      · rfl
      · rw [hc t hx] at this
        cases this
    rcases hL with rfl | rfl | rfl
    · exact hold (by simpa using ht)
    · simp only [List.mem_append, List.mem_cons, List.mem_singleton, List.not_mem_nil,
        or_false] at ht
      rcases ht with ht | ht | ht
      · exact hold ht
      · cases ht
      · cases ht
    · simp only [List.mem_append, List.mem_cons, List.mem_singleton, List.not_mem_nil,
        or_false, TileCall.destroy.injEq] at ht
      rcases ht with ht | ht | ht | ht | ht
      · exact hold ht
      · cases ht
      · cases ht
      · cases ht
      · subst ht
        exact hc' (by simp)

theorem convert_alphamap_tiles_invariant (tops : MapTileOps σ) (iops : MapIndexOps σ)
    (to_big_alpha : Bool) (m : MapIndex) (w : World (σ × List TileCall))
    (h : ConvertInvariant m w) :
    ConvertInvariant m (convert_alphamap_tiles tops.traced iops.traced to_big_alpha w) := by
  unfold convert_alphamap_tiles
  exact for_upto_keeps (ConvertInvariant m) _
    (fun z a ha => for_upto_keeps (ConvertInvariant m) _
      (fun x a ha => convert_alphamap_tile_invariant tops iops to_big_alpha m ⟨x, z⟩ a ha)
      64 a ha) 64 w h

theorem convert_alphamap_tiles_loaded (tops : MapTileOps σ) (iops : MapIndexOps σ)
    (to_big_alpha : Bool) (w : World σ) :
    LoadedAs w.mapIndex (convert_alphamap_tiles tops iops to_big_alpha w) := by
  unfold convert_alphamap_tiles
  exact for_upto_keeps (LoadedAs w.mapIndex) _
    (fun z a ha => for_upto_keeps (LoadedAs w.mapIndex) _
      (fun x a ha t => by rw [convert_alphamap_tile_loaded, ha t]) 64 a ha) 64 w (fun _ => rfl)

theorem convert_alphamap_of_ne (tops : MapTileOps σ) (iops : MapIndexOps σ)
    (to_big_alpha : Bool) (w : World σ) (hb : ¬ to_big_alpha = w.mapIndex.hasBigAlpha) :
    convert_alphamap tops iops to_big_alpha w =
      ⟨(convert_alphamap_tiles tops iops to_big_alpha w).mapIndex.convert_alphamap to_big_alpha,
        iops.save ((convert_alphamap_tiles tops iops to_big_alpha w).mapIndex.convert_alphamap
          to_big_alpha) (convert_alphamap_tiles tops iops to_big_alpha w).st⟩ := by
  unfold convert_alphamap
  rw [if_neg hb]

theorem convert_alphamap_finish (iops : MapIndexOps σ) (to_big_alpha : Bool) (m : MapIndex)
    (r : World (σ × List TileCall)) (h : ConvertInvariant m r) :
    SavedBeforeUnload
      (iops.traced.save (r.mapIndex.convert_alphamap to_big_alpha) r.st).2 ∧
    (∀ t, TileCall.destroy t ∈
        (iops.traced.save (r.mapIndex.convert_alphamap to_big_alpha) r.st).2 →
      (r.mapIndex.convert_alphamap to_big_alpha).changed t = false) ∧
    (∀ t, TileCall.read t ∈
        (iops.traced.save (r.mapIndex.convert_alphamap to_big_alpha) r.st).2 →
      TileCall.destroy t ∈
        (iops.traced.save (r.mapIndex.convert_alphamap to_big_alpha) r.st).2) := by
  obtain ⟨-, i2, i3, i4⟩ := h
  have hJ : (iops.traced.save (r.mapIndex.convert_alphamap to_big_alpha) r.st).2 =
      r.st.2 ++ [TileCall.save_index] := rfl
  refine ⟨?_, ?_, ?_⟩
  · rw [hJ]
    exact savedBeforeUnload_snoc _ _ i2 (fun t ht => by cases ht)
  · intro t ht
    rw [hJ] at ht
    apply i4 t
    simpa using ht
  · intro t ht
    rw [hJ] at ht ⊢
    apply List.mem_append_left
    apply i3 t
    simpa using ht

theorem convertInvariant_start (m : MapIndex) (s : σ) :
    ConvertInvariant m (⟨m, (s, [])⟩ : World (σ × List TileCall)) :=
  ⟨fun _ => rfl, fun pre t suf h => by cases pre <;> simp at h,
    fun t h => by simp at h, fun t h => by simp at h⟩

theorem loadedAs_convert (b : Bool) (m : MapIndex) (r : World σ) (st : σ)
    (h : LoadedAs m r) : LoadedAs m ⟨r.mapIndex.convert_alphamap b, st⟩ :=
  fun t => h t

theorem convert_alphamap_loaded (tops : MapTileOps σ) (iops : MapIndexOps σ)
    (to_big_alpha : Bool) (w : World σ) :
    LoadedAs w.mapIndex (convert_alphamap tops iops to_big_alpha w) := by
  by_cases hb : to_big_alpha = w.mapIndex.hasBigAlpha
  · unfold convert_alphamap
    rw [if_pos hb]
    exact fun _ => rfl
  · rw [convert_alphamap_of_ne tops iops to_big_alpha w hb]
    exact loadedAs_convert to_big_alpha w.mapIndex _ _
      (convert_alphamap_tiles_loaded tops iops to_big_alpha w)

theorem convert_alphamap_same (tops : MapTileOps σ) (iops : MapIndexOps σ) (w : World σ) :
    convert_alphamap tops iops w.mapIndex.hasBigAlpha w = w := by
  unfold convert_alphamap
  rw [if_pos rfl]

theorem convert_alphamap_journal (tops : MapTileOps σ) (iops : MapIndexOps σ)
    (to_big_alpha : Bool) (w : World σ) :
    SavedBeforeUnload
      (convert_alphamap tops.traced iops.traced to_big_alpha ⟨w.mapIndex, (w.st, [])⟩).st.2 ∧
    (∀ t, TileCall.destroy t ∈
        (convert_alphamap tops.traced iops.traced to_big_alpha ⟨w.mapIndex, (w.st, [])⟩).st.2 →
      (convert_alphamap tops.traced iops.traced to_big_alpha
        ⟨w.mapIndex, (w.st, [])⟩).mapIndex.changed t = false) ∧
    (∀ t, TileCall.read t ∈
        (convert_alphamap tops.traced iops.traced to_big_alpha ⟨w.mapIndex, (w.st, [])⟩).st.2 →
      TileCall.destroy t ∈
        (convert_alphamap tops.traced iops.traced to_big_alpha
          ⟨w.mapIndex, (w.st, [])⟩).st.2) := by
  by_cases hb : to_big_alpha = w.mapIndex.hasBigAlpha
  · subst hb
    rw [convert_alphamap_same tops.traced iops.traced ⟨w.mapIndex, (w.st, [])⟩]
    refine ⟨?_, ?_, ?_⟩
    · intro pre t suf h
      cases pre <;> simp at h
    · intro t h
      simp at h
    · intro t h
      simp at h
  · rw [convert_alphamap_of_ne tops.traced iops.traced to_big_alpha ⟨w.mapIndex, (w.st, [])⟩ hb]
    exact convert_alphamap_finish iops to_big_alpha w.mapIndex _
      (convert_alphamap_tiles_invariant tops iops to_big_alpha w.mapIndex
        ⟨w.mapIndex, (w.st, [])⟩ (convertInvariant_start w.mapIndex w.st))

/-- C20: `World::convert_alphamap` leaves the loaded flag of every tile as it was,
so a tile loaded before is loaded afterwards and a tile not loaded before is not
loaded afterwards; run with recording members from an empty journal, every
destruction of a tile comes after a save of that tile, the changed flag of every
destroyed tile is clear, and every tile read from storage has been destroyed
again; when the requested format is the current one the world is returned as it
was and the journal stays empty. -/
theorem convert_alphamap_keeps_loaded_set (tops : MapTileOps σ) (iops : MapIndexOps σ)
    (to_big_alpha : Bool) (w : World σ) :
    (∀ t, (convert_alphamap tops iops to_big_alpha w).mapIndex.loaded t = w.mapIndex.loaded t) ∧
    SavedBeforeUnload
      (convert_alphamap tops.traced iops.traced to_big_alpha ⟨w.mapIndex, (w.st, [])⟩).st.2 ∧
    (∀ t, TileCall.destroy t ∈
        (convert_alphamap tops.traced iops.traced to_big_alpha ⟨w.mapIndex, (w.st, [])⟩).st.2 →
      (convert_alphamap tops.traced iops.traced to_big_alpha
        ⟨w.mapIndex, (w.st, [])⟩).mapIndex.changed t = false) ∧
    (∀ t, TileCall.read t ∈
        (convert_alphamap tops.traced iops.traced to_big_alpha ⟨w.mapIndex, (w.st, [])⟩).st.2 →
      TileCall.destroy t ∈
        (convert_alphamap tops.traced iops.traced to_big_alpha ⟨w.mapIndex, (w.st, [])⟩).st.2) ∧
    convert_alphamap tops iops w.mapIndex.hasBigAlpha w = w ∧
    (convert_alphamap tops.traced iops.traced w.mapIndex.hasBigAlpha
      ⟨w.mapIndex, (w.st, [])⟩).st.2 = [] :=
  ⟨convert_alphamap_loaded tops iops to_big_alpha w,
    (convert_alphamap_journal tops iops to_big_alpha w).1,
    (convert_alphamap_journal tops iops to_big_alpha w).2.1,
    (convert_alphamap_journal tops iops to_big_alpha w).2.2,
    convert_alphamap_same tops iops w,
    by rw [convert_alphamap_same tops.traced iops.traced ⟨w.mapIndex, (w.st, [])⟩]⟩

end ConvertFacts

end Noggit

namespace Noggit

/-! ## A texture file that cannot be opened -/

/-- C13: when the file of the texture is at EOF at once, `LoadBLP` returns false,
sets the id of the texture to 0 and makes no GL call but `glBindTexture`, so no
image is uploaded; `add` of a name that is not in the table then still returns
normally, with the generated id, after handing the lowercased name, that id and
the texture (whose id is now 0) to `do_add`, which registers them. -/
theorem add_registers_unopenable_texture (files : String → MPQFile) (ind : Indeterminate)
    (do_add : String → Nat → Texture → TextureManager → TextureManager) (name : String)
    (id : Nat) (tex : Texture) (gl : List GLCall) (tm : TextureManager)
    (heof : (files tex.originalName).eof = true) (heof' : (files name).eof = true)
    (hnew : tm.names (name.map Char.toLower) = none) :
    (LoadBLP files ind id tex gl).1 = false ∧
    (LoadBLP files ind id tex gl).2.1.id = 0 ∧
    (LoadBLP files ind id tex gl).2.2 = gl ++ [GLCall.bindTexture id] ∧
    (∀ c ∈ (LoadBLP files ind id tex gl).2.2, c ∉ gl → c.isUpload = false) ∧
    TextureManager.add files ind do_add name tm =
      .ok (tm.generated + 1,
        do_add (name.map Char.toLower) (tm.generated + 1)
          ⟨name.map Char.toLower, name, 0, 0, 0, 0⟩
          { tm with
            gl := tm.gl ++ [GLCall.genTextures (tm.generated + 1),
              GLCall.bindTexture (tm.generated + 1)]
            generated := tm.generated + 1 }) ∧
    ((∀ n i t m, (do_add n i t m).names n = some i) →
      ∃ tm', TextureManager.add files ind do_add name tm = .ok (tm.generated + 1, tm') ∧
        tm'.names (name.map Char.toLower) = some (tm.generated + 1)) := by
  have hadd : TextureManager.add files ind do_add name tm =
      .ok (tm.generated + 1,
        do_add (name.map Char.toLower) (tm.generated + 1)
          ⟨name.map Char.toLower, name, 0, 0, 0, 0⟩
          { tm with
            gl := tm.gl ++ [GLCall.genTextures (tm.generated + 1),
              GLCall.bindTexture (tm.generated + 1)]
            generated := tm.generated + 1 }) := by
    simp [TextureManager.add, hnew, LoadBLP, heof']
  refine ⟨?_, ?_, ?_, ?_, hadd, fun hstore => ⟨_, hadd, hstore _ _ _ _⟩⟩
  · simp [LoadBLP, heof]
  · simp [LoadBLP, heof]
  · simp [LoadBLP, heof]
  · intro c hc hn
    simp only [LoadBLP, heof, if_true, List.mem_append, List.mem_singleton] at hc
    rcases hc with hc | hc
    · exact absurd hc hn
    · subst hc
      rfl

theorem add_registers_unopenable_texture_witness :
    (noFiles "Tileset/Grass.BLP").eof = true ∧ emptyManager.names "tileset/grass.blp" = none ∧
    (LoadBLP noFiles zeroIndeterminate 1 ⟨"tileset/grass.blp", "Tileset/Grass.BLP", 1, 0, 0, 0⟩
      []).1 = false :=
  ⟨rfl, rfl,
    (add_registers_unopenable_texture noFiles zeroIndeterminate storing_do_add
      "Tileset/Grass.BLP" 1 ⟨"tileset/grass.blp", "Tileset/Grass.BLP", 1, 0, 0, 0⟩ []
      emptyManager rfl rfl rfl).1⟩

end Noggit

namespace Noggit

/-! ## The round trip between the two encodings of an alpha map -/

theorem pack_unpack_alpha (a : Alphamap) : pack_alpha (unpack_alpha a) = a := by
  induction a with
  | nil => rfl
  | cons b a ih =>
    have h1 : narrow_weight (widen_weight (b % 16)) = b % 16 := by
      unfold narrow_weight widen_weight
      omega
    have h2 : narrow_weight (widen_weight (b / 16)) = b / 16 := by
      unfold narrow_weight widen_weight
      omega
    have hb : b % 16 + 16 * (b / 16) = b := Nat.mod_add_div b 16
    show pack_alpha (widen_weight (b % 16) :: widen_weight (b / 16) :: unpack_alpha a) = b :: a
    simp only [pack_alpha, h1, h2, hb]
    exact congrArg _ ih

/-- C12: with the two conversions modelled as the re-packing that the spec
describes, `convertToOldAlpha` after `convertToBigAlpha` gives back every byte of
every alpha map of a texture layer set, and so does the conversion of the chunks
of a tile to big alpha and back; the widening keeps the share of the full weight
of every texel. -/
theorem convertToOldAlpha_after_convertToBigAlpha (ts : TextureSet)
    (chunks : List TextureSet) (n : Nat) :
    ts.convertToBigAlpha.convertToOldAlpha = ts ∧
    tile_convert_alphamap false (tile_convert_alphamap true chunks) = chunks ∧
    ((widen_weight n : ℚ) / 255 = (n : ℚ) / 15) := by
  have hts : ∀ ts : TextureSet, ts.convertToBigAlpha.convertToOldAlpha = ts := by
    intro ts
    cases ts with
    | mk k maps =>
      simp only [TextureSet.convertToBigAlpha, TextureSet.convertToOldAlpha, List.map_map,
        TextureSet.mk.injEq, true_and]
      induction maps with
      | nil => rfl
      | cons a maps ih => simp [pack_unpack_alpha, ih]
  refine ⟨hts ts, ?_, ?_⟩
  · simp only [tile_convert_alphamap, List.map_map, Bool.false_eq_true, if_false, if_true]
    induction chunks with
    | nil => rfl
    | cons c cs ih => simp [hts, ih]
  · unfold widen_weight
    push_cast
    ring

end Noggit

namespace Noggit

/-! ## The vertex operations keep the selection sets -/

section ClosedOps
variable {τ : Type}

theorem selectionClosed_updateSelectedVertices (ops : MapChunkOps (Terrain τ))
    (w : World (EditState τ)) (h : SelectionClosed w.st) :
    SelectionClosed (updateSelectedVertices ops w).st := by
  obtain ⟨-, hs, hc, hb⟩ := vertexBorderChunks_facts ops w.st h
  constructor
  · intro v hv
    have hv' : v ∈ (vertexBorderChunks ops w.st)._vertices_selected := hv
    rw [hs] at hv'
    have : v.chunk ∈ (vertexBorderChunks ops w.st)._vertex_chunks := by
      rw [hc]
      exact h.1 v hv'
    exact this
  · intro _ c hc'
    have : c ∈ (vertexBorderChunks ops w.st)._vertex_chunks := by
      rw [hc]
      exact hb c hc'
    exact this

/-- The three vertex operations keep the cover of the selection by the selection
sets. -/
theorem selectionClosed_vertex_ops (ops : MapChunkOps (Terrain τ)) (misc : Misc)
    (h height vertex_angle vertex_orientation : ℚ) (ref_pos : vector_3d)
    (w : World (EditState τ)) (hw : SelectionClosed w.st) :
    SelectionClosed (moveVertices ops h w).st ∧
    SelectionClosed (orientVertices ops misc ref_pos vertex_angle vertex_orientation w).st ∧
    SelectionClosed (flattenVertices ops height w).st :=
  ⟨selectionClosed_updateSelectedVertices ops _ hw,
    selectionClosed_updateSelectedVertices ops _ hw,
    selectionClosed_updateSelectedVertices ops _ hw⟩

end ClosedOps

end Noggit

namespace Noggit

/-! ## The fill loops of `World::initGlobalVBOs` -/

theorem write_row (c : Nat → vector_2d) :
    ∀ (n : Nat) (s : FillState), s.vt + n ≤ mapbufsize →
      ∃ s', (List.range n).foldlM (fun s i => s.write (c i)) s = some s' ∧ Wrote c n s s' := by
  intro n
  induction n with
  | zero =>
    intro s _
    refine ⟨s, rfl, rfl, fun k => ?_⟩
    have : ¬ (s.vt ≤ k ∧ k < s.vt + 0) := by omega
    rw [if_neg this]
  | succ n ih =>
    intro s h
    obtain ⟨s₁, h1, h2, h3⟩ := ih s (by omega)
    have hlt : s₁.vt < mapbufsize := by omega
    refine ⟨⟨fun k => if k = s₁.vt then c n else s₁.temp k, s₁.vt + 1⟩, ?_, ?_, ?_⟩
    · rw [List.range_succ, List.foldlM_append, h1]
      simp [FillState.write, hlt]
    · show s₁.vt + 1 = s.vt + (n + 1)
      omega
    · intro k
      show (if k = s₁.vt then c n else s₁.temp k) = _
      by_cases hk : k = s₁.vt
      · have : s.vt ≤ k ∧ k < s.vt + (n + 1) := by omega
        rw [if_pos hk, if_pos this]
        congr 1
        omega
      · rw [if_neg hk, h3 k]
        by_cases hk' : s.vt ≤ k ∧ k < s.vt + n
        · have : s.vt ≤ k ∧ k < s.vt + (n + 1) := by omega
          rw [if_pos hk', if_pos this]
        · have : ¬ (s.vt ≤ k ∧ k < s.vt + (n + 1)) := by omega
          rw [if_neg hk', if_neg this]

/-- The rows `0`, ..., `j - 1` of a fill loop. -/
theorem write_rows (coord : Nat → Nat → vector_2d) (temp : Nat → vector_2d) :
    ∀ j, j ≤ 17 →
      ∃ s', (List.range j).foldlM
          (fun s j =>
            (List.range (if j % 2 ≠ 0 then 8 else 9)).foldlM (fun s i => s.write (coord j i)) s)
          (⟨temp, 0⟩ : FillState) = some s' ∧
        s'.vt = row_start j ∧
        ∀ r < j, ∀ i < (if r % 2 ≠ 0 then 8 else 9),
          s'.temp (row_start r + i) = coord r i := by
  intro j
  induction j with
  | zero =>
    intro _
    exact ⟨⟨temp, 0⟩, rfl, rfl, fun r hr => absurd hr (Nat.not_lt_zero r)⟩
  | succ j ih =>
    intro hj
    obtain ⟨s₁, h1, h2, h3⟩ := ih (by omega)
    have hstart : row_start (j + 1) = row_start j + (if j % 2 ≠ 0 then 8 else 9) := by
      unfold row_start
      split_ifs <;> omega
    have hfit : s₁.vt + (if j % 2 ≠ 0 then 8 else 9) ≤ mapbufsize := by
      rw [h2]
      unfold row_start mapbufsize
      split_ifs <;> omega
    obtain ⟨s₂, k1, k2, k3⟩ := write_row (coord j) _ s₁ hfit
    refine ⟨s₂, ?_, ?_, ?_⟩
    · rw [List.range_succ, List.foldlM_append, h1]
      simpa using k1
    · rw [k2, h2, hstart]
    · intro r hr i hi
      rw [k3]
      by_cases hrj : r = j
      · subst hrj
        have : s₁.vt ≤ row_start r + i ∧
            row_start r + i < s₁.vt + (if r % 2 ≠ 0 then 8 else 9) := by
          rw [h2]
          omega
        rw [if_pos this, h2]
        congr 1
        omega
      · have hr' : r < j := by omega
        have hle : row_start r + (if r % 2 ≠ 0 then 8 else 9) ≤ row_start j := by
          have hmono : ∀ a b, a ≤ b → row_start a ≤ row_start b := by
            intro a b hab
            unfold row_start
            omega
          have := hmono (r + 1) j (by omega)
          have hs : row_start (r + 1) = row_start r + (if r % 2 ≠ 0 then 8 else 9) := by
            unfold row_start
            split_ifs <;> omega
          omega
        have : ¬ (s₁.vt ≤ row_start r + i ∧
            row_start r + i < s₁.vt + (if j % 2 ≠ 0 then 8 else 9)) := by
          rw [h2]
          omega
        rw [if_neg this]
        exact h3 r hr' i hi

theorem fill_loop_writes (coord : Nat → Nat → vector_2d) (temp : Nat → vector_2d) :
    ∃ s, fill_loop coord ⟨temp, 0⟩ = some s ∧ s.vt = 145 ∧
      ∀ r < 17, ∀ i < (if r % 2 ≠ 0 then 8 else 9),
        row_start r + i < mapbufsize ∧ s.temp (row_start r + i) = coord r i := by
  obtain ⟨s, h1, h2, h3⟩ := write_rows coord temp 17 (le_refl _)
  refine ⟨s, h1, by rw [h2]; rfl, fun r hr i hi => ⟨?_, h3 r hr i hi⟩⟩
  unfold row_start mapbufsize
  split_ifs at hi <;> omega

/-- C21: each of the two fill loops of `initGlobalVBOs` runs without a write
outside `temp`, whose size `mapbufsize` is 145: it makes exactly 145 writes, to the
indices 0, ..., 144 in turn, the 17 rows holding 9 and 8 vectors alternately; the
vector of row `r` and column `i` has the `x` coordinate `i` cells, plus half a cell
in the rows of 8, the cell being `detail_size / 8` for the detail map and
`2 * (TEXDETAILSIZE / MINICHUNKSIZE)` for the alpha map; so `initGlobalVBOs`
fills both buffers when neither exists yet. -/
theorem initGlobalVBOs_fill_loops_stay_in_temp (detail_size TEXDETAILSIZE MINICHUNKSIZE : ℚ)
    (temp : Nat → vector_2d) :
    mapbufsize = 145 ∧ row_start 17 = 9 * 9 + 8 * 8 ∧
    (∃ s, fill_loop (detail_coord detail_size) ⟨temp, 0⟩ = some s ∧ s.vt = 145 ∧
      ∀ r < 17, ∀ i < (if r % 2 ≠ 0 then 8 else 9),
        row_start r + i < mapbufsize ∧
        s.temp (row_start r + i) =
          ⟨detail_size / 8 * i + (if r % 2 ≠ 0 then detail_size / 8 / 2 else 0),
            detail_size / 8 * r / 2⟩) ∧
    (∃ s, fill_loop (alpha_coord TEXDETAILSIZE MINICHUNKSIZE) ⟨temp, 0⟩ = some s ∧ s.vt = 145 ∧
      ∀ r < 17, ∀ i < (if r % 2 ≠ 0 then 8 else 9),
        row_start r + i < mapbufsize ∧
        s.temp (row_start r + i) =
          ⟨2 * (TEXDETAILSIZE / MINICHUNKSIZE) * i +
              (if r % 2 ≠ 0 then 2 * (TEXDETAILSIZE / MINICHUNKSIZE) / 2 else 0),
            2 * (TEXDETAILSIZE / MINICHUNKSIZE) * r / 2⟩) ∧
    ∃ detail alpha, initGlobalVBOs detail_size TEXDETAILSIZE MINICHUNKSIZE 0 0 temp =
      some (some (detail, alpha)) := by
  refine ⟨rfl, rfl, ?_, ?_, ?_⟩
  · obtain ⟨s, h1, h2, h3⟩ := fill_loop_writes (detail_coord detail_size) temp
    refine ⟨s, h1, h2, fun r hr i hi => ⟨(h3 r hr i hi).1, ?_⟩⟩
    rw [(h3 r hr i hi).2]
    unfold detail_coord
    by_cases hodd : r % 2 ≠ 0
    · rw [if_pos hodd, if_pos hodd, vector_2d.mk.injEq]
      constructor <;> ring
    · rw [if_neg hodd, if_neg hodd, vector_2d.mk.injEq]
      constructor <;> ring
  · obtain ⟨s, h1, h2, h3⟩ := fill_loop_writes (alpha_coord TEXDETAILSIZE MINICHUNKSIZE) temp
    refine ⟨s, h1, h2, fun r hr i hi => ⟨(h3 r hr i hi).1, ?_⟩⟩
    rw [(h3 r hr i hi).2]
    unfold alpha_coord
    by_cases hodd : r % 2 ≠ 0
    · rw [if_pos hodd, if_pos hodd, vector_2d.mk.injEq]
      constructor <;> ring
    · rw [if_neg hodd, if_neg hodd, vector_2d.mk.injEq]
      constructor <;> ring
  · obtain ⟨s₁, h1, -, -⟩ := fill_loop_writes (detail_coord detail_size) temp
    obtain ⟨s₂, k1, -, -⟩ := fill_loop_writes (alpha_coord TEXDETAILSIZE MINICHUNKSIZE) s₁.temp
    exact ⟨s₁.temp, s₂.temp, by simp [initGlobalVBOs, h1, k1]⟩

end Noggit

namespace Noggit

/-! ## Adding a texture twice, and looking one up -/

/-- C22: let `do_add` store the id under the name and an item under the id.  If
`add` of a name returns an id, then `add` of a name that is equal to it up to
ASCII case returns the same id, makes no GL call and generates no texture name,
leaves the name table as it is, and changes the items only in that the reference
count of the item under that id is one higher. -/
theorem add_shares_entry_up_to_case (files : String → MPQFile) (ind : Indeterminate)
    (do_add : String → Nat → Texture → TextureManager → TextureManager)
    (name₁ name₂ : String) (tm tm₁ : TextureManager) (id₁ : Nat)
    (hstore : ∀ n i t m, (do_add n i t m).names n = some i ∧
      ∃ t', (do_add n i t m).items i = some t')
    (hcase : name₁.map Char.toLower = name₂.map Char.toLower)
    (hfirst : TextureManager.add files ind do_add name₁ tm = .ok (id₁, tm₁)) :
    ∃ item tm₂, tm₁.items id₁ = some item ∧
      TextureManager.add files ind do_add name₂ tm₁ = .ok (id₁, tm₂) ∧
      tm₂.gl = tm₁.gl ∧ tm₂.generated = tm₁.generated ∧ tm₂.names = tm₁.names ∧
      tm₂.items id₁ = some { item with refcount := item.refcount + 1 } ∧
      ∀ i, i ≠ id₁ → tm₂.items i = tm₁.items i := by
  have key : tm₁.names (name₁.map Char.toLower) = some id₁ ∧ ∃ item, tm₁.items id₁ = some item := by
    unfold TextureManager.add at hfirst
    cases hn : tm.names (name₁.map Char.toLower) with
    | some id =>
      rw [hn] at hfirst
      cases hi : tm.items id with
      | some item =>
        simp only [hi, Except.ok.injEq, Prod.mk.injEq] at hfirst
        obtain ⟨h1, h2⟩ := hfirst
        subst h1
        subst h2
        exact ⟨hn, _, if_pos rfl⟩
      | none =>
        simp [hi] at hfirst
    | none =>
      rw [hn] at hfirst
      simp only [Except.ok.injEq, Prod.mk.injEq] at hfirst
      obtain ⟨h1, h2⟩ := hfirst
      subst h1
      subst h2
      exact hstore _ _ _ _
  obtain ⟨hname, item, hitem⟩ := key
  rw [hcase] at hname
  have hsecond : TextureManager.add files ind do_add name₂ tm₁ =
      .ok (id₁,
        { tm₁ with items := fun i =>
            if i = id₁ then some { item with refcount := item.refcount + 1 }
            else tm₁.items i }) := by
    simp [TextureManager.add, hname, hitem]
  exact ⟨item, _, hitem, hsecond, rfl, rfl, rfl, if_pos rfl, fun i hi => if_neg hi⟩

/-- C23: for a name that was never added, `get` returns 0 and leaves the name in
the name table, with the value 0; `add` of that name afterwards does not take the
path of a new texture, as it would have without the `get`, but the path of a known
name, where it dereferences `items[0]`, which is null. -/
theorem get_inserts_name (files : String → MPQFile) (ind : Indeterminate)
    (do_add : String → Nat → Texture → TextureManager → TextureManager) (name : String)
    (tm : TextureManager) (hnew : tm.names (name.map Char.toLower) = none)
    (hitem : tm.items 0 = none) :
    (TextureManager.get name tm).1 = 0 ∧
    (TextureManager.get name tm).2.names (name.map Char.toLower) = some 0 ∧
    (TextureManager.get name tm).2.names ≠ tm.names ∧
    TextureManager.add files ind do_add name (TextureManager.get name tm).2 =
      .error Fault.null_dereference ∧
    ∃ tm', TextureManager.add files ind do_add name tm = .ok (tm.generated + 1, tm') := by
  have hget : TextureManager.get name tm =
      (0, { tm with names := fun n =>
        if n = name.map Char.toLower then some 0 else tm.names n }) := by
    simp [TextureManager.get, hnew]
  refine ⟨by rw [hget], by rw [hget]; simp, ?_, ?_, ?_⟩
  · rw [hget]
    intro h
    have := congrFun h (name.map Char.toLower)
    simp [hnew] at this
  · rw [hget]
    simp [TextureManager.add, hitem]
  · unfold TextureManager.add
    rw [hnew]
    exact ⟨_, rfl⟩

theorem lower_grass : "Tileset/Grass.BLP".map Char.toLower = "tileset/grass.blp" := by
  rw [String.map_eq]
  decide

theorem lower_GRASS : "tileset/GRASS.blp".map Char.toLower = "tileset/grass.blp" := by
  rw [String.map_eq]
  decide

theorem storing_do_add_stores (n : String) (i : Nat) (t : Texture) (m : TextureManager) :
    (storing_do_add n i t m).names n = some i ∧
      ∃ t', (storing_do_add n i t m).items i = some t' :=
  ⟨if_pos rfl, t, if_pos rfl⟩

theorem add_grass :
    TextureManager.add noFiles zeroIndeterminate storing_do_add "Tileset/Grass.BLP"
      emptyManager = .ok (1, grassManager) := by
  have h : emptyManager.names ("Tileset/Grass.BLP".map Char.toLower) = none := rfl
  simp only [TextureManager.add, h, lower_grass]
  rfl

theorem add_shares_entry_up_to_case_witness :
    ∃ item tm₂, grassManager.items 1 = some item ∧
      TextureManager.add noFiles zeroIndeterminate storing_do_add "tileset/GRASS.blp"
        grassManager = .ok (1, tm₂) ∧
      tm₂.gl = grassManager.gl ∧ tm₂.generated = grassManager.generated :=
  match add_shares_entry_up_to_case noFiles zeroIndeterminate storing_do_add
      "Tileset/Grass.BLP" "tileset/GRASS.blp" emptyManager grassManager 1
      storing_do_add_stores (lower_grass.trans lower_GRASS.symm) add_grass with
  | ⟨item, tm₂, h1, h2, h3, h4, _⟩ => ⟨item, tm₂, h1, h2, h3, h4⟩

theorem get_inserts_name_witness :
    emptyManager.names ("Tileset/Grass.BLP".map Char.toLower) = none ∧
    emptyManager.items 0 = none ∧
    (TextureManager.get "Tileset/Grass.BLP" emptyManager).1 = 0 ∧
    TextureManager.add noFiles zeroIndeterminate storing_do_add "Tileset/Grass.BLP"
      (TextureManager.get "Tileset/Grass.BLP" emptyManager).2 = .error Fault.null_dereference :=
  ⟨rfl, rfl,
    (get_inserts_name noFiles zeroIndeterminate storing_do_add "Tileset/Grass.BLP"
      emptyManager rfl rfl).1,
    (get_inserts_name noFiles zeroIndeterminate storing_do_add "Tileset/Grass.BLP"
      emptyManager rfl rfl).2.2.2.1⟩

end Noggit

namespace Noggit

/-! ## The pixels of the palettised path of `LoadBLP` -/

theorem and_shiftRight_16 (k : Nat) : (k &&& 0x00FF0000) >>> 16 = (k >>> 16) &&& 0xFF := by
  apply Nat.eq_of_testBit_eq
  intro i
  have h : (0x00FF0000 : Nat) = 0xFF <<< 16 := by decide
  rw [Nat.testBit_shiftRight, Nat.testBit_and, Nat.testBit_and, Nat.testBit_shiftRight, h,
    Nat.testBit_shiftLeft]
  simp

theorem swizzle_lt (p : Nat) : swizzle p < 2 ^ 24 := by
  unfold swizzle
  have h1 : (p >>> 16) &&& 0xFF < 2 ^ 24 :=
    lt_of_le_of_lt Nat.and_le_right (by norm_num)
  have h2 : p &&& 0xFF00 < 2 ^ 24 := lt_of_le_of_lt Nat.and_le_right (by norm_num)
  have h3 : (p &&& 0xFF) <<< 16 < 2 ^ 24 := by
    have : p &&& 0xFF ≤ 0xFF := Nat.and_le_right
    rw [Nat.shiftLeft_eq]
    omega
  exact Nat.or_lt_two_pow (Nat.or_lt_two_pow h1 h2) h3

theorem or_mod_of_lt (x y : Nat) (hx : x < 2 ^ 32) :
    x ||| (y % 2 ^ 32) = (x ||| y) % 2 ^ 32 := by
  apply Nat.eq_of_testBit_eq
  intro i
  rw [Nat.testBit_or, Nat.testBit_mod_two_pow, Nat.testBit_mod_two_pow, Nat.testBit_or]
  by_cases hi : i < 32
  · simp [hi]
  · have : x.testBit i = false :=
      Nat.testBit_lt_two_pow (lt_of_lt_of_le hx (Nat.pow_le_pow_right (by norm_num) (by omega)))
    simp [hi, this]

/-- The pixel in terms of the palette entry and of the alpha value, a natural
number, that the code has assigned. -/
theorem pixel_of_alpha (p a : Nat) :
    (((p &&& 0x00FF0000) >>> 16) ||| (p &&& 0x0000FF00) ||| ((p &&& 0x000000FF) <<< 16)) |||
        (((a : Int) * 16777216) % 4294967296).toNat =
      (swizzle p ||| (a <<< 24)) % 2 ^ 32 := by
  have hcast : (((a : Int) * 16777216) % 4294967296).toNat = (a * 2 ^ 24) % 2 ^ 32 := by
    have : ((a : Int) * 16777216) % 4294967296 = ((a * 2 ^ 24 % 2 ^ 32 : Nat) : Int) := by
      push_cast
      norm_num
    rw [this, Int.toNat_natCast]
  rw [hcast, and_shiftRight_16, Nat.shiftLeft_eq a 24]
  exact or_mod_of_lt (swizzle p) (a * 2 ^ 24)
    (lt_trans (swizzle_lt p) (by norm_num))

theorem and_one_shiftLeft_ne_zero (b k : Nat) : b &&& (1 <<< k) ≠ 0 ↔ b.testBit k = true := by
  rw [Nat.one_shiftLeft, Nat.and_two_pow]
  cases b.testBit k <;> simp

/-- C26: in the palettised path, for the alpha depths 0, 8 and 1 the pixel number
`n` of a mip level is, modulo 2^32,
`((p >> 16) & 0xFF) | (p & 0xFF00) | ((p & 0xFF) << 16) | (alpha << 24)`, where `p`
is the palette entry of the index byte `buf[n]` and `alpha` is 0xFF for depth 0,
the byte `buf[w * h + n]` for depth 8, and 0xFF or 0 according to bit `n % 8` of
the byte `buf[w * h + n / 8]` for depth 1; the image uploaded for the level
consists of these pixels, row by row. -/
theorem palettised_pixel_formula (f : MPQFile) (ind : Indeterminate) (level : Nat) (w h : Int)
    (buf : Nat → Nat) (n : Nat) :
    palettised_pixel f ind 0 level w h buf n =
      ((((f.pal (buf n)) >>> 16) &&& 0xFF) ||| ((f.pal (buf n)) &&& 0xFF00) |||
        (((f.pal (buf n)) &&& 0xFF) <<< 16) ||| (0xFF <<< 24)) % 2 ^ 32 ∧
    palettised_pixel f ind 8 level w h buf n =
      ((((f.pal (buf n)) >>> 16) &&& 0xFF) ||| ((f.pal (buf n)) &&& 0xFF00) |||
        (((f.pal (buf n)) &&& 0xFF) <<< 16) ||| (buf ((w * h).toNat + n) <<< 24)) % 2 ^ 32 ∧
    palettised_pixel f ind 1 level w h buf n =
      ((((f.pal (buf n)) >>> 16) &&& 0xFF) ||| ((f.pal (buf n)) &&& 0xFF00) |||
        (((f.pal (buf n)) &&& 0xFF) <<< 16) |||
        ((if (buf ((w * h).toNat + n / 8)).testBit (n % 8) then 0xFF else 0) <<< 24)) % 2 ^ 32 ∧
    ∀ alphabits, palettised_image f ind alphabits level w h buf =
      (List.range h.toNat).flatMap
        (fun y => (List.range w.toNat).map
          (fun x => palettised_pixel f ind alphabits level w h buf (y * w.toNat + x))) := by
  refine ⟨?_, ?_, ?_, fun _ => rfl⟩
  · have := pixel_of_alpha (f.pal (buf n)) 0xFF
    simpa [palettised_pixel, swizzle] using this
  · have := pixel_of_alpha (f.pal (buf n)) (buf ((w * h).toNat + n))
    simpa [palettised_pixel, swizzle] using this
  · by_cases hb : (buf ((w * h).toNat + n / 8)).testBit (n % 8) = true
    · have := pixel_of_alpha (f.pal (buf n)) 0xFF
      have hne := (and_one_shiftLeft_ne_zero (buf ((w * h).toNat + n / 8)) (n % 8)).2 hb
      simpa [palettised_pixel, swizzle, hb, hne] using this
    · have := pixel_of_alpha (f.pal (buf n)) 0
      have hne : ¬ (buf ((w * h).toNat + n / 8) &&& (1 <<< (n % 8)) ≠ 0) :=
        fun h' => hb ((and_one_shiftLeft_ne_zero _ _).1 h')
      simpa [palettised_pixel, swizzle, hb, hne] using this

end Noggit

namespace Noggit

/-! ## The palettised path of `LoadBLP` with another alpha depth -/

theorem palettised_pixel_other_depth (f : MPQFile) (ind : Indeterminate) (alphabits : Int)
    (level : Nat) (w h : Int) (buf : Nat → Nat) (n : Nat)
    (h0 : alphabits ≠ 0) (h1 : alphabits ≠ 1) (h8 : alphabits ≠ 8) :
    palettised_pixel f ind alphabits level w h buf n =
      (((f.pal (buf n) &&& 0x00FF0000) >>> 16) ||| (f.pal (buf n) &&& 0x0000FF00) |||
        ((f.pal (buf n) &&& 0x000000FF) <<< 16)) |||
        ((ind.alpha level n * 16777216) % 4294967296).toNat := by
  simp [palettised_pixel, h0, h1, h8]

theorem alpha_bits (a : Int) :
    ((a * 16777216) % 4294967296).toNat = (a % 256).toNat * 2 ^ 24 := by
  have h : (a * 16777216) % 4294967296 = (a % 256) * 16777216 := by omega
  rw [h]
  have hnn : 0 ≤ a % 256 := Int.emod_nonneg _ (by norm_num)
  apply Int.ofNat.inj
  simp only [Int.ofNat_eq_coe]
  rw [Int.toNat_of_nonneg (by omega)]
  push_cast
  rw [Int.toNat_of_nonneg hnn]

theorem or_high_injective (x b₁ b₂ : Nat) (hx : x < 2 ^ 24)
    (h : x ||| b₁ * 2 ^ 24 = x ||| b₂ * 2 ^ 24) : b₁ = b₂ := by
  apply Nat.eq_of_testBit_eq
  intro i
  have := congrArg (fun v => Nat.testBit v (i + 24)) h
  simp only [Nat.testBit_or] at this
  have hxi : x.testBit (i + 24) = false :=
    Nat.testBit_lt_two_pow (lt_of_lt_of_le hx (Nat.pow_le_pow_right (by norm_num) (by omega)))
  rw [hxi, Bool.false_or, Bool.false_or, ← Nat.shiftLeft_eq, ← Nat.shiftLeft_eq,
    Nat.testBit_shiftLeft, Nat.testBit_shiftLeft] at this
  simpa using this

/-- C27: when the alpha depth of the header is neither 0, 1 nor 8, the pixel that
the palettised path writes carries in its top byte the low byte of the value that
the uninitialised local `alpha` happens to hold: two runs on the same file in
which that byte differs produce different pixels, so the pixel buffer is not a
function of the file alone. -/
theorem palettised_pixel_reads_uninitialised_alpha (f : MPQFile) (ind₁ ind₂ : Indeterminate)
    (alphabits : Int) (level : Nat) (w h : Int) (buf : Nat → Nat) (n : Nat)
    (h0 : alphabits ≠ 0) (h1 : alphabits ≠ 1) (h8 : alphabits ≠ 8)
    (hdiff : ind₁.alpha level n % 256 ≠ ind₂.alpha level n % 256) :
    palettised_pixel f ind₁ alphabits level w h buf n ≠
      palettised_pixel f ind₂ alphabits level w h buf n := by
  rw [palettised_pixel_other_depth f ind₁ alphabits level w h buf n h0 h1 h8,
    palettised_pixel_other_depth f ind₂ alphabits level w h buf n h0 h1 h8,
    alpha_bits, alpha_bits, and_shiftRight_16]
  intro heq
  have hb := or_high_injective _ _ _ (swizzle_lt (f.pal (buf n))) heq
  apply hdiff
  have e1 := Int.toNat_of_nonneg (Int.emod_nonneg (ind₁.alpha level n)
    (show (256 : Int) ≠ 0 by norm_num))
  have e2 := Int.toNat_of_nonneg (Int.emod_nonneg (ind₂.alpha level n)
    (show (256 : Int) ≠ 0 by norm_num))
  rw [← e1, ← e2, hb]

theorem palettised_pixel_reads_uninitialised_alpha_witness :
    palettised_pixel alpha4File zeroIndeterminate 4 0 1 1 zeroIndeterminate.buf 0 ≠
      palettised_pixel alpha4File ffIndeterminate 4 0 1 1 ffIndeterminate.buf 0 :=
  palettised_pixel_reads_uninitialised_alpha alpha4File zeroIndeterminate ffIndeterminate 4 0
    1 1 (fun _ => 0) 0 (by decide) (by decide) (by decide) (by decide)

/-- The same file loaded twice, with two values of the uninitialised `alpha`:
`LoadBLP` uploads the pixel 0 in one run and the pixel 0xFF000000 in the other. -/
theorem LoadBLP_alpha4File (id : Nat) (tex : Texture) :
    (LoadBLP (fun _ => alpha4File) zeroIndeterminate id tex []).2.2 =
      [GLCall.bindTexture id, GLCall.texImage2D 0 1 1 [0],
        GLCall.texParameteri 0x2801 0x2703, GLCall.texParameteri 0x2800 0x2601] ∧
    (LoadBLP (fun _ => alpha4File) ffIndeterminate id tex []).2.2 =
      [GLCall.bindTexture id, GLCall.texImage2D 0 1 1 [0xFF000000],
        GLCall.texParameteri 0x2801 0x2703, GLCall.texParameteri 0x2800 0x2601] := by
  constructor <;>
    simp [LoadBLP, LoadBLP_switch, alpha4File, emptyHeader, palettised_levels, palettised_image,
      palettised_pixel, MPQFile.read, zeroIndeterminate, ffIndeterminate, List.range_succ]

end Noggit

namespace Noggit

/-! ## The mip levels that `LoadBLP` uploads -/

theorem shiftRight_one_of_nonneg (x : Int) (hx : 0 ≤ x) : x >>> (1 : Int) = x / 2 := by
  obtain ⟨n, rfl⟩ := Int.eq_ofNat_of_zero_le hx
  have h := Int.shiftRight_coe_nat n 1
  rw [Nat.cast_one] at h
  rw [h, Nat.shiftRight_eq_div_pow]
  norm_num

theorem shiftRight_zero_of_nonneg (x : Int) (hx : 0 ≤ x) : x >>> ((0 : Nat) : Int) = x := by
  obtain ⟨n, rfl⟩ := Int.eq_ofNat_of_zero_le hx
  rw [Int.shiftRight_coe_nat]
  simp

theorem shiftRight_nonneg (a : Int) (ha : 0 ≤ a) (i : Nat) : 0 ≤ a >>> (i : Int) := by
  obtain ⟨n, rfl⟩ := Int.eq_ofNat_of_zero_le ha
  rw [Int.shiftRight_coe_nat]
  exact Int.natCast_nonneg _

theorem shiftRight_succ (a : Int) (i : Nat) :
    a >>> ((i + 1 : Nat) : Int) = (a >>> (i : Int)) >>> (1 : Int) := by
  have := Int.shiftRight_add' a i 1
  rw [Nat.cast_one] at this
  rw [← this]
  norm_cast

theorem dim_step (a w : Int) (ha : 0 ≤ a) (hn : (if w = 0 then 1 else w) = max (1 : Int) a) :
    (if (if w = 0 then (1 : Int) else w) >>> (1 : Int) = 0 then (1 : Int)
      else (if w = 0 then (1 : Int) else w) >>> (1 : Int)) =
      max (1 : Int) (a >>> (1 : Int)) := by
  rw [hn, shiftRight_one_of_nonneg a ha,
    shiftRight_one_of_nonneg (max 1 a) (le_trans ha (le_max_right _ _))]
  rcases max_cases 1 a with ⟨h1, h2⟩ | ⟨h1, h2⟩ <;>
    rcases max_cases 1 (a / 2) with ⟨h3, h4⟩ | ⟨h3, h4⟩ <;>
    rw [h1, h3] <;> split_ifs <;> omega

theorem dim_start (a : Int) (ha : 0 ≤ a) :
    (if a = 0 then 1 else a) = max (1 : Int) (a >>> ((0 : Nat) : Int)) := by
  rw [shiftRight_zero_of_nonneg a ha]
  rcases max_cases 1 a with ⟨h1, h2⟩ | ⟨h1, h2⟩ <;> rw [h1] <;> split_ifs <;> omega

/-- The compressed loop from level `i` on, when the levels before `k` are present
and level `k` is not. -/
theorem compressed_levels_from (f : MPQFile) (format blocksize resx resy : Int)
    (hx : 0 ≤ resx) (hy : 0 ≤ resy) (k : Nat) (hk : k ≤ 16)
    (hpresent : ∀ i < k, f.header.offsets i ≠ 0 ∧ f.header.sizes i ≠ 0)
    (hstop : k < 16 → ¬ (f.header.offsets k ≠ 0 ∧ f.header.sizes k ≠ 0)) :
    ∀ (todo i : Nat) (w h : Int) (gl : List GLCall), i + todo = 16 → i ≤ k →
      (if w = 0 then 1 else w) = max (1 : Int) (resx >>> (i : Int)) →
      (if h = 0 then 1 else h) = max (1 : Int) (resy >>> (i : Int)) →
      compressed_levels f format blocksize todo i w h gl =
        gl ++ (List.range' i (k - i)).map
          (fun j => GLCall.compressedTexImage2D j format (max (1 : Int) (resx >>> (j : Int)))
            (max (1 : Int) (resy >>> (j : Int)))
            (Int.tdiv (max (1 : Int) (resx >>> (j : Int)) + 3) 4
              * Int.tdiv (max (1 : Int) (resy >>> (j : Int)) + 3) 4 * blocksize)
            (f.header.offsets j)) := by
  intro todo
  induction todo with
  | zero =>
    intro i w h gl hi hik _ _
    have : k - i = 0 := by omega
    simp [compressed_levels, this]
  | succ todo ih =>
    intro i w h gl hi hik hw hh
    by_cases hlt : i < k
    · have hp := hpresent i hlt
      have hrange : List.range' i (k - i) = i :: List.range' (i + 1) (k - (i + 1)) := by
        have : k - i = (k - (i + 1)) + 1 := by omega
        rw [this, List.range'_succ]
      rw [compressed_levels, if_pos hp,
        ih (i + 1) _ _ _ (by omega) (by omega)
          (by
            rw [shiftRight_succ]
            exact dim_step _ w (shiftRight_nonneg resx hx i) hw)
          (by
            rw [shiftRight_succ]
            exact dim_step _ h (shiftRight_nonneg resy hy i) hh),
        hrange, hw, hh]
      simp
    · have hik' : i = k := by omega
      subst hik'
      have hs := hstop (by omega)
      rw [compressed_levels, if_neg hs]
      simp

/-- The palettised loop from level `i` on, when the levels before `k` are present
and level `k` is not. -/
theorem palettised_levels_from (f : MPQFile) (ind : Indeterminate) (alphabits resx resy : Int)
    (hx : 0 ≤ resx) (hy : 0 ≤ resy) (k : Nat) (hk : k ≤ 16)
    (hpresent : ∀ i < k, f.header.offsets i ≠ 0 ∧ f.header.sizes i ≠ 0)
    (hstop : k < 16 → ¬ (f.header.offsets k ≠ 0 ∧ f.header.sizes k ≠ 0)) :
    ∀ (todo i : Nat) (w h : Int) (buf : Nat → Nat) (gl : List GLCall), i + todo = 16 → i ≤ k →
      (if w = 0 then 1 else w) = max (1 : Int) (resx >>> (i : Int)) →
      (if h = 0 then 1 else h) = max (1 : Int) (resy >>> (i : Int)) →
      ∃ pixels : Nat → List Nat,
        palettised_levels f ind alphabits todo i w h buf gl =
          gl ++ (List.range' i (k - i)).map
            (fun j => GLCall.texImage2D j (max (1 : Int) (resx >>> (j : Int)))
              (max (1 : Int) (resy >>> (j : Int))) (pixels j)) := by
  intro todo
  induction todo with
  | zero =>
    intro i w h buf gl hi hik _ _
    have : k - i = 0 := by omega
    exact ⟨fun _ => [], by simp [palettised_levels, this]⟩
  | succ todo ih =>
    intro i w h buf gl hi hik hw hh
    by_cases hlt : i < k
    · have hp := hpresent i hlt
      have hrange : List.range' i (k - i) = i :: List.range' (i + 1) (k - (i + 1)) := by
        have : k - i = (k - (i + 1)) + 1 := by omega
        rw [this, List.range'_succ]
      obtain ⟨pixels, hpix⟩ := ih (i + 1) ((if w = 0 then 1 else w) >>> 1)
        ((if h = 0 then 1 else h) >>> 1)
        (f.read (f.header.offsets i) (f.header.sizes i) buf)
        (gl ++ [GLCall.texImage2D i (if w = 0 then 1 else w) (if h = 0 then 1 else h)
          (palettised_image f ind alphabits i (if w = 0 then 1 else w)
            (if h = 0 then 1 else h) (f.read (f.header.offsets i) (f.header.sizes i) buf))])
        (by omega) (by omega)
        (by
          rw [shiftRight_succ]
          exact dim_step _ w (shiftRight_nonneg resx hx i) hw)
        (by
          rw [shiftRight_succ]
          exact dim_step _ h (shiftRight_nonneg resy hy i) hh)
      refine ⟨fun j => if j = i then
        palettised_image f ind alphabits i (if w = 0 then 1 else w)
          (if h = 0 then 1 else h) (f.read (f.header.offsets i) (f.header.sizes i) buf)
        else pixels j, ?_⟩
      rw [palettised_levels, if_pos hp, hpix, hrange, hw, hh, List.map_cons,
        List.append_assoc, List.singleton_append]
      simp only [if_true]
      congr 2
      apply List.map_congr_left
      intro j hj
      have : j ≠ i := by
        have := (List.mem_range'_1.mp hj).1
        omega
      rw [if_neg this]
    · have hik' : i = k := by omega
      subst hik'
      have hs := hstop (by omega)
      exact ⟨fun _ => [], by rw [palettised_levels, if_neg hs]; simp⟩

/-- The GL calls of a run of the switch that stays within defined behaviour: for
header dimensions `resx, resy ≥ 0`, where `k ≤ 16` is the first index whose
offset or size is 0 (16 if there is none), both paths upload exactly the levels
`0 .. k - 1`, in this order, level `i` with width `max 1 (resx >> i)` and height
`max 1 (resy >> i)`; the compressed path gives level `i` the size
`((w + 3) / 4) * ((h + 3) / 4) * blocksize`. -/
theorem LoadBLP_uploads_levels_up_to_first_gap (f : MPQFile) (ind : Indeterminate)
    (gl : List GLCall) (hx : 0 ≤ f.header.resx) (hy : 0 ≤ f.header.resy) (k : Nat)
    (hk : k ≤ 16) (hpresent : ∀ i < k, f.header.offsets i ≠ 0 ∧ f.header.sizes i ≠ 0)
    (hstop : k < 16 → ¬ (f.header.offsets k ≠ 0 ∧ f.header.sizes k ≠ 0)) :
    (f.header.attr_0_compression = 1 →
      ∃ pixels : Nat → List Nat,
        LoadBLP_switch f ind gl =
          gl ++ (List.range k).map
            (fun i => GLCall.texImage2D i (max (1 : Int) (f.header.resx >>> (i : Int)))
              (max (1 : Int) (f.header.resy >>> (i : Int))) (pixels i))) ∧
    (f.header.attr_0_compression = 2 →
      ∃ format : Int,
        LoadBLP_switch f ind gl =
          gl ++ (List.range k).map
            (fun i => GLCall.compressedTexImage2D i format
              (max (1 : Int) (f.header.resx >>> (i : Int)))
              (max (1 : Int) (f.header.resy >>> (i : Int)))
              (Int.tdiv (max (1 : Int) (f.header.resx >>> (i : Int)) + 3) 4
                * Int.tdiv (max (1 : Int) (f.header.resy >>> (i : Int)) + 3) 4
                * blocksizes (f.header.attr_2_alphatype % 4))
              (f.header.offsets i))) := by
  constructor
  · intro hc
    obtain ⟨pixels, hpix⟩ := palettised_levels_from f ind f.header.attr_1_alphadepth
      f.header.resx f.header.resy hx hy k hk hpresent hstop 16 0 f.header.resx f.header.resy
      ind.buf gl (by omega) (by omega) (dim_start _ hx) (dim_start _ hy)
    refine ⟨pixels, ?_⟩
    rw [LoadBLP_switch, if_pos hc, hpix, Nat.sub_zero, List.range_eq_range']
  · intro hc
    have h1 : f.header.attr_0_compression ≠ 1 := by omega
    refine ⟨if alphatypes (f.header.attr_2_alphatype % 4) = GL_COMPRESSED_RGB_S3TC_DXT1_EXT then
        (if f.header.attr_1_alphadepth = 1 then GL_COMPRESSED_RGBA_S3TC_DXT1_EXT
          else GL_COMPRESSED_RGB_S3TC_DXT1_EXT)
        else alphatypes (f.header.attr_2_alphatype % 4), ?_⟩
    rw [LoadBLP_switch, if_neg h1, if_pos hc,
      compressed_levels_from f _ _ f.header.resx f.header.resy hx hy k hk hpresent hstop 16 0
        f.header.resx f.header.resy gl (by omega) (by omega) (dim_start _ hx) (dim_start _ hy),
      Nat.sub_zero, List.range_eq_range']

/-- A compressed file of 4 by 2 pixels with three levels: the levels uploaded have
the sizes 4 by 2, 2 by 1 and 1 by 1. -/
theorem LoadBLP_switch_dxt1File :
    LoadBLP_switch dxt1File zeroIndeterminate [] =
      [GLCall.compressedTexImage2D 0 GL_COMPRESSED_RGB_S3TC_DXT1_EXT 4 2 8 1172,
        GLCall.compressedTexImage2D 1 GL_COMPRESSED_RGB_S3TC_DXT1_EXT 2 1 8 1180,
        GLCall.compressedTexImage2D 2 GL_COMPRESSED_RGB_S3TC_DXT1_EXT 1 1 8 1188] := by
  simp [LoadBLP_switch, dxt1File, emptyHeader, compressed_levels, alphatypes, blocksizes,
    GL_COMPRESSED_RGB_S3TC_DXT1_EXT]
  decide

end Noggit

namespace Noggit

/-! ## Deleting duplicate instances -/

section Duplicates
variable {α : Type}

theorem mem_duplicates_of (dup : α → α → Bool) (uid : α → Int) (lhs : Int × α) :
    ∀ (rest : List (Int × α)) (acc : List Int) (x : Int),
      x ∈ duplicates_of dup uid lhs rest acc ↔
        x ∈ acc ∨ ∃ rhs ∈ rest, dup lhs.2 rhs.2 = true ∧ uid rhs.2 = x := by
  intro rest
  induction rest with
  | nil => intro acc x; simp [duplicates_of]
  | cons r rest ih =>
    intro acc x
    have step : duplicates_of dup uid lhs (r :: rest) acc =
        duplicates_of dup uid lhs rest
          (if dup lhs.2 r.2 then acc.insert (uid r.2) else acc) := rfl
    rw [step, ih]
    by_cases hd : dup lhs.2 r.2 = true
    · rw [if_pos hd, List.mem_insert_iff]
      constructor
      · rintro ((h | h) | ⟨rhs, hm, h1, h2⟩)
        · exact Or.inr ⟨r, List.mem_cons_self _ _, hd, h.symm⟩
        · exact Or.inl h
        · exact Or.inr ⟨rhs, List.mem_cons_of_mem _ hm, h1, h2⟩
      · rintro (h | ⟨rhs, hm, h1, h2⟩)
        · exact Or.inl (Or.inr h)
        · rcases List.mem_cons.mp hm with rfl | hm
          · exact Or.inl (Or.inl h2.symm)
          · exact Or.inr ⟨rhs, hm, h1, h2⟩
    · rw [if_neg hd]
      constructor
      · rintro (h | ⟨rhs, hm, h1, h2⟩)
        · exact Or.inl h
        · exact Or.inr ⟨rhs, List.mem_cons_of_mem _ hm, h1, h2⟩
      · rintro (h | ⟨rhs, hm, h1, h2⟩)
        · exact Or.inl h
        · rcases List.mem_cons.mp hm with rfl | hm
          · exact absurd h1 hd
          · exact Or.inr ⟨rhs, hm, h1, h2⟩

/-- What the two nested loops collect from a map in key order: the ids of the
entries that have a duplicate under a smaller key. -/
theorem mem_duplicates_loop (dup : α → α → Bool) (uid : α → Int) :
    ∀ (l : List (Int × α)) (acc : List Int) (x : Int),
      l.Pairwise (fun a b => a.1 < b.1) →
      (x ∈ duplicates_loop dup uid l acc ↔
        x ∈ acc ∨ ∃ lhs ∈ l, ∃ rhs ∈ l, lhs.1 < rhs.1 ∧ dup lhs.2 rhs.2 = true ∧ uid rhs.2 = x) := by
  intro l
  induction l with
  | nil => intro acc x _; simp [duplicates_loop]
  | cons a rest ih =>
    intro acc x hs
    rw [List.pairwise_cons] at hs
    rw [duplicates_loop, ih _ _ hs.2, mem_duplicates_of]
    constructor
    · rintro ((h | ⟨rhs, hm, h1, h2⟩) | ⟨lhs, hl, rhs, hr, h0, h1, h2⟩)
      · exact Or.inl h
      · exact Or.inr ⟨a, List.mem_cons_self _ _, rhs, List.mem_cons_of_mem _ hm, hs.1 rhs hm,
          h1, h2⟩
      · exact Or.inr ⟨lhs, List.mem_cons_of_mem _ hl, rhs, List.mem_cons_of_mem _ hr, h0, h1, h2⟩
    · rintro (h | ⟨lhs, hl, rhs, hr, h0, h1, h2⟩)
      · exact Or.inl (Or.inl h)
      · rcases List.mem_cons.mp hl with e | hl2
        · rcases List.mem_cons.mp hr with e2 | hr2
          · rw [e, e2] at h0
            exact absurd h0 (lt_irrefl _)
          · rw [e] at h1
            exact Or.inl (Or.inr ⟨rhs, hr2, h1, h2⟩)
        · rcases List.mem_cons.mp hr with e2 | hr2
          · rw [e2] at h0
            exact absurd (hs.1 lhs hl2) (not_lt_of_gt h0)
          · exact Or.inr ⟨lhs, hl2, rhs, hr2, h0, h1, h2⟩

/-- Erasing the first entry with a key from a list with distinct keys removes
every entry with that key. -/
theorem eraseP_key_eq_filter (uid : Int) :
    ∀ l : List (Int × α), l.Pairwise (fun a b => a.1 < b.1) →
      l.eraseP (fun p => p.1 == uid) = l.filter (fun p => decide (p.1 ≠ uid)) := by
  intro l
  induction l with
  | nil => intro _; rfl
  | cons a rest ih =>
    intro hs
    rw [List.pairwise_cons] at hs
    by_cases h : a.1 = uid
    · have hrest : rest.filter (fun p => decide (p.1 ≠ uid)) = rest := by
        rw [List.filter_eq_self]
        intro b hb
        have := hs.1 b hb
        simp only [ne_eq, decide_not, Bool.not_eq_eq_eq_not, Bool.not_true, decide_eq_false_iff_not]
        omega
      rw [List.eraseP_cons_of_pos (by simpa using h), List.filter_cons_of_neg (by simpa using h),
        hrest]
    · rw [List.eraseP_cons_of_neg (by simpa using h), List.filter_cons_of_pos (by simpa using h),
        ih hs.2]

theorem eq_of_key_eq (l : List (Int × α)) (hs : l.Pairwise (fun a b => a.1 < b.1))
    (a b : Int × α) (ha : a ∈ l) (hb : b ∈ l) (h : a.1 = b.1) : a = b := by
  by_contra hne
  have hp : l.Pairwise (fun a b => a.1 ≠ b.1) := hs.imp (fun h => ne_of_lt h)
  exact List.Pairwise.forall (fun _ _ h => Ne.symm h) hp ha hb hne h

theorem exists_min_key : ∀ (S : List (Int × α)), S ≠ [] → ∃ m ∈ S, ∀ q ∈ S, m.1 ≤ q.1 := by
  intro S
  induction S with
  | nil => intro h; exact absurd rfl h
  | cons a rest ih =>
    intro _
    by_cases hr : rest = []
    · subst hr
      exact ⟨a, List.mem_cons_self _ _, fun q hq => by
        rw [List.mem_singleton] at hq
        rw [hq]⟩
    · obtain ⟨m, hm, hmin⟩ := ih hr
      by_cases hle : a.1 ≤ m.1
      · refine ⟨a, List.mem_cons_self _ _, fun q hq => ?_⟩
        rcases List.mem_cons.mp hq with e | hq2
        · rw [e]
        · exact le_trans hle (hmin q hq2)
      · refine ⟨m, List.mem_cons_of_mem _ hm, fun q hq => ?_⟩
        rcases List.mem_cons.mp hq with e | hq2
        · rw [e]
          omega
        · exact hmin q hq2

/-- The entries that are left when the ids collected by the two nested loops are
deleted: those that have no duplicate under a smaller key. -/
theorem mem_survivors (dup : α → α → Bool) (uid : α → Int) (order : List Int → List Int)
    (horder : ∀ l x, x ∈ order l ↔ x ∈ l) (l : List (Int × α))
    (hs : l.Pairwise (fun a b => a.1 < b.1)) (hid : ∀ p ∈ l, uid p.2 = p.1) (p : Int × α) :
    p ∈ l.filter (fun p => decide (p.1 ∉ order (duplicates_loop dup uid l []))) ↔
      p ∈ l ∧ ∀ q ∈ l, dup q.2 p.2 = true → p.1 ≤ q.1 := by
  rw [List.mem_filter, decide_eq_true_iff, horder, mem_duplicates_loop dup uid l [] p.1 hs]
  constructor
  · rintro ⟨hp, hno⟩
    refine ⟨hp, fun q hq hd => ?_⟩
    by_contra hlt
    exact hno (Or.inr ⟨q, hq, p, hp, by omega, hd, hid p hp⟩)
  · rintro ⟨hp, hmin⟩
    refine ⟨hp, ?_⟩
    rintro (h | ⟨lhs, hl, rhs, hr, h0, h1, h2⟩)
    · exact absurd h (List.not_mem_nil _)
    · have hkey : rhs.1 = p.1 := by rw [← hid rhs hr, h2]
      have : rhs = p := eq_of_key_eq l hs rhs p hr hp hkey
      rw [this] at h0 h1
      have := hmin lhs hl h1
      omega

/-- The properties of the entries that are left, for a test `dup` that is an
equivalence. -/
theorem survivors_spec (dup : α → α → Bool) (uid : α → Int) (order : List Int → List Int)
    (horder : ∀ l x, x ∈ order l ↔ x ∈ l) (l : List (Int × α))
    (hs : l.Pairwise (fun a b => a.1 < b.1)) (hid : ∀ p ∈ l, uid p.2 = p.1)
    (hrefl : ∀ a, dup a a = true) (hsymm : ∀ a b, dup a b = true → dup b a = true)
    (htrans : ∀ a b c, dup a b = true → dup b c = true → dup a c = true)
    (r : List (Int × α))
    (hr : r = l.filter (fun p => decide (p.1 ∉ order (duplicates_loop dup uid l [])))) :
    (∀ p, p ∈ r ↔ p ∈ l ∧ ∀ q ∈ l, dup q.2 p.2 = true → p.1 ≤ q.1) ∧
    (∀ p ∈ r, ∀ q ∈ r, dup p.2 q.2 = true → p = q) ∧
    (∀ p ∈ l, ∃ m ∈ r, dup m.2 p.2 = true) ∧
    (∀ p ∈ l, (∀ q ∈ l, dup q.2 p.2 = true → q = p) → p ∈ r) ∧
    r.Sublist l := by
  have hmem : ∀ p, p ∈ r ↔ p ∈ l ∧ ∀ q ∈ l, dup q.2 p.2 = true → p.1 ≤ q.1 := by
    intro p
    rw [hr]
    exact mem_survivors dup uid order horder l hs hid p
  refine ⟨hmem, ?_, ?_, ?_, ?_⟩
  · intro p hp q hq hd
    have h1 := (hmem p).1 hp
    have h2 := (hmem q).1 hq
    have := h1.2 q h2.1 (hsymm _ _ hd)
    have := h2.2 p h1.1 hd
    exact eq_of_key_eq l hs p q h1.1 h2.1 (by omega)
  · intro p hp
    have hne : l.filter (fun q => dup q.2 p.2) ≠ [] := by
      intro h
      have : p ∈ l.filter (fun q => dup q.2 p.2) := List.mem_filter.mpr ⟨hp, hrefl _⟩
      rw [h] at this
      exact absurd this (List.not_mem_nil _)
    obtain ⟨m, hm, hmin⟩ := exists_min_key _ hne
    rw [List.mem_filter] at hm
    refine ⟨m, (hmem m).2 ⟨hm.1, fun q hq hd => ?_⟩, hm.2⟩
    exact hmin q (List.mem_filter.mpr ⟨hq, htrans _ _ _ hd hm.2⟩)
  · intro p hp honly
    refine (hmem p).2 ⟨hp, fun q hq hd => ?_⟩
    rw [honly q hq hd]
  · rw [hr]
    exact List.filter_sublist _

end Duplicates

theorem model_duplicate_iff (a b : ModelInstance) :
    model_duplicate a b = true ↔
      a.pos = b.pos ∧ a.dir = b.dir ∧ a.scale = b.scale ∧ a.filename = b.filename := by
  simp [model_duplicate, and_assoc]

theorem wmo_duplicate_iff (a b : WMOInstance) :
    wmo_duplicate a b = true ↔ a.pos = b.pos ∧ a.dir = b.dir ∧ a.filename = b.filename := by
  simp [wmo_duplicate, and_assoc]

theorem deleteModelInstance_models (uid : Int) (w : World ObjectState)
    (hs : w.st.mModelInstances.Pairwise (fun a b => a.1 < b.1)) :
    (deleteModelInstance uid w).st.mModelInstances =
      w.st.mModelInstances.filter (fun p => decide (p.1 ≠ uid)) ∧
    (deleteModelInstance uid w).st.mWMOInstances = w.st.mWMOInstances := by
  unfold deleteModelInstance
  cases hf : w.st.mModelInstances.find? (fun p => p.1 == uid) with
  | none =>
    refine ⟨?_, rfl⟩
    symm
    rw [List.filter_eq_self]
    intro b hb
    have := List.find?_eq_none.mp hf b hb
    simpa using this
  | some it => exact ⟨eraseP_key_eq_filter uid _ hs, rfl⟩

theorem deleteWMOInstance_wmos (uid : Int) (w : World ObjectState)
    (hs : w.st.mWMOInstances.Pairwise (fun a b => a.1 < b.1)) :
    (deleteWMOInstance uid w).st.mWMOInstances =
      w.st.mWMOInstances.filter (fun p => decide (p.1 ≠ uid)) ∧
    (deleteWMOInstance uid w).st.mModelInstances = w.st.mModelInstances := by
  unfold deleteWMOInstance
  cases hf : w.st.mWMOInstances.find? (fun p => p.1 == uid) with
  | none =>
    refine ⟨?_, rfl⟩
    symm
    rw [List.filter_eq_self]
    intro b hb
    have := List.find?_eq_none.mp hf b hb
    simpa using this
  | some it => exact ⟨eraseP_key_eq_filter uid _ hs, rfl⟩

/-- The loop `for (int uid : models_to_remove) deleteModelInstance (uid)`. -/
theorem foldl_deleteModelInstance (ids : List Int) :
    ∀ w : World ObjectState, w.st.mModelInstances.Pairwise (fun a b => a.1 < b.1) →
      (ids.foldl (fun w uid => deleteModelInstance uid w) w).st.mModelInstances =
        w.st.mModelInstances.filter (fun p => decide (p.1 ∉ ids)) ∧
      (ids.foldl (fun w uid => deleteModelInstance uid w) w).st.mWMOInstances =
        w.st.mWMOInstances := by
  induction ids with
  | nil => intro w _; simp
  | cons uid ids ih =>
    intro w hs
    have h1 := deleteModelInstance_models uid w hs
    have hs1 : (deleteModelInstance uid w).st.mModelInstances.Pairwise (fun a b => a.1 < b.1) := by
      rw [h1.1]
      exact hs.sublist (List.filter_sublist _)
    have h2 := ih (deleteModelInstance uid w) hs1
    rw [List.foldl_cons, h2.1, h2.2, h1.1, h1.2, List.filter_filter]
    refine ⟨?_, rfl⟩
    apply List.filter_congr
    intro p _
    simp only [List.mem_cons, not_or, ne_eq, decide_not, Bool.and_eq_true, Bool.not_eq_eq_eq_not,
      Bool.not_true, decide_eq_false_iff_not, Bool.decide_and]
    exact Bool.and_comm _ _

/-- The loop `for (int uid : wmos_to_remove) deleteWMOInstance (uid)`. -/
theorem foldl_deleteWMOInstance (ids : List Int) :
    ∀ w : World ObjectState, w.st.mWMOInstances.Pairwise (fun a b => a.1 < b.1) →
      (ids.foldl (fun w uid => deleteWMOInstance uid w) w).st.mWMOInstances =
        w.st.mWMOInstances.filter (fun p => decide (p.1 ∉ ids)) ∧
      (ids.foldl (fun w uid => deleteWMOInstance uid w) w).st.mModelInstances =
        w.st.mModelInstances := by
  induction ids with
  | nil => intro w _; simp
  | cons uid ids ih =>
    intro w hs
    have h1 := deleteWMOInstance_wmos uid w hs
    have hs1 : (deleteWMOInstance uid w).st.mWMOInstances.Pairwise (fun a b => a.1 < b.1) := by
      rw [h1.1]
      exact hs.sublist (List.filter_sublist _)
    have h2 := ih (deleteWMOInstance uid w) hs1
    rw [List.foldl_cons, h2.1, h2.2, h1.1, h1.2, List.filter_filter]
    refine ⟨?_, rfl⟩
    apply List.filter_congr
    intro p _
    simp only [List.mem_cons, not_or, ne_eq, decide_not, Bool.and_eq_true, Bool.not_eq_eq_eq_not,
      Bool.not_true, decide_eq_false_iff_not, Bool.decide_and]
    exact Bool.and_comm _ _

/-- The two maps after `delete_duplicate_model_and_wmo_instances`. -/
theorem delete_duplicate_maps (order : List Int → List Int) (w : World ObjectState)
    (hmodels : w.st.mModelInstances.Pairwise (fun a b => a.1 < b.1))
    (hwmos : w.st.mWMOInstances.Pairwise (fun a b => a.1 < b.1)) :
    (delete_duplicate_model_and_wmo_instances order w).st.mModelInstances =
      w.st.mModelInstances.filter (fun p => decide (p.1 ∉ order
        (duplicates_loop model_duplicate (fun i => i.uid) w.st.mModelInstances []))) ∧
    (delete_duplicate_model_and_wmo_instances order w).st.mWMOInstances =
      w.st.mWMOInstances.filter (fun p => decide (p.1 ∉ order
        (duplicates_loop wmo_duplicate (fun i => i.mUniqueID) w.st.mWMOInstances []))) := by
  have h1 := foldl_deleteWMOInstance
    (order (duplicates_loop wmo_duplicate (fun i => i.mUniqueID) w.st.mWMOInstances [])) w hwmos
  have h2 := foldl_deleteModelInstance
    (order (duplicates_loop model_duplicate (fun i => i.uid) w.st.mModelInstances []))
    ((order (duplicates_loop wmo_duplicate (fun i => i.mUniqueID) w.st.mWMOInstances [])).foldl
      (fun w uid => deleteWMOInstance uid w) w)
    (by rw [h1.2]; exact hmodels)
  unfold delete_duplicate_model_and_wmo_instances
  exact ⟨by rw [h2.1, h1.2], by rw [h2.2, h1.1]⟩

/-- Claim C24: when the two maps are in key order and every instance is stored
under its own unique id, then after `delete_duplicate_model_and_wmo_instances` an
instance is left exactly if no instance with equal position, rotation, (scale) and
filename has a smaller id; no two instances that are left are duplicates of each
other; every group of duplicates keeps an instance; an instance without a
duplicate is left as it was; and the instances that are left are in their old
order. -/
theorem delete_duplicate_keeps_smallest_id_of_each_group (order : List Int → List Int)
    (w : World ObjectState) (horder : ∀ l x, x ∈ order l ↔ x ∈ l)
    (hmodels : w.st.mModelInstances.Pairwise (fun a b => a.1 < b.1))
    (hwmos : w.st.mWMOInstances.Pairwise (fun a b => a.1 < b.1))
    (hmodel_ids : ∀ p ∈ w.st.mModelInstances, p.2.uid = p.1)
    (hwmo_ids : ∀ p ∈ w.st.mWMOInstances, p.2.mUniqueID = p.1) :
    ((∀ p, p ∈ (delete_duplicate_model_and_wmo_instances order w).st.mModelInstances ↔
        p ∈ w.st.mModelInstances ∧
          ∀ q ∈ w.st.mModelInstances,
            q.2.pos = p.2.pos ∧ q.2.dir = p.2.dir ∧ q.2.scale = p.2.scale ∧
              q.2.filename = p.2.filename → p.1 ≤ q.1) ∧
      (∀ p ∈ (delete_duplicate_model_and_wmo_instances order w).st.mModelInstances,
        ∀ q ∈ (delete_duplicate_model_and_wmo_instances order w).st.mModelInstances,
          p.2.pos = q.2.pos ∧ p.2.dir = q.2.dir ∧ p.2.scale = q.2.scale ∧
            p.2.filename = q.2.filename → p = q) ∧
      (∀ p ∈ w.st.mModelInstances,
        ∃ m ∈ (delete_duplicate_model_and_wmo_instances order w).st.mModelInstances,
          m.2.pos = p.2.pos ∧ m.2.dir = p.2.dir ∧ m.2.scale = p.2.scale ∧
            m.2.filename = p.2.filename) ∧
      (∀ p ∈ w.st.mModelInstances,
        (∀ q ∈ w.st.mModelInstances,
          q.2.pos = p.2.pos ∧ q.2.dir = p.2.dir ∧ q.2.scale = p.2.scale ∧
            q.2.filename = p.2.filename → q = p) →
        p ∈ (delete_duplicate_model_and_wmo_instances order w).st.mModelInstances) ∧
      ((delete_duplicate_model_and_wmo_instances order w).st.mModelInstances).Sublist
        w.st.mModelInstances) ∧
    ((∀ p, p ∈ (delete_duplicate_model_and_wmo_instances order w).st.mWMOInstances ↔
        p ∈ w.st.mWMOInstances ∧
          ∀ q ∈ w.st.mWMOInstances,
            q.2.pos = p.2.pos ∧ q.2.dir = p.2.dir ∧ q.2.filename = p.2.filename → p.1 ≤ q.1) ∧
      (∀ p ∈ (delete_duplicate_model_and_wmo_instances order w).st.mWMOInstances,
        ∀ q ∈ (delete_duplicate_model_and_wmo_instances order w).st.mWMOInstances,
          p.2.pos = q.2.pos ∧ p.2.dir = q.2.dir ∧ p.2.filename = q.2.filename → p = q) ∧
      (∀ p ∈ w.st.mWMOInstances,
        ∃ m ∈ (delete_duplicate_model_and_wmo_instances order w).st.mWMOInstances,
          m.2.pos = p.2.pos ∧ m.2.dir = p.2.dir ∧ m.2.filename = p.2.filename) ∧
      (∀ p ∈ w.st.mWMOInstances,
        (∀ q ∈ w.st.mWMOInstances,
          q.2.pos = p.2.pos ∧ q.2.dir = p.2.dir ∧ q.2.filename = p.2.filename → q = p) →
        p ∈ (delete_duplicate_model_and_wmo_instances order w).st.mWMOInstances) ∧
      ((delete_duplicate_model_and_wmo_instances order w).st.mWMOInstances).Sublist
        w.st.mWMOInstances) := by
  have hmaps := delete_duplicate_maps order w hmodels hwmos
  have hm := survivors_spec model_duplicate (fun i => i.uid) order horder w.st.mModelInstances
    hmodels hmodel_ids
    (fun a => by simp [model_duplicate])
    (fun a b h => by
      rw [model_duplicate_iff] at h ⊢
      exact ⟨h.1.symm, h.2.1.symm, h.2.2.1.symm, h.2.2.2.symm⟩)
    (fun a b c h1 h2 => by
      rw [model_duplicate_iff] at h1 h2 ⊢
      exact ⟨h1.1.trans h2.1, h1.2.1.trans h2.2.1, h1.2.2.1.trans h2.2.2.1,
        h1.2.2.2.trans h2.2.2.2⟩)
    _ hmaps.1
  have hw := survivors_spec wmo_duplicate (fun i => i.mUniqueID) order horder w.st.mWMOInstances
    hwmos hwmo_ids
    (fun a => by simp [wmo_duplicate])
    (fun a b h => by
      rw [wmo_duplicate_iff] at h ⊢
      exact ⟨h.1.symm, h.2.1.symm, h.2.2.symm⟩)
    (fun a b c h1 h2 => by
      rw [wmo_duplicate_iff] at h1 h2 ⊢
      exact ⟨h1.1.trans h2.1, h1.2.1.trans h2.2.1, h1.2.2.trans h2.2.2⟩)
    _ hmaps.2
  simp only [model_duplicate_iff] at hm
  simp only [wmo_duplicate_iff] at hw
  exact ⟨hm, hw⟩

theorem delete_duplicate_keeps_smallest_id_of_each_group_witness :
    (delete_duplicate_model_and_wmo_instances id duplicateObjects).st.mModelInstances.Sublist
      duplicateObjects.st.mModelInstances ∧
    ∃ m ∈ (delete_duplicate_model_and_wmo_instances id duplicateObjects).st.mModelInstances,
      m.2.pos = sampleModelCopy.pos ∧ m.2.dir = sampleModelCopy.dir ∧
        m.2.scale = sampleModelCopy.scale ∧ m.2.filename = sampleModelCopy.filename :=
  have h := delete_duplicate_keeps_smallest_id_of_each_group id duplicateObjects
    (fun _ _ => Iff.rfl)
    (by simp [duplicateObjects])
    (by simp [duplicateObjects])
    (by simp [duplicateObjects, sampleModel, sampleModelCopy, otherModel])
    (by simp [duplicateObjects, sampleWMO])
  ⟨h.1.2.2.2.2, h.1.2.2.1 (8, sampleModelCopy) (by simp [duplicateObjects])⟩

/-- On the sample world the copy with the id 8 is deleted and the instances 7 and
11 stay. -/
theorem delete_duplicate_duplicateObjects :
    (delete_duplicate_model_and_wmo_instances id duplicateObjects).st.mModelInstances =
      [(7, sampleModel), (11, otherModel)] ∧
    (delete_duplicate_model_and_wmo_instances id duplicateObjects).st.mWMOInstances =
      [(9, sampleWMO)] := by
  have h := delete_duplicate_maps id duplicateObjects (by simp [duplicateObjects])
    (by simp [duplicateObjects])
  rw [h.1, h.2]
  simp [duplicateObjects, duplicates_loop, duplicates_of, model_duplicate, wmo_duplicate,
    sampleModel, sampleModelCopy, otherModel, sampleWMO]

end Noggit

namespace Noggit

/-! ## The cached centre of the vertex selection -/

section Center
variable {τ : Type}

theorem updateSelectedVertices_center (ops : MapChunkOps (Terrain τ)) (w : World (EditState τ)) :
    (updateSelectedVertices ops w).st._vertex_center = w.st._vertex_center ∧
    (updateSelectedVertices ops w).st._vertex_center_updated = w.st._vertex_center_updated ∧
    (updateSelectedVertices ops w).st._vertices_selected = w.st._vertices_selected := by
  unfold updateSelectedVertices vertexBorderChunks
  split <;> exact ⟨rfl, rfl, rfl⟩

/-- Neither `flattenVertices` nor `orientVertices` touches the cached centre or
the flag that says it is up to date. -/
theorem flatten_and_orient_keep_cached_center (ops : MapChunkOps (Terrain τ)) (misc : Misc)
    (height : ℚ) (ref_pos : vector_3d) (vertex_angle vertex_orientation : ℚ)
    (w : World (EditState τ)) :
    ((flattenVertices ops height w).st._vertex_center = w.st._vertex_center ∧
      (flattenVertices ops height w).st._vertex_center_updated = w.st._vertex_center_updated) ∧
    ((orientVertices ops misc ref_pos vertex_angle vertex_orientation w).st._vertex_center
        = w.st._vertex_center ∧
      (orientVertices ops misc ref_pos vertex_angle vertex_orientation w).st._vertex_center_updated
        = w.st._vertex_center_updated) := by
  unfold flattenVertices orientVertices
  exact ⟨⟨(updateSelectedVertices_center ops _).1, (updateSelectedVertices_center ops _).2.1⟩,
    ⟨(updateSelectedVertices_center ops _).1, (updateSelectedVertices_center ops _).2.1⟩⟩

/-- After `moveVertices` the centre counts as up to date, so `vertexCenter` after
a following `flattenVertices` returns the centre that `moveVertices` computed. -/
theorem vertexCenter_after_move_and_flatten (ops : MapChunkOps (Terrain τ)) (h height : ℚ)
    (w : World (EditState τ)) :
    (vertexCenter (flattenVertices ops height (moveVertices ops h w)).st).1 =
      (moveVertices ops h w).st._vertex_center := by
  have hk := (flatten_and_orient_keep_cached_center ops ⟨fun _ _ => 0, fun _ _ _ _ => 0⟩ height
    ⟨0, 0, 0⟩ 0 0 (moveVertices ops h w)).1
  have hflag : (moveVertices ops h w).st._vertex_center_updated = true := by
    unfold moveVertices
    rw [(updateSelectedVertices_center ops _).2.1]
    rfl
  unfold vertexCenter
  rw [hk.2, hflag, hk.1]
  rfl

theorem foldl_center (m : VertexPtr → vector_3d) (f : ℚ) :
    ∀ (l : List VertexPtr) (c : vector_3d),
      l.foldl (fun c v => c.add ((m v).scale f)) c =
        ⟨c.x + (l.map (fun v => (m v).x)).sum * f, c.y + (l.map (fun v => (m v).y)).sum * f,
          c.z + (l.map (fun v => (m v).z)).sum * f⟩ := by
  intro l
  induction l with
  | nil => intro c; simp
  | cons a l ih =>
    intro c
    rw [List.foldl_cons, ih]
    simp only [vector_3d.add, vector_3d.scale, List.map_cons, List.sum_cons, vector_3d.mk.injEq]
    refine ⟨?_, ?_, ?_⟩ <;> ring

/-- What `updateVertexCenter` stores is the arithmetic mean of the positions of
the selected vertices. -/
theorem updateVertexCenter_mean (e : EditState τ) :
    (updateVertexCenter e)._vertex_center = selected_mean e := by
  unfold updateVertexCenter selected_mean
  simp only [foldl_center, vector_3d.mk.injEq]
  refine ⟨?_, ?_, ?_⟩ <;> ring

end Center

theorem foldl_skip {α β : Type} (p : β → Prop) [DecidablePred p] (f : α → β → α) :
    ∀ (l : List β) (acc : α), (∀ i ∈ l, ¬ p i) →
      l.foldl (fun acc i => if p i then f acc i else acc) acc = acc := by
  intro l
  induction l with
  | nil => intro acc _; rfl
  | cons a l ih =>
    intro acc h
    rw [List.foldl_cons, if_neg (h a (List.mem_cons_self _ _))]
    exact ih acc (fun i hi => h i (List.mem_cons_of_mem _ hi))

theorem selectVertex_rampTerrain (chunk : MapChunk) (t : Terrain Unit)
    (ht : t.mVertices = rampTerrain.mVertices) :
    selectOps.selectVertex chunk ⟨0, 0, 0⟩ 1 t [] = [⟨chunk, 1⟩, ⟨chunk, 0⟩] := by
  have hsplit : List.range 145 = [0, 1] ++ List.range' 2 143 := by
    rw [List.range_eq_range']
    exact (List.range'_append 0 2 143 1).symm
  have hdef : selectOps.selectVertex chunk ⟨0, 0, 0⟩ 1 t [] = (List.range 145).foldl
      (fun sel i =>
        if sampleDist (t.mVertices ⟨chunk, i⟩) ⟨0, 0, 0⟩ ≤ 1 then sel.insert ⟨chunk, i⟩ else sel)
      [] := rfl
  rw [hdef, hsplit, List.foldl_append]
  refine Eq.trans (foldl_skip (fun i => sampleDist (t.mVertices ⟨chunk, i⟩) ⟨0, 0, 0⟩ ≤ 1)
      (fun (sel : List VertexPtr) (i : Nat) => sel.insert (⟨chunk, i⟩ : VertexPtr)) _ _ ?_) ?_
  · intro i hi
    have h2 : 2 ≤ i := (List.mem_range'_1.mp hi).1
    have : (2 : ℚ) ≤ (i : ℚ) := by exact_mod_cast h2
    simp only [ht, rampTerrain, sampleDist, sub_zero, abs_zero, add_zero, not_le]
    rw [abs_of_nonneg (by linarith)]
    linarith
  · simp [ht, rampTerrain, sampleDist]

/-- The sample selection: the vertices 1 and 0 of the chunk, on the ramp. -/
theorem selectVertices_rampEdit :
    selectVertices oneChunkQuery selectOps ⟨0, 0, 0⟩ 1 ⟨sampleIndex, rampEdit⟩ =
      ⟨sampleIndex.setChanged ⟨⟨0, 0⟩⟩,
        { rampEdit with
          _vertices_selected := [⟨⟨⟨⟨0, 0⟩⟩, 0, 0⟩, 1⟩, ⟨⟨⟨⟨0, 0⟩⟩, 0, 0⟩, 0⟩]
          _vertex_chunks := [⟨⟨⟨0, 0⟩⟩, 0, 0⟩]
          _vertex_tiles := [⟨⟨0, 0⟩⟩] }⟩ := by
  have h := selectVertex_rampTerrain ⟨⟨⟨0, 0⟩⟩, 0, 0⟩ rampTerrain rfl
  simp only [selectVertices, for_all_chunks_in_range, tiles_loop, chunks_loop, oneChunkQuery,
    RangeQuery.chunks, selection_functor, List.map, MapTile.getChunk, rampEdit, sampleEdit, h,
    if_true]
  rfl

/-- The members of the sample world after the three calls. -/
theorem flattenedWorld_members :
    flattenedWorld.st._vertices_selected = [⟨⟨⟨⟨0, 0⟩⟩, 0, 0⟩, 1⟩, ⟨⟨⟨⟨0, 0⟩⟩, 0, 0⟩, 0⟩] ∧
    flattenedWorld.st.terrain.mVertices ⟨⟨⟨⟨0, 0⟩⟩, 0, 0⟩, 1⟩ = ⟨1, 5, 0⟩ ∧
    flattenedWorld.st.terrain.mVertices ⟨⟨⟨⟨0, 0⟩⟩, 0, 0⟩, 0⟩ = ⟨0, 5, 0⟩ ∧
    flattenedWorld.st._vertex_center = ⟨1 / 2, 1, 0⟩ ∧
    flattenedWorld.st._vertex_center_updated = true := by
  unfold flattenedWorld
  rw [selectVertices_rampEdit]
  simp [flattenVertices, moveVertices, updateSelectedVertices, vertexBorderChunks,
    updateVertexCenter, rampEdit, sampleEdit, rampTerrain, selectOps, MapChunkOps.idle,
    recalc_norms, Terrain.set_y, vector_3d.add, vector_3d.scale]
  norm_num

/-- Claim C25 fails for the code: after `selectVertices`, `moveVertices (1)` and
`flattenVertices (5)` the selection holds two vertices at height 5, whose mean is
`(1/2, 5, 0)`, and `vertexCenter` returns `(1/2, 1, 0)`, the centre cached by
`moveVertices`, because `flattenVertices` does not reset `_vertex_center_updated`. -/
theorem vertexCenter_stale_after_flattenVertices :
    flattenedWorld.st._vertices_selected ≠ [] ∧
    (vertexCenter flattenedWorld.st).1 = ⟨1 / 2, 1, 0⟩ ∧
    selected_mean flattenedWorld.st = ⟨1 / 2, 5, 0⟩ ∧
    (vertexCenter flattenedWorld.st).1 ≠ selected_mean flattenedWorld.st := by
  obtain ⟨hsel, h1, h0, hc, hflag⟩ := flattenedWorld_members
  have hcenter : (vertexCenter flattenedWorld.st).1 = ⟨1 / 2, 1, 0⟩ := by
    unfold vertexCenter
    rw [hflag, ← hc]
    rfl
  have hmean : selected_mean flattenedWorld.st = ⟨1 / 2, 5, 0⟩ := by
    unfold selected_mean
    rw [hsel]
    simp only [List.map_cons, List.map_nil, h1, h0, List.sum_cons, List.sum_nil, List.length_cons,
      List.length_nil, vector_3d.mk.injEq]
    norm_num
  refine ⟨by rw [hsel]; exact List.cons_ne_nil _ _, hcenter, hmean, ?_⟩
  rw [hcenter, hmean]
  intro h
  rw [vector_3d.mk.injEq] at h
  norm_num at h

end Noggit

namespace Noggit

/-! ## The chunk iterator of a script selection -/

/-- The selection and the number of queries after at least one call of
`sel_next_chunk` that followed `sel_reset_chunk_itr`. -/
theorem after_next_chunk_succ (world : ieee_vector_3d → ieee_vector_3d → List MapChunk) (conv : Int → Int)
    (sel : script_selection) (q : Nat)
    (hsize : sel._initialized_chunks = true → sel._chunks_size = sel._chunks.length) (k : Nat) :
    after_next_chunk world conv (k + 1) (sel_reset_chunk_itr sel, q) =
      ({ sel with
          _cur_chunk := (k : Int)
          _chunks := queried_chunks world sel
          _chunks_size := (queried_chunks world sel).length
          _initialized_chunks := true },
        q + (if sel._initialized_chunks then 0 else 1)) := by
  induction k with
  | zero =>
    obtain ⟨c, mn, mx, sz, cur, chunks, size, init⟩ := sel
    cases init with
    | false => simp [after_next_chunk, sel_next_chunk, sel_reset_chunk_itr, queried_chunks]
    | true =>
      have := hsize rfl
      simp only at this
      simp [after_next_chunk, sel_next_chunk, sel_reset_chunk_itr, queried_chunks, this]
  | succ k ih =>
    rw [after_next_chunk, ih]
    simp [sel_next_chunk]

/-- Claim C30: after `sel_reset_chunk_itr`, call number `k + 1` of `sel_next_chunk`
returns true exactly when `k` is less than the number `n` of chunks of the
query, so the first `n` calls return true and the next one false; after call
number `k + 1 ≤ n` the index is `k`, inside the array, and `sel_get_chunk` refers
to chunk number `k` of the query; the world is queried by the first call of a
selection that holds no chunks yet and by no other call. -/
theorem sel_next_chunk_visits_chunks_in_query_order
    (world : ieee_vector_3d → ieee_vector_3d → List MapChunk) (conv : Int → Int)
    (sel : script_selection) (q : Nat) (hconv : ∀ i : Int, 0 ≤ i → conv i = i)
    (hsize : sel._initialized_chunks = true → sel._chunks_size = sel._chunks.length) (k : Nat) :
    (next_chunk_call world conv sel q k).1 = decide (k < (queried_chunks world sel).length) ∧
    (next_chunk_call world conv sel q k).2.1._cur_chunk = (k : Int) ∧
    (next_chunk_call world conv sel q k).2.1._chunks = queried_chunks world sel ∧
    (∀ hk : k < (queried_chunks world sel).length,
      sel_get_chunk (next_chunk_call world conv sel q k).2.1 =
        some ((queried_chunks world sel).get ⟨k, hk⟩)) ∧
    (next_chunk_call world conv sel q 0).2.2 = q + (if sel._initialized_chunks then 0 else 1) ∧
    (next_chunk_call world conv sel q (k + 1)).2.2 = (next_chunk_call world conv sel q k).2.2 := by
  have hcall : ∀ j, next_chunk_call world conv sel q j =
      (decide (j < (queried_chunks world sel).length),
        { sel with
          _cur_chunk := (j : Int)
          _chunks := queried_chunks world sel
          _chunks_size := (queried_chunks world sel).length
          _initialized_chunks := true },
        q + (if sel._initialized_chunks then 0 else 1)) := by
    intro j
    have h := after_next_chunk_succ world conv sel q hsize j
    rw [after_next_chunk] at h
    have hfst : ∀ (s : script_selection) (n : Nat),
        sel_next_chunk world conv s n =
          (is_on_chunk conv (sel_next_chunk world conv s n).2.1,
            (sel_next_chunk world conv s n).2) := fun _ _ => rfl
    unfold next_chunk_call
    rw [hfst, h]
    simp [is_on_chunk, hconv (j : Int) (Int.natCast_nonneg _)]
  rw [hcall k, hcall 0, hcall (k + 1)]
  refine ⟨rfl, rfl, rfl, fun hk => ?_, rfl, rfl⟩
  simp [sel_get_chunk, List.getElem?_eq_getElem hk]

theorem sel_next_chunk_visits_chunks_in_query_order_witness :
    (next_chunk_call twoChunks id freshSelection 0 1).1 = true ∧
    (next_chunk_call twoChunks id freshSelection 0 2).1 = false ∧
    sel_get_chunk (next_chunk_call twoChunks id freshSelection 0 1).2.1 = some ⟨⟨⟨0, 0⟩⟩, 1, 0⟩ ∧
    (next_chunk_call twoChunks id freshSelection 0 0).2.2 = 1 ∧
    (next_chunk_call twoChunks id freshSelection 0 2).2.2 =
      (next_chunk_call twoChunks id freshSelection 0 1).2.2 :=
  have h1 := sel_next_chunk_visits_chunks_in_query_order twoChunks id freshSelection 0
    (fun _ _ => rfl) (fun h => absurd h (by decide)) 1
  have h2 := sel_next_chunk_visits_chunks_in_query_order twoChunks id freshSelection 0
    (fun _ _ => rfl) (fun h => absurd h (by decide)) 2
  ⟨h1.1, h2.1, h1.2.2.2.1 (by decide), h1.2.2.2.2.1, h1.2.2.2.2.2⟩

end Noggit

namespace Noggit

/-! ## Where the mip loops of `LoadBLP` leave defined behaviour -/

theorem int_value_ok (x y : Int) (h : int_value x = .ok y) : y = x := by
  unfold int_value at h
  split_ifs at h
  simp only [Except.ok.injEq] at h
  exact h.symm

theorem compressed_size_ok (w h blocksize size : Int)
    (hs : compressed_size w h blocksize = .ok size) :
    size = Int.tdiv (w + 3) 4 * Int.tdiv (h + 3) 4 * blocksize := by
  unfold compressed_size at hs
  cases ha : int_value (w + 3) with
  | error e => rw [ha] at hs; cases hs
  | ok a =>
    cases hb : int_value (h + 3) with
    | error e => rw [ha, hb] at hs; cases hs
    | ok b =>
      cases hp : int_value (Int.tdiv a 4 * Int.tdiv b 4) with
      | error e =>
        rw [ha, hb] at hs
        simp only [Except.bind] at hs
        rw [hp] at hs
        cases hs
      | ok p =>
        rw [ha, hb] at hs
        simp only [Except.bind] at hs
        rw [hp] at hs
        simp only at hs
        rw [int_value_ok _ _ hs, int_value_ok _ _ hp, int_value_ok _ _ ha, int_value_ok _ _ hb]

theorem compressed_levels_checked_ok (f : MPQFile) (format blocksize : Int) :
    ∀ (todo i : Nat) (w h : Int) (gl gl' : List GLCall),
      compressed_levels_checked f format blocksize todo i w h gl = .ok gl' →
      gl' = compressed_levels f format blocksize todo i w h gl := by
  intro todo
  induction todo with
  | zero =>
    intro i w h gl gl' hrun
    simp only [compressed_levels_checked, Except.ok.injEq] at hrun
    rw [compressed_levels, hrun]
  | succ todo ih =>
    intro i w h gl gl' hrun
    rw [compressed_levels_checked] at hrun
    rw [compressed_levels]
    by_cases hp : f.header.offsets i ≠ 0 ∧ f.header.sizes i ≠ 0
    · rw [if_pos hp] at hrun
      rw [if_pos hp]
      cases hs : compressed_size (if w = 0 then 1 else w) (if h = 0 then 1 else h) blocksize with
      | error e => rw [hs] at hrun; cases hrun
      | ok size =>
        rw [hs] at hrun
        rw [← compressed_size_ok _ _ _ _ hs]
        exact ih _ _ _ _ _ hrun
    · rw [if_neg hp] at hrun
      rw [if_neg hp]
      simp only [Except.ok.injEq] at hrun
      exact hrun.symm

theorem palettised_levels_checked_ok (f : MPQFile) (ind : Indeterminate)
    (alphabits buf2_size : Int) :
    ∀ (todo i : Nat) (w h : Int) (buf : Nat → Nat) (gl gl' : List GLCall),
      palettised_levels_checked f ind alphabits buf2_size todo i w h buf gl = .ok gl' →
      gl' = palettised_levels f ind alphabits todo i w h buf gl := by
  intro todo
  induction todo with
  | zero =>
    intro i w h buf gl gl' hrun
    simp only [palettised_levels_checked, Except.ok.injEq] at hrun
    rw [palettised_levels, hrun]
  | succ todo ih =>
    intro i w h buf gl gl' hrun
    rw [palettised_levels_checked] at hrun
    rw [palettised_levels]
    by_cases hp : f.header.offsets i ≠ 0 ∧ f.header.sizes i ≠ 0
    · rw [if_pos hp] at hrun
      rw [if_pos hp]
      cases hs : int_value ((if w = 0 then 1 else w) * (if h = 0 then 1 else h)) with
      | error e => rw [hs] at hrun; cases hrun
      | ok n =>
        rw [hs] at hrun
        simp only at hrun
        by_cases hover : buf2_size <
            (((if w = 0 then (1 : Int) else w).toNat * (if h = 0 then (1 : Int) else h).toNat
              : Nat) : Int)
        · rw [if_pos hover] at hrun
          cases hrun
        · rw [if_neg hover] at hrun
          exact ih _ _ _ _ _ _ hrun
    · rw [if_neg hp] at hrun
      rw [if_neg hp]
      simp only [Except.ok.injEq] at hrun
      exact hrun.symm

/-- A run of the switch that stays within defined behaviour makes the GL calls
that `LoadBLP_switch` gives. -/
theorem LoadBLP_switch_checked_ok (f : MPQFile) (ind : Indeterminate) (gl gl' : List GLCall)
    (hrun : LoadBLP_switch_checked f ind gl = .ok gl') : gl' = LoadBLP_switch f ind gl := by
  unfold LoadBLP_switch_checked at hrun
  unfold LoadBLP_switch
  by_cases h1 : f.header.attr_0_compression = 1
  · rw [if_pos h1] at hrun
    rw [if_pos h1]
    by_cases hneg : f.header.sizes 0 < 0
    · rw [if_pos hneg] at hrun
      cases hrun
    · rw [if_neg hneg] at hrun
      cases hs : int_value (f.header.resx * f.header.resy) with
      | error e => rw [hs] at hrun; cases hrun
      | ok n =>
        rw [hs] at hrun
        simp only at hrun
        by_cases hn : n < 0
        · rw [if_pos hn] at hrun
          cases hrun
        · rw [if_neg hn] at hrun
          exact palettised_levels_checked_ok f ind _ _ _ _ _ _ _ _ _ hrun
  · rw [if_neg h1] at hrun
    rw [if_neg h1]
    by_cases h2 : f.header.attr_0_compression = 2
    · rw [if_pos h2] at hrun
      rw [if_pos h2]
      exact compressed_levels_checked_ok f _ _ _ _ _ _ _ _ hrun
    · rw [if_neg h2] at hrun
      rw [if_neg h2]
      simp only [Except.ok.injEq] at hrun
      exact hrun.symm

/-- Claim C28 fails for the code: the palettised path allocates `buf2` with
`resx * resy` entries before it raises a width or height of 0 to 1.  For a header
with `resx, resy ≥ 0` one of which is 0 and with level 0 present, `buf2` is empty
and the first pixel of level 0 is written past its end, where the claim has level
0 uploaded with the width `max 1 resx` and the height `max 1 resy`. -/
theorem LoadBLP_zero_dimension_writes_past_buf2 (f : MPQFile) (ind : Indeterminate)
    (gl : List GLCall) (hc : f.header.attr_0_compression = 1)
    (hx : 0 ≤ f.header.resx) (hy : 0 ≤ f.header.resy)
    (hzero : f.header.resx = 0 ∨ f.header.resy = 0)
    (hmax : f.header.resx ≤ INT_MAX ∧ f.header.resy ≤ INT_MAX)
    (hsize : 0 ≤ f.header.sizes 0)
    (hpresent : f.header.offsets 0 ≠ 0 ∧ f.header.sizes 0 ≠ 0) :
    LoadBLP_switch_checked f ind gl = .error Fault.heap_overflow := by
  have hprod : f.header.resx * f.header.resy = 0 := by
    rcases hzero with h | h <;> rw [h] <;> simp
  have hclamp : (1 : Int) ≤ (if f.header.resx = 0 then 1 else f.header.resx) ∧
      (1 : Int) ≤ (if f.header.resy = 0 then 1 else f.header.resy) := by
    constructor <;> split_ifs <;> omega
  have hle : (if f.header.resx = 0 then (1 : Int) else f.header.resx) *
      (if f.header.resy = 0 then (1 : Int) else f.header.resy) ≤ INT_MAX := by
    unfold INT_MAX at hmax ⊢
    rcases hzero with h | h
    · rw [if_pos h, one_mul]
      split_ifs <;> omega
    · rw [if_pos h, mul_one]
      split_ifs <;> omega
  have hge : INT_MIN ≤ (if f.header.resx = 0 then (1 : Int) else f.header.resx) *
      (if f.header.resy = 0 then (1 : Int) else f.header.resy) := by
    have := mul_nonneg (le_trans zero_le_one hclamp.1) (le_trans zero_le_one hclamp.2)
    unfold INT_MIN
    omega
  have hpix : (0 : Int) <
      (((if f.header.resx = 0 then (1 : Int) else f.header.resx).toNat *
        (if f.header.resy = 0 then (1 : Int) else f.header.resy).toNat : Nat) : Int) := by
    have h1 : 0 < (if f.header.resx = 0 then (1 : Int) else f.header.resx).toNat := by
      have := hclamp.1
      omega
    have h2 : 0 < (if f.header.resy = 0 then (1 : Int) else f.header.resy).toNat := by
      have := hclamp.2
      omega
    exact_mod_cast Nat.mul_pos h1 h2
  unfold LoadBLP_switch_checked
  rw [if_pos hc, if_neg (not_lt.mpr hsize), hprod]
  have h0 : int_value 0 = .ok 0 := by simp [int_value, INT_MIN, INT_MAX]
  rw [h0]
  simp only [lt_self_iff_false, if_false]
  rw [palettised_levels_checked, if_pos hpresent]
  have hv : int_value ((if f.header.resx = 0 then (1 : Int) else f.header.resx) *
      (if f.header.resy = 0 then (1 : Int) else f.header.resy)) =
      .ok ((if f.header.resx = 0 then (1 : Int) else f.header.resx) *
        (if f.header.resy = 0 then (1 : Int) else f.header.resy)) := by
    unfold int_value
    rw [if_pos ⟨hge, hle⟩]
  rw [hv]
  simp only
  rw [if_pos hpix]

theorem LoadBLP_zero_dimension_writes_past_buf2_witness :
    LoadBLP_switch_checked zeroWidthFile zeroIndeterminate [] = .error Fault.heap_overflow :=
  LoadBLP_zero_dimension_writes_past_buf2 zeroWidthFile zeroIndeterminate [] (by decide)
    (by decide) (by decide) (Or.inl (by decide)) (by decide) (by decide) (by decide)

/-- What `LoadBLP_switch` gives for the file of width 0, for comparison: an upload
of level 0 with the width 1 and the height 1. -/
theorem LoadBLP_switch_zeroWidthFile :
    LoadBLP_switch zeroWidthFile zeroIndeterminate [] = [GLCall.texImage2D 0 1 1 [0xFF000000]] := by
  simp [LoadBLP_switch, zeroWidthFile, emptyHeader, palettised_levels, palettised_image,
    palettised_pixel, MPQFile.read, zeroIndeterminate, List.range_succ]

/-- In the compressed path the size of the image is computed in `int`: for a DXT3
file of 65536 by 65536 pixels the product `16384 * 16384 * 16` is 2^32 and
overflows. -/
theorem LoadBLP_switch_checked_hugeFile :
    LoadBLP_switch_checked hugeFile zeroIndeterminate [] = .error Fault.signed_overflow := by
  have hq : Int.tdiv 65539 4 = 16384 := by decide
  simp [hq, LoadBLP_switch_checked, hugeFile, emptyHeader, compressed_levels_checked, compressed_size,
    int_value, alphatypes, blocksizes, Except.bind, INT_MAX, INT_MIN,
    GL_COMPRESSED_RGB_S3TC_DXT1_EXT, GL_COMPRESSED_RGBA_S3TC_DXT3_EXT]

/-- A file of 1 by 1 pixel with one level is decoded within defined behaviour. -/
theorem LoadBLP_switch_checked_alpha4File :
    LoadBLP_switch_checked alpha4File zeroIndeterminate [] =
      .ok (LoadBLP_switch alpha4File zeroIndeterminate []) := by
  simp [LoadBLP_switch_checked, LoadBLP_switch, alpha4File, emptyHeader,
    palettised_levels_checked, palettised_levels, int_value, INT_MAX, INT_MIN]

theorem clamp_shift_le (w : Int) (hw : 0 ≤ w) :
    0 ≤ (if w = 0 then (1 : Int) else w) >>> (1 : Int) ∧
    (1 : Int) ≤ (if (if w = 0 then (1 : Int) else w) >>> (1 : Int) = 0 then (1 : Int)
      else (if w = 0 then (1 : Int) else w) >>> (1 : Int)) ∧
    (if (if w = 0 then (1 : Int) else w) >>> (1 : Int) = 0 then (1 : Int)
      else (if w = 0 then (1 : Int) else w) >>> (1 : Int)) ≤ (if w = 0 then (1 : Int) else w) := by
  have hc : (1 : Int) ≤ (if w = 0 then (1 : Int) else w) := by split_ifs <;> omega
  rw [shiftRight_one_of_nonneg _ (le_trans zero_le_one hc)]
  refine ⟨by omega, ?_, ?_⟩ <;> split_ifs <;> omega

/-- The palettised loop stays within defined behaviour when `buf2` has room for
the level at hand: the levels that follow are not larger. -/
theorem palettised_levels_checked_defined (f : MPQFile) (ind : Indeterminate)
    (alphabits buf2_size : Int) (hcap : buf2_size ≤ INT_MAX) :
    ∀ (todo i : Nat) (w h : Int) (buf : Nat → Nat) (gl : List GLCall), 0 ≤ w → 0 ≤ h →
      (if w = 0 then (1 : Int) else w) * (if h = 0 then (1 : Int) else h) ≤ buf2_size →
      palettised_levels_checked f ind alphabits buf2_size todo i w h buf gl =
        .ok (palettised_levels f ind alphabits todo i w h buf gl) := by
  intro todo
  induction todo with
  | zero => intro i w h buf gl _ _ _; rfl
  | succ todo ih =>
    intro i w h buf gl hw hh hfit
    have hcw : (1 : Int) ≤ (if w = 0 then (1 : Int) else w) := by split_ifs <;> omega
    have hch : (1 : Int) ≤ (if h = 0 then (1 : Int) else h) := by split_ifs <;> omega
    rw [palettised_levels_checked, palettised_levels]
    by_cases hp : f.header.offsets i ≠ 0 ∧ f.header.sizes i ≠ 0
    · rw [if_pos hp, if_pos hp]
      have hpos : 0 ≤ (if w = 0 then (1 : Int) else w) * (if h = 0 then (1 : Int) else h) :=
        mul_nonneg (by omega) (by omega)
      have hv : int_value ((if w = 0 then (1 : Int) else w) * (if h = 0 then (1 : Int) else h)) =
          .ok ((if w = 0 then (1 : Int) else w) * (if h = 0 then (1 : Int) else h)) := by
        unfold int_value
        rw [if_pos]
        unfold INT_MIN
        exact ⟨by omega, le_trans hfit hcap⟩
      rw [hv]
      simp only
      have hnat : (((if w = 0 then (1 : Int) else w).toNat *
          (if h = 0 then (1 : Int) else h).toNat : Nat) : Int) =
          (if w = 0 then (1 : Int) else w) * (if h = 0 then (1 : Int) else h) := by
        rw [Nat.cast_mul, Int.toNat_of_nonneg (by omega), Int.toNat_of_nonneg (by omega)]
      rw [hnat, if_neg (not_lt.mpr hfit)]
      obtain ⟨h1, h2, h3⟩ := clamp_shift_le w hw
      obtain ⟨k1, k2, k3⟩ := clamp_shift_le h hh
      exact ih _ _ _ _ _ h1 k1
        (le_trans (mul_le_mul h3 k3 (by omega) (by omega)) hfit)
    · rw [if_neg hp, if_neg hp]

/-- For a palettised file whose width and height are at least 1, whose product
fits into an `int`, the switch stays within defined behaviour and makes the GL
calls that `LoadBLP_switch` gives. -/
theorem LoadBLP_switch_checked_palettised (f : MPQFile) (ind : Indeterminate) (gl : List GLCall)
    (hc : f.header.attr_0_compression = 1) (hx : 1 ≤ f.header.resx) (hy : 1 ≤ f.header.resy)
    (hfit : f.header.resx * f.header.resy ≤ INT_MAX) (hsize : 0 ≤ f.header.sizes 0) :
    LoadBLP_switch_checked f ind gl = .ok (LoadBLP_switch f ind gl) := by
  have hpos : 0 ≤ f.header.resx * f.header.resy := mul_nonneg (by omega) (by omega)
  have hv : int_value (f.header.resx * f.header.resy) = .ok (f.header.resx * f.header.resy) := by
    unfold int_value
    rw [if_pos]
    unfold INT_MIN
    exact ⟨by omega, hfit⟩
  unfold LoadBLP_switch_checked LoadBLP_switch
  rw [if_pos hc, if_pos hc, if_neg (not_lt.mpr hsize), hv]
  simp only
  rw [if_neg (not_lt.mpr hpos)]
  apply palettised_levels_checked_defined f ind _ _ hfit _ _ _ _ _ _ (by omega) (by omega)
  rw [if_neg (by omega), if_neg (by omega)]

end Noggit

namespace Noggit

/-! ## Rounding to binary32 -/

theorem round_even_bounds (t : ℚ) : ⌊t⌋ ≤ round_even t ∧ round_even t ≤ ⌊t⌋ + 1 := by
  unfold round_even
  split_ifs <;> omega

theorem round_even_mono {t u : ℚ} (h : t ≤ u) : round_even t ≤ round_even u := by
  have hf : ⌊t⌋ ≤ ⌊u⌋ := Int.floor_mono h
  rcases lt_or_eq_of_le hf with hlt | heq
  · have := (round_even_bounds t).2
    have := (round_even_bounds u).1
    omega
  · unfold round_even
    rw [← heq]
    split_ifs <;> first | omega | (exfalso; linarith)

theorem round_even_intCast (n : Int) : round_even (n : ℚ) = n := by
  simp [round_even]

theorem abs_round_even_sub (t : ℚ) : |(round_even t : ℚ) - t| ≤ 1 / 2 := by
  have h1 := Int.floor_le t
  have h2 := Int.lt_floor_add_one t
  unfold round_even
  rw [abs_le]
  split_ifs <;> push_cast <;> constructor <;> linarith

theorem round_even_neg (t : ℚ) : round_even (-t) = -round_even t := by
  have h1 := Int.floor_le t
  have h2 := Int.lt_floor_add_one t
  by_cases hint : t = ⌊t⌋
  · rw [hint, ← Int.cast_neg, round_even_intCast, round_even_intCast]
  · have hlt : (⌊t⌋ : ℚ) < t := lt_of_le_of_ne h1 (Ne.symm hint)
    have hfl : ⌊-t⌋ = -⌊t⌋ - 1 := by
      rw [Int.floor_eq_iff]
      push_cast
      constructor <;> linarith
    unfold round_even
    rw [hfl]
    push_cast
    split_ifs <;> first | omega | (exfalso; linarith)

theorem round_even_nonneg {t : ℚ} (h : 0 ≤ t) : 0 ≤ round_even t := by
  have := round_even_mono h
  rwa [show (0 : ℚ) = ((0 : Int) : ℚ) by norm_num, round_even_intCast] at this

theorem ulp32_pos (x : ℚ) : 0 < ulp32 x := by
  unfold ulp32
  positivity

theorem binade_neg (x : ℚ) : binade (-x) = binade x := by
  unfold binade
  rw [abs_neg]

theorem ulp32_neg (x : ℚ) : ulp32 (-x) = ulp32 x := by
  unfold ulp32
  rw [binade_neg]

theorem round32_neg (x : ℚ) : round32 (-x) = -round32 x := by
  unfold round32
  rw [ulp32_neg, neg_div, round_even_neg]
  push_cast
  ring

theorem round32_zero : round32 0 = 0 := by
  unfold round32
  rw [zero_div, show (0 : ℚ) = ((0 : Int) : ℚ) by norm_num, round_even_intCast]
  simp

theorem round32_nonneg {x : ℚ} (h : 0 ≤ x) : 0 ≤ round32 x := by
  unfold round32
  have := round_even_nonneg (div_nonneg h (le_of_lt (ulp32_pos x)))
  exact mul_nonneg (by exact_mod_cast this) (le_of_lt (ulp32_pos x))

theorem round32_nonpos {x : ℚ} (h : x ≤ 0) : round32 x ≤ 0 := by
  have := round32_nonneg (neg_nonneg.mpr h)
  rw [round32_neg] at this
  linarith

theorem lt_two_zpow_binade (x : ℚ) : |x| < 2 ^ (binade x + 1) := by
  have h := Int.lt_zpow_succ_log_self (b := 2) (by norm_num) |x|
  have hle : Int.log 2 |x| + 1 ≤ binade x + 1 := by
    unfold binade
    omega
  have := zpow_le_zpow_right₀ (show (1 : ℚ) ≤ 2 by norm_num) hle
  push_cast at h
  exact lt_of_lt_of_le h this

theorem two_zpow_binade_le {x : ℚ} (hx : x ≠ 0) (h : -126 < binade x) : 2 ^ binade x ≤ |x| := by
  have hlog : binade x = Int.log 2 |x| := by
    unfold binade at h ⊢
    omega
  rw [hlog]
  have := Int.zpow_log_le_self (b := 2) (by norm_num) (abs_pos.mpr hx)
  push_cast at this
  exact this

theorem binade_mono {x y : ℚ} (hx : 0 < |x|) (h : |x| ≤ |y|) : binade x ≤ binade y := by
  unfold binade
  have := Int.log_mono_right (b := 2) hx h
  omega

/-- The binade of a number between two neighbouring powers of two. -/
theorem binade_eq {x : ℚ} (e : Int) (he : -126 ≤ e) (h1 : 2 ^ e ≤ |x|) (h2 : |x| < 2 ^ (e + 1)) :
    binade x = e := by
  have hpos : 0 < |x| := lt_of_lt_of_le (by positivity) h1
  have hle : e ≤ Int.log 2 |x| := by
    rw [← Int.zpow_le_iff_le_log (by norm_num) hpos]
    push_cast
    exact h1
  have hlt : Int.log 2 |x| < e + 1 := by
    rw [← Int.lt_zpow_iff_log_lt (by norm_num) hpos]
    push_cast
    exact h2
  unfold binade
  omega

theorem round32_le_two_zpow {x : ℚ} (hx : 0 ≤ x) : round32 x ≤ 2 ^ (binade x + 1) := by
  have hlt := lt_two_zpow_binade x
  rw [abs_of_nonneg hx] at hlt
  have hsplit : (2 : ℚ) ^ (binade x + 1) = ((2 ^ 24 : Int) : ℚ) * ulp32 x := by
    unfold ulp32
    rw [show binade x + 1 = 24 + (binade x - 23) by ring, zpow_add₀ (by norm_num)]
    norm_num
  have hdiv : x / ulp32 x ≤ ((2 ^ 24 : Int) : ℚ) := by
    rw [div_le_iff₀ (ulp32_pos x), ← hsplit]
    exact le_of_lt hlt
  have := round_even_mono hdiv
  rw [round_even_intCast] at this
  unfold round32
  rw [hsplit]
  exact mul_le_mul_of_nonneg_right (by exact_mod_cast this) (le_of_lt (ulp32_pos x))

theorem two_zpow_le_round32 {x : ℚ} (hx : 0 < x) (h : -126 < binade x) :
    2 ^ binade x ≤ round32 x := by
  have hle := two_zpow_binade_le (ne_of_gt hx) h
  rw [abs_of_pos hx] at hle
  have hsplit : (2 : ℚ) ^ binade x = ((2 ^ 23 : Int) : ℚ) * ulp32 x := by
    unfold ulp32
    rw [show binade x = 23 + (binade x - 23) by ring, zpow_add₀ (by norm_num)]
    norm_num
  have hdiv : ((2 ^ 23 : Int) : ℚ) ≤ x / ulp32 x := by
    rw [le_div_iff₀ (ulp32_pos x), ← hsplit]
    exact hle
  have := round_even_mono hdiv
  rw [round_even_intCast] at this
  unfold round32
  rw [hsplit]
  exact mul_le_mul_of_nonneg_right (by exact_mod_cast this) (le_of_lt (ulp32_pos x))

theorem round32_mono_pos {x y : ℚ} (hx : 0 < x) (h : x ≤ y) : round32 x ≤ round32 y := by
  have hy : 0 < y := lt_of_lt_of_le hx h
  have hb : binade x ≤ binade y :=
    binade_mono (abs_pos.mpr (ne_of_gt hx)) (by rwa [abs_of_pos hx, abs_of_pos hy])
  rcases lt_or_eq_of_le hb with hlt | heq
  · have h1 := round32_le_two_zpow (le_of_lt hx)
    have h2 := two_zpow_le_round32 hy (by unfold binade at hlt ⊢; omega)
    have h3 : (2 : ℚ) ^ (binade x + 1) ≤ 2 ^ binade y :=
      zpow_le_zpow_right₀ (by norm_num) (by omega)
    linarith
  · have hu : ulp32 x = ulp32 y := by unfold ulp32; rw [heq]
    unfold round32
    rw [hu]
    have := round_even_mono (div_le_div_of_nonneg_right h (le_of_lt (ulp32_pos y)))
    exact mul_le_mul_of_nonneg_right (by exact_mod_cast this) (le_of_lt (ulp32_pos y))

/-- Rounding to binary32 keeps the order. -/
theorem round32_mono {x y : ℚ} (h : x ≤ y) : round32 x ≤ round32 y := by
  rcases lt_trichotomy 0 x with hx | hx | hx
  · exact round32_mono_pos hx h
  · rw [← hx] at h ⊢
    rw [round32_zero]
    exact round32_nonneg h
  · rcases le_or_lt 0 y with hy | hy
    · exact le_trans (round32_nonpos (le_of_lt hx)) (round32_nonneg hy)
    · have := round32_mono_pos (neg_pos.mpr hy) (neg_le_neg h)
      rw [round32_neg, round32_neg] at this
      linarith

/-- A number with a 24-bit significand and an exponent of at least -126 is its own
rounding. -/
theorem round32_representable (m e : Int) (hm : 2 ^ 23 ≤ |m|) (hm' : |m| < 2 ^ 24)
    (he : -126 ≤ e) : round32 ((m : ℚ) * 2 ^ (e - 23)) = (m : ℚ) * 2 ^ (e - 23) := by
  have hq : (0 : ℚ) < 2 ^ (e - 23) := by positivity
  have habs : |(m : ℚ) * 2 ^ (e - 23)| = (|m| : ℚ) * 2 ^ (e - 23) := by
    rw [abs_mul, abs_of_pos hq]
  have hb : binade ((m : ℚ) * 2 ^ (e - 23)) = e := by
    apply binade_eq e he
    · rw [habs, show e = 23 + (e - 23) by ring, zpow_add₀ (by norm_num),
        show 23 + (e - 23) - 23 = e - 23 by ring]
      apply mul_le_mul_of_nonneg_right _ (le_of_lt hq)
      have : ((2 ^ 23 : Int) : ℚ) ≤ ((|m| : Int) : ℚ) := by exact_mod_cast hm
      push_cast at this
      refine le_trans (le_of_eq ?_) this
      norm_num
    · rw [habs, show e + 1 = 24 + (e - 23) by ring, zpow_add₀ (by norm_num)]
      apply mul_lt_mul_of_pos_right _ hq
      have : ((|m| : Int) : ℚ) < ((2 ^ 24 : Int) : ℚ) := by exact_mod_cast hm'
      push_cast at this
      refine lt_of_lt_of_le this (le_of_eq ?_)
      norm_num
  unfold round32 ulp32
  rw [hb, mul_div_assoc, div_self (ne_of_gt hq), mul_one, round_even_intCast]

/-- The rounding error is at most half the distance of neighbouring values. -/
theorem abs_round32_sub (x : ℚ) : |round32 x - x| ≤ ulp32 x / 2 := by
  have h := abs_round_even_sub (x / ulp32 x)
  have hu := ulp32_pos x
  have : round32 x - x = ((round_even (x / ulp32 x) : ℚ) - x / ulp32 x) * ulp32 x := by
    unfold round32
    field_simp
  rw [this, abs_mul, abs_of_pos hu]
  calc |(round_even (x / ulp32 x) : ℚ) - x / ulp32 x| * ulp32 x
      ≤ 1 / 2 * ulp32 x := mul_le_mul_of_nonneg_right h (le_of_lt hu)
    _ = ulp32 x / 2 := by ring

/-- For `|x| < 2 ^ k` the rounding error is at most `2 ^ (k - 25)`. -/
theorem abs_round32_sub_le (x : ℚ) (k : Int) (hk : -125 ≤ k) (hx : |x| < 2 ^ k) :
    |round32 x - x| ≤ 2 ^ (k - 25) := by
  by_cases h0 : x = 0
  · rw [h0, round32_zero, sub_zero, abs_zero]
    positivity
  · have hlog : Int.log 2 |x| < k := by
      rw [← Int.lt_zpow_iff_log_lt (by norm_num) (abs_pos.mpr h0)]
      push_cast
      exact hx
    have hb : binade x - 23 ≤ k - 24 := by
      unfold binade
      omega
    have hu : ulp32 x ≤ 2 ^ (k - 24) := zpow_le_zpow_right₀ (by norm_num) hb
    have h2 : (2 : ℚ) ^ (k - 24) = 2 * 2 ^ (k - 25) := by
      rw [show k - 24 = 1 + (k - 25) by ring, zpow_add₀ (by norm_num)]
      norm_num
    have := abs_round32_sub x
    linarith

end Noggit

namespace Noggit

/-! ## The box of a script selection -/

theorem round32_eq_of_binade {x : ℚ} (e : Int) (he : -126 ≤ e) (h1 : 2 ^ e ≤ |x|)
    (h2 : |x| < 2 ^ (e + 1)) :
    round32 x = round_even (x / 2 ^ (e - 23)) * 2 ^ (e - 23) := by
  unfold round32 ulp32
  rw [binade_eq e he h1 h2]

theorem ofRat_mono {x y : ℚ} (h : x ≤ y) : (float32.ofRat x).le (float32.ofRat y) = true := by
  have hr := round32_mono h
  unfold float32.ofRat
  by_cases hx : (2 : ℚ) ^ 128 ≤ |round32 x|
  · rw [if_pos hx]
    by_cases hneg : x < 0
    · by_cases hy : (2 : ℚ) ^ 128 ≤ |round32 y|
      · rw [if_pos hy]
        simp [float32.le, hneg]
      · rw [if_neg hy]
        simp [float32.le, hneg]
    · have hx0 : 0 ≤ round32 x := round32_nonneg (not_lt.mp hneg)
      rw [abs_of_nonneg hx0] at hx
      have hy0 : 0 ≤ round32 y := le_trans hx0 hr
      have hy : (2 : ℚ) ^ 128 ≤ |round32 y| := by
        rw [abs_of_nonneg hy0]
        exact le_trans hx hr
      have hyneg : ¬ y < 0 := fun hlt => hneg (lt_of_le_of_lt h hlt)
      rw [if_pos hy]
      simp [float32.le, hneg, hyneg]
  · rw [if_neg hx]
    by_cases hy : (2 : ℚ) ^ 128 ≤ |round32 y|
    · rw [if_pos hy]
      by_cases hneg : y < 0
      · exfalso
        have hy0 : round32 y ≤ 0 := round32_nonpos (le_of_lt hneg)
        rw [abs_of_nonpos hy0] at hy
        have hx0 : round32 x ≤ 0 := le_trans hr hy0
        apply hx
        rw [abs_of_nonpos hx0]
        linarith
      · simp [float32.le, hneg]
    · rw [if_neg hy]
      simp [float32.le, hr]

theorem ofRat_ne_nan (x : ℚ) : float32.ofRat x ≠ float32.nan := by
  unfold float32.ofRat
  split_ifs <;> simp

/-- For two floats that are not NaN, `a ≤ b` without `a < b` leaves `a = b`. -/
theorem eq_of_le_of_not_lt (a b : float32) (hle : a.le b = true) (hlt : a.lt b = false) :
    a = b := by
  cases a with
  | nan => simp [float32.le] at hle
  | inf s =>
    cases b with
    | nan => simp [float32.le] at hle
    | inf t =>
      cases s <;> cases t <;> simp_all [float32.le, float32.lt]
    | fin b => simp_all [float32.le, float32.lt]
  | fin a =>
    cases b with
    | nan => simp [float32.le] at hle
    | inf t => simp_all [float32.le, float32.lt]
    | fin b =>
      simp only [float32.le, float32.lt, decide_eq_true_eq, decide_eq_false_iff_not] at hle hlt
      rw [le_antisymm hle (not_lt.mp hlt)]

theorem not_lt_of_le (a b : float32) (hle : a.le b = true) : b.lt a = false := by
  cases a with
  | nan => simp [float32.le] at hle
  | inf s =>
    cases b with
    | nan => simp [float32.le] at hle
    | inf t => cases s <;> cases t <;> simp_all [float32.le, float32.lt]
    | fin b => simp_all [float32.le, float32.lt]
  | fin a =>
    cases b with
    | nan => simp [float32.le] at hle
    | inf t => simp_all [float32.le, float32.lt]
    | fin b =>
      simp only [float32.le, float32.lt, decide_eq_true_eq, decide_eq_false_iff_not] at hle ⊢
      exact not_lt.mpr hle

/-- The smaller and the larger of two rounded results, in either order of the
arguments. -/
theorem std_min_max_ofRat {x y : ℚ} (h : x ≤ y) :
    std_min (float32.ofRat x) (float32.ofRat y) = float32.ofRat x ∧
    std_min (float32.ofRat y) (float32.ofRat x) = float32.ofRat x ∧
    std_max (float32.ofRat x) (float32.ofRat y) = float32.ofRat y ∧
    std_max (float32.ofRat y) (float32.ofRat x) = float32.ofRat y := by
  have hle := ofRat_mono h
  have hnlt := not_lt_of_le _ _ hle
  refine ⟨?_, ?_, ?_, ?_⟩
  · unfold std_min
    rw [hnlt]
    simp
  · unfold std_min
    by_cases hlt : (float32.ofRat x).lt (float32.ofRat y) = true
    · rw [if_pos hlt]
    · rw [if_neg hlt]
      exact (eq_of_le_of_not_lt _ _ hle (by simpa using hlt)).symm
  · unfold std_max
    by_cases hlt : (float32.ofRat x).lt (float32.ofRat y) = true
    · rw [if_pos hlt]
    · rw [if_neg hlt]
      exact eq_of_le_of_not_lt _ _ hle (by simpa using hlt)
  · unfold std_max
    rw [hnlt]
    simp

theorem std_min_fin (a b : ℚ) : std_min (.fin a) (.fin b) = .fin (min a b) := by
  unfold std_min float32.lt
  by_cases h : b < a
  · simp [h, min_eq_right (le_of_lt h)]
  · simp [h, min_eq_left (not_lt.mp h)]

theorem std_max_fin (a b : ℚ) : std_max (.fin a) (.fin b) = .fin (max a b) := by
  unfold std_max float32.lt
  by_cases h : a < b
  · simp [h, max_eq_right (le_of_lt h)]
  · simp [h, max_eq_left (not_lt.mp h)]

theorem zero_le_ofRat {x : ℚ} (h : 0 ≤ x) : (float32.fin 0).le (float32.ofRat x) = true := by
  have hr := round32_nonneg h
  unfold float32.ofRat
  split_ifs
  · simp [float32.le, not_lt.mpr h]
  · simp [float32.le, hr]

/-- The integer within less than a half of `t` is what `t` is rounded to. -/
theorem round_even_eq (t : ℚ) (n : Int) (h1 : (n : ℚ) - 1 / 2 < t) (h2 : t < n + 1 / 2) :
    round_even t = n := by
  have h := abs_round_even_sub t
  rw [abs_le] at h
  have hlt : ((round_even t - n : Int) : ℚ) < 1 := by push_cast; linarith
  have hgt : ((-1 : Int) : ℚ) < ((round_even t - n : Int) : ℚ) := by push_cast; linarith
  have hlt' : round_even t - n < 1 := by exact_mod_cast hlt
  have hgt' : -1 < round_even t - n := by exact_mod_cast hgt
  omega

/-- The rounding of a number between two neighbouring powers of two, from the
integer nearest to its quotient by the spacing. -/
theorem round32_eval {x : ℚ} (e n : Int) (he : -126 ≤ e) (h1 : 2 ^ e ≤ |x|)
    (h2 : |x| < 2 ^ (e + 1)) (hn1 : (n : ℚ) - 1 / 2 < x / 2 ^ (e - 23))
    (hn2 : x / 2 ^ (e - 23) < n + 1 / 2) : round32 x = n * 2 ^ (e - 23) := by
  rw [round32_eq_of_binade e he h1 h2, round_even_eq _ n hn1 hn2]

theorem round32_99999999 : round32 99999999 = 100000000 := by
  rw [round32_eval 26 12500000 (by norm_num) (by norm_num) (by norm_num) (by norm_num)
    (by norm_num)]
  norm_num

theorem round32_50000000 : round32 50000000 = 50000000 := by
  rw [round32_eval 25 12500000 (by norm_num) (by norm_num) (by norm_num) (by norm_num)
    (by norm_num)]
  norm_num

theorem round32_50000001 : round32 50000001 = 50000000 := by
  rw [round32_eval 25 12500000 (by norm_num) (by norm_num) (by norm_num) (by norm_num)
    (by norm_num)]
  norm_num

theorem ofRat_zero : float32.ofRat 0 = float32.fin 0 := by
  unfold float32.ofRat
  rw [round32_zero]
  norm_num

theorem ofRat_99999999 : float32.ofRat 99999999 = float32.fin 100000000 := by
  unfold float32.ofRat
  rw [round32_99999999]
  norm_num

theorem ofRat_50000000 : float32.ofRat 50000000 = float32.fin 50000000 := by
  unfold float32.ofRat
  rw [round32_50000000]
  norm_num

theorem ofRat_50000001 : float32.ofRat 50000001 = float32.fin 50000000 := by
  unfold float32.ofRat
  rw [round32_50000001]
  norm_num

/-- C29, counterexample: with a NaN coordinate `select_between` stores NaN as
`_min.x` and `_max.x`, for which `_min ≤ _max` is false, and stores another box
when the two points are swapped; for two points with the coordinate `+∞` it
stores the size NaN, for which `_size ≥ 0` is false; and for the coordinates
`10^8` and `1` it stores the size `10^8` and the centre `5 * 10^7`, the rounded
values, where the difference is `99999999` and `_min + _size / 2` is
`50000001`. -/
theorem select_between_nan_inf_and_rounding :
    (select_between freshSelection ⟨.nan, .fin 0, .fin 0⟩ ⟨.fin 0, .fin 0, .fin 0⟩)._min.x
      = .nan ∧
    (select_between freshSelection ⟨.nan, .fin 0, .fin 0⟩ ⟨.fin 0, .fin 0, .fin 0⟩)._max.x
      = .nan ∧
    float32.le
      (select_between freshSelection ⟨.nan, .fin 0, .fin 0⟩ ⟨.fin 0, .fin 0, .fin 0⟩)._min.x
      (select_between freshSelection ⟨.nan, .fin 0, .fin 0⟩ ⟨.fin 0, .fin 0, .fin 0⟩)._max.x
      = false ∧
    (select_between freshSelection ⟨.fin 0, .fin 0, .fin 0⟩ ⟨.nan, .fin 0, .fin 0⟩)._min.x
      = .fin 0 ∧
    select_between freshSelection ⟨.fin 0, .fin 0, .fin 0⟩ ⟨.nan, .fin 0, .fin 0⟩ ≠
      select_between freshSelection ⟨.nan, .fin 0, .fin 0⟩ ⟨.fin 0, .fin 0, .fin 0⟩ ∧
    (select_between freshSelection ⟨.inf false, .fin 0, .fin 0⟩
      ⟨.inf false, .fin 0, .fin 0⟩)._size.x = .nan ∧
    float32.le (.fin 0) (select_between freshSelection ⟨.inf false, .fin 0, .fin 0⟩
      ⟨.inf false, .fin 0, .fin 0⟩)._size.x = false ∧
    (select_between freshSelection ⟨.fin 100000000, .fin 0, .fin 0⟩
      ⟨.fin 1, .fin 0, .fin 0⟩)._min.x = .fin 1 ∧
    (select_between freshSelection ⟨.fin 100000000, .fin 0, .fin 0⟩
      ⟨.fin 1, .fin 0, .fin 0⟩)._max.x = .fin 100000000 ∧
    (select_between freshSelection ⟨.fin 100000000, .fin 0, .fin 0⟩
      ⟨.fin 1, .fin 0, .fin 0⟩)._size.x = .fin 100000000 ∧
    (select_between freshSelection ⟨.fin 100000000, .fin 0, .fin 0⟩
      ⟨.fin 1, .fin 0, .fin 0⟩)._center.x = .fin 50000000 := by
  have hsize : (float32.fin 100000000).sub (float32.fin 1) = float32.fin 100000000 := by
    show float32.ofRat (100000000 + -1) = _
    rw [show (100000000 : ℚ) + -1 = 99999999 by norm_num, ofRat_99999999]
  have hhalf : (float32.fin 100000000).div (float32.fin 2) = float32.fin 50000000 := by
    simp only [float32.div]
    rw [if_neg (by norm_num), show (100000000 : ℚ) / 2 = 50000000 by norm_num, ofRat_50000000]
  have hcenter : (float32.fin 1).add (float32.fin 50000000) = float32.fin 50000000 := by
    show float32.ofRat (1 + 50000000) = _
    rw [show (1 : ℚ) + 50000000 = 50000001 by norm_num, ofRat_50000001]
  have hmin : std_min (float32.fin 100000000) (float32.fin 1) = float32.fin 1 := by
    rw [std_min_fin]
    norm_num
  have hmax : std_max (float32.fin 100000000) (float32.fin 1) = float32.fin 100000000 := by
    rw [std_max_fin]
    norm_num
  refine ⟨rfl, rfl, rfl, rfl, ?_, rfl, rfl, hmin, hmax, ?_, ?_⟩
  · intro h
    have := congrArg (fun s => s._min.x) h
    exact absurd this (by decide)
  · show (std_max (float32.fin 100000000) (float32.fin 1)).sub
      (std_min (float32.fin 100000000) (float32.fin 1)) = _
    rw [hmin, hmax, hsize]
  · show (std_min (float32.fin 100000000) (float32.fin 1)).add
      (((std_max (float32.fin 100000000) (float32.fin 1)).sub
        (std_min (float32.fin 100000000) (float32.fin 1))).div (float32.fin 2)) = _
    rw [hmin, hmax, hsize, hhalf, hcenter]

/-- C29, amended: for points with finite coordinates `select_between` stores the
componentwise smaller and larger coordinates as `_min` and `_max`, so
`_min ≤ _max`; `_size` is the float difference `_max - _min`, which is not
negative, and `_center` is the float value of `_min + _size / 2`; swapping the
two points gives the same selection.  For a finite origin and finite radii
`select_origin` stores the box from `(o.x - |xr|, 0, o.z - |zr|)` to
`(o.x + |xr|, 0, o.z + |zr|)`, the coordinates being the float differences and
sums, and its extent in `y` is 0. -/
theorem select_between_box_of_finite_points (sel : script_selection) (p1 p2 o : vector_3d)
    (xr zr : ℚ) :
    ((select_between sel (finite_point p1) (finite_point p2))._min =
        finite_point ⟨min p1.x p2.x, min p1.y p2.y, min p1.z p2.z⟩ ∧
      (select_between sel (finite_point p1) (finite_point p2))._max =
        finite_point ⟨max p1.x p2.x, max p1.y p2.y, max p1.z p2.z⟩) ∧
    (float32.le (select_between sel (finite_point p1) (finite_point p2))._min.x
        (select_between sel (finite_point p1) (finite_point p2))._max.x = true ∧
      float32.le (select_between sel (finite_point p1) (finite_point p2))._min.y
        (select_between sel (finite_point p1) (finite_point p2))._max.y = true ∧
      float32.le (select_between sel (finite_point p1) (finite_point p2))._min.z
        (select_between sel (finite_point p1) (finite_point p2))._max.z = true) ∧
    (select_between sel (finite_point p1) (finite_point p2))._size =
      (select_between sel (finite_point p1) (finite_point p2))._max.sub
        (select_between sel (finite_point p1) (finite_point p2))._min ∧
    (float32.le (.fin 0) (select_between sel (finite_point p1) (finite_point p2))._size.x = true ∧
      float32.le (.fin 0) (select_between sel (finite_point p1) (finite_point p2))._size.y
        = true ∧
      float32.le (.fin 0) (select_between sel (finite_point p1) (finite_point p2))._size.z
        = true) ∧
    (select_between sel (finite_point p1) (finite_point p2))._center =
      (select_between sel (finite_point p1) (finite_point p2))._min.add
        ((select_between sel (finite_point p1) (finite_point p2))._size.div (.fin 2)) ∧
    select_between sel (finite_point p2) (finite_point p1) =
      select_between sel (finite_point p1) (finite_point p2) ∧
    (select_origin sel (finite_point o) (.fin xr) (.fin zr))._min =
      ⟨(float32.fin o.x).sub (float32.fin xr).abs, .fin 0,
        (float32.fin o.z).sub (float32.fin zr).abs⟩ ∧
    (select_origin sel (finite_point o) (.fin xr) (.fin zr))._max =
      ⟨(float32.fin o.x).add (float32.fin xr).abs, .fin 0,
        (float32.fin o.z).add (float32.fin zr).abs⟩ ∧
    (select_origin sel (finite_point o) (.fin xr) (.fin zr))._size.y = .fin 0 := by
  have hmin : (select_between sel (finite_point p1) (finite_point p2))._min =
      finite_point ⟨min p1.x p2.x, min p1.y p2.y, min p1.z p2.z⟩ := by
    simp only [select_between, finite_point, std_min_fin]
  have hmax : (select_between sel (finite_point p1) (finite_point p2))._max =
      finite_point ⟨max p1.x p2.x, max p1.y p2.y, max p1.z p2.z⟩ := by
    simp only [select_between, finite_point, std_max_fin]
  have hsize : (select_between sel (finite_point p1) (finite_point p2))._size =
      (select_between sel (finite_point p1) (finite_point p2))._max.sub
        (select_between sel (finite_point p1) (finite_point p2))._min := rfl
  have hdiff : ∀ a b : ℚ, float32.le (.fin 0)
      ((float32.fin (max a b)).sub (float32.fin (min a b))) = true := by
    intro a b
    show float32.le (.fin 0) (float32.ofRat (max a b + -min a b)) = true
    apply zero_le_ofRat
    have := min_le_max (a := a) (b := b)
    linarith
  have horigin : ∀ a r : ℚ,
      std_min ((float32.fin a).sub (.fin r)) ((float32.fin a).add (.fin r)) =
        (float32.fin a).sub (float32.fin r).abs ∧
      std_max ((float32.fin a).sub (.fin r)) ((float32.fin a).add (.fin r)) =
        (float32.fin a).add (float32.fin r).abs := by
    intro a r
    show std_min (float32.ofRat (a + -r)) (float32.ofRat (a + r)) = float32.ofRat (a + -|r|) ∧
      std_max (float32.ofRat (a + -r)) (float32.ofRat (a + r)) = float32.ofRat (a + |r|)
    rcases le_or_lt 0 r with hr | hr
    · have h := std_min_max_ofRat (show a + -r ≤ a + r by linarith)
      rw [abs_of_nonneg hr]
      exact ⟨h.1, h.2.2.1⟩
    · have h := std_min_max_ofRat (show a + r ≤ a + -r by linarith)
      rw [abs_of_neg hr, neg_neg]
      exact ⟨h.2.1, h.2.2.2⟩
  refine ⟨⟨hmin, hmax⟩, ⟨?_, ?_, ?_⟩, hsize, ⟨?_, ?_, ?_⟩, rfl, ?_, ?_, ?_, ?_⟩
  · rw [hmin, hmax]
    simp [finite_point, float32.le]
  · rw [hmin, hmax]
    simp [finite_point, float32.le]
  · rw [hmin, hmax]
    simp [finite_point, float32.le]
  · rw [hsize, hmin, hmax]
    exact hdiff _ _
  · rw [hsize, hmin, hmax]
    exact hdiff _ _
  · rw [hsize, hmin, hmax]
    exact hdiff _ _
  · simp only [select_between, finite_point, std_min_fin, std_max_fin, min_comm p2.x,
      min_comm p2.y, min_comm p2.z, max_comm p2.x, max_comm p2.y, max_comm p2.z]
  · simp only [select_origin, select_between, finite_point, (horigin _ _).1]
    simp [std_min_fin]
  · simp only [select_origin, select_between, finite_point, (horigin _ _).2]
    simp [std_max_fin]
  · show (std_max (float32.fin 0) (float32.fin 0)).sub (std_min (float32.fin 0) (float32.fin 0))
      = _
    rw [std_min_fin, std_max_fin, min_self, max_self]
    show float32.ofRat (0 + -0) = _
    rw [show (0 : ℚ) + -0 = 0 by norm_num, ofRat_zero]

end Noggit

namespace Noggit

/-! ## The floats of binary32 -/

theorem binade_of_lt {x : ℚ} (hx : x ≠ 0) (h : |x| < 2 ^ (-126 : ℤ)) : binade x = -126 := by
  have hpos : 0 < |x| := abs_pos.mpr hx
  have hlt : Int.log 2 |x| < -126 := by
    rw [← Int.lt_zpow_iff_log_lt (by norm_num) hpos]
    push_cast
    exact h
  unfold binade
  omega

theorem binade_ge (x : ℚ) : -126 ≤ binade x := by
  unfold binade
  omega

theorem round32_subnormal (n : Int) (hs : |n| < 2 ^ 23) :
    round32 ((n : ℚ) * 2 ^ (-126 - 23 : ℤ)) = (n : ℚ) * 2 ^ (-126 - 23 : ℤ) := by
  by_cases hn0 : n = 0
  · rw [hn0]
    simp [round32_zero]
  · have hne : ((n : ℚ) * 2 ^ (-126 - 23 : ℤ)) ≠ 0 := by
      apply mul_ne_zero
      · exact_mod_cast hn0
      · positivity
    have hsm : |(n : ℚ) * 2 ^ (-126 - 23 : ℤ)| < 2 ^ (-126 : ℤ) := by
      rw [abs_mul, abs_of_pos (show (0 : ℚ) < 2 ^ (-126 - 23 : ℤ) by positivity)]
      have h1 : |(n : ℚ)| < 2 ^ 23 := by
        have : ((|n| : Int) : ℚ) < ((2 ^ 23 : Int) : ℚ) := by
          exact_mod_cast hs
        push_cast at this
        exact this
      have h2 : (2 : ℚ) ^ (-126 : ℤ) = 2 ^ 23 * 2 ^ (-126 - 23 : ℤ) := by
        rw [show (-126 : ℤ) = 23 + (-126 - 23) by norm_num, zpow_add₀ (by norm_num)]
        norm_num
      rw [h2]
      exact mul_lt_mul_of_pos_right h1 (by positivity)
    have hbin := binade_of_lt hne hsm
    unfold round32 ulp32
    rw [hbin]
    have hq : (n : ℚ) * 2 ^ (-126 - 23 : ℤ) / 2 ^ (-126 - 23 : ℤ) = (n : ℚ) := by
      field_simp
    rw [hq, round_even_intCast]

theorem round32_idem (x : ℚ) : round32 (round32 x) = round32 x := by
  have hege : -126 ≤ binade x := binade_ge x
  have hu : 0 < ulp32 x := ulp32_pos x
  have hr : round32 x = (round_even (x / ulp32 x) : ℚ) * 2 ^ (binade x - 23) := rfl
  have hsplit : (2 : ℚ) ^ (binade x + 1) = ((2 ^ 24 : Int) : ℚ) * ulp32 x := by
    unfold ulp32
    rw [show binade x + 1 = 24 + (binade x - 23) by ring, zpow_add₀ (by norm_num)]
    norm_num
  have hsplit2 : (2 : ℚ) ^ (binade x) = ((2 ^ 23 : Int) : ℚ) * ulp32 x := by
    unfold ulp32
    rw [show binade x = 23 + (binade x - 23) by ring, zpow_add₀ (by norm_num)]
    norm_num
  have hlt := lt_two_zpow_binade x
  rw [abs_lt, hsplit] at hlt
  have hup : round_even (x / ulp32 x) ≤ 2 ^ 24 := by
    have : x / ulp32 x ≤ ((2 ^ 24 : Int) : ℚ) := by
      rw [div_le_iff₀ hu]
      exact le_of_lt hlt.2
    have := round_even_mono this
    rwa [round_even_intCast] at this
  have hlo : -(2 ^ 24) ≤ round_even (x / ulp32 x) := by
    have : ((-(2 ^ 24) : Int) : ℚ) ≤ x / ulp32 x := by
      rw [le_div_iff₀ hu]
      push_cast
      push_cast at hlt
      linarith [hlt.1]
    have := round_even_mono this
    rwa [round_even_intCast] at this
  have hnle : |round_even (x / ulp32 x)| ≤ 2 ^ 24 := abs_le.mpr ⟨hlo, hup⟩
  rcases lt_or_le |round_even (x / ulp32 x)| (2 ^ 23) with hs | hb
  · by_cases hn0 : round_even (x / ulp32 x) = 0
    · rw [hr, hn0]
      simp [round32_zero]
    · have he126 : binade x = -126 := by
        by_contra hne
        have hgt : -126 < binade x := by omega
        have hx0 : x ≠ 0 := by
          intro h0
          apply hn0
          rw [h0, zero_div]
          exact_mod_cast round_even_intCast 0
        have hle := two_zpow_binade_le hx0 hgt
        rw [hsplit2] at hle
        rw [abs_lt] at hs
        rcases le_abs.mp hle with hp | hp
        · have : ((2 ^ 23 : Int) : ℚ) ≤ x / ulp32 x := by
            rw [le_div_iff₀ hu]
            exact hp
          have := round_even_mono this
          rw [round_even_intCast] at this
          omega
        · have : x / ulp32 x ≤ ((-(2 ^ 23) : Int) : ℚ) := by
            rw [div_le_iff₀ hu]
            push_cast
            push_cast at hp
            linarith
          have := round_even_mono this
          rw [round_even_intCast] at this
          omega
      rw [hr, he126]
      exact round32_subnormal _ hs
  · rcases eq_or_lt_of_le hnle with heq | hlt2
    · have hcase : round_even (x / ulp32 x) = 2 ^ 24 ∨ round_even (x / ulp32 x) = -(2 ^ 24) := by
        rcases abs_eq (show (0 : Int) ≤ 2 ^ 24 by norm_num) |>.mp heq with h | h
        · left; exact h
        · right; exact h
      rcases hcase with h | h
      · rw [hr, h]
        have := round32_representable (2 ^ 23) (binade x + 1) (by norm_num) (by norm_num)
          (by omega)
        have e1 : (((2 ^ 23 : Int)) : ℚ) * 2 ^ (binade x + 1 - 23) = ((2 ^ 24 : Int) : ℚ) * 2 ^ (binade x - 23) := by
          rw [show binade x + 1 - 23 = 1 + (binade x - 23) by ring, zpow_add₀ (by norm_num)]
          push_cast
          ring
        rw [e1] at this
        exact this
      · rw [hr, h]
        have := round32_representable (-(2 ^ 23)) (binade x + 1) (by norm_num) (by norm_num)
          (by omega)
        have e1 : (((-(2 ^ 23) : Int)) : ℚ) * 2 ^ (binade x + 1 - 23) = ((-(2 ^ 24) : Int) : ℚ) * 2 ^ (binade x - 23) := by
          rw [show binade x + 1 - 23 = 1 + (binade x - 23) by ring, zpow_add₀ (by norm_num)]
          push_cast
          ring
        rw [e1] at this
        exact this
    · rw [hr]
      exact round32_representable _ _ hb hlt2 hege

theorem round32_two : round32 2 = 2 := by
  have h := round32_representable 8388608 1 (by norm_num) (by norm_num) (by norm_num)
  norm_num at h
  exact h

theorem round32_three : round32 3 = 3 := by
  have h := round32_representable 12582912 1 (by norm_num) (by norm_num) (by norm_num)
  norm_num at h
  exact h

theorem round_even_tie (n : Int) (h : n % 2 = 0) : round_even ((n : ℚ) + 1 / 2) = n := by
  have hfl : ⌊(n : ℚ) + 1 / 2⌋ = n := by
    rw [Int.floor_eq_iff]
    constructor <;> linarith
  unfold round_even
  rw [hfl]
  norm_num [h]

theorem round32_tie {x : ℚ} (e n : Int) (he : -126 ≤ e) (h1 : 2 ^ e ≤ |x|)
    (h2 : |x| < 2 ^ (e + 1)) (hx : x / 2 ^ (e - 23) = (n : ℚ) + 1 / 2) (hn : n % 2 = 0) :
    round32 x = n * 2 ^ (e - 23) := by
  rw [round32_eq_of_binade e he h1 h2, hx, round_even_tie n hn]

theorem binary32_round (x : ℚ) : binary32Unit.round x = round32 x := rfl

theorem round32_sample_6 : round32 (6 / 255) = 12632257 / 536870912 := by
  rw [round32_eval (-6) 12632257 (by norm_num) (by rw [abs_of_pos (by norm_num)]; norm_num)
    (by rw [abs_of_pos (by norm_num)]; norm_num) (by norm_num) (by norm_num)]
  norm_num

theorem round32_sample_63 : round32 (63 / 255) = 16579837 / 67108864 := by
  rw [round32_eval (-3) 16579837 (by norm_num) (by rw [abs_of_pos (by norm_num)]; norm_num)
    (by rw [abs_of_pos (by norm_num)]; norm_num) (by norm_num) (by norm_num)]
  norm_num

theorem round32_a1 : round32 (12632257 / 536870912) = 12632257 / 536870912 := by
  rw [← round32_sample_6, round32_idem]

theorem round32_a2 : round32 (16579837 / 67108864) = 16579837 / 67108864 := by
  rw [← round32_sample_63, round32_idem]

theorem round32_a12 : round32 (145270953 / 536870912) = 9079435 / 33554432 := by
  rw [round32_eval (-2) 9079435 (by norm_num) (by rw [abs_of_pos (by norm_num)]; norm_num)
    (by rw [abs_of_pos (by norm_num)]; norm_num) (by norm_num) (by norm_num)]
  norm_num

theorem round32_w0 : round32 (24474997 / 33554432) = 6118749 / 8388608 := by
  rw [round32_tie (-1) 12237498 (by norm_num) (by rw [abs_of_pos (by norm_num)]; norm_num)
    (by rw [abs_of_pos (by norm_num)]; norm_num) (by norm_num) (by decide)]
  norm_num

theorem round32_w0_fix : round32 (6118749 / 8388608) = 6118749 / 8388608 := by
  rw [← round32_w0, round32_idem]

theorem round32_w0_a1 : round32 (404232193 / 536870912) = 197379 / 262144 := by
  rw [round32_eval (-1) 12632256 (by norm_num) (by rw [abs_of_pos (by norm_num)]; norm_num)
    (by rw [abs_of_pos (by norm_num)]; norm_num) (by norm_num) (by norm_num)]
  norm_num

theorem round32_w0_a1_a2 : round32 (67108861 / 67108864) = 16777215 / 16777216 := by
  rw [round32_eval (-1) 16777215 (by norm_num) (by rw [abs_of_pos (by norm_num)]; norm_num)
    (by rw [abs_of_pos (by norm_num)]; norm_num) (by norm_num) (by norm_num)]
  norm_num

theorem base_weight_sampledAlpha : base_weight binary32Unit sampledAlpha = 6118749 / 8388608 := by
  simp only [base_weight, sampledAlpha, FloatUnit.add, FloatUnit.sub, binary32_round, zero_add,
    round32_a1]
  norm_num [round32_a12, round32_w0]

/-- C11, counterexample, in binary32.  For the alpha-map sample of the 8-bit
weights 0, 6 and 63 the weight of the base layer is 6118749 / 2^23, and the four
weights add up to 1 - 23 / 2^29, not to 1; four white layers blend to the
colour 1 - 2^-24, not to white. -/
theorem texture_blend_weights_rounded :
    sampledAlpha = ⟨binary32Unit.round 0, binary32Unit.round (6 / 255),
      binary32Unit.round (63 / 255)⟩ ∧
    base_weight binary32Unit sampledAlpha = 6118749 / 8388608 ∧
    base_weight binary32Unit sampledAlpha + sampledAlpha.x + sampledAlpha.y + sampledAlpha.z
      = 536870889 / 536870912 ∧
    base_weight binary32Unit sampledAlpha + sampledAlpha.x + sampledAlpha.y + sampledAlpha.z ≠ 1 ∧
    texture_blend binary32Unit 1 sampledAlpha ⟨1, 1, 1⟩ ⟨1, 1, 1⟩ ⟨1, 1, 1⟩ ⟨1, 1, 1⟩ =
      ⟨16777215 / 16777216, 16777215 / 16777216, 16777215 / 16777216, 1⟩ ∧
    texture_blend binary32Unit 1 sampledAlpha ⟨1, 1, 1⟩ ⟨1, 1, 1⟩ ⟨1, 1, 1⟩ ⟨1, 1, 1⟩ ≠
      ⟨1, 1, 1, 1⟩ := by
  have hsum : base_weight binary32Unit sampledAlpha + sampledAlpha.x + sampledAlpha.y
      + sampledAlpha.z = 536870889 / 536870912 := by
    rw [base_weight_sampledAlpha]
    norm_num [sampledAlpha]
  have hblend : texture_blend binary32Unit 1 sampledAlpha ⟨1, 1, 1⟩ ⟨1, 1, 1⟩ ⟨1, 1, 1⟩ ⟨1, 1, 1⟩ =
      ⟨16777215 / 16777216, 16777215 / 16777216, 16777215 / 16777216, 1⟩ := by
    simp only [texture_blend, one_ne_zero, if_false, base_weight_sampledAlpha]
    simp only [sampledAlpha, vec4.ofRgb, vec3.add, vec3.scale, FloatUnit.add, FloatUnit.mul,
      binary32_round, one_mul, mul_zero, round32_zero, add_zero, round32_w0_fix, round32_a1,
      round32_a2]
    norm_num [round32_w0_a1, round32_w0_a1_a2]
  refine ⟨?_, base_weight_sampledAlpha, hsum, ?_, hblend, ?_⟩
  · simp only [sampledAlpha, binary32_round, round32_zero, round32_sample_6, round32_sample_63]
  · rw [hsum]
    norm_num
  · rw [hblend]
    intro h
    have := congrArg vec4.x h
    norm_num at this

theorem base_weight_exact (alpha : vec3) :
    base_weight exactUnit alpha + alpha.x + alpha.y + alpha.z = 1 := by
  simp only [base_weight, FloatUnit.add, FloatUnit.sub, exactUnit, id]
  ring

theorem base_weight_binary32 (alpha : vec3) (hx0 : 0 ≤ alpha.x) (hx1 : alpha.x ≤ 1)
    (hy0 : 0 ≤ alpha.y) (hy1 : alpha.y ≤ 1) (hz0 : 0 ≤ alpha.z) (hz1 : alpha.z ≤ 1) :
    |base_weight binary32Unit alpha + alpha.x + alpha.y + alpha.z - 1| ≤ 3 / 2 ^ 23 := by
  simp only [base_weight, FloatUnit.add, FloatUnit.sub, binary32_round]
  have hk : (2 : ℚ) ^ (2 - 25 : ℤ) = 1 / 2 ^ 23 := by norm_num
  have hfour : (2 : ℚ) ^ (2 : ℤ) = 4 := by norm_num
  have e1 := abs_round32_sub_le (alpha.x + alpha.y) 2 (by norm_num)
    (by rw [hfour, abs_of_nonneg (by linarith)]; linarith)
  have l1 : 0 ≤ round32 (alpha.x + alpha.y) := round32_nonneg (by linarith)
  have u1 : round32 (alpha.x + alpha.y) ≤ 2 := by
    have := round32_mono (show alpha.x + alpha.y ≤ 2 by linarith)
    rwa [round32_two] at this
  have e2 := abs_round32_sub_le (round32 (alpha.x + alpha.y) + alpha.z) 2 (by norm_num)
    (by rw [hfour, abs_of_nonneg (by linarith)]; linarith)
  have l2 : 0 ≤ round32 (round32 (alpha.x + alpha.y) + alpha.z) := round32_nonneg (by linarith)
  have u2 : round32 (round32 (alpha.x + alpha.y) + alpha.z) ≤ 3 := by
    have := round32_mono (show round32 (alpha.x + alpha.y) + alpha.z ≤ 3 by linarith)
    rwa [round32_three] at this
  have e3 := abs_round32_sub_le (1 - round32 (round32 (alpha.x + alpha.y) + alpha.z)) 2
    (by norm_num) (by rw [hfour, abs_lt]; constructor <;> linarith)
  rw [hk] at e1 e2 e3
  rw [abs_le] at e1 e2 e3 ⊢
  constructor <;> linarith [e1.1, e1.2, e2.1, e2.2, e3.1, e3.2]

/-- C11, amended: in `texture_blend` with `layer_count` not 0 the colour is the sum
of the four layer colours with the weights `1 - (a0 + a1 + a2)`, `a0`, `a1`,
`a2`, each product and sum rounded by the float arithmetic, and the output is
opaque; in exact arithmetic the four weights add up to 1; in binary32, for an
alpha-map sample with components between 0 and 1, their sum differs from 1 by
at most 3 / 2^23; with `layer_count` 0 the result is opaque white. -/
theorem texture_blend_weights_sum_near_one (g : FloatUnit) (layer_count : Int)
    (alpha t0 t1 t2 t3 : vec3) :
    (layer_count ≠ 0 →
      texture_blend g layer_count alpha t0 t1 t2 t3 =
        vec4.ofRgb
          (vec3.add g
            (vec3.add g
              (vec3.add g (vec3.scale g t0 (base_weight g alpha)) (vec3.scale g t1 alpha.x))
              (vec3.scale g t2 alpha.y))
            (vec3.scale g t3 alpha.z)) 1) ∧
    base_weight g alpha = g.sub 1 (g.add (g.add alpha.x alpha.y) alpha.z) ∧
    base_weight exactUnit alpha + alpha.x + alpha.y + alpha.z = 1 ∧
    (0 ≤ alpha.x → alpha.x ≤ 1 → 0 ≤ alpha.y → alpha.y ≤ 1 → 0 ≤ alpha.z → alpha.z ≤ 1 →
      |base_weight binary32Unit alpha + alpha.x + alpha.y + alpha.z - 1| ≤ 3 / 2 ^ 23) ∧
    texture_blend g 0 alpha t0 t1 t2 t3 = ⟨1, 1, 1, 1⟩ := by
  refine ⟨?_, rfl, base_weight_exact alpha, base_weight_binary32 alpha, ?_⟩
  · intro h
    simp [texture_blend, h]
  · simp [texture_blend]

theorem texture_blend_weights_sum_near_one_witness :
    texture_blend binary32Unit 3 sampledAlpha ⟨1, 0, 0⟩ ⟨0, 1, 0⟩ ⟨0, 0, 1⟩ ⟨1, 1, 1⟩ =
        vec4.ofRgb
          (vec3.add binary32Unit
            (vec3.add binary32Unit
              (vec3.add binary32Unit
                (vec3.scale binary32Unit ⟨1, 0, 0⟩ (base_weight binary32Unit sampledAlpha))
                (vec3.scale binary32Unit ⟨0, 1, 0⟩ sampledAlpha.x))
              (vec3.scale binary32Unit ⟨0, 0, 1⟩ sampledAlpha.y))
            (vec3.scale binary32Unit ⟨1, 1, 1⟩ sampledAlpha.z)) 1 ∧
      |base_weight binary32Unit sampledAlpha + sampledAlpha.x + sampledAlpha.y + sampledAlpha.z
        - 1| ≤ 3 / 2 ^ 23 :=
  ⟨(texture_blend_weights_sum_near_one binary32Unit 3 sampledAlpha ⟨1, 0, 0⟩ ⟨0, 1, 0⟩ ⟨0, 0, 1⟩
      ⟨1, 1, 1⟩).1 (by decide),
    (texture_blend_weights_sum_near_one binary32Unit 3 sampledAlpha ⟨1, 0, 0⟩ ⟨0, 1, 0⟩ ⟨0, 0, 1⟩
      ⟨1, 1, 1⟩).2.2.2.1 (by norm_num [sampledAlpha]) (by norm_num [sampledAlpha])
      (by norm_num [sampledAlpha]) (by norm_num [sampledAlpha]) (by norm_num [sampledAlpha])
      (by norm_num [sampledAlpha])⟩

end Noggit
